import Mathlib

/-!
# WILC3000 SPI link layer (`wilc_spi.c`)

A shallow embedding of the command framer, the response parser, the
register and block operations, the initialisation and the interrupt
configuration of `drivers/net/wireless/atmel/wilc3000/wilc_spi.c`, followed
by theorems about them.

Conventions of the embedding.

* Machine integers are natural numbers; a cast to `uint8_t` is `% 256`.
* Results of type `int` (`N_OK`, `N_FAIL`, `N_RESET`) are integers.
* The build that is modelled is the default one: `USE_OLD_SPI_SW` is not
  defined (register and bulk operations go through `spi_cmd_complete`) and
  `BIG_ENDIAN` is not defined (the host is little-endian, so the byte view
  `(uint8_t *)&data` of a 32-bit word has the least significant byte first;
  in the `BIG_ENDIAN` build the `BYTE_SWAP` calls give the same byte view).
* The three transport callbacks of `struct wilc_spi` are functions over an
  explicit peer state; every call of a callback is appended to a log, so
  that the number and content of the bus exchanges can be stated.
-/

namespace WilcSpi

/-! ## Crc7 -/

/-- The table `crc7_syndrome_table[256]`. -/
def crc7_syndrome_table : List Nat := [
  0x00, 0x09, 0x12, 0x1b, 0x24, 0x2d, 0x36, 0x3f,
  0x48, 0x41, 0x5a, 0x53, 0x6c, 0x65, 0x7e, 0x77,
  0x19, 0x10, 0x0b, 0x02, 0x3d, 0x34, 0x2f, 0x26,
  0x51, 0x58, 0x43, 0x4a, 0x75, 0x7c, 0x67, 0x6e,
  0x32, 0x3b, 0x20, 0x29, 0x16, 0x1f, 0x04, 0x0d,
  0x7a, 0x73, 0x68, 0x61, 0x5e, 0x57, 0x4c, 0x45,
  0x2b, 0x22, 0x39, 0x30, 0x0f, 0x06, 0x1d, 0x14,
  0x63, 0x6a, 0x71, 0x78, 0x47, 0x4e, 0x55, 0x5c,
  0x64, 0x6d, 0x76, 0x7f, 0x40, 0x49, 0x52, 0x5b,
  0x2c, 0x25, 0x3e, 0x37, 0x08, 0x01, 0x1a, 0x13,
  0x7d, 0x74, 0x6f, 0x66, 0x59, 0x50, 0x4b, 0x42,
  0x35, 0x3c, 0x27, 0x2e, 0x11, 0x18, 0x03, 0x0a,
  0x56, 0x5f, 0x44, 0x4d, 0x72, 0x7b, 0x60, 0x69,
  0x1e, 0x17, 0x0c, 0x05, 0x3a, 0x33, 0x28, 0x21,
  0x4f, 0x46, 0x5d, 0x54, 0x6b, 0x62, 0x79, 0x70,
  0x07, 0x0e, 0x15, 0x1c, 0x23, 0x2a, 0x31, 0x38,
  0x41, 0x48, 0x53, 0x5a, 0x65, 0x6c, 0x77, 0x7e,
  0x09, 0x00, 0x1b, 0x12, 0x2d, 0x24, 0x3f, 0x36,
  0x58, 0x51, 0x4a, 0x43, 0x7c, 0x75, 0x6e, 0x67,
  0x10, 0x19, 0x02, 0x0b, 0x34, 0x3d, 0x26, 0x2f,
  0x73, 0x7a, 0x61, 0x68, 0x57, 0x5e, 0x45, 0x4c,
  0x3b, 0x32, 0x29, 0x20, 0x1f, 0x16, 0x0d, 0x04,
  0x6a, 0x63, 0x78, 0x71, 0x4e, 0x47, 0x5c, 0x55,
  0x22, 0x2b, 0x30, 0x39, 0x06, 0x0f, 0x14, 0x1d,
  0x25, 0x2c, 0x37, 0x3e, 0x01, 0x08, 0x13, 0x1a,
  0x6d, 0x64, 0x7f, 0x76, 0x49, 0x40, 0x5b, 0x52,
  0x3c, 0x35, 0x2e, 0x27, 0x18, 0x11, 0x0a, 0x03,
  0x74, 0x7d, 0x66, 0x6f, 0x50, 0x59, 0x42, 0x4b,
  0x17, 0x1e, 0x05, 0x0c, 0x33, 0x3a, 0x21, 0x28,
  0x5f, 0x56, 0x4d, 0x44, 0x7b, 0x72, 0x69, 0x60,
  0x0e, 0x07, 0x1c, 0x15, 0x2a, 0x23, 0x38, 0x31,
  0x46, 0x4f, 0x54, 0x5d, 0x62, 0x6b, 0x70, 0x79]

/-- The function `crc7_byte`: `crc7_syndrome_table[(crc << 1) ^ data]`.
The shift is done in `int`, so the index is `(crc * 2) xor data`; it is
below 256 whenever `crc <= 0x7f` and `data` is a byte (lemma
`crc7_byte_index_lt`), which is the only way the driver calls it. An index
outside the table reads as 0 here. -/
def crc7_byte (crc data : Nat) : Nat :=
  crc7_syndrome_table.getD ((crc <<< 1) ^^^ data) 0

/-- The function `crc7`: `while (len--) crc = crc7_byte(crc, *buffer++)`,
with the `len` bytes at `buffer` given as a list. -/
def crc7 (crc : Nat) : List Nat → Nat
  | [] => crc
  | d :: rest => crc7 (crc7_byte crc d) rest

/-! ## Constants -/

def CMD_DMA_WRITE : Nat := 0xc1
def CMD_DMA_READ : Nat := 0xc2
def CMD_INTERNAL_WRITE : Nat := 0xc3
def CMD_INTERNAL_READ : Nat := 0xc4
def CMD_TERMINATE : Nat := 0xc5
def CMD_REPEAT : Nat := 0xc6
def CMD_DMA_EXT_WRITE : Nat := 0xc7
def CMD_DMA_EXT_READ : Nat := 0xc8
def CMD_SINGLE_WRITE : Nat := 0xc9
def CMD_SINGLE_READ : Nat := 0xca
def CMD_RESET : Nat := 0xcf

def N_OK : Int := 1
def N_FAIL : Int := 0
def N_RESET : Int := -1
def N_RETRY : Int := -2

def SPI_RESP_RETRY_COUNT : Nat := 10
def SPI_RETRY_COUNT : Nat := 10
def DATA_PKT_SZ : Nat := 8 * 1024

def NUM_SKIP_BYTES : Nat := 1
def NUM_RSP_BYTES : Nat := 2
def NUM_DATA_HDR_BYTES : Nat := 1
def NUM_DATA_BYTES : Nat := 4
def NUM_CRC_BYTES : Nat := 2
def NUM_DUMMY_BYTES : Nat := 3

/-- The seven recognised opcodes that are not reads. -/
def non_read_opcodes : List Nat :=
  [CMD_SINGLE_WRITE, CMD_INTERNAL_WRITE, CMD_DMA_WRITE, CMD_DMA_EXT_WRITE, CMD_RESET,
   CMD_TERMINATE, CMD_REPEAT]

/-- The four read opcodes. -/
def read_opcodes : List Nat :=
  [CMD_INTERNAL_READ, CMD_SINGLE_READ, CMD_DMA_READ, CMD_DMA_EXT_READ]

/-- The eleven opcodes that the `switch (cmd)` of the framers recognises. -/
def opcodes : List Nat :=
  [CMD_DMA_WRITE, CMD_DMA_READ, CMD_INTERNAL_WRITE, CMD_INTERNAL_READ, CMD_TERMINATE,
   CMD_REPEAT, CMD_DMA_EXT_WRITE, CMD_DMA_EXT_READ, CMD_SINGLE_WRITE, CMD_SINGLE_READ,
   CMD_RESET]

/-- The cast `(uint8_t)x`. -/
def u8 (x : Nat) : Nat := x % 256

/-! ## Transport, session and log -/

/-- One call of a transport callback: `spi_tx(buf, len)` with the bytes
sent, `spi_rx(buf, len)` with the length asked for, the status and the bytes
delivered, `spi_trx(wb, rb, len)` with the bytes sent, the status and the
bytes captured. -/
inductive Event where
  | tx (bytes : List Nat) (ok : Bool)
  | rx (len : Nat) (ok : Bool) (bytes : List Nat)
  | trx (wb : List Nat) (ok : Bool) (rb : List Nat)
  deriving DecidableEq, Repr

/-- The session `struct wilc_spi` (`g_spi`): the three transport callbacks,
as functions of the peer state `σ`, and the negotiated fields. A callback
returns its status (the C `int`, of which only zero / nonzero is used, as a
`Bool`), the bytes it stored in the receive buffer, and the next peer
state. -/
structure wilc_spi (σ : Type) where
  spi_tx : σ → List Nat → Bool × σ
  spi_rx : σ → Nat → Bool × List Nat × σ
  spi_trx : σ → List Nat → Bool × List Nat × σ
  crc_off : Int
  nint : Int
  has_thrpt_enh : Int

/-- The world outside the driver: the state of the peer behind the
transport and the log of the callback calls made so far. -/
structure World (σ : Type) where
  peer : σ
  log : List Event

variable {σ : Type}

/-- Call `g_spi.spi_tx(buf, len)` with the `len` bytes `bytes`. -/
def call_tx (g : wilc_spi σ) (bytes : List Nat) (w : World σ) : Bool × World σ :=
  let r := g.spi_tx w.peer bytes
  (r.1, { peer := r.2, log := w.log ++ [Event.tx bytes r.1] })

/-- Call `g_spi.spi_rx(buf, len)`; the bytes stored at `buf` are returned. -/
def call_rx (g : wilc_spi σ) (len : Nat) (w : World σ) : Bool × List Nat × World σ :=
  let r := g.spi_rx w.peer len
  (r.1, r.2.1, { peer := r.2.2, log := w.log ++ [Event.rx len r.1 r.2.1] })

/-- Call `g_spi.spi_trx(wb, rb, len)` with the `len` bytes `wb`; the bytes
captured in `rb` are returned. -/
def call_trx (g : wilc_spi σ) (wb : List Nat) (w : World σ) : Bool × List Nat × World σ :=
  let r := g.spi_trx w.peer wb
  (r.1, r.2.1, { peer := r.2.2, log := w.log ++ [Event.trx wb r.1 r.2.1] })

/-! ## spi_cmd -/

/-- A scratch buffer (`uint8_t bc[9]`, `wb[32]`) before anything is
stored in it. The C buffers are uninitialised; every byte that is later
read or transmitted is stored first, so the initial content (here the
filler `0xaa`) is never observed. -/
def scratch (n : Nat) : List Nat := List.replicate n 0xaa

/-- The `switch (cmd)` of `spi_cmd`: the buffer `bc` and the length `len`
for a recognised opcode, `none` for the `default:` case
(`result = N_FAIL`). -/
def spi_cmd_switch (cmd addr data sz clockless : Nat) : Option (List Nat × Nat) :=
  let bc := (scratch 9).set 0 cmd
  if cmd = CMD_SINGLE_READ then
    let bc := bc.set 1 (u8 (addr >>> 16))
    let bc := bc.set 2 (u8 (addr >>> 8))
    let bc := bc.set 3 (u8 addr)
    some (bc, 5)
  else if cmd = CMD_INTERNAL_READ then
    let bc := bc.set 1 (u8 (addr >>> 8))
    let bc := if clockless ≠ 0 then bc.set 1 (u8 (bc.getD 1 0 ||| (1 <<< 7))) else bc
    let bc := bc.set 2 (u8 addr)
    let bc := bc.set 3 0x00
    some (bc, 5)
  else if cmd = CMD_TERMINATE then
    let bc := bc.set 1 0x00
    let bc := bc.set 2 0x00
    let bc := bc.set 3 0x00
    some (bc, 5)
  else if cmd = CMD_REPEAT then
    let bc := bc.set 1 0x00
    let bc := bc.set 2 0x00
    let bc := bc.set 3 0x00
    some (bc, 5)
  else if cmd = CMD_RESET then
    let bc := bc.set 1 0xff
    let bc := bc.set 2 0xff
    let bc := bc.set 3 0xff
    some (bc, 5)
  else if cmd = CMD_DMA_WRITE ∨ cmd = CMD_DMA_READ then
    let bc := bc.set 1 (u8 (addr >>> 16))
    let bc := bc.set 2 (u8 (addr >>> 8))
    let bc := bc.set 3 (u8 addr)
    let bc := bc.set 4 (u8 (sz >>> 8))
    let bc := bc.set 5 (u8 sz)
    some (bc, 7)
  else if cmd = CMD_DMA_EXT_WRITE ∨ cmd = CMD_DMA_EXT_READ then
    let bc := bc.set 1 (u8 (addr >>> 16))
    let bc := bc.set 2 (u8 (addr >>> 8))
    let bc := bc.set 3 (u8 addr)
    let bc := bc.set 4 (u8 (sz >>> 16))
    let bc := bc.set 5 (u8 (sz >>> 8))
    let bc := bc.set 6 (u8 sz)
    some (bc, 8)
  else if cmd = CMD_INTERNAL_WRITE then
    let bc := bc.set 1 (u8 (addr >>> 8))
    let bc := if clockless ≠ 0 then bc.set 1 (u8 (bc.getD 1 0 ||| (1 <<< 7))) else bc
    let bc := bc.set 2 (u8 addr)
    let bc := bc.set 3 (u8 (data >>> 24))
    let bc := bc.set 4 (u8 (data >>> 16))
    let bc := bc.set 5 (u8 (data >>> 8))
    let bc := bc.set 6 (u8 data)
    some (bc, 8)
  else if cmd = CMD_SINGLE_WRITE then
    let bc := bc.set 1 (u8 (addr >>> 16))
    let bc := bc.set 2 (u8 (addr >>> 8))
    let bc := bc.set 3 (u8 addr)
    let bc := bc.set 4 (u8 (data >>> 24))
    let bc := bc.set 5 (u8 (data >>> 16))
    let bc := bc.set 6 (u8 (data >>> 8))
    let bc := bc.set 7 (u8 data)
    some (bc, 9)
  else none

/-- The checksum step shared by both framers:
`if (!g_spi.crc_off) buf[len-1] = crc7(0x7f, buf, len-1) << 1; else len -= 1;`
(the store truncates to `uint8_t`). Returns the buffer and the new `len`. -/
def crc_step (crc_off : Int) (buf : List Nat) (len : Nat) : List Nat × Nat :=
  if crc_off = 0 then
    (buf.set (len - 1) (u8 (crc7 0x7f (buf.take (len - 1)) <<< 1)), len)
  else
    (buf, len - 1)

/-- The bytes that `spi_cmd` hands to `spi_tx`: `bc[0 .. len-1]` after the
checksum step, `none` for an unrecognised opcode. -/
def spi_cmd_frame (crc_off : Int) (cmd addr data sz clockless : Nat) : Option (List Nat) :=
  match spi_cmd_switch cmd addr data sz clockless with
  | none => none
  | some (bc, len) =>
    let r := crc_step crc_off bc len
    some (r.1.take r.2)

/-- The function `spi_cmd`. -/
def spi_cmd (g : wilc_spi σ) (cmd addr data sz clockless : Nat) (w : World σ) :
    Int × World σ :=
  match spi_cmd_frame g.crc_off cmd addr data sz clockless with
  | none => (N_FAIL, w)
  | some frame =>
    let r := call_tx g frame w
    if !r.1 then (N_FAIL, r.2) else (N_OK, r.2)

/-! ## spi_cmd_complete -/

/-- The `switch (cmd)` of `spi_cmd_complete`: the buffer `wb` and the
length `len` for a recognised opcode, `none` for the `default:` case. The
data word of the two write commands is read from the caller's buffer `b`,
`b[3]` first; the clockless bit is set when `clockless == 1`. -/
def spi_cmd_complete_switch (cmd addr : Nat) (b : List Nat) (sz clockless : Nat) :
    Option (List Nat × Nat) :=
  let wb := (scratch 32).set 0 cmd
  if cmd = CMD_SINGLE_READ then
    let wb := wb.set 1 (u8 (addr >>> 16))
    let wb := wb.set 2 (u8 (addr >>> 8))
    let wb := wb.set 3 (u8 addr)
    some (wb, 5)
  else if cmd = CMD_INTERNAL_READ then
    let wb := wb.set 1 (u8 (addr >>> 8))
    let wb := if clockless = 1 then wb.set 1 (u8 (wb.getD 1 0 ||| (1 <<< 7))) else wb
    let wb := wb.set 2 (u8 addr)
    let wb := wb.set 3 0x00
    some (wb, 5)
  else if cmd = CMD_TERMINATE then
    let wb := wb.set 1 0x00
    let wb := wb.set 2 0x00
    let wb := wb.set 3 0x00
    some (wb, 5)
  else if cmd = CMD_REPEAT then
    let wb := wb.set 1 0x00
    let wb := wb.set 2 0x00
    let wb := wb.set 3 0x00
    some (wb, 5)
  else if cmd = CMD_RESET then
    let wb := wb.set 1 0xff
    let wb := wb.set 2 0xff
    let wb := wb.set 3 0xff
    some (wb, 5)
  else if cmd = CMD_DMA_WRITE ∨ cmd = CMD_DMA_READ then
    let wb := wb.set 1 (u8 (addr >>> 16))
    let wb := wb.set 2 (u8 (addr >>> 8))
    let wb := wb.set 3 (u8 addr)
    let wb := wb.set 4 (u8 (sz >>> 8))
    let wb := wb.set 5 (u8 sz)
    some (wb, 7)
  else if cmd = CMD_DMA_EXT_WRITE ∨ cmd = CMD_DMA_EXT_READ then
    let wb := wb.set 1 (u8 (addr >>> 16))
    let wb := wb.set 2 (u8 (addr >>> 8))
    let wb := wb.set 3 (u8 addr)
    let wb := wb.set 4 (u8 (sz >>> 16))
    let wb := wb.set 5 (u8 (sz >>> 8))
    let wb := wb.set 6 (u8 sz)
    some (wb, 8)
  else if cmd = CMD_INTERNAL_WRITE then
    let wb := wb.set 1 (u8 (addr >>> 8))
    let wb := if clockless = 1 then wb.set 1 (u8 (wb.getD 1 0 ||| (1 <<< 7))) else wb
    let wb := wb.set 2 (u8 addr)
    let wb := wb.set 3 (b.getD 3 0)
    let wb := wb.set 4 (b.getD 2 0)
    let wb := wb.set 5 (b.getD 1 0)
    let wb := wb.set 6 (b.getD 0 0)
    some (wb, 8)
  else if cmd = CMD_SINGLE_WRITE then
    let wb := wb.set 1 (u8 (addr >>> 16))
    let wb := wb.set 2 (u8 (addr >>> 8))
    let wb := wb.set 3 (u8 addr)
    let wb := wb.set 4 (b.getD 3 0)
    let wb := wb.set 5 (b.getD 2 0)
    let wb := wb.set 6 (b.getD 1 0)
    let wb := wb.set 7 (b.getD 0 0)
    some (wb, 9)
  else none

/-- The command frame of `spi_cmd_complete`: the buffer `wb` and `len`
after the checksum step, `none` for an unrecognised opcode. The frame
proper is `wb[0 .. len-1]`. -/
def spi_cmd_complete_frame (crc_off : Int) (cmd addr : Nat) (b : List Nat)
    (sz clockless : Nat) : Option (List Nat × Nat) :=
  match spi_cmd_complete_switch cmd addr b sz clockless with
  | none => none
  | some (wb, len) => some (crc_step crc_off wb len)

/-- The length `len2` of the combined exchange, from the transmitted frame
length `len`. -/
def spi_cmd_complete_len2 (crc_off : Int) (cmd len : Nat) : Nat :=
  if cmd = CMD_RESET ∨ cmd = CMD_TERMINATE ∨ cmd = CMD_REPEAT then
    len + (NUM_SKIP_BYTES + NUM_RSP_BYTES + NUM_DUMMY_BYTES)
  else if cmd = CMD_INTERNAL_READ ∨ cmd = CMD_SINGLE_READ then
    if crc_off = 0 then
      len + (NUM_RSP_BYTES + NUM_DATA_HDR_BYTES + NUM_DATA_BYTES + NUM_CRC_BYTES
        + NUM_DUMMY_BYTES)
    else
      len + (NUM_RSP_BYTES + NUM_DATA_HDR_BYTES + NUM_DATA_BYTES + NUM_DUMMY_BYTES)
  else
    len + (NUM_RSP_BYTES + NUM_DUMMY_BYTES)

/-- The loop `for (wix = len; wix < len2; wix++) wb[wix] = 0;`, as `n`
stores starting at index `wix`. -/
def zero_fill (wb : List Nat) : Nat → Nat → List Nat
  | 0, _ => wb
  | n + 1, wix => zero_fill (wb.set wix 0) n (wix + 1)

/-- The test `((rsp >> 4) & 0xf) == 0xf` for the data-header sentinel. -/
def is_data_hdr (rsp : Nat) : Bool := (rsp >>> 4) &&& 0xf == 0xf

/-- The data-response-header loop of `spi_cmd_complete`
(`do { ... } while (retry--)`), entered with the given `retry` and `rix`.
Returns `retry` and `rix` as they are after the loop: a byte is consumed
while `rix < len2` (otherwise `retry = 0; break`), the loop breaks at a
sentinel, and `retry--` leaves the loop with `retry = -1` once `retry` is
0. -/
def data_hdr_scan (rb : List Nat) (len2 : Nat) : Nat → Nat → Int × Nat
  | retry, rix =>
    if rix < len2 then
      if is_data_hdr (rb.getD rix 0) then ((retry : Int), rix + 1)
      else
        match retry with
        | 0 => (-1, rix + 1)
        | r + 1 => data_hdr_scan rb len2 r (rix + 1)
    else (0, rix)

/-- The copy loop `for (ix = 0; (rix < len2) && (ix < sz);) b[ix++] = rb[rix++];`
with at most `n` iterations left. Returns `b`, `ix` and `rix`. -/
def dma_copy (rb : List Nat) (len2 sz : Nat) : Nat → List Nat → Nat → Nat → List Nat × Nat × Nat
  | 0, b, ix, rix => (b, ix, rix)
  | n + 1, b, ix, rix =>
    if rix < len2 ∧ ix < sz then dma_copy rb len2 sz n (b.set ix (rb.getD rix 0)) (ix + 1) (rix + 1)
    else (b, ix, rix)

/-- The effect of `spi_rx(&b[ix], nbytes)` on the caller's buffer: the
first `n` bytes delivered by the transport are stored at `b[ix ..]`. -/
def store_at (b : List Nat) (ix : Nat) (src : List Nat) : Nat → List Nat
  | 0 => b
  | n + 1 => (store_at b ix src n).set (ix + n) (src.getD n 0)

/-- The data-response-header loop of a continuation chunk
(`do { if (!spi_rx(&rsp, 1)) { result = N_FAIL; break; } ... } while (retry--)`).
Returns whether every receive succeeded (`result` is still `N_OK`), the
value of `retry` after the loop, and the world. -/
def data_hdr_poll (g : wilc_spi σ) : Nat → World σ → Bool × Int × World σ
  | retry, w =>
    let r := call_rx g 1 w
    if !r.1 then (false, (retry : Int), r.2.2)
    else if is_data_hdr (r.2.1.getD 0 0) then (true, (retry : Int), r.2.2)
    else
      match retry with
      | 0 => (true, -1, r.2.2)
      | n + 1 => data_hdr_poll g n r.2.2

/-- The loop `while (sz > 0) { ... }` of the DMA read part of
`spi_cmd_complete`. Every iteration lowers `sz` by `nbytes >= 1`; the first
argument bounds the number of iterations and is given as the initial `sz`,
so it is 0 only when `sz` is. After the header loop no test of `retry`
follows: only a failed receive ends the chunk early. -/
def spi_cmd_complete_dma_loop (g : wilc_spi σ) :
    Nat → List Nat → Nat → Nat → World σ → Int × List Nat × World σ
  | 0, b, _, _, w => (N_OK, b, w)
  | fuel + 1, b, ix, sz, w =>
    if sz > 0 then
      let nbytes := if sz ≤ DATA_PKT_SZ then sz else DATA_PKT_SZ
      let p := data_hdr_poll g SPI_RESP_RETRY_COUNT w
      if !p.1 then (N_FAIL, b, p.2.2)
      else
        let r := call_rx g nbytes p.2.2
        let b := store_at b ix r.2.1 (min nbytes r.2.1.length)
        if !r.1 then (N_FAIL, b, r.2.2)
        else if g.crc_off = 0 then
          let c := call_rx g 2 r.2.2
          if !c.1 then (N_FAIL, b, c.2.2)
          else spi_cmd_complete_dma_loop g fuel b (ix + nbytes) (sz - nbytes) c.2.2
        else spi_cmd_complete_dma_loop g fuel b (ix + nbytes) (sz - nbytes) r.2.2
    else (N_OK, b, w)

/-- The DMA read part of `spi_cmd_complete` (`cmd` is `CMD_DMA_READ` or
`CMD_DMA_EXT_READ`), entered after the data header with `rix` pointing
behind the sentinel. -/
def spi_cmd_complete_dma (g : wilc_spi σ) (b : List Nat) (sz len2 : Nat) (rb : List Nat)
    (rix : Nat) (w : World σ) : Int × List Nat × World σ :=
  let c := dma_copy rb len2 sz (len2 - rix) b 0 rix
  let b := c.1
  let ix := c.2.1
  let sz := sz - ix
  if sz > 0 then
    let nbytes := if sz ≤ DATA_PKT_SZ - ix then sz else DATA_PKT_SZ - ix
    let r := call_rx g nbytes w
    let b := store_at b ix r.2.1 (min nbytes r.2.1.length)
    if !r.1 then (N_FAIL, b, r.2.2)
    else if g.crc_off = 0 then
      let c := call_rx g 2 r.2.2
      if !c.1 then (N_FAIL, b, c.2.2)
      else spi_cmd_complete_dma_loop g (sz - nbytes) b (ix + nbytes) (sz - nbytes) c.2.2
    else spi_cmd_complete_dma_loop g (sz - nbytes) b (ix + nbytes) (sz - nbytes) r.2.2
  else (N_OK, b, w)

/-- The register-read extraction of `spi_cmd_complete` (`cmd` is
`CMD_INTERNAL_READ` or `CMD_SINGLE_READ`), entered after the data header
with `rix` pointing behind the sentinel: four data bytes, then two checksum
bytes in checksum mode, each guarded by a bound check on `rix`. -/
def spi_cmd_complete_reg (g : wilc_spi σ) (b : List Nat) (len2 : Nat) (rb : List Nat)
    (rix : Nat) (w : World σ) : Int × List Nat × World σ :=
  if rix + 3 < len2 then
    let b := b.set 0 (rb.getD rix 0)
    let b := b.set 1 (rb.getD (rix + 1) 0)
    let b := b.set 2 (rb.getD (rix + 2) 0)
    let b := b.set 3 (rb.getD (rix + 3) 0)
    let rix := rix + 4
    if g.crc_off = 0 then
      if rix + 1 < len2 then (N_OK, b, w)
      else (N_FAIL, b, w)
    else (N_OK, b, w)
  else (N_FAIL, b, w)

/-- The read part of `spi_cmd_complete` (`cmd` is one of the four read
opcodes), entered after the status byte: the data-response-header loop,
`N_RESET` when it ends with `retry <= 0`, then the register or DMA
extraction. -/
def spi_cmd_complete_read (g : wilc_spi σ) (cmd : Nat) (b : List Nat) (sz len2 : Nat)
    (rb : List Nat) (rix : Nat) (w : World σ) : Int × List Nat × World σ :=
  let s := data_hdr_scan rb len2 SPI_RESP_RETRY_COUNT rix
  let retry := s.1
  let rix := s.2
  if retry ≤ 0 then (N_RESET, b, w)
  else if cmd = CMD_INTERNAL_READ ∨ cmd = CMD_SINGLE_READ then
    spi_cmd_complete_reg g b len2 rb rix w
  else spi_cmd_complete_dma g b sz len2 rb rix w

/-- The response part of `spi_cmd_complete`, after a successful
`spi_trx`: `rb` holds the captured bytes (an index the transport did not
fill reads as 0) and `rix` is the transmitted frame length. Returns the
result and the caller's buffer `b`. -/
def spi_cmd_complete_rsp (g : wilc_spi σ) (cmd : Nat) (b : List Nat) (sz len2 : Nat)
    (rb : List Nat) (rix : Nat) (w : World σ) : Int × List Nat × World σ :=
  let rix := if cmd = CMD_RESET ∨ cmd = CMD_TERMINATE ∨ cmd = CMD_REPEAT then rix + 1 else rix
  let rsp := rb.getD rix 0
  let rix := rix + 1
  if rsp ≠ cmd then (N_FAIL, b, w)
  else
    let rsp := rb.getD rix 0
    let rix := rix + 1
    if rsp ≠ 0x00 then (N_FAIL, b, w)
    else if cmd = CMD_INTERNAL_READ ∨ cmd = CMD_SINGLE_READ ∨
        cmd = CMD_DMA_READ ∨ cmd = CMD_DMA_EXT_READ then
      spi_cmd_complete_read g cmd b sz len2 rb rix w
    else (N_OK, b, w)

/-- The function `spi_cmd_complete`. Returns the result, the caller's
buffer `b` as the call leaves it, and the world. -/
def spi_cmd_complete (g : wilc_spi σ) (cmd addr : Nat) (b : List Nat) (sz clockless : Nat)
    (w : World σ) : Int × List Nat × World σ :=
  match spi_cmd_complete_frame g.crc_off cmd addr b sz clockless with
  | none => (N_FAIL, b, w)
  | some (wb, len) =>
    let len2 := spi_cmd_complete_len2 g.crc_off cmd len
    if len2 > 32 then (N_FAIL, b, w)
    else
      let wb := zero_fill wb (len2 - len) len
      let t := call_trx g (wb.take len2) w
      if !t.1 then (N_FAIL, b, t.2.2)
      else spi_cmd_complete_rsp g cmd b sz len2 t.2.1 len t.2.2

/-! ## Register operations -/

/-- The byte view `(uint8_t *)&data` of a 32-bit word on the little-endian
host: least significant byte first. -/
def word_bytes (data : Nat) : List Nat :=
  [u8 data, u8 (data >>> 8), u8 (data >>> 16), u8 (data >>> 24)]

/-- The 32-bit word whose byte view is `b[0 .. 3]`. -/
def bytes_word (b : List Nat) : Nat :=
  b.getD 0 0 + (b.getD 1 0 <<< 8) + (b.getD 2 0 <<< 16) + (b.getD 3 0 <<< 24)

/-- The function `spi_reset`: `spi_cmd_complete(CMD_RESET, 0, 0, 0, 0)`,
with result 1 on `N_OK` and 0 otherwise. The null buffer is the empty
list. -/
def spi_reset (g : wilc_spi σ) (w : World σ) : Int × World σ :=
  let r := spi_cmd_complete g CMD_RESET 0 [] 0 0 w
  if r.1 ≠ N_OK then (0, r.2.2) else (1, r.2.2)

/-- The body of `spi_write_reg` from the label `_RETRY_` on, entered with
`retry = n + 1`. After a failed attempt the bus is reset, `retry` is
decremented, and the attempt is repeated while `retry` is not 0. -/
def spi_write_reg_from (g : wilc_spi σ) (addr data : Nat) : Nat → World σ → Int × World σ
  | n, w =>
    let cmd := if addr ≤ 0x30 then CMD_INTERNAL_WRITE else CMD_SINGLE_WRITE
    let clockless := if addr ≤ 0x30 then 1 else 0
    let r := spi_cmd_complete g cmd addr (word_bytes data) 4 clockless w
    if r.1 ≠ N_OK then
      let w1 := (spi_reset g r.2.2).2
      match n with
      | 0 => (r.1, w1)
      | m + 1 => spi_write_reg_from g addr data m w1
    else (r.1, r.2.2)

/-- The function `spi_write_reg`. -/
def spi_write_reg (g : wilc_spi σ) (addr data : Nat) (w : World σ) : Int × World σ :=
  spi_write_reg_from g addr data (SPI_RETRY_COUNT - 1) w

/-- The body of `spi_read_reg` from the label `_RETRY_` on, entered with
`retry = n + 1`; `data` is the content of `*data`. Returns the result, the
content of `*data` and the world. -/
def spi_read_reg_from (g : wilc_spi σ) (addr : Nat) : Nat → Nat → World σ → Int × Nat × World σ
  | n, data, w =>
    let cmd := if addr ≤ 0x30 then CMD_INTERNAL_READ else CMD_SINGLE_READ
    let clockless := if addr ≤ 0x30 then 1 else 0
    let r := spi_cmd_complete g cmd addr (word_bytes data) 4 clockless w
    let data := bytes_word r.2.1
    if r.1 ≠ N_OK then
      let w1 := (spi_reset g r.2.2).2
      match n with
      | 0 => (r.1, data, w1)
      | m + 1 => spi_read_reg_from g addr m data w1
    else (r.1, data, r.2.2)

/-- The function `spi_read_reg`. -/
def spi_read_reg (g : wilc_spi σ) (addr data : Nat) (w : World σ) : Int × Nat × World σ :=
  spi_read_reg_from g addr (SPI_RETRY_COUNT - 1) data w

/-- The body of `spi_internal_write` from the label `_RETRY_` on, entered
with `retry = n + 1`. -/
def spi_internal_write_from (g : wilc_spi σ) (addr dat : Nat) : Nat → World σ → Int × World σ
  | n, w =>
    let r := spi_cmd_complete g CMD_INTERNAL_WRITE addr (word_bytes dat) 4 0 w
    if r.1 ≠ N_OK then
      let w1 := (spi_reset g r.2.2).2
      match n with
      | 0 => (r.1, w1)
      | m + 1 => spi_internal_write_from g addr dat m w1
    else (r.1, r.2.2)

/-- The function `spi_internal_write`. -/
def spi_internal_write (g : wilc_spi σ) (addr dat : Nat) (w : World σ) : Int × World σ :=
  spi_internal_write_from g addr dat (SPI_RETRY_COUNT - 1) w

/-- The body of `spi_internal_read` from the label `_RETRY_` on, entered
with `retry = n + 1`; `data` is the content of `*data`. -/
def spi_internal_read_from (g : wilc_spi σ) (addr : Nat) :
    Nat → Nat → World σ → Int × Nat × World σ
  | n, data, w =>
    let r := spi_cmd_complete g CMD_INTERNAL_READ addr (word_bytes data) 4 0 w
    let data := bytes_word r.2.1
    if r.1 ≠ N_OK then
      let w1 := (spi_reset g r.2.2).2
      match n with
      | 0 => (r.1, data, w1)
      | m + 1 => spi_internal_read_from g addr m data w1
    else (r.1, data, r.2.2)

/-- The function `spi_internal_read`. -/
def spi_internal_read (g : wilc_spi σ) (addr data : Nat) (w : World σ) :
    Int × Nat × World σ :=
  spi_internal_read_from g addr (SPI_RETRY_COUNT - 1) data w

/-! ## Block operations -/

/-- The function `spi_data_rsp`: the response to the data of a block
write, two bytes in checksum mode and three otherwise, of which the last
must be `0x00` and the one before it `0xC3`. A byte of `rsp` the transport
did not fill reads as 0. -/
def spi_data_rsp (g : wilc_spi σ) (_cmd : Nat) (w : World σ) : Int × World σ :=
  let len := if g.crc_off = 0 then 2 else 3
  let r := call_rx g len w
  if !r.1 then (N_FAIL, r.2.2)
  else if r.2.1.getD (len - 1) 0 ≠ 0 ∨ r.2.1.getD (len - 2) 0 ≠ 0xC3 then (N_FAIL, r.2.2)
  else (N_OK, r.2.2)

/-- The loop `do { ... } while (sz);` of `spi_data_write`, entered with the
given `ix` and `sz`. An iteration that is followed by another one lowers
`sz` by `DATA_PKT_SZ`; the first argument bounds the number of further
iterations and is given as the initial `sz`, so the case 0 with bytes left
does not occur. The offset `ix` (a C `int`) is a natural number here, which
is exact for sizes below `2 ^ 31`. -/
def spi_data_write_loop (g : wilc_spi σ) (b : List Nat) :
    Nat → Nat → Nat → World σ → Int × World σ
  | n, ix, sz, w =>
    let nbytes := if sz ≤ DATA_PKT_SZ then sz else DATA_PKT_SZ
    let order :=
      if ix = 0 then (if sz ≤ DATA_PKT_SZ then 0x3 else 0x1)
      else (if sz ≤ DATA_PKT_SZ then 0x3 else 0x2)
    let cmd := 0xf0 ||| order
    let t := call_tx g [cmd] w
    if !t.1 then (N_FAIL, t.2)
    else
      let d := call_tx g ((b.drop ix).take nbytes) t.2
      if !d.1 then (N_FAIL, d.2)
      else
        let c := if g.crc_off = 0 then call_tx g [0, 0] d.2 else (true, d.2)
        if !c.1 then (N_FAIL, c.2)
        else if sz - nbytes ≠ 0 then
          match n with
          | 0 => (1, c.2)
          | m + 1 => spi_data_write_loop g b m (ix + nbytes) (sz - nbytes) c.2
        else (1, c.2)

/-- The function `spi_data_write`: the `sz` bytes at `b`, in chunks of at
most `DATA_PKT_SZ` bytes, each after its order byte and, in checksum mode,
before two zero bytes. -/
def spi_data_write (g : wilc_spi σ) (b : List Nat) (sz : Nat) (w : World σ) : Int × World σ :=
  spi_data_write_loop g b sz 0 sz w

/-- The loop `do { ... } while (sz);` of `spi_data_read` (the block read
of the build with `USE_OLD_SPI_SW`), entered with the given `ix` and `sz`;
the first argument bounds the number of further iterations as in
`spi_data_write_loop`. After the header loop the chunk is given up when
`retry <= 0`. -/
def spi_data_read_loop (g : wilc_spi σ) :
    Nat → List Nat → Nat → Nat → World σ → Int × List Nat × World σ
  | n, b, ix, sz, w =>
    let nbytes := if sz ≤ DATA_PKT_SZ then sz else DATA_PKT_SZ
    let p := data_hdr_poll g SPI_RESP_RETRY_COUNT w
    if !p.1 then (N_FAIL, b, p.2.2)
    else if p.2.1 ≤ 0 then (N_FAIL, b, p.2.2)
    else
      let r := call_rx g nbytes p.2.2
      let b := store_at b ix r.2.1 (min nbytes r.2.1.length)
      if !r.1 then (N_FAIL, b, r.2.2)
      else
        let c := if g.crc_off = 0 then call_rx g 2 r.2.2 else (true, [], r.2.2)
        if !c.1 then (N_FAIL, b, c.2.2)
        else if sz - nbytes ≠ 0 then
          match n with
          | 0 => (N_OK, b, c.2.2)
          | m + 1 => spi_data_read_loop g m b (ix + nbytes) (sz - nbytes) c.2.2
        else (N_OK, b, c.2.2)

/-- The function `spi_data_read` of the build with `USE_OLD_SPI_SW`. -/
def spi_data_read (g : wilc_spi σ) (b : List Nat) (sz : Nat) (w : World σ) :
    Int × List Nat × World σ :=
  spi_data_read_loop g sz b 0 sz w

/-- One attempt of `spi_write`, the statements between the labels
`_RETRY_` and `_FAIL_`: the command with its response, the data, the data
response. The null buffer of the command is the empty list. -/
def spi_write_attempt (g : wilc_spi σ) (addr : Nat) (buf : List Nat) (size : Nat)
    (w : World σ) : Int × World σ :=
  let r := spi_cmd_complete g CMD_DMA_EXT_WRITE addr [] size 0 w
  if r.1 ≠ N_OK then (r.1, r.2.2)
  else
    let d := spi_data_write g buf size r.2.2
    if d.1 ≠ N_OK then d
    else spi_data_rsp g CMD_DMA_EXT_WRITE d.2

/-- The body of `spi_write` from the label `_RETRY_` on, entered with
`retry = n + 1`. -/
def spi_write_from (g : wilc_spi σ) (addr : Nat) (buf : List Nat) (size : Nat) :
    Nat → World σ → Int × World σ
  | n, w =>
    let r := spi_write_attempt g addr buf size w
    if r.1 ≠ N_OK then
      let w1 := (spi_reset g r.2).2
      match n with
      | 0 => (r.1, w1)
      | m + 1 => spi_write_from g addr buf size m w1
    else (r.1, r.2)

/-- The function `spi_write`. -/
def spi_write (g : wilc_spi σ) (addr : Nat) (buf : List Nat) (size : Nat) (w : World σ) :
    Int × World σ :=
  if size ≤ 4 then (0, w)
  else spi_write_from g addr buf size (SPI_RETRY_COUNT - 1) w

/-- The body of `spi_read` from the label `_RETRY_` on, entered with
`retry = n + 1`; `buf` is the content of the caller's buffer. Returns the
result, the buffer and the world. -/
def spi_read_from (g : wilc_spi σ) (addr size : Nat) :
    Nat → List Nat → World σ → Int × List Nat × World σ
  | n, buf, w =>
    let r := spi_cmd_complete g CMD_DMA_EXT_READ addr buf size 0 w
    if r.1 ≠ N_OK then
      let w1 := (spi_reset g r.2.2).2
      match n with
      | 0 => (r.1, r.2.1, w1)
      | m + 1 => spi_read_from g addr size m r.2.1 w1
    else (r.1, r.2.1, r.2.2)

/-- The function `spi_read`. -/
def spi_read (g : wilc_spi σ) (addr : Nat) (buf : List Nat) (size : Nat) (w : World σ) :
    Int × List Nat × World σ :=
  if size ≤ 4 then (0, buf, w)
  else spi_read_from g addr size (SPI_RETRY_COUNT - 1) buf w

/-! ## Reference layout of the command frames -/

/-- Reference layout, written from the table of the specification
(section 4.2) and not from the code: the fields that follow the opcode byte.
`addr[23:16]`, `addr[15:8]`, `addr[7:0]` are the three low bytes of the
address, bit 7 of `addr[15:8]` is set for a clockless internal access, the
size is 2 or 3 bytes and the data word 4 bytes, most significant byte
first. -/
def reference_fields (cmd addr data sz : Nat) (clockless : Bool) : List Nat :=
  let a2 := addr / 2 ^ 16 % 256
  let a1 := addr / 2 ^ 8 % 256
  let a0 := addr % 256
  let ah := if clockless then a1 ||| 0x80 else a1
  let d := [data / 2 ^ 24 % 256, data / 2 ^ 16 % 256, data / 2 ^ 8 % 256, data % 256]
  if cmd = 0xca then [a2, a1, a0]
  else if cmd = 0xc4 then [ah, a0, 0x00]
  else if cmd = 0xcf then [0xff, 0xff, 0xff]
  else if cmd = 0xc5 ∨ cmd = 0xc6 then [0x00, 0x00, 0x00]
  else if cmd = 0xc1 ∨ cmd = 0xc2 then [a2, a1, a0, sz / 2 ^ 8 % 256, sz % 256]
  else if cmd = 0xc7 ∨ cmd = 0xc8 then
    [a2, a1, a0, sz / 2 ^ 16 % 256, sz / 2 ^ 8 % 256, sz % 256]
  else if cmd = 0xc3 then ah :: a0 :: d
  else a2 :: a1 :: a0 :: d

/-- Reference frame with checksum: the opcode, the fields, and the Crc7 of
these bytes shifted left by one. -/
def reference_frame (cmd addr data sz : Nat) (clockless : Bool) : List Nat :=
  (cmd :: reference_fields cmd addr data sz clockless) ++
    [crc7 0x7f (cmd :: reference_fields cmd addr data sz clockless) * 2 % 256]

/-- Total frame length with checksum, from the table of the specification. -/
def reference_length (cmd : Nat) : Nat :=
  if cmd = 0xca ∨ cmd = 0xc4 ∨ cmd = 0xcf ∨ cmd = 0xc5 ∨ cmd = 0xc6 then 5
  else if cmd = 0xc1 ∨ cmd = 0xc2 then 7
  else if cmd = 0xc7 ∨ cmd = 0xc8 ∨ cmd = 0xc3 then 8
  else 9

/-! ## Simulated transports -/

/-- A bus with nothing behind it: every callback succeeds and every
captured byte is 0. -/
def idle_bus (crc_off : Int) : wilc_spi Unit where
  spi_tx := fun _ _ => (true, ())
  spi_rx := fun _ n => (true, List.replicate n 0, ())
  spi_trx := fun _ wb => (true, List.replicate wb.length 0, ())
  crc_off := crc_off
  nint := 0
  has_thrpt_enh := 0

/-- A bus that answers every combined exchange with the same captured
bytes `rb`; transmits succeed and a receive delivers bytes `0xff`. -/
def scripted_bus (crc_off : Int) (rb : List Nat) : wilc_spi Unit where
  spi_tx := fun _ _ => (true, ())
  spi_rx := fun _ n => (true, List.replicate n 0xff, ())
  spi_trx := fun _ _ => (true, rb, ())
  crc_off := crc_off
  nint := 0
  has_thrpt_enh := 0

/-- A captured reply to a register read in checksum-off mode: four bytes
clocked in during the frame, the echo of `CMD_INTERNAL_READ`, status `0x00`,
the data header `0xf3`, the payload `11 22 33 44`, and padding. -/
def sample_reply : List Nat :=
  [0, 0, 0, 0, 0xc4, 0x00, 0xf3, 0x11, 0x22, 0x33, 0x44, 0, 0, 0]

/-- The register file of the simulated peer: the data bytes of the
register-write frames received so far, most recent first, each under the
address bytes of its frame. -/
abbrev RegFile := List (List Nat × List Nat)

/-- The data bytes of the most recent write frame to the address bytes
`key`; four zero bytes when there is none. -/
def reg_lookup (key : List Nat) : RegFile → List Nat
  | [] => [0, 0, 0, 0]
  | (k, d) :: rest => if k = key then d else reg_lookup key rest

/-- The captured bytes of an exchange of `n` bytes: `l`, padded with zeros
or cut to length `n`. -/
def pad_to (n : Nat) (l : List Nat) : List Nat := (l ++ List.replicate n 0).take n

/-- The frame length the simulated peer expects for an opcode: the length
of the table, one less in checksum-off mode. -/
def peer_frame_len (crc_off : Int) (cmd : Nat) : Nat :=
  reference_length cmd - (if crc_off = 0 then 0 else 1)

/-- The combined exchange of the simulated peer. It acknowledges every
frame (after the frame, and one turnaround byte for reset / terminate /
repeat, the opcode echo and status `0x00`), stores the four data bytes of a
register-write frame under its address bytes, and answers a register read
with the data header `0xf3` followed by the four data bytes of the most
recent write frame to the same address bytes: in the wire order of the write
frame when `same_order`, in the reverse order otherwise. -/
def echo_trx (crc_off : Int) (same_order : Bool) (st : RegFile) (wb : List Nat) :
    Bool × List Nat × RegFile :=
  let cmd := wb.getD 0 0
  let n := peer_frame_len crc_off cmd
  let skip := if cmd = CMD_RESET ∨ cmd = CMD_TERMINATE ∨ cmd = CMD_REPEAT then 1 else 0
  let ack := List.replicate (n + skip) 0 ++ [cmd, 0x00]
  let reply := fun (d : List Nat) => if same_order then d else d.reverse
  if cmd = CMD_SINGLE_WRITE then
    (true, pad_to wb.length ack, ((wb.drop 1).take 3, (wb.drop 4).take 4) :: st)
  else if cmd = CMD_INTERNAL_WRITE then
    (true, pad_to wb.length ack, ((wb.drop 1).take 2, (wb.drop 3).take 4) :: st)
  else if cmd = CMD_SINGLE_READ then
    (true, pad_to wb.length (ack ++ [0xf3] ++ reply (reg_lookup ((wb.drop 1).take 3) st)), st)
  else if cmd = CMD_INTERNAL_READ then
    (true, pad_to wb.length (ack ++ [0xf3] ++ reply (reg_lookup ((wb.drop 1).take 2) st)), st)
  else (true, pad_to wb.length ack, st)

/-- The simulated transport of the round trip: a peer with a register file
behind `spi_trx`; `spi_tx` and `spi_rx` succeed and deliver zeros. -/
def echo_bus (crc_off : Int) (same_order : Bool) : wilc_spi RegFile where
  spi_tx := fun st _ => (true, st)
  spi_rx := fun st n => (true, List.replicate n 0, st)
  spi_trx := echo_trx crc_off same_order
  crc_off := crc_off
  nint := 0
  has_thrpt_enh := 0

/-- The 32-bit word `V` with its four bytes in reverse order. -/
def reverse_bytes (V : Nat) : Nat :=
  ((V % 256) <<< 24) + ((V / 2 ^ 8 % 256) <<< 16) + ((V / 2 ^ 16 % 256) <<< 8) + V / 2 ^ 24 % 256

/-- The world of `idle_bus` before any call. -/
def idle_world : World Unit := { peer := (), log := [] }

/-! ## Observers -/

/-- The event is a bus reset: a combined exchange whose frame is
`CMD_RESET, 0xff, 0xff, 0xff`. -/
def reset_request (e : Event) : Prop :=
  ∃ wb ok rb, e = Event.trx wb ok rb ∧ wb.getD 0 0 = CMD_RESET ∧ wb.getD 1 0 = 0xff ∧
    wb.getD 2 0 = 0xff ∧ wb.getD 3 0 = 0xff

/-- The event is a combined exchange whose frame is routed as a register
access to address `A` should be, with `internal` and `single` the two
opcodes of the access (read or write): the internal opcode with the
clockless bit (bit 7 of frame byte 1) exactly when `A <= 0x30`, the
single-word opcode with the three address bytes exactly when `A > 0x30`. -/
def reg_request (internal single A : Nat) (e : Event) : Prop :=
  ∃ wb ok rb, e = Event.trx wb ok rb ∧
    ((wb.getD 0 0 = internal ∧ (wb.getD 1 0).testBit 7 = true) ↔ A ≤ 0x30) ∧
    ((wb.getD 0 0 = single ∧ wb.getD 1 0 = A / 2 ^ 16 % 256 ∧
      wb.getD 2 0 = A / 2 ^ 8 % 256 ∧ wb.getD 3 0 = A % 256) ↔ 0x30 < A)

/-- The index `s` is the first data-header sentinel of `rb` at or after
`lo` and before `hi`: the high nibble of `rb[s]` is `0xf`, and of no byte
from `lo` up to `s - 1`. -/
def first_sentinel (rb : List Nat) (lo hi s : Nat) : Prop :=
  lo ≤ s ∧ s < hi ∧ rb.getD s 0 / 16 % 16 = 0xf ∧
    ∀ j, lo ≤ j → j < s → rb.getD j 0 / 16 % 16 ≠ 0xf

/-- The 32-bit word with `b0` as least significant byte (little-endian
reading of four bytes in wire order). -/
def le_word (b0 b1 b2 b3 : Nat) : Nat := b0 + (b1 <<< 8) + (b2 <<< 16) + (b3 <<< 24)

/-- The 32-bit word with `b0` as most significant byte (big-endian reading
of four bytes in wire order). -/
def be_word (b0 b1 b2 b3 : Nat) : Nat := (b0 <<< 24) + (b1 <<< 16) + (b2 <<< 8) + b3

/-- The events are the exchanges of a retried operation: it starts with a
request satisfying `P`, and every exchange is such a request or a bus
reset. -/
def attempts_and_resets (P : Event → Prop) (evs : List Event) : Prop :=
  (∃ e rest, evs = e :: rest ∧ P e) ∧ ∀ e ∈ evs, P e ∨ reset_request e

/-- The world `w1` is reached from `w0` by transport calls only: its log
extends the log of `w0`. -/
def LogExt (w0 w1 : World σ) : Prop := ∃ rest, w1.log = w0.log ++ rest

/-- The bytes handed to `spi_trx`: the frame buffer after the zero fill,
cut at `len2`. -/
def sent_bytes (wb : List Nat) (len len2 : Nat) : List Nat :=
  (zero_fill wb (len2 - len) len).take len2

/-! ## Chunks of a block write -/

/-- The number of chunks of a block of `N` bytes, `ceil(N / 8192)`. -/
def chunk_count (N : Nat) : Nat := (N + (DATA_PKT_SZ - 1)) / DATA_PKT_SZ

/-- The order byte of chunk `i` among `k` chunks: `0xF3` for a single
chunk and for the last one, `0xF1` for the first of several, `0xF2` in
between. -/
def order_tag (k i : Nat) : Nat :=
  if k = 1 then 0xF3 else if i = 0 then 0xF1 else if i + 1 = k then 0xF3 else 0xF2

/-- The payload of chunk `i` of the `N` bytes at `b`:
`b[8192 * i .. min(N, 8192 * (i + 1)) - 1]`. -/
def chunk_payload (b : List Nat) (N i : Nat) : List Nat :=
  (b.drop (DATA_PKT_SZ * i)).take (min N (DATA_PKT_SZ * (i + 1)) - DATA_PKT_SZ * i)

/-- The transmissions of chunk `i`: the order byte, the payload, and two
zero bytes in checksum mode. -/
def chunk_events (crc_off : Int) (b : List Nat) (N i : Nat) : List Event :=
  [Event.tx [order_tag (chunk_count N) i] true, Event.tx (chunk_payload b N i) true] ++
    (if crc_off = 0 then [Event.tx [0, 0] true] else [])

/-- A captured reply to an extended DMA read in checksum-off mode: seven
bytes clocked in during the frame, the echo of `CMD_DMA_EXT_READ`, status
`0x00`, the data header `0xf3`, and the first two payload bytes. -/
def dma_sample_reply : List Nat :=
  [0, 0, 0, 0, 0, 0, 0, 0xc8, 0x00, 0xf3, 0x11, 0x22]

/-- A bus that answers every combined exchange with the same captured
bytes `rb`; transmits succeed and a receive delivers bytes `fill`. -/
def filling_bus (crc_off : Int) (rb : List Nat) (fill : Nat) : wilc_spi Unit where
  spi_tx := fun _ _ => (true, ())
  spi_rx := fun _ n => (true, List.replicate n fill, ())
  spi_trx := fun _ _ => (true, rb, ())
  crc_off := crc_off
  nint := 0
  has_thrpt_enh := 0

/-! ## Retried operations -/

/-- One attempt of `spi_read_reg`, the statements between the labels
`_RETRY_` and `_FAIL_`, on the content of `*data` and the world. -/
def read_reg_attempt (g : wilc_spi σ) (addr : Nat) (s : Nat × World σ) :
    Int × Nat × World σ :=
  let cmd := if addr ≤ 0x30 then CMD_INTERNAL_READ else CMD_SINGLE_READ
  let clockless := if addr ≤ 0x30 then 1 else 0
  let r := spi_cmd_complete g cmd addr (word_bytes s.1) 4 clockless s.2
  (r.1, bytes_word r.2.1, r.2.2)

/-- One attempt of `spi_write_reg`. -/
def write_reg_attempt (g : wilc_spi σ) (addr data : Nat) (w : World σ) : Int × World σ :=
  let cmd := if addr ≤ 0x30 then CMD_INTERNAL_WRITE else CMD_SINGLE_WRITE
  let clockless := if addr ≤ 0x30 then 1 else 0
  let r := spi_cmd_complete g cmd addr (word_bytes data) 4 clockless w
  (r.1, r.2.2)

/-- One attempt of `spi_internal_read`. -/
def internal_read_attempt (g : wilc_spi σ) (addr : Nat) (s : Nat × World σ) :
    Int × Nat × World σ :=
  let r := spi_cmd_complete g CMD_INTERNAL_READ addr (word_bytes s.1) 4 0 s.2
  (r.1, bytes_word r.2.1, r.2.2)

/-- One attempt of `spi_internal_write`. -/
def internal_write_attempt (g : wilc_spi σ) (addr dat : Nat) (w : World σ) : Int × World σ :=
  let r := spi_cmd_complete g CMD_INTERNAL_WRITE addr (word_bytes dat) 4 0 w
  (r.1, r.2.2)

/-- One attempt of `spi_read`, on the content of the caller's buffer and
the world. -/
def block_read_attempt (g : wilc_spi σ) (addr size : Nat) (s : List Nat × World σ) :
    Int × List Nat × World σ :=
  spi_cmd_complete g CMD_DMA_EXT_READ addr s.1 size 0 s.2

/-- The bus reset of the label `_FAIL_`: `spi_reset()` with its result
dropped. -/
def reset_world (g : wilc_spi σ) (w : World σ) : World σ := (spi_reset g w).2

/-- The bus reset of the label `_FAIL_` for an operation with an output
`*data` or buffer, which the reset leaves alone. -/
def reset_keep {α : Type} (g : wilc_spi σ) (s : α × World σ) : α × World σ :=
  (s.1, (spi_reset g s.2).2)

/-- The state in which attempt number `i` (from 0) starts when all
attempts before it failed: each failed attempt is followed by a reset. -/
def retry_state {S : Type} (attempt : S → Int × S) (reset : S → S) : Nat → S → S
  | 0, s => s
  | i + 1, s => reset (attempt (retry_state attempt reset i s)).2

/-- The retry contract of an operation `f` with `n` attempts: when every
attempt fails, `f` returns the result of attempt number `n - 1`, the last,
in the state after that attempt and its reset; when attempt number `k < n`
is the first to return `N_OK`, `f` returns `N_OK` in the state right after
that attempt. -/
def retried {S : Type} (n : Nat) (f : S → Int × S) (attempt : S → Int × S)
    (reset : S → S) : Prop :=
  ∀ s,
    ((∀ i, i < n → (attempt (retry_state attempt reset i s)).1 ≠ N_OK) →
      f s = ((attempt (retry_state attempt reset (n - 1) s)).1,
        reset (attempt (retry_state attempt reset (n - 1) s)).2)) ∧
    (∀ k, k < n → (∀ i, i < k → (attempt (retry_state attempt reset i s)).1 ≠ N_OK) →
      (attempt (retry_state attempt reset k s)).1 = N_OK →
      f s = (N_OK, (attempt (retry_state attempt reset k s)).2))

/-- The event is a bus reset: a combined exchange whose frame starts with
`CMD_RESET`. -/
def is_reset (e : Event) : Bool :=
  match e with
  | Event.trx wb _ _ => wb.getD 0 0 == CMD_RESET
  | _ => false

/-- A captured reply to a single-word read in checksum-off mode with a bad
status byte: the echo of `CMD_SINGLE_READ`, then status `0x01`. -/
def bad_status_reply : List Nat :=
  [0, 0, 0, 0, 0xca, 0x01, 0, 0, 0, 0, 0, 0, 0, 0]

/-- A captured reply to a single-word read in checksum-off mode whose data
header comes too late: the sentinel `0xf3` at index 10 leaves three bytes
in the buffer of 14. -/
def late_header_reply : List Nat :=
  [0, 0, 0, 0, 0xca, 0x00, 0, 0, 0, 0, 0xf3, 0x11, 0x22, 0x33]

/-! ## Initialisation -/

def DATA_PKT_SZ_256 : Nat := 256
def DATA_PKT_SZ_512 : Nat := 512
def DATA_PKT_SZ_1K : Nat := 1024
def DATA_PKT_SZ_2K : Nat := 2 * 1024
def DATA_PKT_SZ_4K : Nat := 4 * 1024
def DATA_PKT_SZ_8K : Nat := 8 * 1024

/-- The part of `struct wilc_wlan_inp` that `spi_init` reads: the callback
`io_func.io_init`, `none` for a null pointer, which acts on the peer behind
`os_context`, and the three transport callbacks of `io_func.u.spi`. -/
structure wilc_wlan_inp (σ : Type) where
  io_init : Option (σ → Bool × σ)
  spi_tx : σ → List Nat → Bool × σ
  spi_rx : σ → Nat → Bool × List Nat × σ
  spi_trx : σ → List Nat → Bool × List Nat × σ

/-- The file-scope state of the driver: the session `g_spi` and the
`static int isinit` of `spi_init`. -/
structure Driver (σ : Type) where
  g_spi : wilc_spi σ
  isinit : Int

/-- The session `g_spi` after `memset(&g_spi, 0, sizeof(struct wilc_spi))`:
the three fields are 0 and the callbacks are null pointers, which nothing
calls before they are set; they stand here as callbacks that fail and leave
the peer alone. -/
def cleared_spi : wilc_spi σ where
  spi_tx := fun p _ => (false, p)
  spi_rx := fun p _ => (false, [], p)
  spi_trx := fun p _ => (false, [], p)
  crc_off := 0
  nint := 0
  has_thrpt_enh := 0

/-- The session `g_spi` after the callbacks of `inp` are stored in the
cleared session and `g_spi.crc_off = 0`. -/
def init_session (inp : wilc_wlan_inp σ) : wilc_spi σ where
  spi_tx := inp.spi_tx
  spi_rx := inp.spi_rx
  spi_trx := inp.spi_trx
  crc_off := 0
  nint := 0
  has_thrpt_enh := 0

/-- The function `spi_init_pkt_sz`, on the content of `*reg`:
`switch (DATA_PKT_SZ)` with one case for each packet size. -/
def spi_init_pkt_sz (reg : Nat) : Nat :=
  if DATA_PKT_SZ = DATA_PKT_SZ_256 then reg ||| (0 <<< 4)
  else if DATA_PKT_SZ = DATA_PKT_SZ_512 then reg ||| (1 <<< 4)
  else if DATA_PKT_SZ = DATA_PKT_SZ_1K then reg ||| (2 <<< 4)
  else if DATA_PKT_SZ = DATA_PKT_SZ_2K then reg ||| (3 <<< 4)
  else if DATA_PKT_SZ = DATA_PKT_SZ_4K then reg ||| (4 <<< 4)
  else if DATA_PKT_SZ = DATA_PKT_SZ_8K then reg ||| (5 <<< 4)
  else reg

/-- The statements `reg &= ~0xc; reg &= ~0x70; spi_init_pkt_sz(&reg);` of
`spi_init` on the 32-bit word `reg`; `~0xc` and `~0x70` are the 32-bit
complements `0xfffffff3` and `0xffffff8f`. -/
def spi_init_reg (reg : Nat) : Nat :=
  let reg := reg &&& 0xfffffff3
  let reg := reg &&& 0xffffff8f
  spi_init_pkt_sz reg

/-- The end of `spi_init`, from the read of the chip id on, with the
session `g`: result 0 when `spi_read_reg` returns 0, otherwise
`g_spi.has_thrpt_enh = 1; isinit = 1; return 1`. The local `chipid` starts
as 0. -/
def spi_init_finish (g : wilc_spi σ) (w : World σ) : Int × Driver σ × World σ :=
  let c := spi_read_reg g 0x3b0000 0 w
  if c.1 = 0 then (0, { g_spi := g, isinit := 0 }, c.2.2)
  else (1, { g_spi := { g with has_thrpt_enh := 1 }, isinit := 1 }, c.2.2)

/-- The protocol configuration of `spi_init`, after the probe, with the
session `g` and the protocol register at `WILC_SPI_PROTOCOL_OFFSET = P`:
the read of the register, repeated with `g_spi.crc_off = 1` when it returns
0, and for `g_spi.crc_off == 0` the write of the changed word followed by
`g_spi.crc_off = 1`. The local `reg` starts as 0. -/
def spi_init_protocol (P : Nat) (g : wilc_spi σ) (w : World σ) : Int × Driver σ × World σ :=
  let r1 := spi_internal_read g P 0 w
  if r1.1 = 0 then
    let g := { g with crc_off := 1 }
    let r2 := spi_internal_read g P r1.2.1 r1.2.2
    if r2.1 = 0 then (0, { g_spi := g, isinit := 0 }, r2.2.2)
    else if g.crc_off = 0 then
      let wr := spi_internal_write g P (spi_init_reg r2.2.1) r2.2.2
      if wr.1 = 0 then (0, { g_spi := g, isinit := 0 }, wr.2)
      else spi_init_finish { g with crc_off := 1 } wr.2
    else spi_init_finish g r2.2.2
  else if g.crc_off = 0 then
    let wr := spi_internal_write g P (spi_init_reg r1.2.1) r1.2.2
    if wr.1 = 0 then (0, { g_spi := g, isinit := 0 }, wr.2)
    else spi_init_finish { g with crc_off := 1 } wr.2
  else spi_init_finish g r1.2.2

/-- The function `spi_init`, with the constant `WILC_SPI_PROTOCOL_OFFSET`
(defined in a header outside the source file) as the parameter `P`. Returns
the result, the driver state and the world. The probe stores its result in
a `uint8_t`; the local buffer `dat` is a scratch buffer. -/
def spi_init (P : Nat) (inp : wilc_wlan_inp σ) (d : Driver σ) (w : World σ) :
    Int × Driver σ × World σ :=
  if d.isinit ≠ 0 then
    let c := spi_read_reg d.g_spi 0x3b0000 0 w
    if c.1 = 0 then (0, d, c.2.2) else (1, d, c.2.2)
  else
    match inp.io_init with
    | none => (0, { g_spi := cleared_spi, isinit := d.isinit }, w)
    | some io_init =>
      let i := io_init w.peer
      let w := { peer := i.2, log := w.log }
      if !i.1 then (0, { g_spi := cleared_spi, isinit := d.isinit }, w)
      else
        let g := init_session inp
        let t := spi_cmd_complete g CMD_INTERNAL_READ P (scratch 32) 4 0 w
        if t.1 % 256 ≠ N_OK then (0, { g_spi := g, isinit := d.isinit }, t.2.2)
        else spi_init_protocol P g t.2.2

/-- The combined exchange of a peer that follows the driver through the
negotiation: it answers every frame, in either checksum mode, with the echo
and status `0x00` right behind the frame and, for a register read, the data
header `0xf3` and the data bytes `11 22 33 44`. The frame length is told by
the exchange length: 17 bytes for a register read with checksum. -/
def compliant_trx (wb : List Nat) : Bool × List Nat × Unit :=
  let cmd := wb.getD 0 0
  let len :=
    if cmd = CMD_INTERNAL_READ ∨ cmd = CMD_SINGLE_READ then (if wb.length = 17 then 5 else 4)
    else wb.length - 5
  (true, pad_to wb.length (List.replicate len 0 ++ [cmd, 0x00, 0xf3, 0x11, 0x22, 0x33, 0x44]), ())

/-- The input of `spi_init` for the peer of `compliant_trx`: `io_init`
succeeds, transmits and receives succeed. -/
def compliant_inp : wilc_wlan_inp Unit where
  io_init := some (fun _ => (true, ()))
  spi_tx := fun _ _ => (true, ())
  spi_rx := fun _ n => (true, List.replicate n 0, ())
  spi_trx := fun _ wb => compliant_trx wb

/-- The driver state before the first call of `spi_init`: statics are
zero-initialised. -/
def fresh_driver : Driver Unit := { g_spi := cleared_spi, isinit := 0 }

/-- The bytes handed to the transport in a call: the frame of a combined
exchange or the bytes of a transmit, nothing for a receive. -/
def sent_frame (e : Event) : List Nat :=
  match e with
  | Event.trx wb _ _ => wb
  | Event.tx bytes _ => bytes
  | Event.rx _ _ _ => []

/-! ## Bit-serial CRC-7

A second definition of the checksum, written from its description as a
shift register and not from the table. -/

/-- One clock of the 7-bit shift register of the CRC-7 with generator
polynomial `x^7 + x^3 + 1`: the bit shifted out at the top (bit 6) is added
to the input bit `b`, the register is shifted left by one, and when the sum
is 1 the polynomial taps `0x09` are added. -/
def crc7_shift (c : Nat) (b : Bool) : Nat :=
  let c1 := (c <<< 1) &&& 0x7f
  if (c.testBit 6 != b) then c1 ^^^ 0x09 else c1

/-- The bit-serial CRC-7 of one byte `d` from the state `c`: the 8 bits of
`d` are shifted in, most significant first. -/
def crc7_serial_byte (c d : Nat) : Nat :=
  crc7_shift (crc7_shift (crc7_shift (crc7_shift (crc7_shift (crc7_shift (crc7_shift
    (crc7_shift c (d.testBit 7)) (d.testBit 6)) (d.testBit 5)) (d.testBit 4)) (d.testBit 3))
    (d.testBit 2)) (d.testBit 1)) (d.testBit 0)

/-- The bit-serial CRC-7 of a byte sequence from the seed `c`. -/
def crc7_serial (c : Nat) : List Nat → Nat
  | [] => c
  | d :: rest => crc7_serial (crc7_serial_byte c d) rest

/-! ## Interrupt configuration

The register addresses `WILC_HOST_RX_CTRL_0`, `WILC_PIN_MUX_0`,
`WILC_INTR_ENABLE`, `WILC_INTR2_ENABLE` and the bound `MAX_NUM_INT` are
defined in a header outside the source file; they are parameters here. The
local `uint32_t reg` of both functions is not initialised: its content
before the first read is the parameter `reg`. -/

/-- The function `spi_clear_int`: result 0 when `spi_read_reg` returns 0,
otherwise `reg &= ~0x1` (`~0x1` is the 32-bit complement `0xfffffffe`), a
`spi_write_reg` whose result is dropped, and result 1. -/
def spi_clear_int (WILC_HOST_RX_CTRL_0 : Nat) (g : wilc_spi σ) (reg : Nat) (w : World σ) :
    Int × World σ :=
  let r := spi_read_reg g WILC_HOST_RX_CTRL_0 reg w
  if r.1 = 0 then (0, r.2.2)
  else
    let reg := r.2.1 &&& 0xfffffffe
    let wr := spi_write_reg g WILC_HOST_RX_CTRL_0 reg r.2.2
    (1, wr.2)

/-- The loops `for (i = 0; (i < 5) && (nint > 0); i++, nint--) reg |= (1 << (27 + i));`
and `for (i = 0; (i < 3) && (nint > 0); i++, nint--) reg |= (1 << i);` of
`spi_sync_ext`, with the lowest bit `base`, the number of values of `i` that
are left, `i`, `nint` and `reg`. Returns `reg` and `nint` after the loop. -/
def spi_sync_ext_bits (base : Nat) : Nat → Nat → Int → Nat → Nat × Int
  | 0, _, nint, reg => (reg, nint)
  | k + 1, i, nint, reg =>
    if nint > 0 then spi_sync_ext_bits base k (i + 1) (nint - 1) (reg ||| (1 <<< (base + i)))
    else (reg, nint)

/-- The part of `spi_sync_ext` below the comment `interrupt enable`, with
the content of `reg` and the world after the write of the pin mux register.
The second access to `WILC_INTR2_ENABLE` is a `spi_read_reg`, as in the
source. -/
def spi_sync_ext_intr (WILC_INTR_ENABLE WILC_INTR2_ENABLE : Nat) (g : wilc_spi σ)
    (nint : Int) (reg : Nat) (w : World σ) : Int × World σ :=
  let r := spi_read_reg g WILC_INTR_ENABLE reg w
  if r.1 = 0 then (0, r.2.2)
  else
    let l := spi_sync_ext_bits 27 5 0 nint r.2.1
    let wr := spi_write_reg g WILC_INTR_ENABLE l.1 r.2.2
    if wr.1 = 0 then (0, wr.2)
    else if l.2 ≠ 0 then
      let r2 := spi_read_reg g WILC_INTR2_ENABLE l.1 wr.2
      if r2.1 = 0 then (0, r2.2.2)
      else
        let l2 := spi_sync_ext_bits 0 3 0 l.2 r2.2.1
        let r3 := spi_read_reg g WILC_INTR2_ENABLE l2.1 r2.2.2
        if r3.1 = 0 then (0, r3.2.2) else (1, r3.2.2)
    else (1, wr.2)

/-- The part of `spi_sync_ext` after the first test of `ret`, with the
content of `reg` and the world after the read of the pin mux register:
`reg |= (1 << 8)`, the write of the register, and the interrupt enable
part. -/
def spi_sync_ext_mux (WILC_PIN_MUX_0 WILC_INTR_ENABLE WILC_INTR2_ENABLE : Nat) (g : wilc_spi σ)
    (nint : Int) (reg : Nat) (w : World σ) : Int × World σ :=
  let reg := reg ||| (1 <<< 8)
  let wr := spi_write_reg g WILC_PIN_MUX_0 reg w
  if wr.1 = 0 then (0, wr.2)
  else spi_sync_ext_intr WILC_INTR_ENABLE WILC_INTR2_ENABLE g nint reg wr.2

/-- The function `spi_sync_ext`. Returns the result, the session (of which
`nint` is stored) and the world. -/
def spi_sync_ext (MAX_NUM_INT : Int) (WILC_PIN_MUX_0 WILC_INTR_ENABLE WILC_INTR2_ENABLE : Nat)
    (g : wilc_spi σ) (nint : Int) (reg : Nat) (w : World σ) : Int × wilc_spi σ × World σ :=
  if nint > MAX_NUM_INT then (0, g, w)
  else
    let g := { g with nint := nint }
    let r := spi_read_reg g WILC_PIN_MUX_0 reg w
    if r.1 = 0 then (0, g, r.2.2)
    else
      let t := spi_sync_ext_mux WILC_PIN_MUX_0 WILC_INTR_ENABLE WILC_INTR2_ENABLE g nint
        r.2.1 r.2.2
      (t.1, g, t.2)

/-! ## Simulated peers of the scenarios -/

/-- The session of the peer of `compliant_trx` after the negotiation:
checksum off. -/
def compliant_bus : wilc_spi Unit := { init_session compliant_inp with crc_off := 1 }

/-- The combined exchange of a peer that is in checksum-off mode and stays
there: an exchange of the length the driver uses in checksum-off mode is
answered as by `compliant_trx`; any other exchange, which carries a checksum
byte, gets the echo and the error status `0x01`. -/
def checksum_off_only_trx (wb : List Nat) : Bool × List Nat × Unit :=
  let cmd := wb.getD 0 0
  let len :=
    if cmd = CMD_INTERNAL_READ ∨ cmd = CMD_SINGLE_READ then (if wb.length = 17 then 5 else 4)
    else wb.length - 5
  if wb.length = spi_cmd_complete_len2 1 cmd (peer_frame_len 1 cmd) then compliant_trx wb
  else (true, pad_to wb.length (List.replicate len 0 ++ [cmd, 0x01]), ())

/-- The input of `spi_init` for the peer of `checksum_off_only_trx`:
`io_init` succeeds, transmits and receives succeed. -/
def checksum_off_only_inp : wilc_wlan_inp Unit where
  io_init := some (fun _ => (true, ()))
  spi_tx := fun _ _ => (true, ())
  spi_rx := fun _ n => (true, List.replicate n 0, ())
  spi_trx := fun _ wb => checksum_off_only_trx wb

/-- The combined exchange of a peer that answers the first exchange it
sees, the probe, as `compliant_trx` does and from then on behaves as the
peer of `checksum_off_only_trx`. The peer state tells whether the first
exchange has been seen. -/
def probed_checksum_off_trx (probed : Bool) (wb : List Nat) : Bool × List Nat × Bool :=
  if probed then ((checksum_off_only_trx wb).1, (checksum_off_only_trx wb).2.1, true)
  else ((compliant_trx wb).1, (compliant_trx wb).2.1, true)

/-- The input of `spi_init` for the peer of `probed_checksum_off_trx`:
`io_init` succeeds, transmits and receives succeed. -/
def probed_checksum_off_inp : wilc_wlan_inp Bool where
  io_init := some (fun p => (true, p))
  spi_tx := fun p _ => (true, p)
  spi_rx := fun p n => (true, List.replicate n 0, p)
  spi_trx := probed_checksum_off_trx

/-- The world of the peer of `probed_checksum_off_trx` before any call. -/
def unprobed_world : World Bool := { peer := false, log := [] }

/-- The driver state before the first call of `spi_init`, over any peer. -/
def zero_driver : Driver σ := { g_spi := cleared_spi, isinit := 0 }

/-- The combined exchange of a peer that acknowledges every frame with the
echo and status `0x00` but sends the data header and the data only for the
opcodes in `with_data`: a read with another opcode finds no sentinel. -/
def headerless_trx (with_data : List Nat) (wb : List Nat) : Bool × List Nat × Unit :=
  let cmd := wb.getD 0 0
  let len :=
    if cmd = CMD_INTERNAL_READ ∨ cmd = CMD_SINGLE_READ then (if wb.length = 17 then 5 else 4)
    else wb.length - 5
  if cmd ∈ with_data then compliant_trx wb
  else (true, pad_to wb.length (List.replicate len 0 ++ [cmd, 0x00]), ())

/-- The input of `spi_init` for the peer of `headerless_trx`. -/
def headerless_inp (with_data : List Nat) : wilc_wlan_inp Unit where
  io_init := some (fun _ => (true, ()))
  spi_tx := fun _ _ => (true, ())
  spi_rx := fun _ n => (true, List.replicate n 0, ())
  spi_trx := fun _ wb => headerless_trx with_data wb

/-- The session of the peer of `headerless_trx` in checksum-off mode. -/
def headerless_bus (with_data : List Nat) : wilc_spi Unit :=
  { init_session (headerless_inp with_data) with crc_off := 1 }

end WilcSpi

namespace WilcSpi

variable {σ : Type}

/-! ## Lemmas: Crc7 -/

set_option maxRecDepth 100000 in
theorem crc7_syndrome_table_le : ∀ x ∈ crc7_syndrome_table, x ≤ 0x7f := by decide

set_option maxRecDepth 100000 in
theorem crc7_syndrome_table_length : crc7_syndrome_table.length = 256 := by decide

theorem crc7_byte_le (crc data : Nat) : crc7_byte crc data ≤ 0x7f := by
  unfold crc7_byte
  by_cases h : (crc <<< 1) ^^^ data < crc7_syndrome_table.length
  · rw [List.getD_eq_getElem _ _ h]
    exact crc7_syndrome_table_le _ (List.getElem_mem h)
  · rw [List.getD_eq_default _ _ (Nat.le_of_not_lt h)]
    exact Nat.zero_le _

theorem crc7_le (crc : Nat) (l : List Nat) (h : crc ≤ 0x7f) : crc7 crc l ≤ 0x7f := by
  induction l generalizing crc with
  | nil => simpa [crc7] using h
  | cons d rest ih => exact ih _ (crc7_byte_le crc d)

/-- The index used by `crc7_byte` is inside the table for a 7-bit state and
a byte of data. -/
theorem crc7_byte_index_lt (crc data : Nat) (hc : crc ≤ 0x7f) (hd : data < 256) :
    (crc <<< 1) ^^^ data < crc7_syndrome_table.length := by
  have h1 : crc <<< 1 < 2 ^ 8 := by
    rw [Nat.shiftLeft_eq]; omega
  have h2 : data < 2 ^ 8 := by omega
  rw [crc7_syndrome_table_length]
  exact Nat.xor_lt_two_pow h1 h2

/-- The trailing checksum byte `(uint8_t)(c << 1)` of a 7-bit `c`: shifted
back it is `c`, and its bit 0 is clear. -/
theorem crc_byte_shift (c : Nat) (h : c ≤ 0x7f) :
    u8 (c <<< 1) >>> 1 = c ∧ u8 (c <<< 1) % 2 = 0 := by
  unfold u8
  rw [Nat.shiftLeft_eq, Nat.shiftRight_eq_div_pow]
  omega

/-! ## Lemmas: the framers -/

theorem take_set_of_le (l : List Nat) (i n v : Nat) (h : n ≤ i) :
    (l.set i v).take n = l.take n := by
  apply List.ext_getElem?
  intro k
  rw [List.getElem?_take, List.getElem?_take]
  split
  · rw [List.getElem?_set_ne (by omega)]
  · rfl

theorem take_set_last (buf : List Nat) (n v : Nat) (h : n < buf.length) :
    (buf.set n v).take (n + 1) = buf.take n ++ [v] := by
  rw [List.take_succ, take_set_of_le _ _ _ _ (Nat.le_refl n)]
  simp [List.getElem?_set, h]

theorem crc_step_on (buf : List Nat) (len : Nat) (h1 : 1 ≤ len) (h2 : len ≤ buf.length) :
    (crc_step 0 buf len).2 = len ∧
    (crc_step 0 buf len).1.length = buf.length ∧
    (crc_step 0 buf len).1.take len
      = buf.take (len - 1) ++ [u8 (crc7 0x7f (buf.take (len - 1)) <<< 1)] := by
  obtain ⟨n, rfl⟩ : ∃ n, len = n + 1 := ⟨len - 1, by omega⟩
  simp only [crc_step, if_true, Nat.add_sub_cancel, List.length_set, true_and]
  exact take_set_last buf n _ (by omega)

theorem crc_step_off (crc_off : Int) (buf : List Nat) (len : Nat) (h : crc_off ≠ 0) :
    crc_step crc_off buf len = (buf, len - 1) := by
  simp [crc_step, h]

theorem spi_cmd_switch_some (cmd addr data sz clockless : Nat) (h : cmd ∈ opcodes) :
    ∃ bc len, spi_cmd_switch cmd addr data sz clockless = some (bc, len) ∧
      bc.length = 9 ∧ 5 ≤ len ∧ len ≤ 9 := by
  simp only [opcodes, List.mem_cons, List.mem_singleton, List.not_mem_nil, or_false] at h
  rcases h with rfl | rfl | rfl | rfl | rfl | rfl | rfl | rfl | rfl | rfl | rfl <;>
    simp [spi_cmd_switch, scratch, CMD_DMA_WRITE, CMD_DMA_READ, CMD_INTERNAL_WRITE,
      CMD_INTERNAL_READ, CMD_TERMINATE, CMD_REPEAT, CMD_DMA_EXT_WRITE, CMD_DMA_EXT_READ,
      CMD_SINGLE_WRITE, CMD_SINGLE_READ, CMD_RESET] <;>
    (try split) <;>
    exact ⟨_, _, ⟨rfl, rfl⟩, by simp, by omega, by omega⟩

theorem spi_cmd_complete_switch_some (cmd addr : Nat) (b : List Nat) (sz clockless : Nat)
    (h : cmd ∈ opcodes) :
    ∃ wb len, spi_cmd_complete_switch cmd addr b sz clockless = some (wb, len) ∧
      wb.length = 32 ∧ 5 ≤ len ∧ len ≤ 9 := by
  simp only [opcodes, List.mem_cons, List.mem_singleton, List.not_mem_nil, or_false] at h
  rcases h with rfl | rfl | rfl | rfl | rfl | rfl | rfl | rfl | rfl | rfl | rfl <;>
    simp [spi_cmd_complete_switch, scratch, CMD_DMA_WRITE, CMD_DMA_READ, CMD_INTERNAL_WRITE,
      CMD_INTERNAL_READ, CMD_TERMINATE, CMD_REPEAT, CMD_DMA_EXT_WRITE, CMD_DMA_EXT_READ,
      CMD_SINGLE_WRITE, CMD_SINGLE_READ, CMD_RESET] <;>
    (try split) <;>
    exact ⟨_, _, ⟨rfl, rfl⟩, by simp, by omega, by omega⟩

theorem zero_fill_length (wb : List Nat) (n wix : Nat) :
    (zero_fill wb n wix).length = wb.length := by
  induction n generalizing wb wix with
  | zero => rfl
  | succ n ih => simp [zero_fill, ih]

theorem zero_fill_take (wb : List Nat) (n wix k : Nat) (h : k ≤ wix) :
    (zero_fill wb n wix).take k = wb.take k := by
  induction n generalizing wb wix with
  | zero => rfl
  | succ n ih =>
    rw [zero_fill, ih _ _ (by omega), take_set_of_le _ _ _ _ h]

theorem zero_fill_getD (wb : List Nat) (n wix i : Nat) (h1 : wix ≤ i) (h2 : i < wix + n)
    (h3 : i < wb.length) : (zero_fill wb n wix).getD i 0 = 0 := by
  induction n generalizing wb wix with
  | zero => omega
  | succ n ih =>
    rw [zero_fill]
    by_cases hi : i = wix
    · subst hi
      have h4 : ((wb.set i 0).take (i + 1)).getD i 0 = 0 := by
        rw [take_set_last _ _ _ h3]
        simp [List.getD_eq_getElem?_getD, List.getElem?_append_right]
      rw [← zero_fill_take (wb.set i 0) n (i + 1) (i + 1) (Nat.le_refl _)] at h4
      simpa [List.getD_eq_getElem?_getD, List.getElem?_take] using h4
    · exact ih _ _ (by omega) (by omega) (by simpa using h3)

theorem spi_cmd_complete_len2_bounds (crc_off : Int) (cmd len : Nat) :
    len + 5 ≤ spi_cmd_complete_len2 crc_off cmd len ∧
    spi_cmd_complete_len2 crc_off cmd len ≤ len + 12 := by
  unfold spi_cmd_complete_len2 NUM_SKIP_BYTES NUM_RSP_BYTES NUM_DUMMY_BYTES NUM_DATA_HDR_BYTES
    NUM_DATA_BYTES NUM_CRC_BYTES
  split
  · omega
  · split
    · split <;> omega
    · omega

/-! ## Lemmas: the log only grows -/

theorem LogExt.refl (w : World σ) : LogExt w w := ⟨[], by simp⟩

theorem LogExt.trans {w0 w1 w2 : World σ} (h1 : LogExt w0 w1) (h2 : LogExt w1 w2) :
    LogExt w0 w2 := by
  obtain ⟨r1, e1⟩ := h1
  obtain ⟨r2, e2⟩ := h2
  exact ⟨r1 ++ r2, by rw [e2, e1, List.append_assoc]⟩

theorem call_rx_ext (g : wilc_spi σ) (n : Nat) (w : World σ) :
    LogExt w (call_rx g n w).2.2 := ⟨_, rfl⟩

theorem data_hdr_poll_ext (g : wilc_spi σ) (retry : Nat) (w : World σ) :
    LogExt w (data_hdr_poll g retry w).2.2 := by
  induction retry generalizing w with
  | zero =>
    unfold data_hdr_poll
    simp only []
    repeat' split
    all_goals exact call_rx_ext g 1 w
  | succ n ih =>
    unfold data_hdr_poll
    simp only []
    repeat' split
    all_goals first
      | exact call_rx_ext g 1 w
      | exact (call_rx_ext g 1 w).trans (ih _)

theorem spi_cmd_complete_dma_loop_ext (g : wilc_spi σ) (fuel : Nat) (b : List Nat)
    (ix sz : Nat) (w : World σ) :
    LogExt w (spi_cmd_complete_dma_loop g fuel b ix sz w).2.2 := by
  induction fuel generalizing b ix sz w with
  | zero => exact LogExt.refl w
  | succ n ih =>
    unfold spi_cmd_complete_dma_loop
    simp only []
    have hp := data_hdr_poll_ext g SPI_RESP_RETRY_COUNT w
    repeat' split
    all_goals first
      | exact LogExt.refl w
      | exact hp
      | exact hp.trans (call_rx_ext g _ _)
      | exact (hp.trans (call_rx_ext g _ _)).trans (call_rx_ext g 2 _)
      | exact (hp.trans (call_rx_ext g _ _)).trans (ih _ _ _ _)
      | exact ((hp.trans (call_rx_ext g _ _)).trans (call_rx_ext g 2 _)).trans (ih _ _ _ _)

theorem spi_cmd_complete_dma_ext (g : wilc_spi σ) (b : List Nat) (sz len2 : Nat)
    (rb : List Nat) (rix : Nat) (w : World σ) :
    LogExt w (spi_cmd_complete_dma g b sz len2 rb rix w).2.2 := by
  unfold spi_cmd_complete_dma
  simp only []
  repeat' split
  all_goals first
    | exact LogExt.refl w
    | exact call_rx_ext g _ _
    | exact (call_rx_ext g _ _).trans (call_rx_ext g 2 _)
    | exact (call_rx_ext g _ _).trans (spi_cmd_complete_dma_loop_ext g _ _ _ _ _)
    | exact ((call_rx_ext g _ _).trans (call_rx_ext g 2 _)).trans
        (spi_cmd_complete_dma_loop_ext g _ _ _ _ _)

theorem spi_cmd_complete_reg_world (g : wilc_spi σ) (b : List Nat) (len2 : Nat)
    (rb : List Nat) (rix : Nat) (w : World σ) :
    (spi_cmd_complete_reg g b len2 rb rix w).2.2 = w := by
  unfold spi_cmd_complete_reg
  simp only []
  repeat' split
  all_goals rfl

theorem spi_cmd_complete_read_ext (g : wilc_spi σ) (cmd : Nat) (b : List Nat) (sz len2 : Nat)
    (rb : List Nat) (rix : Nat) (w : World σ) :
    LogExt w (spi_cmd_complete_read g cmd b sz len2 rb rix w).2.2 := by
  unfold spi_cmd_complete_read
  simp only []
  split
  · exact LogExt.refl w
  · split
    · rw [spi_cmd_complete_reg_world]
      exact LogExt.refl w
    · exact spi_cmd_complete_dma_ext g _ _ _ _ _ _

theorem spi_cmd_complete_rsp_ext (g : wilc_spi σ) (cmd : Nat) (b : List Nat) (sz len2 : Nat)
    (rb : List Nat) (rix : Nat) (w : World σ) :
    LogExt w (spi_cmd_complete_rsp g cmd b sz len2 rb rix w).2.2 := by
  unfold spi_cmd_complete_rsp
  simp only []
  generalize (if cmd = CMD_RESET ∨ cmd = CMD_TERMINATE ∨ cmd = CMD_REPEAT then rix + 1
    else rix) = r0
  split
  · exact LogExt.refl w
  · split
    · exact LogExt.refl w
    · split
      · exact spi_cmd_complete_read_ext g _ _ _ _ _ _ _
      · exact LogExt.refl w

/-- For an opcode other than the two DMA reads the response part makes no
transport call. -/
theorem spi_cmd_complete_rsp_world (g : wilc_spi σ) (cmd : Nat) (b : List Nat)
    (sz len2 : Nat) (rb : List Nat) (rix : Nat) (w : World σ)
    (h1 : cmd ≠ CMD_DMA_READ) (h2 : cmd ≠ CMD_DMA_EXT_READ) :
    (spi_cmd_complete_rsp g cmd b sz len2 rb rix w).2.2 = w := by
  unfold spi_cmd_complete_rsp
  simp only []
  generalize (if cmd = CMD_RESET ∨ cmd = CMD_TERMINATE ∨ cmd = CMD_REPEAT then rix + 1
    else rix) = r0
  split
  · rfl
  · split
    · rfl
    · split
      · unfold spi_cmd_complete_read
        simp only []
        split
        · rfl
        · split
          · exact spi_cmd_complete_reg_world g _ _ _ _ _
          · exfalso; tauto
      · rfl

/-! ## Lemmas: the shape of a call -/

theorem spi_cmd_complete_eq (g : wilc_spi σ) (cmd addr : Nat) (b : List Nat)
    (sz clockless : Nat) (w : World σ) (wb : List Nat) (len : Nat)
    (hf : spi_cmd_complete_frame g.crc_off cmd addr b sz clockless = some (wb, len))
    (hlen : len ≤ 20) :
    spi_cmd_complete g cmd addr b sz clockless w =
      if !(call_trx g (sent_bytes wb len (spi_cmd_complete_len2 g.crc_off cmd len)) w).1 then
        (N_FAIL, b,
          (call_trx g (sent_bytes wb len (spi_cmd_complete_len2 g.crc_off cmd len)) w).2.2)
      else
        spi_cmd_complete_rsp g cmd b sz (spi_cmd_complete_len2 g.crc_off cmd len)
          (call_trx g (sent_bytes wb len (spi_cmd_complete_len2 g.crc_off cmd len)) w).2.1 len
          (call_trx g (sent_bytes wb len (spi_cmd_complete_len2 g.crc_off cmd len)) w).2.2 := by
  have h2 := (spi_cmd_complete_len2_bounds g.crc_off cmd len).2
  have h3 : ¬ spi_cmd_complete_len2 g.crc_off cmd len > 32 := by omega
  simp only [spi_cmd_complete, hf, h3, if_false, sent_bytes]

theorem sent_bytes_take (wb : List Nat) (len len2 : Nat) (h : len ≤ len2) :
    (sent_bytes wb len len2).take len = wb.take len := by
  unfold sent_bytes
  rw [List.take_take, Nat.min_eq_left h, zero_fill_take _ _ _ _ (Nat.le_refl _)]

/-- The first new entry of the log of `spi_cmd_complete` for a recognised
opcode is the combined exchange. -/
theorem spi_cmd_complete_log (g : wilc_spi σ) (cmd addr : Nat) (b : List Nat)
    (sz clockless : Nat) (w : World σ) (wb : List Nat) (len : Nat)
    (hf : spi_cmd_complete_frame g.crc_off cmd addr b sz clockless = some (wb, len))
    (hlen : len ≤ 20) :
    ∃ rest, (spi_cmd_complete g cmd addr b sz clockless w).2.2.log =
      w.log ++ Event.trx (sent_bytes wb len (spi_cmd_complete_len2 g.crc_off cmd len))
        (g.spi_trx w.peer (sent_bytes wb len (spi_cmd_complete_len2 g.crc_off cmd len))).1
        (g.spi_trx w.peer (sent_bytes wb len (spi_cmd_complete_len2 g.crc_off cmd len))).2.1
        :: rest := by
  rw [spi_cmd_complete_eq g cmd addr b sz clockless w wb len hf hlen]
  split
  · exact ⟨[], rfl⟩
  · obtain ⟨rest, hr⟩ := spi_cmd_complete_rsp_ext g cmd b sz
      (spi_cmd_complete_len2 g.crc_off cmd len)
      (call_trx g (sent_bytes wb len (spi_cmd_complete_len2 g.crc_off cmd len)) w).2.1 len
      (call_trx g (sent_bytes wb len (spi_cmd_complete_len2 g.crc_off cmd len)) w).2.2
    refine ⟨rest, ?_⟩
    rw [hr]
    simp [call_trx]

theorem spi_cmd_complete_frame_on (cmd addr : Nat) (b : List Nat) (sz clockless : Nat)
    (h : cmd ∈ opcodes) :
    ∃ wb0 wb len, spi_cmd_complete_switch cmd addr b sz clockless = some (wb0, len) ∧
      spi_cmd_complete_frame 0 cmd addr b sz clockless = some (wb, len) ∧
      5 ≤ len ∧ len ≤ 9 ∧ wb0.length = 32 ∧ wb.length = 32 ∧
      wb.take len = wb0.take (len - 1) ++ [u8 (crc7 0x7f (wb0.take (len - 1)) <<< 1)] := by
  obtain ⟨wb0, len, hs, hl, h5, h9⟩ := spi_cmd_complete_switch_some cmd addr b sz clockless h
  obtain ⟨e1, e2, e3⟩ := crc_step_on wb0 len (by omega) (by omega)
  refine ⟨wb0, (crc_step 0 wb0 len).1, len, hs, ?_, h5, h9, hl, by rw [e2, hl], e3⟩
  simp only [spi_cmd_complete_frame, hs]
  exact congrArg some (Prod.ext rfl e1)

theorem spi_cmd_complete_frame_off (crc_off : Int) (cmd addr : Nat) (b : List Nat)
    (sz clockless : Nat) (h : cmd ∈ opcodes) (hc : crc_off ≠ 0) :
    ∃ wb0 len, spi_cmd_complete_switch cmd addr b sz clockless = some (wb0, len) ∧
      spi_cmd_complete_frame crc_off cmd addr b sz clockless = some (wb0, len - 1) ∧
      5 ≤ len ∧ len ≤ 9 ∧ wb0.length = 32 := by
  obtain ⟨wb0, len, hs, hl, h5, h9⟩ := spi_cmd_complete_switch_some cmd addr b sz clockless h
  refine ⟨wb0, len, hs, ?_, h5, h9, hl⟩
  simp only [spi_cmd_complete_frame, hs, crc_step_off crc_off wb0 len hc]

theorem spi_cmd_frame_on (cmd addr data sz clockless : Nat) (h : cmd ∈ opcodes) :
    ∃ bc len, spi_cmd_switch cmd addr data sz clockless = some (bc, len) ∧
      5 ≤ len ∧ len ≤ 9 ∧ bc.length = 9 ∧
      spi_cmd_frame 0 cmd addr data sz clockless
        = some (bc.take (len - 1) ++ [u8 (crc7 0x7f (bc.take (len - 1)) <<< 1)]) := by
  obtain ⟨bc, len, hs, hl, h5, h9⟩ := spi_cmd_switch_some cmd addr data sz clockless h
  obtain ⟨e1, -, e3⟩ := crc_step_on bc len (by omega) (by omega)
  refine ⟨bc, len, hs, h5, h9, hl, ?_⟩
  simp only [spi_cmd_frame, hs, e1, e3]

theorem spi_cmd_frame_off (crc_off : Int) (cmd addr data sz clockless : Nat)
    (h : cmd ∈ opcodes) (hc : crc_off ≠ 0) :
    ∃ bc len, spi_cmd_switch cmd addr data sz clockless = some (bc, len) ∧
      5 ≤ len ∧ len ≤ 9 ∧ bc.length = 9 ∧
      spi_cmd_frame crc_off cmd addr data sz clockless = some (bc.take (len - 1)) := by
  obtain ⟨bc, len, hs, hl, h5, h9⟩ := spi_cmd_switch_some cmd addr data sz clockless h
  refine ⟨bc, len, hs, h5, h9, hl, ?_⟩
  simp only [spi_cmd_frame, hs, crc_step_off crc_off bc len hc]

/-- The log of `spi_cmd` when it frames `frame`: one transmit of it. -/
theorem spi_cmd_log (g : wilc_spi σ) (cmd addr data sz clockless : Nat) (w : World σ)
    (frame : List Nat)
    (hf : spi_cmd_frame g.crc_off cmd addr data sz clockless = some frame) :
    ∃ ok, (spi_cmd g cmd addr data sz clockless w).2.log = w.log ++ [Event.tx frame ok] := by
  simp only [spi_cmd, hf]
  split <;> exact ⟨_, rfl⟩

/-- A frame that ends in the shifted Crc7 of what precedes it. -/
theorem frame_tail_crc (f pre : List Nat) (n : Nat) (hn : pre.length = n)
    (hf : f.take (n + 1) = pre ++ [u8 (crc7 0x7f pre <<< 1)]) :
    crc7 0x7f (f.take n) = f.getD n 0 >>> 1 ∧ f.getD n 0 % 2 = 0 := by
  have h1 : f.take n = pre := by
    have := congrArg (List.take n) hf
    rw [List.take_take, Nat.min_eq_left (Nat.le_succ n)] at this
    rw [this, ← hn, List.take_left]
  have h2 : f.getD n 0 = u8 (crc7 0x7f pre <<< 1) := by
    have := congrArg (fun l => l.getD n 0) hf
    simp only [List.getD_eq_getElem?_getD, List.getElem?_take] at this
    simp only [List.getD_eq_getElem?_getD]
    rw [if_pos (Nat.lt_succ_self n)] at this
    rw [this, ← hn]
    simp
  rw [h1, h2]
  exact ⟨(crc_byte_shift _ (crc7_le _ _ (Nat.le_refl _))).1.symm,
    (crc_byte_shift _ (crc7_le _ _ (Nat.le_refl _))).2⟩

theorem zero_fill_eq (wb : List Nat) (n wix : Nat) (h : wix + n ≤ wb.length) :
    zero_fill wb n wix = wb.take wix ++ List.replicate n 0 ++ wb.drop (wix + n) := by
  induction n generalizing wb wix with
  | zero => simp [zero_fill]
  | succ n ih =>
    rw [zero_fill, ih _ _ (by simp; omega), take_set_last _ _ _ (by omega),
      List.drop_set_of_lt _ _ (by omega), List.replicate_succ]
    simp [Nat.add_assoc, Nat.add_comm 1 n]

/-- The bytes of the combined exchange are the frame followed by zeros. -/
theorem sent_bytes_eq (wb : List Nat) (len len2 : Nat) (h1 : len ≤ len2)
    (h2 : len2 ≤ wb.length) :
    sent_bytes wb len len2 = wb.take len ++ List.replicate (len2 - len) 0 := by
  unfold sent_bytes
  rw [zero_fill_eq _ _ _ (by omega)]
  apply List.take_left'
  simp
  omega

/-- The log of `spi_cmd_complete` for a recognised opcode, with the bytes of
the exchange written as frame and zero fill. -/
theorem spi_cmd_complete_log_frame (g : wilc_spi σ) (cmd addr : Nat) (b : List Nat)
    (sz clockless : Nat) (w : World σ) (wb : List Nat) (len : Nat)
    (hf : spi_cmd_complete_frame g.crc_off cmd addr b sz clockless = some (wb, len))
    (hlen : len ≤ 9) (hwb : wb.length = 32) :
    ∃ ok rb rest, (spi_cmd_complete g cmd addr b sz clockless w).2.2.log =
      w.log ++ Event.trx
        (wb.take len ++ List.replicate (spi_cmd_complete_len2 g.crc_off cmd len - len) 0)
        ok rb :: rest := by
  obtain ⟨rest, hr⟩ := spi_cmd_complete_log g cmd addr b sz clockless w wb len hf (by omega)
  have hb := spi_cmd_complete_len2_bounds g.crc_off cmd len
  rw [sent_bytes_eq wb len _ (by omega) (by omega)] at hr
  exact ⟨_, _, rest, hr⟩

theorem spi_cmd_switch_none (cmd addr data sz clockless : Nat) (h : cmd ∉ opcodes) :
    spi_cmd_switch cmd addr data sz clockless = none := by
  simp only [opcodes, List.mem_cons, List.mem_singleton, List.not_mem_nil, or_false,
    not_or] at h
  simp [spi_cmd_switch, h]

theorem spi_cmd_complete_switch_none (cmd addr : Nat) (b : List Nat) (sz clockless : Nat)
    (h : cmd ∉ opcodes) :
    spi_cmd_complete_switch cmd addr b sz clockless = none := by
  simp only [opcodes, List.mem_cons, List.mem_singleton, List.not_mem_nil, or_false,
    not_or] at h
  simp [spi_cmd_complete_switch, h]

/-! ## Theorems -/

/-- C1. For every recognised opcode and all arguments, in checksum mode
(`crc_off == 0`) the frame of length `len` that `spi_cmd` transmits, and the
frame `wb[0 .. len-1]` that `spi_cmd_complete` puts at the start of its
exchange, satisfy `crc7(0x7f, frame[0 .. len-2]) == frame[len-1] >> 1`, and
bit 0 of `frame[len-1]` is 0. -/
theorem command_frame_checksum (g : wilc_spi σ) (cmd addr data sz clockless : Nat)
    (b : List Nat) (w : World σ) (hcmd : cmd ∈ opcodes) (hcrc : g.crc_off = 0) :
    (∃ frame ok,
      (spi_cmd g cmd addr data sz clockless w).2.log = w.log ++ [Event.tx frame ok] ∧
      5 ≤ frame.length ∧
      crc7 0x7f (frame.take (frame.length - 1)) = frame.getD (frame.length - 1) 0 >>> 1 ∧
      frame.getD (frame.length - 1) 0 % 2 = 0) ∧
    (∃ wb len ok rb rest,
      spi_cmd_complete_frame g.crc_off cmd addr b sz clockless = some (wb, len) ∧
      (spi_cmd_complete g cmd addr b sz clockless w).2.2.log =
        w.log ++ Event.trx
          (wb.take len ++ List.replicate (spi_cmd_complete_len2 g.crc_off cmd len - len) 0)
          ok rb :: rest ∧
      5 ≤ len ∧ (wb.take len).length = len ∧
      crc7 0x7f ((wb.take len).take (len - 1)) = (wb.take len).getD (len - 1) 0 >>> 1 ∧
      (wb.take len).getD (len - 1) 0 % 2 = 0) := by
  constructor
  · obtain ⟨bc, len, -, h5, h9, hl, hf⟩ := spi_cmd_frame_on cmd addr data sz clockless hcmd
    rw [← hcrc] at hf
    obtain ⟨ok, hlog⟩ := spi_cmd_log g cmd addr data sz clockless w _ hf
    obtain ⟨n, rfl⟩ : ∃ n, len = n + 1 := ⟨len - 1, by omega⟩
    have hpre : (bc.take n).length = n := by simp; omega
    refine ⟨_, ok, hlog, ?_, ?_⟩
    · simp; omega
    · have hlen : (List.take (n + 1 - 1) bc ++
          [u8 (crc7 0x7f (List.take (n + 1 - 1) bc) <<< 1)]).length - 1 = n := by
        simp; omega
      rw [hlen]
      apply frame_tail_crc _ (bc.take n) n hpre
      simp
  · obtain ⟨wb0, wb, len, -, hf, h5, h9, hl, hwb, ht⟩ :=
      spi_cmd_complete_frame_on cmd addr b sz clockless hcmd
    rw [← hcrc] at hf
    obtain ⟨ok, rb, rest, hlog⟩ :=
      spi_cmd_complete_log_frame g cmd addr b sz clockless w wb len hf h9 hwb
    obtain ⟨n, rfl⟩ : ∃ n, len = n + 1 := ⟨len - 1, by omega⟩
    have hpre : (wb0.take n).length = n := by simp; omega
    refine ⟨wb, n + 1, ok, rb, rest, hf, hlog, h5, by simp; omega, ?_⟩
    apply frame_tail_crc _ (wb0.take n) n hpre
    rw [List.take_take, Nat.min_self]
    exact ht

theorem command_frame_checksum_witness :
    (CMD_SINGLE_WRITE ∈ opcodes ∧ (idle_bus 0).crc_off = 0) ∧
    ((∃ frame ok,
      (spi_cmd (idle_bus 0) CMD_SINGLE_WRITE 0x123456 0xa1b2c3d4 4 0 idle_world).2.log
        = idle_world.log ++ [Event.tx frame ok] ∧
      5 ≤ frame.length ∧
      crc7 0x7f (frame.take (frame.length - 1)) = frame.getD (frame.length - 1) 0 >>> 1 ∧
      frame.getD (frame.length - 1) 0 % 2 = 0) ∧
    (∃ wb len ok rb rest,
      spi_cmd_complete_frame (idle_bus 0).crc_off CMD_SINGLE_WRITE 0x123456
        [0xd4, 0xc3, 0xb2, 0xa1] 4 0 = some (wb, len) ∧
      (spi_cmd_complete (idle_bus 0) CMD_SINGLE_WRITE 0x123456 [0xd4, 0xc3, 0xb2, 0xa1] 4 0
          idle_world).2.2.log =
        idle_world.log ++ Event.trx
          (wb.take len ++ List.replicate
            (spi_cmd_complete_len2 (idle_bus 0).crc_off CMD_SINGLE_WRITE len - len) 0)
          ok rb :: rest ∧
      5 ≤ len ∧ (wb.take len).length = len ∧
      crc7 0x7f ((wb.take len).take (len - 1)) = (wb.take len).getD (len - 1) 0 >>> 1 ∧
      (wb.take len).getD (len - 1) 0 % 2 = 0)) :=
  ⟨⟨by decide, rfl⟩,
    command_frame_checksum (idle_bus 0) CMD_SINGLE_WRITE 0x123456 0xa1b2c3d4 4 0
      [0xd4, 0xc3, 0xb2, 0xa1] idle_world (by decide) rfl⟩

/-- C3. For every recognised opcode and all arguments, the frame transmitted
with checksum disabled (`crc_off != 0`) is the checksum-enabled frame
without its final byte: the lengths differ by exactly one and the preceding
bytes are identical. This holds for the frame `spi_cmd` transmits and for
the frame at the start of the exchange of `spi_cmd_complete`. -/
theorem checksum_off_frame_drops_last (g1 g2 : wilc_spi σ)
    (cmd addr data sz clockless : Nat) (b : List Nat) (w1 w2 : World σ)
    (hcmd : cmd ∈ opcodes) (h1 : g1.crc_off = 0) (h2 : g2.crc_off ≠ 0) :
    (∃ f1 f2 ok1 ok2,
      (spi_cmd g1 cmd addr data sz clockless w1).2.log = w1.log ++ [Event.tx f1 ok1] ∧
      (spi_cmd g2 cmd addr data sz clockless w2).2.log = w2.log ++ [Event.tx f2 ok2] ∧
      f1.length = f2.length + 1 ∧ f2 = f1.take f2.length) ∧
    (∃ f1 f2 k1 k2 ok1 ok2 rb1 rb2 rest1 rest2,
      (spi_cmd_complete g1 cmd addr b sz clockless w1).2.2.log =
        w1.log ++ Event.trx (f1 ++ List.replicate k1 0) ok1 rb1 :: rest1 ∧
      (spi_cmd_complete g2 cmd addr b sz clockless w2).2.2.log =
        w2.log ++ Event.trx (f2 ++ List.replicate k2 0) ok2 rb2 :: rest2 ∧
      (∃ wb, spi_cmd_complete_frame g1.crc_off cmd addr b sz clockless = some (wb, f1.length)
        ∧ f1 = wb.take f1.length) ∧
      (∃ wb, spi_cmd_complete_frame g2.crc_off cmd addr b sz clockless = some (wb, f2.length)
        ∧ f2 = wb.take f2.length) ∧
      f1.length = f2.length + 1 ∧ f2 = f1.take f2.length) := by
  constructor
  · obtain ⟨bc, len, hs, h5, h9, hl, hf1⟩ := spi_cmd_frame_on cmd addr data sz clockless hcmd
    obtain ⟨bc', len', hs', -, -, -, hf2⟩ :=
      spi_cmd_frame_off g2.crc_off cmd addr data sz clockless hcmd h2
    rw [hs] at hs'
    obtain ⟨rfl, rfl⟩ : bc = bc' ∧ len = len' := by simpa using hs'
    rw [← h1] at hf1
    obtain ⟨ok1, hlog1⟩ := spi_cmd_log g1 cmd addr data sz clockless w1 _ hf1
    obtain ⟨ok2, hlog2⟩ := spi_cmd_log g2 cmd addr data sz clockless w2 _ hf2
    refine ⟨_, _, ok1, ok2, hlog1, hlog2, by simp, ?_⟩
    rw [List.take_left]
  · obtain ⟨wb0, wb, len, hs, hf1, h5, h9, hl, hwb, ht⟩ :=
      spi_cmd_complete_frame_on cmd addr b sz clockless hcmd
    obtain ⟨wb0', len', hs', hf2, -, -, -⟩ :=
      spi_cmd_complete_frame_off g2.crc_off cmd addr b sz clockless hcmd h2
    rw [hs] at hs'
    obtain ⟨rfl, rfl⟩ : wb0 = wb0' ∧ len = len' := by simpa using hs'
    rw [← h1] at hf1
    obtain ⟨ok1, rb1, rest1, hlog1⟩ :=
      spi_cmd_complete_log_frame g1 cmd addr b sz clockless w1 wb len hf1 h9 hwb
    obtain ⟨ok2, rb2, rest2, hlog2⟩ :=
      spi_cmd_complete_log_frame g2 cmd addr b sz clockless w2 wb0 (len - 1) hf2
        (by omega) hl
    have e1 : (wb.take len).length = len := by simp; omega
    have e2 : (wb0.take (len - 1)).length = len - 1 := by simp; omega
    refine ⟨wb.take len, wb0.take (len - 1), _, _, ok1, ok2, rb1, rb2, rest1, rest2,
      hlog1, hlog2, ⟨wb, by rw [e1]; exact ⟨hf1, rfl⟩⟩, ⟨wb0, by rw [e2]; exact ⟨hf2, rfl⟩⟩,
      by rw [e1, e2]; omega, ?_⟩
    rw [e2, ht]
    exact (List.take_left' e2).symm

theorem checksum_off_frame_drops_last_witness :
    (CMD_DMA_EXT_READ ∈ opcodes ∧ (idle_bus 0).crc_off = 0 ∧ (idle_bus 1).crc_off ≠ 0) ∧
    ((∃ f1 f2 ok1 ok2,
      (spi_cmd (idle_bus 0) CMD_DMA_EXT_READ 0x123456 0 100 0 idle_world).2.log
        = idle_world.log ++ [Event.tx f1 ok1] ∧
      (spi_cmd (idle_bus 1) CMD_DMA_EXT_READ 0x123456 0 100 0 idle_world).2.log
        = idle_world.log ++ [Event.tx f2 ok2] ∧
      f1.length = f2.length + 1 ∧ f2 = f1.take f2.length) ∧
    (∃ f1 f2 k1 k2 ok1 ok2 rb1 rb2 rest1 rest2,
      (spi_cmd_complete (idle_bus 0) CMD_DMA_EXT_READ 0x123456 [] 100 0 idle_world).2.2.log =
        idle_world.log ++ Event.trx (f1 ++ List.replicate k1 0) ok1 rb1 :: rest1 ∧
      (spi_cmd_complete (idle_bus 1) CMD_DMA_EXT_READ 0x123456 [] 100 0 idle_world).2.2.log =
        idle_world.log ++ Event.trx (f2 ++ List.replicate k2 0) ok2 rb2 :: rest2 ∧
      (∃ wb, spi_cmd_complete_frame (idle_bus 0).crc_off CMD_DMA_EXT_READ 0x123456 [] 100 0
          = some (wb, f1.length) ∧ f1 = wb.take f1.length) ∧
      (∃ wb, spi_cmd_complete_frame (idle_bus 1).crc_off CMD_DMA_EXT_READ 0x123456 [] 100 0
          = some (wb, f2.length) ∧ f2 = wb.take f2.length) ∧
      f1.length = f2.length + 1 ∧ f2 = f1.take f2.length)) :=
  ⟨⟨by decide, rfl, by decide⟩,
    checksum_off_frame_drops_last (idle_bus 0) (idle_bus 1) CMD_DMA_EXT_READ 0x123456 0 100 0
      [] idle_world idle_world (by decide) rfl (by decide)⟩

/-- C4. For every opcode that is not one of the eleven defined ones,
`spi_cmd` and `spi_cmd_complete` return `N_FAIL` and leave the world as it
was (no call of `spi_tx`, `spi_rx` or `spi_trx` is logged, the peer is
untouched) and `spi_cmd_complete` leaves the caller's buffer as it was. -/
theorem unrecognised_opcode_fails (g : wilc_spi σ) (cmd addr data sz clockless : Nat)
    (b : List Nat) (w : World σ) (hcmd : cmd ∉ opcodes) :
    spi_cmd g cmd addr data sz clockless w = (N_FAIL, w) ∧
    spi_cmd_complete g cmd addr b sz clockless w = (N_FAIL, b, w) := by
  constructor
  · simp [spi_cmd, spi_cmd_frame, spi_cmd_switch_none cmd addr data sz clockless hcmd]
  · simp [spi_cmd_complete, spi_cmd_complete_frame,
      spi_cmd_complete_switch_none cmd addr b sz clockless hcmd]

theorem unrecognised_opcode_fails_witness :
    0xcb ∉ opcodes ∧
    spi_cmd (idle_bus 0) 0xcb 0x10 7 4 1 idle_world = (N_FAIL, idle_world) ∧
    spi_cmd_complete (idle_bus 0) 0xcb 0x10 [1, 2, 3, 4] 4 1 idle_world
      = (N_FAIL, [1, 2, 3, 4], idle_world) :=
  ⟨by decide, unrecognised_opcode_fails (idle_bus 0) 0xcb 0x10 7 4 1 [1, 2, 3, 4] idle_world
    (by decide)⟩

theorem or_bit7_mod (a : Nat) : (a % 256 ||| 128) % 256 = a % 256 ||| 128 := by
  apply Nat.mod_eq_of_lt
  have h1 : a % 256 < 2 ^ 8 := by omega
  have h2 : 128 < 2 ^ 8 := by decide
  exact Nat.or_lt_two_pow h1 h2

theorem spi_cmd_frame_reference (cmd addr data sz clockless : Nat) (hcmd : cmd ∈ opcodes)
    (hcl : clockless ≤ 1) :
    spi_cmd_frame 0 cmd addr data sz clockless
      = some (reference_frame cmd addr data sz (clockless == 1)) := by
  simp only [opcodes, List.mem_cons, List.mem_singleton, List.not_mem_nil, or_false] at hcmd
  obtain rfl | rfl : clockless = 0 ∨ clockless = 1 := by omega
  all_goals
    rcases hcmd with rfl | rfl | rfl | rfl | rfl | rfl | rfl | rfl | rfl | rfl | rfl <;>
    simp [spi_cmd_frame, spi_cmd_switch, crc_step, scratch, reference_frame,
      reference_fields, u8, CMD_DMA_WRITE, CMD_DMA_READ, CMD_INTERNAL_WRITE,
      CMD_INTERNAL_READ, CMD_TERMINATE, CMD_REPEAT, CMD_DMA_EXT_WRITE, CMD_DMA_EXT_READ,
      CMD_SINGLE_WRITE, CMD_SINGLE_READ, CMD_RESET, Nat.shiftRight_eq_div_pow,
      Nat.shiftLeft_eq, or_bit7_mod]

theorem spi_cmd_complete_frame_reference (cmd addr data sz clockless : Nat)
    (hcmd : cmd ∈ opcodes) (hcl : clockless ≤ 1) :
    ∃ wb len, spi_cmd_complete_frame 0 cmd addr (word_bytes data) sz clockless = some (wb, len)
      ∧ wb.length = 32 ∧ len ≤ 9
      ∧ wb.take len = reference_frame cmd addr data sz (clockless == 1) := by
  simp only [opcodes, List.mem_cons, List.mem_singleton, List.not_mem_nil, or_false] at hcmd
  obtain rfl | rfl : clockless = 0 ∨ clockless = 1 := by omega
  all_goals
    rcases hcmd with rfl | rfl | rfl | rfl | rfl | rfl | rfl | rfl | rfl | rfl | rfl <;>
    simp [spi_cmd_complete_frame, spi_cmd_complete_switch, crc_step, scratch, reference_frame,
      reference_fields, u8, word_bytes, CMD_DMA_WRITE, CMD_DMA_READ, CMD_INTERNAL_WRITE,
      CMD_INTERNAL_READ, CMD_TERMINATE, CMD_REPEAT, CMD_DMA_EXT_WRITE, CMD_DMA_EXT_READ,
      CMD_SINGLE_WRITE, CMD_SINGLE_READ, CMD_RESET, Nat.shiftRight_eq_div_pow,
      Nat.shiftLeft_eq, or_bit7_mod] <;>
    exact ⟨_, _, ⟨rfl, rfl⟩, rfl, by omega, rfl⟩

theorem reference_frame_length (cmd addr data sz : Nat) (cl : Bool) (hcmd : cmd ∈ opcodes) :
    (reference_frame cmd addr data sz cl).length = reference_length cmd := by
  simp only [opcodes, List.mem_cons, List.mem_singleton, List.not_mem_nil, or_false] at hcmd
  rcases hcmd with rfl | rfl | rfl | rfl | rfl | rfl | rfl | rfl | rfl | rfl | rfl <;>
    simp [reference_frame, reference_fields, reference_length, CMD_DMA_WRITE, CMD_DMA_READ,
      CMD_INTERNAL_WRITE, CMD_INTERNAL_READ, CMD_TERMINATE, CMD_REPEAT, CMD_DMA_EXT_WRITE,
      CMD_DMA_EXT_READ, CMD_SINGLE_WRITE, CMD_SINGLE_READ, CMD_RESET]

theorem reference_fields_addr (cmd addr data sz : Nat) (cl : Bool) :
    reference_fields cmd (addr % 2 ^ 24) data sz cl = reference_fields cmd addr data sz cl := by
  have h2 : addr % 2 ^ 24 / 2 ^ 16 % 256 = addr / 2 ^ 16 % 256 := by omega
  have h1 : addr % 2 ^ 24 / 2 ^ 8 % 256 = addr / 2 ^ 8 % 256 := by omega
  have h0 : addr % 2 ^ 24 % 256 = addr % 256 := by omega
  simp only [reference_fields, h0, h1, h2]

theorem reference_fields_size (cmd addr data sz : Nat) (cl : Bool) :
    (cmd = CMD_DMA_WRITE ∨ cmd = CMD_DMA_READ →
      reference_fields cmd addr data (sz % 2 ^ 16) cl = reference_fields cmd addr data sz cl) ∧
    reference_fields cmd addr data (sz % 2 ^ 24) cl = reference_fields cmd addr data sz cl := by
  have h2 : sz % 2 ^ 24 / 2 ^ 16 % 256 = sz / 2 ^ 16 % 256 := by omega
  have h1 : sz % 2 ^ 24 / 2 ^ 8 % 256 = sz / 2 ^ 8 % 256 := by omega
  have h0 : sz % 2 ^ 24 % 256 = sz % 256 := by omega
  have k1 : sz % 2 ^ 16 / 2 ^ 8 % 256 = sz / 2 ^ 8 % 256 := by omega
  have k0 : sz % 2 ^ 16 % 256 = sz % 256 := by omega
  constructor
  · rintro (rfl | rfl) <;>
      simp [reference_fields, CMD_DMA_WRITE, CMD_DMA_READ] <;> omega
  · simp only [reference_fields, h0, h1, h2]

/-- C2. With checksum enabled and a clockless flag in {0, 1}, the frame
that `spi_cmd` transmits, and the frame at the start of the exchange of
`spi_cmd_complete` (called with the byte view of the data word), equal the
reference layout for each of the eleven opcodes: opcode byte, the fields of
the table, the checksum byte; the length is 5, 7, 8 or 9 as in the table;
address bits above bit 23 are dropped, as are size bits above bit 15 for
DMA read/write and above bit 23 for the extended DMA read/write. -/
theorem frame_matches_reference_layout (g : wilc_spi σ) (cmd addr data sz clockless : Nat)
    (w : World σ) (hcmd : cmd ∈ opcodes) (hcrc : g.crc_off = 0) (hcl : clockless ≤ 1) :
    (∃ ok, (spi_cmd g cmd addr data sz clockless w).2.log =
      w.log ++ [Event.tx (reference_frame cmd addr data sz (clockless == 1)) ok]) ∧
    (∃ wb len, spi_cmd_complete_frame g.crc_off cmd addr (word_bytes data) sz clockless
        = some (wb, len) ∧
      wb.take len = reference_frame cmd addr data sz (clockless == 1) ∧
      ∃ ok rb rest, (spi_cmd_complete g cmd addr (word_bytes data) sz clockless w).2.2.log =
        w.log ++ Event.trx (reference_frame cmd addr data sz (clockless == 1) ++
          List.replicate (spi_cmd_complete_len2 g.crc_off cmd len - len) 0) ok rb :: rest) ∧
    (reference_frame cmd addr data sz (clockless == 1)).length = reference_length cmd ∧
    reference_frame cmd (addr % 2 ^ 24) data sz (clockless == 1)
      = reference_frame cmd addr data sz (clockless == 1) ∧
    (cmd = CMD_DMA_WRITE ∨ cmd = CMD_DMA_READ →
      reference_frame cmd addr data (sz % 2 ^ 16) (clockless == 1)
        = reference_frame cmd addr data sz (clockless == 1)) ∧
    (cmd = CMD_DMA_EXT_WRITE ∨ cmd = CMD_DMA_EXT_READ →
      reference_frame cmd addr data (sz % 2 ^ 24) (clockless == 1)
        = reference_frame cmd addr data sz (clockless == 1)) := by
  refine ⟨?_, ?_, reference_frame_length cmd addr data sz _ hcmd, ?_, ?_, ?_⟩
  · have hf := spi_cmd_frame_reference cmd addr data sz clockless hcmd hcl
    rw [← hcrc] at hf
    exact spi_cmd_log g cmd addr data sz clockless w _ hf
  · obtain ⟨wb, len, hf, hwb, h9, ht⟩ :=
      spi_cmd_complete_frame_reference cmd addr data sz clockless hcmd hcl
    rw [← hcrc] at hf
    refine ⟨wb, len, hf, ht, ?_⟩
    rw [← ht]
    exact spi_cmd_complete_log_frame g cmd addr (word_bytes data) sz clockless w wb len hf h9 hwb
  · simp only [reference_frame, reference_fields_addr]
  · intro h
    simp only [reference_frame, (reference_fields_size cmd addr data sz _).1 h]
  · intro _
    simp only [reference_frame, (reference_fields_size cmd addr data sz _).2]

theorem frame_matches_reference_layout_witness :
    (CMD_INTERNAL_WRITE ∈ opcodes ∧ (idle_bus 0).crc_off = 0 ∧ 1 ≤ 1) ∧
    ((∃ ok, (spi_cmd (idle_bus 0) CMD_INTERNAL_WRITE 0x1234 0xa1b2c3d4 4 1 idle_world).2.log =
      idle_world.log ++
        [Event.tx (reference_frame CMD_INTERNAL_WRITE 0x1234 0xa1b2c3d4 4 (1 == 1)) ok]) ∧
    (∃ wb len, spi_cmd_complete_frame (idle_bus 0).crc_off CMD_INTERNAL_WRITE 0x1234
        (word_bytes 0xa1b2c3d4) 4 1 = some (wb, len) ∧
      wb.take len = reference_frame CMD_INTERNAL_WRITE 0x1234 0xa1b2c3d4 4 (1 == 1) ∧
      ∃ ok rb rest, (spi_cmd_complete (idle_bus 0) CMD_INTERNAL_WRITE 0x1234
          (word_bytes 0xa1b2c3d4) 4 1 idle_world).2.2.log =
        idle_world.log ++
          Event.trx (reference_frame CMD_INTERNAL_WRITE 0x1234 0xa1b2c3d4 4 (1 == 1) ++
            List.replicate
              (spi_cmd_complete_len2 (idle_bus 0).crc_off CMD_INTERNAL_WRITE len - len) 0)
            ok rb :: rest) ∧
    (reference_frame CMD_INTERNAL_WRITE 0x1234 0xa1b2c3d4 4 (1 == 1)).length
      = reference_length CMD_INTERNAL_WRITE ∧
    reference_frame CMD_INTERNAL_WRITE (0x1234 % 2 ^ 24) 0xa1b2c3d4 4 (1 == 1)
      = reference_frame CMD_INTERNAL_WRITE 0x1234 0xa1b2c3d4 4 (1 == 1) ∧
    (CMD_INTERNAL_WRITE = CMD_DMA_WRITE ∨ CMD_INTERNAL_WRITE = CMD_DMA_READ →
      reference_frame CMD_INTERNAL_WRITE 0x1234 0xa1b2c3d4 (4 % 2 ^ 16) (1 == 1)
        = reference_frame CMD_INTERNAL_WRITE 0x1234 0xa1b2c3d4 4 (1 == 1)) ∧
    (CMD_INTERNAL_WRITE = CMD_DMA_EXT_WRITE ∨ CMD_INTERNAL_WRITE = CMD_DMA_EXT_READ →
      reference_frame CMD_INTERNAL_WRITE 0x1234 0xa1b2c3d4 (4 % 2 ^ 24) (1 == 1)
        = reference_frame CMD_INTERNAL_WRITE 0x1234 0xa1b2c3d4 4 (1 == 1))) :=
  ⟨⟨by decide, rfl, by decide⟩,
    frame_matches_reference_layout (idle_bus 0) CMD_INTERNAL_WRITE 0x1234 0xa1b2c3d4 4 1
      idle_world (by decide) rfl (by decide)⟩

/-! ## Lemmas: register operations -/

/-- For a recognised opcode other than the two DMA reads, a call of
`spi_cmd_complete` is one combined exchange and nothing else. -/
theorem spi_cmd_complete_world (g : wilc_spi σ) (cmd addr : Nat) (b : List Nat)
    (sz clockless : Nat) (w : World σ) (wb : List Nat) (len : Nat)
    (hf : spi_cmd_complete_frame g.crc_off cmd addr b sz clockless = some (wb, len))
    (hlen : len ≤ 20) (h1 : cmd ≠ CMD_DMA_READ) (h2 : cmd ≠ CMD_DMA_EXT_READ) :
    (spi_cmd_complete g cmd addr b sz clockless w).2.2 =
      (call_trx g (sent_bytes wb len (spi_cmd_complete_len2 g.crc_off cmd len)) w).2.2 := by
  rw [spi_cmd_complete_eq g cmd addr b sz clockless w wb len hf hlen]
  split
  · rfl
  · exact spi_cmd_complete_rsp_world g cmd b sz _ _ _ _ h1 h2

/-- The frame of `spi_cmd_complete` in either checksum mode starts with the
bytes stored by the `switch`. -/
theorem spi_cmd_complete_frame_head (crc_off : Int) (cmd addr : Nat) (b : List Nat)
    (sz clockless : Nat) (hcmd : cmd ∈ opcodes) :
    ∃ wb0 len0 wb len tail,
      spi_cmd_complete_switch cmd addr b sz clockless = some (wb0, len0) ∧
      spi_cmd_complete_frame crc_off cmd addr b sz clockless = some (wb, len) ∧
      len ≤ 9 ∧ len0 - 1 ≤ len ∧ len ≤ len0 ∧
      sent_bytes wb len (spi_cmd_complete_len2 crc_off cmd len) = wb0.take (len0 - 1) ++ tail := by
  by_cases hc : crc_off = 0
  · subst hc
    obtain ⟨wb0, wb, len, hs, hf, h5, h9, hl, hwb, ht⟩ :=
      spi_cmd_complete_frame_on cmd addr b sz clockless hcmd
    have hb := spi_cmd_complete_len2_bounds 0 cmd len
    refine ⟨wb0, len, wb, len,
      [u8 (crc7 0x7f (wb0.take (len - 1)) <<< 1)] ++
        List.replicate (spi_cmd_complete_len2 0 cmd len - len) 0,
      hs, hf, h9, by omega, by omega, ?_⟩
    rw [sent_bytes_eq wb len _ (by omega) (by omega), ht, List.append_assoc]
  · obtain ⟨wb0, len, hs, hf, h5, h9, hl⟩ :=
      spi_cmd_complete_frame_off crc_off cmd addr b sz clockless hcmd hc
    have hb := spi_cmd_complete_len2_bounds crc_off cmd (len - 1)
    refine ⟨wb0, len, wb0, len - 1,
      List.replicate (spi_cmd_complete_len2 crc_off cmd (len - 1) - (len - 1)) 0,
      hs, hf, by omega, by omega, by omega, ?_⟩
    rw [sent_bytes_eq wb0 (len - 1) _ (by omega) (by omega)]

theorem spi_reset_log (g : wilc_spi σ) (w : World σ) :
    ∃ e, (spi_reset g w).2.log = w.log ++ [e] ∧ reset_request e := by
  obtain ⟨wb0, len0, wb, len, tail, hs, hf, h9, -, -, ht⟩ :=
    spi_cmd_complete_frame_head g.crc_off CMD_RESET 0 [] 0 0 (by decide)
  have hw := spi_cmd_complete_world g CMD_RESET 0 [] 0 0 w wb len hf (by omega)
    (by decide) (by decide)
  have hlog : (spi_reset g w).2.log = (spi_cmd_complete g CMD_RESET 0 [] 0 0 w).2.2.log := by
    unfold spi_reset
    simp only []
    split <;> rfl
  rw [hlog, hw, ht]
  refine ⟨_, rfl, _, _, _, rfl, ?_⟩
  simp [spi_cmd_complete_switch, scratch, CMD_DMA_WRITE, CMD_DMA_READ, CMD_INTERNAL_WRITE,
      CMD_INTERNAL_READ, CMD_TERMINATE, CMD_REPEAT, CMD_DMA_EXT_WRITE, CMD_DMA_EXT_READ,
      CMD_SINGLE_WRITE, CMD_SINGLE_READ, CMD_RESET] at hs
  obtain ⟨rfl, rfl⟩ := hs
  simp [CMD_RESET]

theorem read_attempt_log (g : wilc_spi σ) (A : Nat) (b : List Nat) (w : World σ) :
    ∃ e, (spi_cmd_complete g (if A ≤ 0x30 then CMD_INTERNAL_READ else CMD_SINGLE_READ) A b 4
        (if A ≤ 0x30 then 1 else 0) w).2.2.log = w.log ++ [e] ∧
      reg_request CMD_INTERNAL_READ CMD_SINGLE_READ A e := by
  by_cases hA : A ≤ 0x30
  · simp only [hA, if_true]
    obtain ⟨wb0, len0, wb, len, tail, hs, hf, h9, -, -, ht⟩ :=
      spi_cmd_complete_frame_head g.crc_off CMD_INTERNAL_READ A b 4 1 (by decide)
    rw [spi_cmd_complete_world g CMD_INTERNAL_READ A b 4 1 w wb len hf (by omega)
      (by decide) (by decide), ht]
    refine ⟨_, rfl, _, _, _, rfl, ?_⟩
    simp [spi_cmd_complete_switch, scratch, CMD_DMA_WRITE, CMD_DMA_READ, CMD_INTERNAL_WRITE,
      CMD_INTERNAL_READ, CMD_TERMINATE, CMD_REPEAT, CMD_DMA_EXT_WRITE, CMD_DMA_EXT_READ,
      CMD_SINGLE_WRITE, CMD_SINGLE_READ, CMD_RESET] at hs
    obtain ⟨rfl, rfl⟩ := hs
    have h0 : A >>> 8 = 0 := by rw [Nat.shiftRight_eq_div_pow]; omega
    simp [CMD_INTERNAL_READ, CMD_SINGLE_READ, h0, u8, hA]
    decide
  · simp only [hA, if_false]
    obtain ⟨wb0, len0, wb, len, tail, hs, hf, h9, -, -, ht⟩ :=
      spi_cmd_complete_frame_head g.crc_off CMD_SINGLE_READ A b 4 0 (by decide)
    rw [spi_cmd_complete_world g CMD_SINGLE_READ A b 4 0 w wb len hf (by omega)
      (by decide) (by decide), ht]
    refine ⟨_, rfl, _, _, _, rfl, ?_⟩
    simp [spi_cmd_complete_switch, scratch, CMD_DMA_WRITE, CMD_DMA_READ, CMD_INTERNAL_WRITE,
      CMD_INTERNAL_READ, CMD_TERMINATE, CMD_REPEAT, CMD_DMA_EXT_WRITE, CMD_DMA_EXT_READ,
      CMD_SINGLE_WRITE, CMD_SINGLE_READ, CMD_RESET] at hs
    obtain ⟨rfl, rfl⟩ := hs
    simp [CMD_INTERNAL_READ, CMD_SINGLE_READ, u8, hA, Nat.shiftRight_eq_div_pow]
    omega

theorem write_attempt_log (g : wilc_spi σ) (A : Nat) (b : List Nat) (w : World σ) :
    ∃ e, (spi_cmd_complete g (if A ≤ 0x30 then CMD_INTERNAL_WRITE else CMD_SINGLE_WRITE) A b 4
        (if A ≤ 0x30 then 1 else 0) w).2.2.log = w.log ++ [e] ∧
      reg_request CMD_INTERNAL_WRITE CMD_SINGLE_WRITE A e := by
  by_cases hA : A ≤ 0x30
  · simp only [hA, if_true]
    obtain ⟨wb0, len0, wb, len, tail, hs, hf, h9, -, -, ht⟩ :=
      spi_cmd_complete_frame_head g.crc_off CMD_INTERNAL_WRITE A b 4 1 (by decide)
    rw [spi_cmd_complete_world g CMD_INTERNAL_WRITE A b 4 1 w wb len hf (by omega)
      (by decide) (by decide), ht]
    refine ⟨_, rfl, _, _, _, rfl, ?_⟩
    simp [spi_cmd_complete_switch, scratch, CMD_DMA_WRITE, CMD_DMA_READ, CMD_INTERNAL_WRITE,
      CMD_INTERNAL_READ, CMD_TERMINATE, CMD_REPEAT, CMD_DMA_EXT_WRITE, CMD_DMA_EXT_READ,
      CMD_SINGLE_WRITE, CMD_SINGLE_READ, CMD_RESET] at hs
    obtain ⟨rfl, rfl⟩ := hs
    have h0 : A >>> 8 = 0 := by rw [Nat.shiftRight_eq_div_pow]; omega
    simp [CMD_INTERNAL_WRITE, CMD_SINGLE_WRITE, h0, u8, hA]
    decide
  · simp only [hA, if_false]
    obtain ⟨wb0, len0, wb, len, tail, hs, hf, h9, -, -, ht⟩ :=
      spi_cmd_complete_frame_head g.crc_off CMD_SINGLE_WRITE A b 4 0 (by decide)
    rw [spi_cmd_complete_world g CMD_SINGLE_WRITE A b 4 0 w wb len hf (by omega)
      (by decide) (by decide), ht]
    refine ⟨_, rfl, _, _, _, rfl, ?_⟩
    simp [spi_cmd_complete_switch, scratch, CMD_DMA_WRITE, CMD_DMA_READ, CMD_INTERNAL_WRITE,
      CMD_INTERNAL_READ, CMD_TERMINATE, CMD_REPEAT, CMD_DMA_EXT_WRITE, CMD_DMA_EXT_READ,
      CMD_SINGLE_WRITE, CMD_SINGLE_READ, CMD_RESET] at hs
    obtain ⟨rfl, rfl⟩ := hs
    simp [CMD_INTERNAL_WRITE, CMD_SINGLE_WRITE, u8, hA, Nat.shiftRight_eq_div_pow]
    omega

theorem attempts_one {P : Event → Prop} {e : Event} (h : P e) :
    attempts_and_resets P [e] :=
  ⟨⟨e, [], rfl, h⟩, by intro x hx; simp at hx; subst hx; exact Or.inl h⟩

theorem attempts_cons {P : Event → Prop} {e r : Event} {evs : List Event} (h : P e)
    (hr : reset_request r) (hall : ∀ x ∈ evs, P x ∨ reset_request x) :
    attempts_and_resets P (e :: r :: evs) := by
  refine ⟨⟨e, _, rfl, h⟩, ?_⟩
  intro x hx
  simp only [List.mem_cons] at hx
  rcases hx with rfl | rfl | hx
  · exact Or.inl h
  · exact Or.inr hr
  · exact hall x hx

theorem spi_read_reg_from_log (g : wilc_spi σ) (A n data : Nat) (w : World σ) :
    ∃ evs, (spi_read_reg_from g A n data w).2.2.log = w.log ++ evs ∧
      attempts_and_resets (reg_request CMD_INTERNAL_READ CMD_SINGLE_READ A) evs := by
  induction n generalizing data w with
  | zero =>
    obtain ⟨e, he, hreq⟩ := read_attempt_log g A (word_bytes data) w
    unfold spi_read_reg_from
    simp only []
    generalize spi_cmd_complete g (if A ≤ 0x30 then CMD_INTERNAL_READ else CMD_SINGLE_READ) A
      (word_bytes data) 4 (if A ≤ 0x30 then 1 else 0) w = r at he ⊢
    split
    · obtain ⟨x, hx, hrst⟩ := spi_reset_log g r.2.2
      refine ⟨[e, x], ?_, attempts_cons hreq hrst (by simp)⟩
      show (spi_reset g r.2.2).2.log = _
      rw [hx, he]
      simp
    · exact ⟨[e], he, attempts_one hreq⟩
  | succ m ih =>
    obtain ⟨e, he, hreq⟩ := read_attempt_log g A (word_bytes data) w
    unfold spi_read_reg_from
    simp only []
    generalize spi_cmd_complete g (if A ≤ 0x30 then CMD_INTERNAL_READ else CMD_SINGLE_READ) A
      (word_bytes data) 4 (if A ≤ 0x30 then 1 else 0) w = r at he ⊢
    split
    · obtain ⟨x, hx, hrst⟩ := spi_reset_log g r.2.2
      obtain ⟨evs, hevs, hatt⟩ := ih (bytes_word r.2.1) (spi_reset g r.2.2).2
      refine ⟨e :: x :: evs, ?_, attempts_cons hreq hrst hatt.2⟩
      rw [hevs, hx, he]
      simp
    · exact ⟨[e], he, attempts_one hreq⟩

theorem spi_write_reg_from_log (g : wilc_spi σ) (A V n : Nat) (w : World σ) :
    ∃ evs, (spi_write_reg_from g A V n w).2.log = w.log ++ evs ∧
      attempts_and_resets (reg_request CMD_INTERNAL_WRITE CMD_SINGLE_WRITE A) evs := by
  induction n generalizing w with
  | zero =>
    obtain ⟨e, he, hreq⟩ := write_attempt_log g A (word_bytes V) w
    unfold spi_write_reg_from
    simp only []
    generalize spi_cmd_complete g (if A ≤ 0x30 then CMD_INTERNAL_WRITE else CMD_SINGLE_WRITE) A
      (word_bytes V) 4 (if A ≤ 0x30 then 1 else 0) w = r at he ⊢
    split
    · obtain ⟨x, hx, hrst⟩ := spi_reset_log g r.2.2
      refine ⟨[e, x], ?_, attempts_cons hreq hrst (by simp)⟩
      show (spi_reset g r.2.2).2.log = _
      rw [hx, he]
      simp
    · exact ⟨[e], he, attempts_one hreq⟩
  | succ m ih =>
    obtain ⟨e, he, hreq⟩ := write_attempt_log g A (word_bytes V) w
    unfold spi_write_reg_from
    simp only []
    generalize spi_cmd_complete g (if A ≤ 0x30 then CMD_INTERNAL_WRITE else CMD_SINGLE_WRITE) A
      (word_bytes V) 4 (if A ≤ 0x30 then 1 else 0) w = r at he ⊢
    split
    · obtain ⟨x, hx, hrst⟩ := spi_reset_log g r.2.2
      obtain ⟨evs, hevs, hatt⟩ := ih (spi_reset g r.2.2).2
      refine ⟨e :: x :: evs, ?_, attempts_cons hreq hrst hatt.2⟩
      rw [hevs, hx, he]
      simp
    · exact ⟨[e], he, attempts_one hreq⟩

/-- C5. For every address `A`, the exchanges made by `spi_read_reg(A)` and
by `spi_write_reg(A, V)` start with a request and are requests or bus resets
(opcode `CMD_RESET`); every request is framed with the internal opcode
(`CMD_INTERNAL_READ` / `CMD_INTERNAL_WRITE`) and bit 7 of frame byte 1 set
exactly when `A <= 0x30`, and with the single-word opcode (`CMD_SINGLE_READ`
/ `CMD_SINGLE_WRITE`) and the three address bytes exactly when `A > 0x30`. -/
theorem register_access_routing (g : wilc_spi σ) (A V data : Nat) (w : World σ) :
    (∃ evs, (spi_read_reg g A data w).2.2.log = w.log ++ evs ∧
      attempts_and_resets (reg_request CMD_INTERNAL_READ CMD_SINGLE_READ A) evs) ∧
    (∃ evs, (spi_write_reg g A V w).2.log = w.log ++ evs ∧
      attempts_and_resets (reg_request CMD_INTERNAL_WRITE CMD_SINGLE_WRITE A) evs) :=
  ⟨spi_read_reg_from_log g A _ data w, spi_write_reg_from_log g A V _ w⟩

/-! ## Lemmas: the response parser -/

theorem non_read_opcodes_sub (cmd : Nat) (h : cmd ∈ non_read_opcodes) :
    cmd ∈ opcodes ∧ cmd ≠ CMD_INTERNAL_READ ∧ cmd ≠ CMD_SINGLE_READ ∧ cmd ≠ CMD_DMA_READ ∧
      cmd ≠ CMD_DMA_EXT_READ := by
  simp only [non_read_opcodes, List.mem_cons, List.mem_singleton, List.not_mem_nil,
    or_false] at h
  rcases h with rfl | rfl | rfl | rfl | rfl | rfl | rfl <;> decide

theorem spi_cmd_complete_rsp_non_read (g : wilc_spi σ) (cmd : Nat) (b : List Nat)
    (sz len2 : Nat) (rb : List Nat) (rix : Nat) (w : World σ)
    (h1 : cmd ≠ CMD_INTERNAL_READ) (h2 : cmd ≠ CMD_SINGLE_READ) (h3 : cmd ≠ CMD_DMA_READ)
    (h4 : cmd ≠ CMD_DMA_EXT_READ) (skip : Nat)
    (hskip : skip = if cmd = CMD_RESET ∨ cmd = CMD_TERMINATE ∨ cmd = CMD_REPEAT then 1 else 0) :
    spi_cmd_complete_rsp g cmd b sz len2 rb rix w =
      (if rb.getD (rix + skip) 0 = cmd ∧ rb.getD (rix + skip + 1) 0 = 0 then N_OK else N_FAIL,
        b, w) := by
  have hr : (if cmd = CMD_RESET ∨ cmd = CMD_TERMINATE ∨ cmd = CMD_REPEAT then rix + 1
      else rix) = rix + skip := by
    rw [hskip]; split <;> rfl
  unfold spi_cmd_complete_rsp
  simp only [hr, h1, h2, h3, h4, or_self, if_false]
  by_cases e1 : rb.getD (rix + skip) 0 = cmd
  · by_cases e2 : rb.getD (rix + skip + 1) 0 = 0
    · simp only [ne_eq, e1, e2, not_true_eq_false, if_false, and_self, if_true]
    · simp only [ne_eq, e1, e2, not_true_eq_false, not_false_eq_true, if_false, if_true,
        and_false]
  · simp only [ne_eq, e1, not_false_eq_true, if_true, false_and, if_false]

/-- C6. For every non-read opcode, `spi_cmd_complete` makes exactly one bus
exchange (the combined `spi_trx` of the frame and its zero fill), leaves the
caller's buffer alone, and returns `N_OK` if and only if the exchange
succeeds, the captured byte at offset `len + skip` equals the opcode and the
next one is `0x00`, where `len` is the transmitted frame length and `skip`
is 1 for reset / terminate / repeat and 0 otherwise; in every other case,
in particular for a wrong echo or a nonzero status, it returns `N_FAIL`. -/
theorem non_read_response (g : wilc_spi σ) (cmd addr : Nat) (b : List Nat)
    (sz clockless : Nat) (w : World σ) (hcmd : cmd ∈ non_read_opcodes) :
    ∃ wb len, spi_cmd_complete_frame g.crc_off cmd addr b sz clockless = some (wb, len) ∧
      ∃ sent skip,
        sent = wb.take len ++
          List.replicate (spi_cmd_complete_len2 g.crc_off cmd len - len) 0 ∧
        skip = (if cmd = CMD_RESET ∨ cmd = CMD_TERMINATE ∨ cmd = CMD_REPEAT then 1 else 0) ∧
        (spi_cmd_complete g cmd addr b sz clockless w).2.2.log =
          w.log ++ [Event.trx sent (g.spi_trx w.peer sent).1 (g.spi_trx w.peer sent).2.1] ∧
        (spi_cmd_complete g cmd addr b sz clockless w).2.2.peer = (g.spi_trx w.peer sent).2.2 ∧
        (spi_cmd_complete g cmd addr b sz clockless w).2.1 = b ∧
        ((spi_cmd_complete g cmd addr b sz clockless w).1 = N_OK ↔
          (g.spi_trx w.peer sent).1 = true ∧
          (g.spi_trx w.peer sent).2.1.getD (len + skip) 0 = cmd ∧
          (g.spi_trx w.peer sent).2.1.getD (len + skip + 1) 0 = 0x00) ∧
        ((spi_cmd_complete g cmd addr b sz clockless w).1 ≠ N_OK →
          (spi_cmd_complete g cmd addr b sz clockless w).1 = N_FAIL) := by
  obtain ⟨hop, n1, n2, n3, n4⟩ := non_read_opcodes_sub cmd hcmd
  obtain ⟨wb0, len0, wb, len, tail, hs, hf, h9, hlo, hhi, -⟩ :=
    spi_cmd_complete_frame_head g.crc_off cmd addr b sz clockless hop
  obtain ⟨wb0', len0', hs', hl0, h5, -⟩ := spi_cmd_complete_switch_some cmd addr b sz clockless hop
  rw [hs] at hs'
  obtain ⟨rfl, rfl⟩ : wb0 = wb0' ∧ len0 = len0' := by simpa using hs'
  have hwb : wb.length = 32 := by
    have h := hf
    simp only [spi_cmd_complete_frame, hs, Option.some.injEq] at h
    have := congrArg (fun p => p.1.length) h
    simp only [crc_step] at this
    split at this <;> simp_all
  have hb := spi_cmd_complete_len2_bounds g.crc_off cmd len
  refine ⟨wb, len, hf, _, _, rfl, rfl, ?_⟩
  rw [spi_cmd_complete_eq g cmd addr b sz clockless w wb len hf (by omega),
    sent_bytes_eq wb len _ (by omega) (by omega)]
  generalize wb.take len ++ List.replicate (spi_cmd_complete_len2 g.crc_off cmd len - len) 0
    = sent
  simp only [spi_cmd_complete_rsp_non_read g cmd b sz _ _ len _ n1 n2 n3 n4 _ rfl, call_trx]
  cases hok : (g.spi_trx w.peer sent).1
  · simp [N_OK, N_FAIL]
  · simp only [Bool.not_true, Bool.false_eq_true, if_false, true_and]
    constructor
    · split <;> simp_all [N_OK, N_FAIL]
    · split <;> simp_all [N_OK, N_FAIL]

theorem non_read_response_witness :
    CMD_RESET ∈ non_read_opcodes ∧
    ∃ wb len, spi_cmd_complete_frame (idle_bus 1).crc_off CMD_RESET 0 [] 0 0 = some (wb, len) ∧
      ∃ sent skip,
        sent = wb.take len ++
          List.replicate (spi_cmd_complete_len2 (idle_bus 1).crc_off CMD_RESET len - len) 0 ∧
        skip = (if CMD_RESET = CMD_RESET ∨ CMD_RESET = CMD_TERMINATE ∨ CMD_RESET = CMD_REPEAT
          then 1 else 0) ∧
        (spi_cmd_complete (idle_bus 1) CMD_RESET 0 [] 0 0 idle_world).2.2.log =
          idle_world.log ++ [Event.trx sent ((idle_bus 1).spi_trx idle_world.peer sent).1
            ((idle_bus 1).spi_trx idle_world.peer sent).2.1] ∧
        (spi_cmd_complete (idle_bus 1) CMD_RESET 0 [] 0 0 idle_world).2.2.peer
          = ((idle_bus 1).spi_trx idle_world.peer sent).2.2 ∧
        (spi_cmd_complete (idle_bus 1) CMD_RESET 0 [] 0 0 idle_world).2.1 = [] ∧
        ((spi_cmd_complete (idle_bus 1) CMD_RESET 0 [] 0 0 idle_world).1 = N_OK ↔
          ((idle_bus 1).spi_trx idle_world.peer sent).1 = true ∧
          ((idle_bus 1).spi_trx idle_world.peer sent).2.1.getD (len + skip) 0 = CMD_RESET ∧
          ((idle_bus 1).spi_trx idle_world.peer sent).2.1.getD (len + skip + 1) 0 = 0x00) ∧
        ((spi_cmd_complete (idle_bus 1) CMD_RESET 0 [] 0 0 idle_world).1 ≠ N_OK →
          (spi_cmd_complete (idle_bus 1) CMD_RESET 0 [] 0 0 idle_world).1 = N_FAIL) :=
  ⟨by decide, non_read_response (idle_bus 1) CMD_RESET 0 [] 0 0 idle_world (by decide)⟩

theorem is_data_hdr_iff (rsp : Nat) : is_data_hdr rsp = true ↔ rsp / 16 % 16 = 0xf := by
  unfold is_data_hdr
  have h : (rsp >>> 4) &&& 0xf = rsp / 16 % 16 := by
    rw [Nat.shiftRight_eq_div_pow]
    exact Nat.and_pow_two_sub_one_eq_mod (rsp / 2 ^ 4) 4
  simp [h]

/-- The header loop stops at the first sentinel when it comes within the
retry budget, with a positive `retry` left and `rix` behind the sentinel. -/
theorem data_hdr_scan_found (rb : List Nat) (len2 retry rix s : Nat)
    (hs : first_sentinel rb rix len2 s) (hr : s < rix + retry) :
    data_hdr_scan rb len2 retry rix = (((retry - (s - rix) : Nat) : Int), s + 1) := by
  induction retry generalizing rix with
  | zero => obtain ⟨h1, -⟩ := hs; omega
  | succ r ih =>
    obtain ⟨h1, h2, h3, h4⟩ := hs
    unfold data_hdr_scan
    by_cases e : rix = s
    · subst e
      rw [if_pos h2, if_pos ((is_data_hdr_iff _).2 h3)]
      simp
    · have hn : ¬ is_data_hdr (rb.getD rix 0) = true := by
        rw [is_data_hdr_iff]
        exact h4 rix (Nat.le_refl _) (by omega)
      have hlt : rix < len2 := by omega
      simp only [hlt, if_true, hn, if_false]
      rw [ih (rix + 1) ⟨by omega, h2, h3, fun j hj1 hj2 => h4 j (by omega) hj2⟩ (by omega)]
      have e2 : r - (s - (rix + 1)) = r + 1 - (s - rix) := by omega
      rw [e2]
      simp

/-- Without a sentinel the header loop ends with `retry <= 0`. -/
theorem data_hdr_scan_none (rb : List Nat) (len2 retry rix : Nat)
    (hn : ∀ j, rix ≤ j → j < len2 → rb.getD j 0 / 16 % 16 ≠ 0xf) :
    (data_hdr_scan rb len2 retry rix).1 ≤ 0 := by
  induction retry generalizing rix with
  | zero =>
    unfold data_hdr_scan
    by_cases hlt : rix < len2
    · have h : ¬ is_data_hdr (rb.getD rix 0) = true := by
        rw [is_data_hdr_iff]; exact hn rix (Nat.le_refl _) hlt
      rw [if_pos hlt, if_neg h]
      show (-1 : Int) ≤ 0
      decide
    · simp [hlt]
  | succ r ih =>
    unfold data_hdr_scan
    by_cases hlt : rix < len2
    · have h : ¬ is_data_hdr (rb.getD rix 0) = true := by
        rw [is_data_hdr_iff]; exact hn rix (Nat.le_refl _) hlt
      simp only [hlt, if_true, h, if_false]
      exact ih (rix + 1) (fun j hj1 hj2 => hn j (by omega) hj2)
    · simp [hlt]

/-- A sentinel in a range gives a first one. -/
theorem first_sentinel_exists (rb : List Nat) (lo hi : Nat)
    (h : ∃ j, lo ≤ j ∧ j < hi ∧ rb.getD j 0 / 16 % 16 = 0xf) :
    ∃ s, first_sentinel rb lo hi s := by
  classical
  refine ⟨Nat.find h, (Nat.find_spec h).1, (Nat.find_spec h).2.1, (Nat.find_spec h).2.2, ?_⟩
  intro j hj1 hj2 hj3
  exact Nat.find_min h hj2 ⟨hj1, by have := (Nat.find_spec h).2.1; omega, hj3⟩

theorem first_sentinel_unique (rb : List Nat) (lo hi s t : Nat)
    (hs : first_sentinel rb lo hi s) (ht : first_sentinel rb lo hi t) : s = t := by
  obtain ⟨a1, a2, a3, a4⟩ := hs
  obtain ⟨b1, b2, b3, b4⟩ := ht
  rcases Nat.lt_trichotomy s t with h | h | h
  · exact absurd a3 (b4 s a1 h)
  · exact h
  · exact absurd b3 (a4 t b1 h)

theorem spi_cmd_complete_frame_bounds (crc_off : Int) (cmd addr : Nat) (b : List Nat)
    (sz clockless : Nat) (wb : List Nat) (len : Nat) (hcmd : cmd ∈ opcodes)
    (hf : spi_cmd_complete_frame crc_off cmd addr b sz clockless = some (wb, len)) :
    wb.length = 32 ∧ 4 ≤ len ∧ len ≤ 9 := by
  by_cases hc : crc_off = 0
  · subst hc
    obtain ⟨wb0, wb', len', -, hf', h5, h9, -, hwb, -⟩ :=
      spi_cmd_complete_frame_on cmd addr b sz clockless hcmd
    rw [hf] at hf'
    obtain ⟨rfl, rfl⟩ : wb = wb' ∧ len = len' := by simpa using hf'
    exact ⟨hwb, by omega, h9⟩
  · obtain ⟨wb0, len0, -, hf', h5, h9, hl⟩ :=
      spi_cmd_complete_frame_off crc_off cmd addr b sz clockless hcmd hc
    rw [hf] at hf'
    obtain ⟨rfl, rfl⟩ : wb = wb0 ∧ len = len0 - 1 := by simpa using hf'
    exact ⟨hl, by omega, by omega⟩

theorem read_opcodes_sub (cmd : Nat) (h : cmd ∈ read_opcodes) :
    cmd ∈ opcodes ∧ cmd ≠ CMD_RESET ∧ cmd ≠ CMD_TERMINATE ∧ cmd ≠ CMD_REPEAT ∧
      (cmd = CMD_INTERNAL_READ ∨ cmd = CMD_SINGLE_READ ∨ cmd = CMD_DMA_READ ∨
        cmd = CMD_DMA_EXT_READ) := by
  simp only [read_opcodes, List.mem_cons, List.mem_singleton, List.not_mem_nil,
    or_false] at h
  rcases h with rfl | rfl | rfl | rfl <;> decide

/-- After a successful exchange with the right echo and status, a read
command continues with the read part at `rix = len + 2`. -/
theorem spi_cmd_complete_read_path (g : wilc_spi σ) (cmd addr : Nat) (b : List Nat)
    (sz clockless : Nat) (w : World σ) (wb : List Nat) (len : Nat) (rb : List Nat) (p : σ)
    (hcmd : cmd ∈ read_opcodes)
    (hf : spi_cmd_complete_frame g.crc_off cmd addr b sz clockless = some (wb, len))
    (htrx : g.spi_trx w.peer (wb.take len ++
      List.replicate (spi_cmd_complete_len2 g.crc_off cmd len - len) 0) = (true, rb, p))
    (hecho : rb.getD len 0 = cmd) (hstatus : rb.getD (len + 1) 0 = 0x00) :
    spi_cmd_complete g cmd addr b sz clockless w =
      spi_cmd_complete_read g cmd b sz (spi_cmd_complete_len2 g.crc_off cmd len) rb (len + 2)
        { peer := p, log := w.log ++ [Event.trx (wb.take len ++
          List.replicate (spi_cmd_complete_len2 g.crc_off cmd len - len) 0) true rb] } := by
  obtain ⟨hop, n1, n2, n3, hr⟩ := read_opcodes_sub cmd hcmd
  obtain ⟨hwb, h4, h9⟩ := spi_cmd_complete_frame_bounds g.crc_off cmd addr b sz clockless wb len
    hop hf
  have hb := spi_cmd_complete_len2_bounds g.crc_off cmd len
  rw [spi_cmd_complete_eq g cmd addr b sz clockless w wb len hf (by omega),
    sent_bytes_eq wb len _ (by omega) (by omega)]
  simp only [call_trx, htrx, Bool.not_true, Bool.false_eq_true, if_false]
  unfold spi_cmd_complete_rsp
  simp only [n1, n2, n3, or_self, if_false, hecho, hstatus, ne_eq, not_true_eq_false, hr,
    if_true]

theorem spi_cmd_complete_reg_result (g : wilc_spi σ) (b : List Nat) (len2 : Nat)
    (rb : List Nat) (rix : Nat) (w : World σ) :
    (spi_cmd_complete_reg g b len2 rb rix w).1 = N_OK ∨
      (spi_cmd_complete_reg g b len2 rb rix w).1 = N_FAIL := by
  unfold spi_cmd_complete_reg
  simp only []
  repeat' split
  all_goals first
    | exact Or.inl rfl
    | exact Or.inr rfl

theorem spi_cmd_complete_dma_loop_result (g : wilc_spi σ) (fuel : Nat) (b : List Nat)
    (ix sz : Nat) (w : World σ) :
    (spi_cmd_complete_dma_loop g fuel b ix sz w).1 = N_OK ∨
      (spi_cmd_complete_dma_loop g fuel b ix sz w).1 = N_FAIL := by
  induction fuel generalizing b ix sz w with
  | zero => exact Or.inl rfl
  | succ n ih =>
    unfold spi_cmd_complete_dma_loop
    simp only []
    repeat' split
    all_goals first
      | exact Or.inl rfl
      | exact Or.inr rfl
      | exact ih _ _ _ _

theorem spi_cmd_complete_dma_result (g : wilc_spi σ) (b : List Nat) (sz len2 : Nat)
    (rb : List Nat) (rix : Nat) (w : World σ) :
    (spi_cmd_complete_dma g b sz len2 rb rix w).1 = N_OK ∨
      (spi_cmd_complete_dma g b sz len2 rb rix w).1 = N_FAIL := by
  unfold spi_cmd_complete_dma
  simp only []
  repeat' split
  all_goals first
    | exact Or.inl rfl
    | exact Or.inr rfl
    | exact spi_cmd_complete_dma_loop_result g _ _ _ _ _

theorem read_found (g : wilc_spi σ) (cmd : Nat) (b : List Nat) (sz len2 : Nat)
    (rb : List Nat) (rix s : Nat) (w : World σ) (hs : first_sentinel rb rix len2 s)
    (hlen2 : len2 ≤ rix + 10) :
    spi_cmd_complete_read g cmd b sz len2 rb rix w =
      if cmd = CMD_INTERNAL_READ ∨ cmd = CMD_SINGLE_READ then
        spi_cmd_complete_reg g b len2 rb (s + 1) w
      else spi_cmd_complete_dma g b sz len2 rb (s + 1) w := by
  have h2 := hs.2.1
  unfold spi_cmd_complete_read
  simp only [SPI_RESP_RETRY_COUNT, data_hdr_scan_found rb len2 10 rix s hs (by omega)]
  have hpos : ¬ (((10 - (s - rix) : Nat) : Int) ≤ 0) := by
    have : 0 < 10 - (s - rix) := by have := hs.1; omega
    omega
  rw [if_neg hpos]

theorem read_not_found (g : wilc_spi σ) (cmd : Nat) (b : List Nat) (sz len2 : Nat)
    (rb : List Nat) (rix : Nat) (w : World σ)
    (hn : ∀ j, rix ≤ j → j < len2 → rb.getD j 0 / 16 % 16 ≠ 0xf) :
    spi_cmd_complete_read g cmd b sz len2 rb rix w = (N_RESET, b, w) := by
  unfold spi_cmd_complete_read
  simp only []
  rw [if_pos (data_hdr_scan_none rb len2 _ rix hn)]

/-- C8. For every read opcode, after a successful exchange with the right
echo at `rb[len]` and status `0x00` at `rb[len+1]`, `spi_cmd_complete`
returns `N_RESET` if and only if no captured byte at an index from `len+2`
up to `len2-1` has high nibble `0xf`; `N_RESET` is -1, distinct from `N_OK`
and `N_FAIL`. -/
theorem missing_sentinel_gives_reset (g : wilc_spi σ) (cmd addr : Nat) (b : List Nat)
    (sz clockless : Nat) (w : World σ) (wb : List Nat) (len : Nat) (rb : List Nat) (p : σ)
    (hcmd : cmd ∈ read_opcodes)
    (hf : spi_cmd_complete_frame g.crc_off cmd addr b sz clockless = some (wb, len))
    (htrx : g.spi_trx w.peer (wb.take len ++
      List.replicate (spi_cmd_complete_len2 g.crc_off cmd len - len) 0) = (true, rb, p))
    (hecho : rb.getD len 0 = cmd) (hstatus : rb.getD (len + 1) 0 = 0x00) :
    ((spi_cmd_complete g cmd addr b sz clockless w).1 = N_RESET ↔
      ∀ j, len + 2 ≤ j → j < spi_cmd_complete_len2 g.crc_off cmd len →
        rb.getD j 0 / 16 % 16 ≠ 0xf) ∧
    N_RESET = -1 ∧ N_RESET ≠ N_OK ∧ N_RESET ≠ N_FAIL := by
  refine ⟨?_, rfl, by decide, by decide⟩
  rw [spi_cmd_complete_read_path g cmd addr b sz clockless w wb len rb p hcmd hf htrx hecho
    hstatus]
  have hb := spi_cmd_complete_len2_bounds g.crc_off cmd len
  constructor
  · intro hres j hj1 hj2 hj3
    obtain ⟨s, hs⟩ := first_sentinel_exists rb (len + 2) _ ⟨j, hj1, hj2, hj3⟩
    rw [read_found g cmd b sz _ rb (len + 2) s _ hs (by omega)] at hres
    split at hres
    · rcases spi_cmd_complete_reg_result g b (spi_cmd_complete_len2 g.crc_off cmd len) rb
        (s + 1) { peer := p, log := w.log ++ [Event.trx (wb.take len ++
          List.replicate (spi_cmd_complete_len2 g.crc_off cmd len - len) 0) true rb] }
        with h | h <;> rw [h] at hres <;> exact absurd hres (by decide)
    · rcases spi_cmd_complete_dma_result g b sz (spi_cmd_complete_len2 g.crc_off cmd len) rb
        (s + 1) { peer := p, log := w.log ++ [Event.trx (wb.take len ++
          List.replicate (spi_cmd_complete_len2 g.crc_off cmd len - len) 0) true rb] }
        with h | h <;> rw [h] at hres <;> exact absurd hres (by decide)
  · intro hn
    rw [read_not_found g cmd b sz _ rb (len + 2) _ hn]

theorem missing_sentinel_gives_reset_witness :
    (CMD_SINGLE_READ ∈ read_opcodes ∧
      spi_cmd_complete_frame (scripted_bus 1 [0, 0, 0, 0, 0xca, 0, 0, 0, 0, 0, 0, 0, 0, 0]).crc_off
        CMD_SINGLE_READ 0x123456 [0, 0, 0, 0] 4 0
        = some ([0xca, 0x12, 0x34, 0x56] ++ List.replicate 28 0xaa, 4) ∧
      (scripted_bus 1 [0, 0, 0, 0, 0xca, 0, 0, 0, 0, 0, 0, 0, 0, 0]).spi_trx idle_world.peer
        (([0xca, 0x12, 0x34, 0x56] ++ List.replicate 28 0xaa).take 4 ++ List.replicate
          (spi_cmd_complete_len2
            (scripted_bus 1 [0, 0, 0, 0, 0xca, 0, 0, 0, 0, 0, 0, 0, 0, 0]).crc_off
            CMD_SINGLE_READ 4 - 4) 0)
        = (true, [0, 0, 0, 0, 0xca, 0, 0, 0, 0, 0, 0, 0, 0, 0], ()) ∧
      [0, 0, 0, 0, 0xca, 0, 0, 0, 0, 0, 0, 0, 0, 0].getD 4 0 = CMD_SINGLE_READ ∧
      [0, 0, 0, 0, 0xca, 0, 0, 0, 0, 0, 0, 0, 0, 0].getD (4 + 1) 0 = 0x00) ∧
    (((spi_cmd_complete (scripted_bus 1 [0, 0, 0, 0, 0xca, 0, 0, 0, 0, 0, 0, 0, 0, 0])
        CMD_SINGLE_READ 0x123456 [0, 0, 0, 0] 4 0 idle_world).1 = N_RESET ↔
      ∀ j, 4 + 2 ≤ j → j < spi_cmd_complete_len2
          (scripted_bus 1 [0, 0, 0, 0, 0xca, 0, 0, 0, 0, 0, 0, 0, 0, 0]).crc_off
          CMD_SINGLE_READ 4 →
        [0, 0, 0, 0, 0xca, 0, 0, 0, 0, 0, 0, 0, 0, 0].getD j 0 / 16 % 16 ≠ 0xf) ∧
    N_RESET = -1 ∧ N_RESET ≠ N_OK ∧ N_RESET ≠ N_FAIL) :=
  ⟨⟨by decide, by decide, rfl, rfl, rfl⟩,
    missing_sentinel_gives_reset (scripted_bus 1 [0, 0, 0, 0, 0xca, 0, 0, 0, 0, 0, 0, 0, 0, 0])
      CMD_SINGLE_READ 0x123456 [0, 0, 0, 0] 4 0 idle_world
      ([0xca, 0x12, 0x34, 0x56] ++ List.replicate 28 0xaa) 4
      [0, 0, 0, 0, 0xca, 0, 0, 0, 0, 0, 0, 0, 0, 0] () (by decide) (by decide) rfl rfl rfl⟩

theorem N_FAIL_ne_N_OK : N_FAIL ≠ N_OK := by decide

theorem N_RESET_ne_N_OK : N_RESET ≠ N_OK := by decide

theorem spi_cmd_complete_len2_reg (crc_off : Int) (cmd len : Nat)
    (hcmd : cmd = CMD_INTERNAL_READ ∨ cmd = CMD_SINGLE_READ) :
    spi_cmd_complete_len2 crc_off cmd len = len + (if crc_off = 0 then 12 else 10) := by
  have n : ¬ (cmd = CMD_RESET ∨ cmd = CMD_TERMINATE ∨ cmd = CMD_REPEAT) := by
    rcases hcmd with rfl | rfl <;> decide
  unfold spi_cmd_complete_len2 NUM_RSP_BYTES NUM_DUMMY_BYTES NUM_DATA_HDR_BYTES
    NUM_DATA_BYTES NUM_CRC_BYTES
  rw [if_neg n, if_pos hcmd]
  split <;> rfl

theorem spi_cmd_complete_reg_eval (g : wilc_spi σ) (b : List Nat) (len2 : Nat)
    (rb : List Nat) (s : Nat) (w : World σ) (hb : b.length = 4) (h4 : s + 4 < len2) :
    spi_cmd_complete_reg g b len2 rb (s + 1) w =
      (if g.crc_off = 0 then (if s + 6 < len2 then N_OK else N_FAIL) else N_OK,
        [rb.getD (s + 1) 0, rb.getD (s + 2) 0, rb.getD (s + 3) 0, rb.getD (s + 4) 0], w) := by
  obtain ⟨b0, b1, b2, b3, rfl⟩ : ∃ b0 b1 b2 b3, b = [b0, b1, b2, b3] := by
    rcases b with _ | ⟨b0, _ | ⟨b1, _ | ⟨b2, _ | ⟨b3, _ | ⟨b4, t⟩⟩⟩⟩⟩
    all_goals first
      | exact ⟨_, _, _, _, rfl⟩
      | simp at hb
  unfold spi_cmd_complete_reg
  have e1 : s + 1 + 3 < len2 := by omega
  have e2 : (s + 1 + 4 + 1 < len2) = (s + 6 < len2) := by
    apply propext; constructor <;> intro h <;> omega
  simp only [e1, if_true, e2, List.set_cons_zero, List.set_cons_succ, Nat.add_assoc]
  split
  · split <;> rfl
  · rfl

/-- The register-read parse: success exactly when the first sentinel is at
most at `len+5`, and then the four bytes behind it are stored. -/
theorem reg_read_parse (g : wilc_spi σ) (cmd addr : Nat) (b : List Nat)
    (sz clockless : Nat) (w : World σ) (wb : List Nat) (len : Nat) (rb : List Nat) (p : σ)
    (hcmd : cmd = CMD_INTERNAL_READ ∨ cmd = CMD_SINGLE_READ) (hb : b.length = 4)
    (hf : spi_cmd_complete_frame g.crc_off cmd addr b sz clockless = some (wb, len))
    (htrx : g.spi_trx w.peer (wb.take len ++
      List.replicate (spi_cmd_complete_len2 g.crc_off cmd len - len) 0) = (true, rb, p))
    (hecho : rb.getD len 0 = cmd) (hstatus : rb.getD (len + 1) 0 = 0x00) :
    ((spi_cmd_complete g cmd addr b sz clockless w).1 = N_OK ↔
      ∃ s, first_sentinel rb (len + 2) (spi_cmd_complete_len2 g.crc_off cmd len) s ∧
        s ≤ len + 5) ∧
    (∀ s, first_sentinel rb (len + 2) (spi_cmd_complete_len2 g.crc_off cmd len) s →
      s ≤ len + 5 →
      (spi_cmd_complete g cmd addr b sz clockless w).2.1 =
        [rb.getD (s + 1) 0, rb.getD (s + 2) 0, rb.getD (s + 3) 0, rb.getD (s + 4) 0]) := by
  have hro : cmd ∈ read_opcodes := by rcases hcmd with rfl | rfl <;> decide
  rw [spi_cmd_complete_read_path g cmd addr b sz clockless w wb len rb p hro hf htrx hecho
    hstatus]
  have hl2 := spi_cmd_complete_len2_reg g.crc_off cmd len hcmd
  generalize spi_cmd_complete_len2 g.crc_off cmd len = len2 at hl2 ⊢
  generalize ({ peer := p, log := w.log ++ [Event.trx (wb.take len ++
    List.replicate (len2 - len) 0) true rb] } : World σ) = w1
  have hfound : ∀ s, first_sentinel rb (len + 2) len2 s →
      spi_cmd_complete_read g cmd b sz len2 rb (len + 2) w1 =
        spi_cmd_complete_reg g b len2 rb (s + 1) w1 := by
    intro s hs
    rw [read_found g cmd b sz len2 rb (len + 2) s w1 hs (by split at hl2 <;> omega),
      if_pos hcmd]
  have hgood : ∀ s, first_sentinel rb (len + 2) len2 s → s ≤ len + 5 →
      spi_cmd_complete_read g cmd b sz len2 rb (len + 2) w1 =
        (N_OK, [rb.getD (s + 1) 0, rb.getD (s + 2) 0, rb.getD (s + 3) 0, rb.getD (s + 4) 0],
          w1) := by
    intro s hs h5
    rw [hfound s hs, spi_cmd_complete_reg_eval g b len2 rb s w1 hb (by split at hl2 <;> omega)]
    by_cases hc : g.crc_off = 0
    · rw [if_pos hc] at hl2
      rw [if_pos hc, if_pos (by omega)]
    · rw [if_neg hc]
  refine ⟨⟨?_, ?_⟩, ?_⟩
  · intro hres
    by_cases hex : ∃ j, len + 2 ≤ j ∧ j < len2 ∧ rb.getD j 0 / 16 % 16 = 0xf
    · obtain ⟨s, hs⟩ := first_sentinel_exists rb (len + 2) len2 hex
      refine ⟨s, hs, ?_⟩
      by_contra hgt
      rw [hfound s hs] at hres
      by_cases h4 : s + 4 < len2
      · rw [spi_cmd_complete_reg_eval g b len2 rb s w1 hb h4] at hres
        by_cases hc : g.crc_off = 0
        · rw [if_pos hc] at hl2
          rw [if_pos hc, if_neg (by omega)] at hres
          exact absurd hres N_FAIL_ne_N_OK
        · rw [if_neg hc] at hl2
          omega
      · unfold spi_cmd_complete_reg at hres
        rw [if_neg (by omega)] at hres
        exact absurd hres N_FAIL_ne_N_OK
    · rw [read_not_found g cmd b sz len2 rb (len + 2) w1
        (fun j h1 h2 h3 => hex ⟨j, h1, h2, h3⟩)] at hres
      exact absurd hres N_RESET_ne_N_OK
  · rintro ⟨s, hs, h5⟩
    rw [hgood s hs h5]
  · intro s hs h5
    rw [hgood s hs h5]

/-- C7. For a 4-byte register read (`CMD_INTERNAL_READ` or
`CMD_SINGLE_READ`) with a successful exchange, the right echo at `rb[len]`
and status `0x00` at `rb[len+1]`: with `s` the least index from `len+2` up
to `len2-1` whose byte has high nibble `0xf`, `spi_cmd_complete` returns
`N_OK` if and only if `s` exists and `s <= len+5`, and then the caller's
four bytes are `rb[s+1], rb[s+2], rb[s+3], rb[s+4]`; in both checksum
modes. -/
theorem register_read_payload (g : wilc_spi σ) (cmd addr : Nat) (b : List Nat)
    (sz clockless : Nat) (w : World σ) (wb : List Nat) (len : Nat) (rb : List Nat) (p : σ)
    (hcmd : cmd = CMD_INTERNAL_READ ∨ cmd = CMD_SINGLE_READ) (hb : b.length = 4)
    (hf : spi_cmd_complete_frame g.crc_off cmd addr b sz clockless = some (wb, len))
    (htrx : g.spi_trx w.peer (wb.take len ++
      List.replicate (spi_cmd_complete_len2 g.crc_off cmd len - len) 0) = (true, rb, p))
    (hecho : rb.getD len 0 = cmd) (hstatus : rb.getD (len + 1) 0 = 0x00) :
    ((spi_cmd_complete g cmd addr b sz clockless w).1 = N_OK ↔
      ∃ s, first_sentinel rb (len + 2) (spi_cmd_complete_len2 g.crc_off cmd len) s ∧
        s ≤ len + 5) ∧
    (∀ s, first_sentinel rb (len + 2) (spi_cmd_complete_len2 g.crc_off cmd len) s →
      s ≤ len + 5 →
      (spi_cmd_complete g cmd addr b sz clockless w).2.1 =
        [rb.getD (s + 1) 0, rb.getD (s + 2) 0, rb.getD (s + 3) 0, rb.getD (s + 4) 0]) :=
  reg_read_parse g cmd addr b sz clockless w wb len rb p hcmd hb hf htrx hecho hstatus

theorem register_read_payload_witness :
    (((CMD_INTERNAL_READ = CMD_INTERNAL_READ ∨ CMD_INTERNAL_READ = CMD_SINGLE_READ) ∧
      [0, 0, 0, 0].length = 4 ∧
      spi_cmd_complete_frame
        (scripted_bus 1 [0, 0, 0, 0, 0xc4, 0, 0xf3, 0x11, 0x22, 0x33, 0x44, 0, 0, 0]).crc_off
        CMD_INTERNAL_READ 0x10 [0, 0, 0, 0] 4 1
        = some ([0xc4, 0x80, 0x10, 0x00] ++ List.replicate 28 0xaa, 4) ∧
      (scripted_bus 1 [0, 0, 0, 0, 0xc4, 0, 0xf3, 0x11, 0x22, 0x33, 0x44, 0, 0, 0]).spi_trx
        idle_world.peer
        (([0xc4, 0x80, 0x10, 0x00] ++ List.replicate 28 0xaa).take 4 ++ List.replicate
          (spi_cmd_complete_len2
            (scripted_bus 1 [0, 0, 0, 0, 0xc4, 0, 0xf3, 0x11, 0x22, 0x33, 0x44, 0, 0, 0]).crc_off
            CMD_INTERNAL_READ 4 - 4) 0)
        = (true, [0, 0, 0, 0, 0xc4, 0, 0xf3, 0x11, 0x22, 0x33, 0x44, 0, 0, 0], ()) ∧
      [0, 0, 0, 0, 0xc4, 0, 0xf3, 0x11, 0x22, 0x33, 0x44, 0, 0, 0].getD 4 0
        = CMD_INTERNAL_READ ∧
      [0, 0, 0, 0, 0xc4, 0, 0xf3, 0x11, 0x22, 0x33, 0x44, 0, 0, 0].getD (4 + 1) 0 = 0x00)) ∧
    (((spi_cmd_complete
        (scripted_bus 1 [0, 0, 0, 0, 0xc4, 0, 0xf3, 0x11, 0x22, 0x33, 0x44, 0, 0, 0])
        CMD_INTERNAL_READ 0x10 [0, 0, 0, 0] 4 1 idle_world).1 = N_OK ↔
      ∃ s, first_sentinel [0, 0, 0, 0, 0xc4, 0, 0xf3, 0x11, 0x22, 0x33, 0x44, 0, 0, 0] (4 + 2)
        (spi_cmd_complete_len2
          (scripted_bus 1 [0, 0, 0, 0, 0xc4, 0, 0xf3, 0x11, 0x22, 0x33, 0x44, 0, 0, 0]).crc_off
          CMD_INTERNAL_READ 4) s ∧ s ≤ 4 + 5) ∧
    (∀ s, first_sentinel [0, 0, 0, 0, 0xc4, 0, 0xf3, 0x11, 0x22, 0x33, 0x44, 0, 0, 0] (4 + 2)
        (spi_cmd_complete_len2
          (scripted_bus 1 [0, 0, 0, 0, 0xc4, 0, 0xf3, 0x11, 0x22, 0x33, 0x44, 0, 0, 0]).crc_off
          CMD_INTERNAL_READ 4) s →
      s ≤ 4 + 5 →
      (spi_cmd_complete
        (scripted_bus 1 [0, 0, 0, 0, 0xc4, 0, 0xf3, 0x11, 0x22, 0x33, 0x44, 0, 0, 0])
        CMD_INTERNAL_READ 0x10 [0, 0, 0, 0] 4 1 idle_world).2.1 =
        [[0, 0, 0, 0, 0xc4, 0, 0xf3, 0x11, 0x22, 0x33, 0x44, 0, 0, 0].getD (s + 1) 0,
          [0, 0, 0, 0, 0xc4, 0, 0xf3, 0x11, 0x22, 0x33, 0x44, 0, 0, 0].getD (s + 2) 0,
          [0, 0, 0, 0, 0xc4, 0, 0xf3, 0x11, 0x22, 0x33, 0x44, 0, 0, 0].getD (s + 3) 0,
          [0, 0, 0, 0, 0xc4, 0, 0xf3, 0x11, 0x22, 0x33, 0x44, 0, 0, 0].getD (s + 4) 0])) :=
  ⟨⟨Or.inl rfl, rfl, by decide, rfl, rfl, rfl⟩,
    register_read_payload
      (scripted_bus 1 [0, 0, 0, 0, 0xc4, 0, 0xf3, 0x11, 0x22, 0x33, 0x44, 0, 0, 0])
      CMD_INTERNAL_READ 0x10 [0, 0, 0, 0] 4 1 idle_world
      ([0xc4, 0x80, 0x10, 0x00] ++ List.replicate 28 0xaa) 4
      [0, 0, 0, 0, 0xc4, 0, 0xf3, 0x11, 0x22, 0x33, 0x44, 0, 0, 0] () (Or.inl rfl) rfl
      (by decide) rfl rfl rfl⟩

/-! ## Lemmas: the value of a register read -/

theorem spi_cmd_complete_frame_reg (crc_off : Int) (cmd addr : Nat) (b : List Nat)
    (sz clockless : Nat) (hcmd : cmd = CMD_INTERNAL_READ ∨ cmd = CMD_SINGLE_READ) :
    ∃ wb, spi_cmd_complete_frame crc_off cmd addr b sz clockless
      = some (wb, if crc_off = 0 then 5 else 4) := by
  have hop : cmd ∈ opcodes := by rcases hcmd with rfl | rfl <;> decide
  have h5 : ∀ wb0 len0, spi_cmd_complete_switch cmd addr b sz clockless = some (wb0, len0) →
      len0 = 5 := by
    intro wb0 len0 hs
    rcases hcmd with rfl | rfl <;>
      simp [spi_cmd_complete_switch, CMD_DMA_WRITE, CMD_DMA_READ, CMD_INTERNAL_WRITE,
        CMD_INTERNAL_READ, CMD_TERMINATE, CMD_REPEAT, CMD_DMA_EXT_WRITE, CMD_DMA_EXT_READ,
        CMD_SINGLE_WRITE, CMD_SINGLE_READ, CMD_RESET] at hs <;>
      exact hs.2.symm
  by_cases hc : crc_off = 0
  · subst hc
    obtain ⟨wb0, wb, len, hs, hf, -⟩ := spi_cmd_complete_frame_on cmd addr b sz clockless hop
    have := h5 wb0 len hs
    subst this
    exact ⟨wb, by simpa using hf⟩
  · obtain ⟨wb0, len, hs, hf, -⟩ :=
      spi_cmd_complete_frame_off crc_off cmd addr b sz clockless hop hc
    have := h5 wb0 len hs
    subst this
    exact ⟨wb0, by simpa [hc] using hf⟩

/-- A register-read attempt that returns `N_OK`: it was one exchange, which
succeeded, with echo and status as expected and a first sentinel at most at
`len+5`; the four bytes behind the sentinel are the caller's bytes. -/
theorem reg_read_ok_inv (g : wilc_spi σ) (cmd addr : Nat) (b : List Nat)
    (sz clockless : Nat) (w : World σ)
    (hcmd : cmd = CMD_INTERNAL_READ ∨ cmd = CMD_SINGLE_READ) (hb : b.length = 4)
    (hok : (spi_cmd_complete g cmd addr b sz clockless w).1 = N_OK) :
    ∃ sent rb s,
      (spi_cmd_complete g cmd addr b sz clockless w).2.2.log
        = w.log ++ [Event.trx sent true rb] ∧
      first_sentinel rb ((if g.crc_off = 0 then 5 else 4) + 2)
        ((if g.crc_off = 0 then 5 else 4) + (if g.crc_off = 0 then 12 else 10)) s ∧
      (spi_cmd_complete g cmd addr b sz clockless w).2.1 =
        [rb.getD (s + 1) 0, rb.getD (s + 2) 0, rb.getD (s + 3) 0, rb.getD (s + 4) 0] := by
  obtain ⟨wb, hf⟩ := spi_cmd_complete_frame_reg g.crc_off cmd addr b sz clockless hcmd
  generalize hlen : (if g.crc_off = 0 then 5 else 4) = len at hf ⊢
  have hlen9 : len ≤ 9 := by rw [← hlen]; split <;> omega
  have hop : cmd ∈ opcodes := by rcases hcmd with rfl | rfl <;> decide
  have nd1 : cmd ≠ CMD_DMA_READ := by rcases hcmd with rfl | rfl <;> decide
  have nd2 : cmd ≠ CMD_DMA_EXT_READ := by rcases hcmd with rfl | rfl <;> decide
  have ns : ¬ (cmd = CMD_RESET ∨ cmd = CMD_TERMINATE ∨ cmd = CMD_REPEAT) := by
    rcases hcmd with rfl | rfl <;> decide
  obtain ⟨hwb, -, -⟩ := spi_cmd_complete_frame_bounds g.crc_off cmd addr b sz clockless wb len
    hop hf
  have hl2 := spi_cmd_complete_len2_reg g.crc_off cmd len hcmd
  have hworld := spi_cmd_complete_world g cmd addr b sz clockless w wb len hf (by omega) nd1 nd2
  have heq := spi_cmd_complete_eq g cmd addr b sz clockless w wb len hf (by omega)
  rw [sent_bytes_eq wb len _ (by rw [hl2]; omega) (by rw [hl2, hwb]; split <;> omega)]
    at hworld heq
  rw [← hl2]
  generalize hsent : wb.take len ++
    List.replicate (spi_cmd_complete_len2 g.crc_off cmd len - len) 0 = sent at hworld heq
  have htrx : g.spi_trx w.peer sent
      = ((g.spi_trx w.peer sent).1, (g.spi_trx w.peer sent).2.1, (g.spi_trx w.peer sent).2.2) :=
    rfl
  cases hst : (g.spi_trx w.peer sent).1
  · rw [heq] at hok
    simp only [call_trx, hst, Bool.not_false, if_true] at hok
    exact absurd hok N_FAIL_ne_N_OK
  · rw [hst] at htrx
    by_cases hecho : (g.spi_trx w.peer sent).2.1.getD len 0 = cmd
    · by_cases hstatus : (g.spi_trx w.peer sent).2.1.getD (len + 1) 0 = 0x00
      · subst hsent
        obtain ⟨hiff, hval⟩ := reg_read_parse g cmd addr b sz clockless w wb len _ _ hcmd hb hf
          htrx hecho hstatus
        obtain ⟨s, hs, h5⟩ := hiff.1 hok
        refine ⟨wb.take len ++
          List.replicate (spi_cmd_complete_len2 g.crc_off cmd len - len) 0, _, s, ?_, hs,
          hval s hs h5⟩
        rw [hworld]
        simp only [call_trx, hst]
      · rw [heq] at hok
        unfold spi_cmd_complete_rsp at hok
        simp only [call_trx, hst, Bool.not_true, Bool.false_eq_true, if_false, ns, hecho,
          ne_eq, not_true_eq_false, hstatus, not_false_eq_true, if_true] at hok
        exact absurd hok N_FAIL_ne_N_OK
    · rw [heq] at hok
      unfold spi_cmd_complete_rsp at hok
      simp only [call_trx, hst, Bool.not_true, Bool.false_eq_true, if_false, ns, hecho,
        ne_eq, not_false_eq_true, if_true] at hok
      exact absurd hok N_FAIL_ne_N_OK

theorem spi_cmd_complete_single_log (g : wilc_spi σ) (cmd addr : Nat) (b : List Nat)
    (sz clockless : Nat) (w : World σ) (hcmd : cmd ∈ opcodes) (h1 : cmd ≠ CMD_DMA_READ)
    (h2 : cmd ≠ CMD_DMA_EXT_READ) :
    ∃ e, (spi_cmd_complete g cmd addr b sz clockless w).2.2.log = w.log ++ [e] := by
  obtain ⟨wb0, len0, wb, len, tail, -, hf, h9, -, -, -⟩ :=
    spi_cmd_complete_frame_head g.crc_off cmd addr b sz clockless hcmd
  rw [spi_cmd_complete_world g cmd addr b sz clockless w wb len hf (by omega) h1 h2]
  exact ⟨_, rfl⟩

theorem spi_reset_log_one (g : wilc_spi σ) (w : World σ) :
    ∃ e, (spi_reset g w).2.log = w.log ++ [e] := by
  obtain ⟨e, he, -⟩ := spi_reset_log g w
  exact ⟨e, he⟩

theorem bytes_word_four (a b c d : Nat) : bytes_word [a, b, c, d] = le_word a b c d := by
  simp [bytes_word, le_word]

theorem word_bytes_length (data : Nat) : (word_bytes data).length = 4 := rfl

/-- A register read that returns `N_OK` delivers the little-endian reading of
the four bytes behind the first sentinel of its last exchange. -/
theorem spi_read_reg_from_ok (g : wilc_spi σ) (A n data : Nat) (w : World σ)
    (hok : (spi_read_reg_from g A n data w).1 = N_OK) :
    ∃ evs sent rb s,
      (spi_read_reg_from g A n data w).2.2.log = w.log ++ evs ++ [Event.trx sent true rb] ∧
      first_sentinel rb ((if g.crc_off = 0 then 5 else 4) + 2)
        ((if g.crc_off = 0 then 5 else 4) + (if g.crc_off = 0 then 12 else 10)) s ∧
      (spi_read_reg_from g A n data w).2.1 =
        le_word (rb.getD (s + 1) 0) (rb.getD (s + 2) 0) (rb.getD (s + 3) 0)
          (rb.getD (s + 4) 0) := by
  have hcmd : (if A ≤ 0x30 then CMD_INTERNAL_READ else CMD_SINGLE_READ) = CMD_INTERNAL_READ ∨
      (if A ≤ 0x30 then CMD_INTERNAL_READ else CMD_SINGLE_READ) = CMD_SINGLE_READ := by
    split
    · exact Or.inl rfl
    · exact Or.inr rfl
  induction n generalizing data w with
  | zero =>
    have hinv := reg_read_ok_inv g _ A (word_bytes data) 4 (if A ≤ 0x30 then 1 else 0) w hcmd
      (word_bytes_length data)
    unfold spi_read_reg_from at hok ⊢
    simp only [] at hok ⊢
    generalize spi_cmd_complete g (if A ≤ 0x30 then CMD_INTERNAL_READ else CMD_SINGLE_READ) A
      (word_bytes data) 4 (if A ≤ 0x30 then 1 else 0) w = r at hinv hok ⊢
    by_cases hr : r.1 ≠ N_OK
    · rw [if_pos hr] at hok
      exact absurd hok hr
    · rw [if_neg hr]
      obtain ⟨sent, rb, s, h1, h2, h3⟩ := hinv (not_not.1 hr)
      refine ⟨[], sent, rb, s, by simpa using h1, h2, ?_⟩
      show bytes_word r.2.1 = _
      rw [h3, bytes_word_four]
  | succ m ih =>
    have hinv := reg_read_ok_inv g _ A (word_bytes data) 4 (if A ≤ 0x30 then 1 else 0) w hcmd
      (word_bytes_length data)
    obtain ⟨e, he⟩ := spi_cmd_complete_single_log g
      (if A ≤ 0x30 then CMD_INTERNAL_READ else CMD_SINGLE_READ) A (word_bytes data) 4
      (if A ≤ 0x30 then 1 else 0) w (by rcases hcmd with h | h <;> rw [h] <;> decide)
      (by rcases hcmd with h | h <;> rw [h] <;> decide)
      (by rcases hcmd with h | h <;> rw [h] <;> decide)
    unfold spi_read_reg_from at hok ⊢
    simp only [] at hok ⊢
    generalize spi_cmd_complete g (if A ≤ 0x30 then CMD_INTERNAL_READ else CMD_SINGLE_READ) A
      (word_bytes data) 4 (if A ≤ 0x30 then 1 else 0) w = r at hinv he hok ⊢
    by_cases hr : r.1 ≠ N_OK
    · rw [if_pos hr] at hok ⊢
      obtain ⟨x, hx⟩ := spi_reset_log_one g r.2.2
      obtain ⟨evs, sent, rb, s, h1, h2, h3⟩ := ih _ _ hok
      refine ⟨e :: x :: evs, sent, rb, s, ?_, h2, h3⟩
      rw [h1, hx, he]
      simp
    · rw [if_neg hr]
      obtain ⟨sent, rb, s, h1, h2, h3⟩ := hinv (not_not.1 hr)
      refine ⟨[], sent, rb, s, by simpa using h1, h2, ?_⟩
      show bytes_word r.2.1 = _
      rw [h3, bytes_word_four]

theorem spi_internal_read_from_ok (g : wilc_spi σ) (A n data : Nat) (w : World σ)
    (hok : (spi_internal_read_from g A n data w).1 = N_OK) :
    ∃ evs sent rb s,
      (spi_internal_read_from g A n data w).2.2.log
        = w.log ++ evs ++ [Event.trx sent true rb] ∧
      first_sentinel rb ((if g.crc_off = 0 then 5 else 4) + 2)
        ((if g.crc_off = 0 then 5 else 4) + (if g.crc_off = 0 then 12 else 10)) s ∧
      (spi_internal_read_from g A n data w).2.1 =
        le_word (rb.getD (s + 1) 0) (rb.getD (s + 2) 0) (rb.getD (s + 3) 0)
          (rb.getD (s + 4) 0) := by
  induction n generalizing data w with
  | zero =>
    have hinv := reg_read_ok_inv g CMD_INTERNAL_READ A (word_bytes data) 4 0 w (Or.inl rfl)
      (word_bytes_length data)
    unfold spi_internal_read_from at hok ⊢
    simp only [] at hok ⊢
    generalize spi_cmd_complete g CMD_INTERNAL_READ A (word_bytes data) 4 0 w = r
      at hinv hok ⊢
    by_cases hr : r.1 ≠ N_OK
    · rw [if_pos hr] at hok
      exact absurd hok hr
    · rw [if_neg hr]
      obtain ⟨sent, rb, s, h1, h2, h3⟩ := hinv (not_not.1 hr)
      refine ⟨[], sent, rb, s, by simpa using h1, h2, ?_⟩
      show bytes_word r.2.1 = _
      rw [h3, bytes_word_four]
  | succ m ih =>
    have hinv := reg_read_ok_inv g CMD_INTERNAL_READ A (word_bytes data) 4 0 w (Or.inl rfl)
      (word_bytes_length data)
    obtain ⟨e, he⟩ := spi_cmd_complete_single_log g CMD_INTERNAL_READ A (word_bytes data) 4 0 w
      (by decide) (by decide) (by decide)
    unfold spi_internal_read_from at hok ⊢
    simp only [] at hok ⊢
    generalize spi_cmd_complete g CMD_INTERNAL_READ A (word_bytes data) 4 0 w = r
      at hinv he hok ⊢
    by_cases hr : r.1 ≠ N_OK
    · rw [if_pos hr] at hok ⊢
      obtain ⟨x, hx⟩ := spi_reset_log_one g r.2.2
      obtain ⟨evs, sent, rb, s, h1, h2, h3⟩ := ih _ _ hok
      refine ⟨e :: x :: evs, sent, rb, s, ?_, h2, h3⟩
      rw [h1, hx, he]
      simp
    · rw [if_neg hr]
      obtain ⟨sent, rb, s, h1, h2, h3⟩ := hinv (not_not.1 hr)
      refine ⟨[], sent, rb, s, by simpa using h1, h2, ?_⟩
      show bytes_word r.2.1 = _
      rw [h3, bytes_word_four]

/-- C9, as stated, fails: on a bus that answers a register read with the
payload bytes `11 22 33 44` behind the data header, `spi_read_reg` and
`spi_internal_read` succeed and deliver `0x44332211`, not the big-endian
reading `0x11223344` of the payload. -/
theorem register_read_value_not_big_endian :
    first_sentinel sample_reply 6 14 6 ∧
    sample_reply.getD 7 0 = 0x11 ∧ sample_reply.getD 8 0 = 0x22 ∧
    sample_reply.getD 9 0 = 0x33 ∧ sample_reply.getD 10 0 = 0x44 ∧
    (spi_read_reg (scripted_bus 1 sample_reply) 0x10 0 idle_world).1 = N_OK ∧
    (spi_read_reg (scripted_bus 1 sample_reply) 0x10 0 idle_world).2.1 = 0x44332211 ∧
    (spi_internal_read (scripted_bus 1 sample_reply) 0x10 0 idle_world).1 = N_OK ∧
    (spi_internal_read (scripted_bus 1 sample_reply) 0x10 0 idle_world).2.1 = 0x44332211 ∧
    be_word 0x11 0x22 0x33 0x44 = 0x11223344 ∧
    (spi_read_reg (scripted_bus 1 sample_reply) 0x10 0 idle_world).2.1
      ≠ be_word 0x11 0x22 0x33 0x44 ∧
    (spi_internal_read (scripted_bus 1 sample_reply) 0x10 0 idle_world).2.1
      ≠ be_word 0x11 0x22 0x33 0x44 :=
  ⟨⟨by decide, by decide, by decide, fun j h1 h2 => by omega⟩, by decide, by decide, by decide,
    by decide, by decide, by decide, by decide, by decide, by decide, by decide, by decide⟩

/-- C9, amended. When `spi_read_reg` or `spi_internal_read` returns `N_OK`,
its last bus exchange succeeded, the captured bytes hold a first data-header
sentinel behind echo and status, and the 32-bit value delivered is the
little-endian reading of the four payload bytes that follow the sentinel:
the first payload byte is the least significant byte. -/
theorem register_read_value_little_endian (g : wilc_spi σ) (A data : Nat) (w : World σ) :
    ((spi_read_reg g A data w).1 = N_OK →
      ∃ evs sent rb s,
        (spi_read_reg g A data w).2.2.log = w.log ++ evs ++ [Event.trx sent true rb] ∧
        first_sentinel rb ((if g.crc_off = 0 then 5 else 4) + 2)
          ((if g.crc_off = 0 then 5 else 4) + (if g.crc_off = 0 then 12 else 10)) s ∧
        (spi_read_reg g A data w).2.1 =
          le_word (rb.getD (s + 1) 0) (rb.getD (s + 2) 0) (rb.getD (s + 3) 0)
            (rb.getD (s + 4) 0)) ∧
    ((spi_internal_read g A data w).1 = N_OK →
      ∃ evs sent rb s,
        (spi_internal_read g A data w).2.2.log = w.log ++ evs ++ [Event.trx sent true rb] ∧
        first_sentinel rb ((if g.crc_off = 0 then 5 else 4) + 2)
          ((if g.crc_off = 0 then 5 else 4) + (if g.crc_off = 0 then 12 else 10)) s ∧
        (spi_internal_read g A data w).2.1 =
          le_word (rb.getD (s + 1) 0) (rb.getD (s + 2) 0) (rb.getD (s + 3) 0)
            (rb.getD (s + 4) 0)) :=
  ⟨spi_read_reg_from_ok g A _ data w, spi_internal_read_from_ok g A _ data w⟩

theorem register_read_value_little_endian_witness :
    ((spi_read_reg (scripted_bus 1 sample_reply) 0x10 0 idle_world).1 = N_OK ∧
      (spi_internal_read (scripted_bus 1 sample_reply) 0x10 0 idle_world).1 = N_OK) ∧
    (∃ evs sent rb s,
      (spi_read_reg (scripted_bus 1 sample_reply) 0x10 0 idle_world).2.2.log
        = idle_world.log ++ evs ++ [Event.trx sent true rb] ∧
      first_sentinel rb ((if (scripted_bus 1 sample_reply).crc_off = 0 then 5 else 4) + 2)
        ((if (scripted_bus 1 sample_reply).crc_off = 0 then 5 else 4) +
          (if (scripted_bus 1 sample_reply).crc_off = 0 then 12 else 10)) s ∧
      (spi_read_reg (scripted_bus 1 sample_reply) 0x10 0 idle_world).2.1 =
        le_word (rb.getD (s + 1) 0) (rb.getD (s + 2) 0) (rb.getD (s + 3) 0)
          (rb.getD (s + 4) 0)) ∧
    (∃ evs sent rb s,
      (spi_internal_read (scripted_bus 1 sample_reply) 0x10 0 idle_world).2.2.log
        = idle_world.log ++ evs ++ [Event.trx sent true rb] ∧
      first_sentinel rb ((if (scripted_bus 1 sample_reply).crc_off = 0 then 5 else 4) + 2)
        ((if (scripted_bus 1 sample_reply).crc_off = 0 then 5 else 4) +
          (if (scripted_bus 1 sample_reply).crc_off = 0 then 12 else 10)) s ∧
      (spi_internal_read (scripted_bus 1 sample_reply) 0x10 0 idle_world).2.1 =
        le_word (rb.getD (s + 1) 0) (rb.getD (s + 2) 0) (rb.getD (s + 3) 0)
          (rb.getD (s + 4) 0)) :=
  ⟨⟨by decide, by decide⟩,
    (register_read_value_little_endian (scripted_bus 1 sample_reply) 0x10 0 idle_world).1
      (by decide),
    (register_read_value_little_endian (scripted_bus 1 sample_reply) 0x10 0 idle_world).2
      (by decide)⟩

/-! ## Lemmas: the round trip -/

theorem spi_write_reg_from_first_ok (g : wilc_spi σ) (A V n : Nat) (w : World σ)
    (h : (spi_cmd_complete g (if A ≤ 0x30 then CMD_INTERNAL_WRITE else CMD_SINGLE_WRITE) A
      (word_bytes V) 4 (if A ≤ 0x30 then 1 else 0) w).1 = N_OK) :
    spi_write_reg_from g A V n w =
      (N_OK, (spi_cmd_complete g (if A ≤ 0x30 then CMD_INTERNAL_WRITE else CMD_SINGLE_WRITE) A
        (word_bytes V) 4 (if A ≤ 0x30 then 1 else 0) w).2.2) := by
  unfold spi_write_reg_from
  simp only [h, ne_eq, not_true_eq_false, if_false]

theorem spi_read_reg_from_first_ok (g : wilc_spi σ) (A n data : Nat) (w : World σ)
    (h : (spi_cmd_complete g (if A ≤ 0x30 then CMD_INTERNAL_READ else CMD_SINGLE_READ) A
      (word_bytes data) 4 (if A ≤ 0x30 then 1 else 0) w).1 = N_OK) :
    spi_read_reg_from g A n data w =
      (N_OK, bytes_word (spi_cmd_complete g
        (if A ≤ 0x30 then CMD_INTERNAL_READ else CMD_SINGLE_READ) A
        (word_bytes data) 4 (if A ≤ 0x30 then 1 else 0) w).2.1,
        (spi_cmd_complete g (if A ≤ 0x30 then CMD_INTERNAL_READ else CMD_SINGLE_READ) A
        (word_bytes data) 4 (if A ≤ 0x30 then 1 else 0) w).2.2) := by
  unfold spi_read_reg_from
  simp only [h, ne_eq, not_true_eq_false, if_false]

theorem getD_replicate_append (k : Nat) (l : List Nat) (j : Nat) :
    (List.replicate k 0 ++ l).getD (k + j) 0 = l.getD j 0 := by
  simp only [List.getD_eq_getElem?_getD]
  rw [List.getElem?_append_right (by simp)]
  simp

theorem pad_to_getD (n : Nat) (l : List Nat) (i : Nat) (h : i < n) :
    (pad_to n l).getD i 0 = l.getD i 0 := by
  unfold pad_to
  simp only [List.getD_eq_getElem?_getD, List.getElem?_take, h, if_true]
  by_cases hi : i < l.length
  · rw [List.getElem?_append_left hi]
  · rw [List.getElem?_append_right (by omega), List.getElem?_eq_none (by omega : l.length ≤ i)]
    by_cases h2 : i - l.length < n
    · rw [List.getElem?_replicate_of_lt h2]
      rfl
    · rw [List.getElem?_eq_none (by simp; omega)]

/-- The simulated peer acknowledges every frame: the exchange succeeds, and
behind the frame (and the turnaround byte) come the echo and status
`0x00`. -/
theorem echo_trx_ack (crc_off : Int) (order : Bool) (st : RegFile) (wb : List Nat)
    (n skip : Nat) (hn : n = peer_frame_len crc_off (wb.getD 0 0))
    (hskip : skip = if wb.getD 0 0 = CMD_RESET ∨ wb.getD 0 0 = CMD_TERMINATE ∨
      wb.getD 0 0 = CMD_REPEAT then 1 else 0)
    (hlen : n + skip + 2 ≤ wb.length) :
    (echo_trx crc_off order st wb).1 = true ∧
    (echo_trx crc_off order st wb).2.1.getD (n + skip) 0 = wb.getD 0 0 ∧
    (echo_trx crc_off order st wb).2.1.getD (n + skip + 1) 0 = 0x00 := by
  have e0 : ∀ rest : List Nat,
      ((List.replicate (n + skip) 0 ++ [wb.getD 0 0, 0x00]) ++ rest).getD (n + skip) 0
        = wb.getD 0 0 := by
    intro rest
    rw [List.append_assoc]
    exact getD_replicate_append (n + skip) _ 0
  have e1 : ∀ rest : List Nat,
      ((List.replicate (n + skip) 0 ++ [wb.getD 0 0, 0x00]) ++ rest).getD (n + skip + 1) 0
        = 0x00 := by
    intro rest
    rw [List.append_assoc]
    exact getD_replicate_append (n + skip) _ 1
  have f0 := e0 []
  have f1 := e1 []
  rw [List.append_nil] at f0 f1
  unfold echo_trx
  simp only [← hn, ← hskip, List.append_assoc]
  simp only [List.append_assoc] at e0 e1
  split_ifs <;>
    refine ⟨rfl, ?_, ?_⟩ <;>
    simp only [pad_to_getD _ _ _ (by omega : n + skip < wb.length),
      pad_to_getD _ _ _ (by omega : n + skip + 1 < wb.length), e0, e1, f0, f1]

/-- The simulated peer answers a register read with the data header and
the stored bytes. -/
theorem echo_trx_read (crc_off : Int) (order : Bool) (st : RegFile) (wb : List Nat)
    (n k : Nat) (hn : n = peer_frame_len crc_off (wb.getD 0 0))
    (hcmd : (wb.getD 0 0 = CMD_SINGLE_READ ∧ k = 3) ∨ (wb.getD 0 0 = CMD_INTERNAL_READ ∧ k = 2))
    (hlen : n + 7 ≤ wb.length) (x0 x1 x2 x3 : Nat)
    (hst : reg_lookup ((wb.drop 1).take k) st = [x0, x1, x2, x3]) :
    (echo_trx crc_off order st wb).2.1.getD (n + 2) 0 = 0xf3 ∧
    [(echo_trx crc_off order st wb).2.1.getD (n + 2 + 1) 0,
      (echo_trx crc_off order st wb).2.1.getD (n + 2 + 2) 0,
      (echo_trx crc_off order st wb).2.1.getD (n + 2 + 3) 0,
      (echo_trx crc_off order st wb).2.1.getD (n + 2 + 4) 0]
      = (if order then [x0, x1, x2, x3] else [x3, x2, x1, x0]) := by
  have hrb : (echo_trx crc_off order st wb).2.1 = pad_to wb.length
      (List.replicate n 0 ++ ([wb.getD 0 0, 0x00, 0xf3] ++
        (if order then [x0, x1, x2, x3] else [x3, x2, x1, x0]))) := by
    unfold echo_trx
    rcases hcmd with ⟨hc, rfl⟩ | ⟨hc, rfl⟩
    · rw [hc] at hn
      simp only [hc, ← hn, hst]
      simp [CMD_DMA_WRITE, CMD_DMA_READ, CMD_INTERNAL_WRITE, CMD_INTERNAL_READ, CMD_TERMINATE,
        CMD_REPEAT, CMD_DMA_EXT_WRITE, CMD_DMA_EXT_READ, CMD_SINGLE_WRITE, CMD_SINGLE_READ,
        CMD_RESET]
    · rw [hc] at hn
      simp only [hc, ← hn, hst]
      simp [CMD_DMA_WRITE, CMD_DMA_READ, CMD_INTERNAL_WRITE, CMD_INTERNAL_READ, CMD_TERMINATE,
        CMD_REPEAT, CMD_DMA_EXT_WRITE, CMD_DMA_EXT_READ, CMD_SINGLE_WRITE, CMD_SINGLE_READ,
        CMD_RESET]
  rw [hrb]
  simp only [pad_to_getD _ _ _ (by omega : n + 2 < wb.length),
    pad_to_getD _ _ _ (by omega : n + 2 + 1 < wb.length),
    pad_to_getD _ _ _ (by omega : n + 2 + 2 < wb.length),
    pad_to_getD _ _ _ (by omega : n + 2 + 3 < wb.length),
    pad_to_getD _ _ _ (by omega : n + 2 + 4 < wb.length), Nat.add_assoc,
    getD_replicate_append]
  cases order <;> simp

theorem bytes_word_same_order (V : Nat) :
    bytes_word [u8 (V >>> 24), u8 (V >>> 16), u8 (V >>> 8), u8 V] = reverse_bytes V := by
  simp only [bytes_word, reverse_bytes, u8, List.getD_cons_zero, List.getD_cons_succ,
    Nat.shiftRight_eq_div_pow, Nat.shiftLeft_eq]
  omega

theorem bytes_word_reverse_order (V : Nat) (hV : V < 2 ^ 32) :
    bytes_word [u8 V, u8 (V >>> 8), u8 (V >>> 16), u8 (V >>> 24)] = V := by
  simp only [bytes_word, u8, List.getD_cons_zero, List.getD_cons_succ,
    Nat.shiftRight_eq_div_pow, Nat.shiftLeft_eq]
  omega


theorem spi_cmd_complete_switch_facts (cmd addr : Nat) (b : List Nat) (sz clockless : Nat)
    (wb0 : List Nat) (len0 : Nat) (hcmd : cmd ∈ opcodes)
    (hs : spi_cmd_complete_switch cmd addr b sz clockless = some (wb0, len0)) :
    len0 = reference_length cmd ∧ wb0.getD 0 0 = cmd := by
  simp only [opcodes, List.mem_cons, List.mem_singleton, List.not_mem_nil, or_false] at hcmd
  rcases hcmd with rfl | rfl | rfl | rfl | rfl | rfl | rfl | rfl | rfl | rfl | rfl <;>
    simp [spi_cmd_complete_switch, scratch, CMD_DMA_WRITE, CMD_DMA_READ, CMD_INTERNAL_WRITE,
      CMD_INTERNAL_READ, CMD_TERMINATE, CMD_REPEAT, CMD_DMA_EXT_WRITE, CMD_DMA_EXT_READ,
      CMD_SINGLE_WRITE, CMD_SINGLE_READ, CMD_RESET] at hs <;>
    obtain ⟨rfl, rfl⟩ := hs <;>
    (try split) <;>
    simp [reference_length, CMD_DMA_WRITE, CMD_DMA_READ, CMD_INTERNAL_WRITE,
      CMD_INTERNAL_READ, CMD_TERMINATE, CMD_REPEAT, CMD_DMA_EXT_WRITE, CMD_DMA_EXT_READ,
      CMD_SINGLE_WRITE, CMD_SINGLE_READ, CMD_RESET]

/-- What the simulated peer needs to know about the bytes of an exchange:
they start with the bytes stored by the `switch`, the first is the opcode,
the frame has the length the peer expects, and there are `len2` bytes. -/
theorem exchange_facts (crc_off : Int) (cmd addr : Nat) (b : List Nat) (sz clockless : Nat)
    (hcmd : cmd ∈ opcodes) :
    ∃ wb0 len0 wb len tail,
      spi_cmd_complete_switch cmd addr b sz clockless = some (wb0, len0) ∧
      spi_cmd_complete_frame crc_off cmd addr b sz clockless = some (wb, len) ∧
      len = peer_frame_len crc_off cmd ∧ wb.length = 32 ∧ 4 ≤ len ∧ len ≤ 9 ∧
      wb.take len ++ List.replicate (spi_cmd_complete_len2 crc_off cmd len - len) 0
        = wb0.take (len0 - 1) ++ tail ∧
      (wb.take len ++ List.replicate (spi_cmd_complete_len2 crc_off cmd len - len) 0).getD 0 0
        = cmd ∧
      (wb.take len ++ List.replicate (spi_cmd_complete_len2 crc_off cmd len - len) 0).length
        = spi_cmd_complete_len2 crc_off cmd len := by
  obtain ⟨wb0, len0, wb, len, tail, hs, hf, h9, hlo, hhi, ht⟩ :=
    spi_cmd_complete_frame_head crc_off cmd addr b sz clockless hcmd
  obtain ⟨hwb, h4, -⟩ := spi_cmd_complete_frame_bounds crc_off cmd addr b sz clockless wb len
    hcmd hf
  obtain ⟨hl0, hc0⟩ := spi_cmd_complete_switch_facts cmd addr b sz clockless wb0 len0 hcmd hs
  obtain ⟨wb0', len0', hs', hwb0, h5, -⟩ :=
    spi_cmd_complete_switch_some cmd addr b sz clockless hcmd
  rw [hs] at hs'
  obtain ⟨rfl, rfl⟩ : wb0 = wb0' ∧ len0 = len0' := by simpa using hs'
  have hb := spi_cmd_complete_len2_bounds crc_off cmd len
  rw [sent_bytes_eq wb len _ (by omega) (by omega)] at ht
  have hlen : len = peer_frame_len crc_off cmd := by
    unfold peer_frame_len
    rw [← hl0]
    by_cases hc : crc_off = 0
    · subst hc
      obtain ⟨_, wb', len', hs2, hf2, -⟩ := spi_cmd_complete_frame_on cmd addr b sz clockless hcmd
      rw [hs] at hs2
      rw [hf] at hf2
      simp only [Option.some.injEq, Prod.mk.injEq] at hs2 hf2
      simp only [if_true]
      omega
    · obtain ⟨_, len', hs2, hf2, -⟩ :=
        spi_cmd_complete_frame_off crc_off cmd addr b sz clockless hcmd hc
      rw [hs] at hs2
      rw [hf] at hf2
      simp only [Option.some.injEq, Prod.mk.injEq] at hs2 hf2
      simp only [hc, if_false]
      omega
  refine ⟨wb0, len0, wb, len, tail, hs, hf, hlen, hwb, h4, h9, ht, ?_, ?_⟩
  · rw [ht]
    simp only [List.getD_eq_getElem?_getD]
    rw [List.getElem?_append_left (by simp; omega), List.getElem?_take]
    simp only [List.getD_eq_getElem?_getD] at hc0
    rw [if_pos (by omega)]
    exact hc0
  · simp only [List.length_append, List.length_take, List.length_replicate]
    omega

theorem echo_bus_trx (crc_off : Int) (order : Bool) :
    (echo_bus crc_off order).spi_trx = echo_trx crc_off order := rfl

/-- A register write on the simulated peer: the attempt returns `N_OK` and
the peer has processed the bytes of the exchange. -/
theorem echo_write_attempt (crc_off : Int) (order : Bool) (cmd A cl V : Nat) (st : RegFile)
    (log : List Event) (hcmd : cmd = CMD_INTERNAL_WRITE ∨ cmd = CMD_SINGLE_WRITE) :
    ∃ wb0 len0 tail,
      spi_cmd_complete_switch cmd A (word_bytes V) 4 cl = some (wb0, len0) ∧
      (spi_cmd_complete (echo_bus crc_off order) cmd A (word_bytes V) 4 cl
        { peer := st, log := log }).1 = N_OK ∧
      (spi_cmd_complete (echo_bus crc_off order) cmd A (word_bytes V) 4 cl
        { peer := st, log := log }).2.2.peer
        = (echo_trx crc_off order st (wb0.take (len0 - 1) ++ tail)).2.2 := by
  have hop : cmd ∈ opcodes := by rcases hcmd with rfl | rfl <;> decide
  have hnr : cmd ∈ non_read_opcodes := by rcases hcmd with rfl | rfl <;> decide
  have hns : ¬ (cmd = CMD_RESET ∨ cmd = CMD_TERMINATE ∨ cmd = CMD_REPEAT) := by
    rcases hcmd with rfl | rfl <;> decide
  obtain ⟨-, n1, n2, n3, n4⟩ := non_read_opcodes_sub cmd hnr
  obtain ⟨wb0, len0, wb, len, tail, hs, hf, hlen, hwb, h4, h9, ht, hhead, hslen⟩ :=
    exchange_facts crc_off cmd A (word_bytes V) 4 cl hop
  have hb := spi_cmd_complete_len2_bounds crc_off cmd len
  have heq := spi_cmd_complete_eq (echo_bus crc_off order) cmd A (word_bytes V) 4 cl
    { peer := st, log := log } wb len hf (by omega)
  have hse := sent_bytes_eq wb len (spi_cmd_complete_len2 crc_off cmd len) (by omega) (by omega)
  have hse2 : sent_bytes wb len (spi_cmd_complete_len2 (echo_bus crc_off order).crc_off cmd len)
      = wb.take len ++ List.replicate (spi_cmd_complete_len2 crc_off cmd len - len) 0 := hse
  rw [hse2] at heq
  generalize hsent : wb.take len ++
    List.replicate (spi_cmd_complete_len2 crc_off cmd len - len) 0 = sent at heq ht hhead hslen
  obtain ⟨a1, a2, a3⟩ := echo_trx_ack crc_off order st sent len 0
    (by rw [hhead]; exact hlen) (by rw [hhead, if_neg hns]) (by omega)
  rw [hhead] at a2
  refine ⟨wb0, len0, tail, hs, ?_, ?_⟩
  · rw [heq]
    simp only [call_trx, echo_bus_trx, a1, Bool.not_true, Bool.false_eq_true, if_false]
    rw [spi_cmd_complete_rsp_non_read _ cmd _ _ _ _ len _ n1 n2 n3 n4 0 (by rw [if_neg hns])]
    simp only [Nat.add_zero] at a2 a3 ⊢
    rw [if_pos ⟨a2, a3⟩]
  · rw [heq]
    simp only [call_trx, echo_bus_trx, a1, Bool.not_true, Bool.false_eq_true, if_false]
    rw [spi_cmd_complete_rsp_non_read _ cmd _ _ _ _ len _ n1 n2 n3 n4 0 (by rw [if_neg hns])]
    rw [ht]

/-- A register read on the simulated peer: when the register file holds
four bytes for the address bytes of the frame, the attempt returns `N_OK`
with these bytes, in the order the peer replies in. -/
theorem echo_read_attempt (crc_off : Int) (order : Bool) (cmd A cl k : Nat) (b : List Nat)
    (st : RegFile) (log : List Event) (x0 x1 x2 x3 : Nat)
    (hcmd : (cmd = CMD_SINGLE_READ ∧ k = 3) ∨ (cmd = CMD_INTERNAL_READ ∧ k = 2))
    (hb : b.length = 4) :
    ∃ wb0 len0 tail,
      spi_cmd_complete_switch cmd A b 4 cl = some (wb0, len0) ∧
      (reg_lookup (((wb0.take (len0 - 1) ++ tail).drop 1).take k) st = [x0, x1, x2, x3] →
        (spi_cmd_complete (echo_bus crc_off order) cmd A b 4 cl
          { peer := st, log := log }).1 = N_OK ∧
        (spi_cmd_complete (echo_bus crc_off order) cmd A b 4 cl
          { peer := st, log := log }).2.1
          = (if order then [x0, x1, x2, x3] else [x3, x2, x1, x0])) := by
  have hc2 : cmd = CMD_INTERNAL_READ ∨ cmd = CMD_SINGLE_READ := by
    rcases hcmd with ⟨h, -⟩ | ⟨h, -⟩
    · exact Or.inr h
    · exact Or.inl h
  have hop : cmd ∈ opcodes := by rcases hc2 with rfl | rfl <;> decide
  have hns : ¬ (cmd = CMD_RESET ∨ cmd = CMD_TERMINATE ∨ cmd = CMD_REPEAT) := by
    rcases hc2 with rfl | rfl <;> decide
  obtain ⟨wb0, len0, wb, len, tail, hs, hf, hlen, hwb, h4, h9, ht, hhead, hslen⟩ :=
    exchange_facts crc_off cmd A b 4 cl hop
  have hl2 := spi_cmd_complete_len2_reg crc_off cmd len hc2
  have hl2' : len + 10 ≤ spi_cmd_complete_len2 crc_off cmd len := by
    rw [hl2]; split <;> omega
  refine ⟨wb0, len0, tail, hs, ?_⟩
  rw [← ht]
  generalize hsent : wb.take len ++
    List.replicate (spi_cmd_complete_len2 crc_off cmd len - len) 0 = sent at hhead hslen
  intro hst
  obtain ⟨a1, a2, a3⟩ := echo_trx_ack crc_off order st sent len 0
    (by rw [hhead]; exact hlen) (by rw [hhead, if_neg hns]) (by omega)
  rw [hhead] at a2
  obtain ⟨r1, r2⟩ := echo_trx_read crc_off order st sent len k (by rw [hhead]; exact hlen)
    (by rw [hhead]; exact hcmd) (by omega) x0 x1 x2 x3 hst
  have htrx : (echo_bus crc_off order).spi_trx st sent
      = (true, (echo_trx crc_off order st sent).2.1, (echo_trx crc_off order st sent).2.2) := by
    rw [echo_bus_trx, ← a1]
  simp only [Nat.add_zero] at a2 a3
  have htrx2 : (echo_bus crc_off order).spi_trx st (wb.take len ++
      List.replicate (spi_cmd_complete_len2 crc_off cmd len - len) 0)
      = (true, (echo_trx crc_off order st sent).2.1, (echo_trx crc_off order st sent).2.2) := by
    rw [hsent]; exact htrx
  obtain ⟨hiff, hval⟩ := reg_read_parse (echo_bus crc_off order) cmd A b 4 cl
    { peer := st, log := log } wb len _ _ hc2 hb hf htrx2 a2 a3
  have hfs : first_sentinel (echo_trx crc_off order st sent).2.1 (len + 2)
      (spi_cmd_complete_len2 (echo_bus crc_off order).crc_off cmd len) (len + 2) := by
    refine ⟨Nat.le_refl _, ?_, by rw [r1], fun j h1 h2 => by omega⟩
    show len + 2 < spi_cmd_complete_len2 crc_off cmd len
    omega
  exact ⟨hiff.2 ⟨len + 2, hfs, by omega⟩, by rw [hval (len + 2) hfs (by omega)]; exact r2⟩

/-- On the simulated peer the write attempt is acknowledged, and the read
attempt that follows it returns the data bytes of the write frame, in the
order the peer replies in. -/
theorem echo_attempts (crc_off : Int) (order : Bool) (A V d : Nat) (st : RegFile)
    (log : List Event) :
    (spi_cmd_complete (echo_bus crc_off order)
      (if A ≤ 0x30 then CMD_INTERNAL_WRITE else CMD_SINGLE_WRITE) A (word_bytes V) 4
      (if A ≤ 0x30 then 1 else 0) { peer := st, log := log }).1 = N_OK ∧
    (spi_cmd_complete (echo_bus crc_off order)
      (if A ≤ 0x30 then CMD_INTERNAL_READ else CMD_SINGLE_READ) A (word_bytes d) 4
      (if A ≤ 0x30 then 1 else 0)
      (spi_cmd_complete (echo_bus crc_off order)
        (if A ≤ 0x30 then CMD_INTERNAL_WRITE else CMD_SINGLE_WRITE) A (word_bytes V) 4
        (if A ≤ 0x30 then 1 else 0) { peer := st, log := log }).2.2).1 = N_OK ∧
    (spi_cmd_complete (echo_bus crc_off order)
      (if A ≤ 0x30 then CMD_INTERNAL_READ else CMD_SINGLE_READ) A (word_bytes d) 4
      (if A ≤ 0x30 then 1 else 0)
      (spi_cmd_complete (echo_bus crc_off order)
        (if A ≤ 0x30 then CMD_INTERNAL_WRITE else CMD_SINGLE_WRITE) A (word_bytes V) 4
        (if A ≤ 0x30 then 1 else 0) { peer := st, log := log }).2.2).2.1 =
      (if order then [u8 (V >>> 24), u8 (V >>> 16), u8 (V >>> 8), u8 V]
        else [u8 V, u8 (V >>> 8), u8 (V >>> 16), u8 (V >>> 24)]) := by
  by_cases hA : A ≤ 0x30
  · simp only [hA, if_true]
    obtain ⟨wb0, len0, tail, hs, hw1, hw2⟩ :=
      echo_write_attempt crc_off order CMD_INTERNAL_WRITE A 1 V st log (Or.inl rfl)
    simp [spi_cmd_complete_switch, scratch, word_bytes, CMD_DMA_WRITE, CMD_DMA_READ,
      CMD_INTERNAL_WRITE, CMD_INTERNAL_READ, CMD_TERMINATE, CMD_REPEAT, CMD_DMA_EXT_WRITE,
      CMD_DMA_EXT_READ, CMD_SINGLE_WRITE, CMD_SINGLE_READ, CMD_RESET] at hs
    obtain ⟨rfl, rfl⟩ := hs
    generalize spi_cmd_complete (echo_bus crc_off order) CMD_INTERNAL_WRITE A (word_bytes V) 4 1
      { peer := st, log := log } = rw1 at hw1 hw2 ⊢
    obtain ⟨wb1, len1, tail1, hs1, hr⟩ :=
      echo_read_attempt crc_off order CMD_INTERNAL_READ A 1 2 (word_bytes d) rw1.2.2.peer
        rw1.2.2.log (u8 (V >>> 24)) (u8 (V >>> 16)) (u8 (V >>> 8)) (u8 V)
        (Or.inr ⟨rfl, rfl⟩) rfl
    simp [spi_cmd_complete_switch, scratch, CMD_DMA_WRITE, CMD_DMA_READ,
      CMD_INTERNAL_WRITE, CMD_INTERNAL_READ, CMD_TERMINATE, CMD_REPEAT, CMD_DMA_EXT_WRITE,
      CMD_DMA_EXT_READ, CMD_SINGLE_WRITE, CMD_SINGLE_READ, CMD_RESET] at hs1
    obtain ⟨rfl, rfl⟩ := hs1
    have hlook := hr (by
      rw [hw2]
      simp [echo_trx, reg_lookup, CMD_DMA_WRITE, CMD_DMA_READ,
        CMD_INTERNAL_WRITE, CMD_INTERNAL_READ, CMD_TERMINATE, CMD_REPEAT, CMD_DMA_EXT_WRITE,
        CMD_DMA_EXT_READ, CMD_SINGLE_WRITE, CMD_SINGLE_READ, CMD_RESET])
    exact ⟨hw1, hlook.1, hlook.2⟩
  · simp only [hA, if_false]
    obtain ⟨wb0, len0, tail, hs, hw1, hw2⟩ :=
      echo_write_attempt crc_off order CMD_SINGLE_WRITE A 0 V st log (Or.inr rfl)
    simp [spi_cmd_complete_switch, scratch, word_bytes, CMD_DMA_WRITE, CMD_DMA_READ,
      CMD_INTERNAL_WRITE, CMD_INTERNAL_READ, CMD_TERMINATE, CMD_REPEAT, CMD_DMA_EXT_WRITE,
      CMD_DMA_EXT_READ, CMD_SINGLE_WRITE, CMD_SINGLE_READ, CMD_RESET] at hs
    obtain ⟨rfl, rfl⟩ := hs
    generalize spi_cmd_complete (echo_bus crc_off order) CMD_SINGLE_WRITE A (word_bytes V) 4 0
      { peer := st, log := log } = rw1 at hw1 hw2 ⊢
    obtain ⟨wb1, len1, tail1, hs1, hr⟩ :=
      echo_read_attempt crc_off order CMD_SINGLE_READ A 0 3 (word_bytes d) rw1.2.2.peer
        rw1.2.2.log (u8 (V >>> 24)) (u8 (V >>> 16)) (u8 (V >>> 8)) (u8 V)
        (Or.inl ⟨rfl, rfl⟩) rfl
    simp [spi_cmd_complete_switch, scratch, CMD_DMA_WRITE, CMD_DMA_READ,
      CMD_INTERNAL_WRITE, CMD_INTERNAL_READ, CMD_TERMINATE, CMD_REPEAT, CMD_DMA_EXT_WRITE,
      CMD_DMA_EXT_READ, CMD_SINGLE_WRITE, CMD_SINGLE_READ, CMD_RESET] at hs1
    obtain ⟨rfl, rfl⟩ := hs1
    have hlook := hr (by
      rw [hw2]
      simp [echo_trx, reg_lookup, CMD_DMA_WRITE, CMD_DMA_READ,
        CMD_INTERNAL_WRITE, CMD_INTERNAL_READ, CMD_TERMINATE, CMD_REPEAT, CMD_DMA_EXT_WRITE,
        CMD_DMA_EXT_READ, CMD_SINGLE_WRITE, CMD_SINGLE_READ, CMD_RESET])
    exact ⟨hw1, hlook.1, hlook.2⟩

/-- C10, as stated, fails: on the simulated peer that answers a register
read with the data bytes of the last write frame in the same wire order,
`spi_write_reg(0x40, 1)` and `spi_read_reg(0x40, &d)` both return `N_OK`, and
`d` is `0x01000000`, not 1. -/
theorem round_trip_same_order_fails :
    (spi_write_reg (echo_bus 1 true) 0x40 1 { peer := [], log := [] }).1 = N_OK ∧
    (spi_read_reg (echo_bus 1 true) 0x40 0
      (spi_write_reg (echo_bus 1 true) 0x40 1 { peer := [], log := [] }).2).1 = N_OK ∧
    (spi_read_reg (echo_bus 1 true) 0x40 0
      (spi_write_reg (echo_bus 1 true) 0x40 1 { peer := [], log := [] }).2).2.1 = 0x01000000 ∧
    (spi_read_reg (echo_bus 1 true) 0x40 0
      (spi_write_reg (echo_bus 1 true) 0x40 1 { peer := [], log := [] }).2).2.1 ≠ 1 := by
  refine ⟨by decide, by decide, by decide, by decide⟩

/-- C10, amended. For every address `A` and 32-bit value `V`, on the
simulated peer (every frame acknowledged with echo and status `0x00`, a
register read of `A` answered with a data header and the four data bytes of
the most recent register-write frame to `A`), `spi_write_reg(A, V)` followed
by `spi_read_reg(A, &d)` both return `N_OK`; when the peer replies with the
data bytes in the wire order of the write frame, `d` is `V` with its four
bytes reversed; when it replies with them in the reverse of that order
(least significant byte first), `d == V`. -/
theorem write_then_read_round_trip (crc_off : Int) (A V d : Nat) (st : RegFile)
    (log : List Event) (hV : V < 2 ^ 32) :
    ((spi_write_reg (echo_bus crc_off true) A V { peer := st, log := log }).1 = N_OK ∧
      (spi_read_reg (echo_bus crc_off true) A d
        (spi_write_reg (echo_bus crc_off true) A V { peer := st, log := log }).2).1 = N_OK ∧
      (spi_read_reg (echo_bus crc_off true) A d
        (spi_write_reg (echo_bus crc_off true) A V { peer := st, log := log }).2).2.1
        = reverse_bytes V) ∧
    ((spi_write_reg (echo_bus crc_off false) A V { peer := st, log := log }).1 = N_OK ∧
      (spi_read_reg (echo_bus crc_off false) A d
        (spi_write_reg (echo_bus crc_off false) A V { peer := st, log := log }).2).1 = N_OK ∧
      (spi_read_reg (echo_bus crc_off false) A d
        (spi_write_reg (echo_bus crc_off false) A V { peer := st, log := log }).2).2.1 = V) := by
  constructor
  · obtain ⟨h1, h2, h3⟩ := echo_attempts crc_off true A V d st log
    have hw := spi_write_reg_from_first_ok (echo_bus crc_off true) A V (SPI_RETRY_COUNT - 1)
      { peer := st, log := log } h1
    have hw2 : spi_write_reg (echo_bus crc_off true) A V { peer := st, log := log } = _ := hw
    rw [hw2]
    have hr := spi_read_reg_from_first_ok (echo_bus crc_off true) A (SPI_RETRY_COUNT - 1) d _ h2
    have hr2 : spi_read_reg (echo_bus crc_off true) A d _ = _ := hr
    rw [hr2]
    refine ⟨rfl, rfl, ?_⟩
    show bytes_word _ = _
    rw [h3]
    exact bytes_word_same_order V
  · obtain ⟨h1, h2, h3⟩ := echo_attempts crc_off false A V d st log
    have hw := spi_write_reg_from_first_ok (echo_bus crc_off false) A V (SPI_RETRY_COUNT - 1)
      { peer := st, log := log } h1
    have hw2 : spi_write_reg (echo_bus crc_off false) A V { peer := st, log := log } = _ := hw
    rw [hw2]
    have hr := spi_read_reg_from_first_ok (echo_bus crc_off false) A (SPI_RETRY_COUNT - 1) d _ h2
    have hr2 : spi_read_reg (echo_bus crc_off false) A d _ = _ := hr
    rw [hr2]
    refine ⟨rfl, rfl, ?_⟩
    show bytes_word _ = _
    rw [h3]
    exact bytes_word_reverse_order V hV

theorem write_then_read_round_trip_witness :
    0xa1b2c3d4 < 2 ^ 32 ∧
    ((spi_write_reg (echo_bus 0 true) 0x20 0xa1b2c3d4 { peer := [], log := [] }).1 = N_OK ∧
      (spi_read_reg (echo_bus 0 true) 0x20 0
        (spi_write_reg (echo_bus 0 true) 0x20 0xa1b2c3d4 { peer := [], log := [] }).2).1
        = N_OK ∧
      (spi_read_reg (echo_bus 0 true) 0x20 0
        (spi_write_reg (echo_bus 0 true) 0x20 0xa1b2c3d4 { peer := [], log := [] }).2).2.1
        = reverse_bytes 0xa1b2c3d4) ∧
    ((spi_write_reg (echo_bus 0 false) 0x20 0xa1b2c3d4 { peer := [], log := [] }).1 = N_OK ∧
      (spi_read_reg (echo_bus 0 false) 0x20 0
        (spi_write_reg (echo_bus 0 false) 0x20 0xa1b2c3d4 { peer := [], log := [] }).2).1
        = N_OK ∧
      (spi_read_reg (echo_bus 0 false) 0x20 0
        (spi_write_reg (echo_bus 0 false) 0x20 0xa1b2c3d4 { peer := [], log := [] }).2).2.1
        = 0xa1b2c3d4) :=
  ⟨by decide, write_then_read_round_trip 0 0x20 0xa1b2c3d4 0 [] [] (by decide)⟩

/-! ## Lemmas: block operations -/

theorem call_tx_ext (g : wilc_spi σ) (bytes : List Nat) (w : World σ) :
    LogExt w (call_tx g bytes w).2 := ⟨_, rfl⟩

theorem call_trx_ext (g : wilc_spi σ) (wb : List Nat) (w : World σ) :
    LogExt w (call_trx g wb w).2.2 := ⟨_, rfl⟩

theorem spi_cmd_complete_ext (g : wilc_spi σ) (cmd addr : Nat) (b : List Nat)
    (sz clockless : Nat) (w : World σ) :
    LogExt w (spi_cmd_complete g cmd addr b sz clockless w).2.2 := by
  unfold spi_cmd_complete
  split
  · exact LogExt.refl w
  · simp only []
    split
    · exact LogExt.refl w
    · split
      · exact call_trx_ext g _ w
      · exact (call_trx_ext g _ w).trans (spi_cmd_complete_rsp_ext g _ _ _ _ _ _ _)

theorem spi_reset_ext (g : wilc_spi σ) (w : World σ) : LogExt w (spi_reset g w).2 := by
  obtain ⟨e, he⟩ := spi_reset_log_one g w
  exact ⟨[e], he⟩

theorem spi_data_rsp_ext (g : wilc_spi σ) (cmd : Nat) (w : World σ) :
    LogExt w (spi_data_rsp g cmd w).2 := by
  unfold spi_data_rsp
  simp only []
  repeat' split
  all_goals exact call_rx_ext g _ w

theorem spi_data_write_loop_ext (g : wilc_spi σ) (b : List Nat) (n ix sz : Nat) (w : World σ) :
    LogExt w (spi_data_write_loop g b n ix sz w).2 := by
  induction n generalizing ix sz w with
  | zero =>
    unfold spi_data_write_loop
    simp only []
    generalize (if sz ≤ DATA_PKT_SZ then sz else DATA_PKT_SZ) = nb
    generalize (0xf0 ||| (if ix = 0 then (if sz ≤ DATA_PKT_SZ then 0x3 else 0x1)
      else (if sz ≤ DATA_PKT_SZ then 0x3 else 0x2))) = cmd
    have h1 := call_tx_ext g [cmd] w
    have h2 := h1.trans (call_tx_ext g ((b.drop ix).take nb) (call_tx g [cmd] w).2)
    have h3 : LogExt w (if g.crc_off = 0 then
        call_tx g [0, 0] (call_tx g ((b.drop ix).take nb) (call_tx g [cmd] w).2).2
        else (true, (call_tx g ((b.drop ix).take nb) (call_tx g [cmd] w).2).2)).2 := by
      split
      · exact h2.trans (call_tx_ext g _ _)
      · exact h2
    generalize (if g.crc_off = 0 then
        call_tx g [0, 0] (call_tx g ((b.drop ix).take nb) (call_tx g [cmd] w).2).2
        else (true, (call_tx g ((b.drop ix).take nb) (call_tx g [cmd] w).2).2)) = c at h3 ⊢
    split
    · exact h1
    · split
      · exact h2
      · split
        · exact h3
        · split <;> exact h3
  | succ m ih =>
    unfold spi_data_write_loop
    simp only []
    generalize (if sz ≤ DATA_PKT_SZ then sz else DATA_PKT_SZ) = nb
    generalize (0xf0 ||| (if ix = 0 then (if sz ≤ DATA_PKT_SZ then 0x3 else 0x1)
      else (if sz ≤ DATA_PKT_SZ then 0x3 else 0x2))) = cmd
    have h1 := call_tx_ext g [cmd] w
    have h2 := h1.trans (call_tx_ext g ((b.drop ix).take nb) (call_tx g [cmd] w).2)
    have h3 : LogExt w (if g.crc_off = 0 then
        call_tx g [0, 0] (call_tx g ((b.drop ix).take nb) (call_tx g [cmd] w).2).2
        else (true, (call_tx g ((b.drop ix).take nb) (call_tx g [cmd] w).2).2)).2 := by
      split
      · exact h2.trans (call_tx_ext g _ _)
      · exact h2
    generalize (if g.crc_off = 0 then
        call_tx g [0, 0] (call_tx g ((b.drop ix).take nb) (call_tx g [cmd] w).2).2
        else (true, (call_tx g ((b.drop ix).take nb) (call_tx g [cmd] w).2).2)) = c at h3 ⊢
    split
    · exact h1
    · split
      · exact h2
      · split
        · exact h3
        · split
          · exact h3.trans (ih _ _ _)
          · exact h3

theorem spi_write_attempt_ext (g : wilc_spi σ) (addr : Nat) (buf : List Nat) (size : Nat)
    (w : World σ) :
    LogExt (spi_cmd_complete g CMD_DMA_EXT_WRITE addr [] size 0 w).2.2
      (spi_write_attempt g addr buf size w).2 := by
  unfold spi_write_attempt
  simp only []
  split
  · exact LogExt.refl _
  · split
    · exact spi_data_write_loop_ext g _ _ _ _ _
    · exact (spi_data_write_loop_ext g _ _ _ _ _).trans (spi_data_rsp_ext g _ _)

theorem spi_write_from_ext (g : wilc_spi σ) (addr : Nat) (buf : List Nat) (size n : Nat)
    (w : World σ) :
    LogExt (spi_write_attempt g addr buf size w).2 (spi_write_from g addr buf size n w).2 := by
  induction n generalizing w with
  | zero =>
    unfold spi_write_from
    simp only []
    split
    · exact spi_reset_ext g _
    · exact LogExt.refl _
  | succ m ih =>
    unfold spi_write_from
    simp only []
    split
    · exact ((spi_reset_ext g _).trans (spi_write_attempt_ext g addr buf size _ |> fun h =>
        (spi_cmd_complete_ext g _ _ _ _ _ _).trans h)).trans (ih _)
    · exact LogExt.refl _

theorem spi_read_from_ext (g : wilc_spi σ) (addr size n : Nat) (buf : List Nat) (w : World σ) :
    LogExt (spi_cmd_complete g CMD_DMA_EXT_READ addr buf size 0 w).2.2
      (spi_read_from g addr size n buf w).2.2 := by
  induction n generalizing buf w with
  | zero =>
    unfold spi_read_from
    simp only []
    split
    · exact spi_reset_ext g _
    · exact LogExt.refl _
  | succ m ih =>
    unfold spi_read_from
    simp only []
    split
    · exact ((spi_reset_ext g _).trans (spi_cmd_complete_ext g _ _ _ _ _ _)).trans (ih _ _)
    · exact LogExt.refl _

/-- The head of the exchange of an extended DMA command: opcode, three
address bytes, three size bytes. -/
theorem ext_dma_exchange (g : wilc_spi σ) (cmd addr : Nat) (b : List Nat) (sz : Nat)
    (w : World σ) (hcmd : cmd = CMD_DMA_EXT_WRITE ∨ cmd = CMD_DMA_EXT_READ) :
    ∃ tail ok rb rest, (spi_cmd_complete g cmd addr b sz 0 w).2.2.log =
      w.log ++ Event.trx ([cmd, u8 (addr >>> 16), u8 (addr >>> 8), u8 addr,
        u8 (sz >>> 16), u8 (sz >>> 8), u8 sz] ++ tail) ok rb :: rest := by
  have hop : cmd ∈ opcodes := by
    rcases hcmd with h | h <;> subst h <;> decide
  obtain ⟨wb0, len0, wb, len, tail, hs, hf, _, hwb, _, hlen, hsent, _, _⟩ :=
    exchange_facts g.crc_off cmd addr b sz 0 hop
  obtain ⟨ok, rb, rest, hlog⟩ := spi_cmd_complete_log_frame g cmd addr b sz 0 w wb len hf hlen hwb
  have hw0 : wb0.take (len0 - 1) = [cmd, u8 (addr >>> 16), u8 (addr >>> 8), u8 addr,
      u8 (sz >>> 16), u8 (sz >>> 8), u8 sz] := by
    rcases hcmd with h | h <;> subst h <;>
      simp [spi_cmd_complete_switch, CMD_DMA_EXT_WRITE, CMD_DMA_EXT_READ, CMD_SINGLE_READ,
        CMD_INTERNAL_READ, CMD_TERMINATE, CMD_REPEAT, CMD_RESET, CMD_DMA_WRITE, CMD_DMA_READ,
        scratch] at hs <;>
      · obtain ⟨h1, h2⟩ := hs
        subst h1 h2
        rfl
  rw [hsent, hw0] at hlog
  exact ⟨tail, ok, rb, rest, hlog⟩

/-- C11: for every address and buffer, `spi_write` and `spi_read` with
`size <= 4` return 0 and leave the world (no transport call, so no bus
reset either) and the buffer as they are; with `size = 5` the first thing
they do is a combined exchange whose frame opens with `CMD_DMA_EXT_WRITE`
(`0xC7`), respectively `CMD_DMA_EXT_READ` (`0xC8`), the three address bytes
and the size bytes `00 00 05`. -/
theorem block_size_boundary (g : wilc_spi σ) (addr : Nat) (buf : List Nat) (w : World σ) :
    (∀ size, size ≤ 4 →
      spi_write g addr buf size w = (0, w) ∧ spi_read g addr buf size w = (0, buf, w)) ∧
    (∃ tail ok rb rest, (spi_write g addr buf 5 w).2.log =
      w.log ++ Event.trx ([0xC7, u8 (addr >>> 16), u8 (addr >>> 8), u8 addr, 0, 0, 5] ++ tail)
        ok rb :: rest) ∧
    (∃ tail ok rb rest, (spi_read g addr buf 5 w).2.2.log =
      w.log ++ Event.trx ([0xC8, u8 (addr >>> 16), u8 (addr >>> 8), u8 addr, 0, 0, 5] ++ tail)
        ok rb :: rest) := by
  refine ⟨fun size h => ⟨by simp [spi_write, h], by simp [spi_read, h]⟩, ?_, ?_⟩
  · obtain ⟨tail, ok, rb, rest, hlog⟩ :=
      ext_dma_exchange g CMD_DMA_EXT_WRITE addr [] 5 w (Or.inl rfl)
    obtain ⟨r2, h2⟩ := (spi_write_attempt_ext g addr buf 5 w).trans
      (spi_write_from_ext g addr buf 5 (SPI_RETRY_COUNT - 1) w)
    refine ⟨tail, ok, rb, rest ++ r2, ?_⟩
    have : spi_write g addr buf 5 w = spi_write_from g addr buf 5 (SPI_RETRY_COUNT - 1) w := by
      simp [spi_write]
    rw [this, h2, hlog]
    simp [CMD_DMA_EXT_WRITE, u8]
  · obtain ⟨tail, ok, rb, rest, hlog⟩ :=
      ext_dma_exchange g CMD_DMA_EXT_READ addr buf 5 w (Or.inr rfl)
    obtain ⟨r2, h2⟩ := spi_read_from_ext g addr 5 (SPI_RETRY_COUNT - 1) buf w
    refine ⟨tail, ok, rb, rest ++ r2, ?_⟩
    have : spi_read g addr buf 5 w = spi_read_from g addr 5 (SPI_RETRY_COUNT - 1) buf w := by
      simp [spi_read]
    rw [this, h2, hlog]
    simp [CMD_DMA_EXT_READ, u8]

theorem block_size_boundary_witness :
    (4 : Nat) ≤ 4 ∧
    spi_write (idle_bus 0) 0x1000 [1, 2, 3, 4] 4 idle_world = (0, idle_world) ∧
    spi_read (idle_bus 0) 0x1000 [1, 2, 3, 4] 4 idle_world = (0, [1, 2, 3, 4], idle_world) :=
  ⟨by decide, (block_size_boundary (idle_bus 0) 0x1000 [1, 2, 3, 4] idle_world).1 4 (by decide)⟩

theorem call_tx_ok (g : wilc_spi σ) (htx : ∀ p bytes, (g.spi_tx p bytes).1 = true)
    (bytes : List Nat) (w : World σ) :
    (call_tx g bytes w).1 = true ∧ (call_tx g bytes w).2.log = w.log ++ [Event.tx bytes true] := by
  simp [call_tx, htx]

theorem chunk_arith (N j : Nat) (hj : j < chunk_count N) :
    DATA_PKT_SZ * j < N ∧
    ((N - DATA_PKT_SZ * j ≤ DATA_PKT_SZ) ↔ j + 1 = chunk_count N) ∧
    (if N - DATA_PKT_SZ * j ≤ DATA_PKT_SZ then N - DATA_PKT_SZ * j else DATA_PKT_SZ) =
      min N (DATA_PKT_SZ * (j + 1)) - DATA_PKT_SZ * j := by
  unfold chunk_count DATA_PKT_SZ at *
  norm_num at *
  refine ⟨by omega, by omega, ?_⟩
  split <;> omega

theorem order_arith (N j : Nat) (hj : j < chunk_count N) :
    (0xf0 ||| (if DATA_PKT_SZ * j = 0 then
        (if N - DATA_PKT_SZ * j ≤ DATA_PKT_SZ then 0x3 else 0x1)
      else (if N - DATA_PKT_SZ * j ≤ DATA_PKT_SZ then 0x3 else 0x2))) =
      order_tag (chunk_count N) j := by
  have h := (chunk_arith N j hj).2.1
  unfold order_tag
  unfold chunk_count DATA_PKT_SZ at *
  norm_num at *
  split_ifs <;> first
    | rfl
    | (exfalso; omega)

/-- One iteration of the loop of `spi_data_write` when every transmit
succeeds: the order byte, the payload and, in checksum mode, two zero bytes
are transmitted, and the loop goes on while bytes are left. -/
theorem spi_data_write_loop_step (g : wilc_spi σ) (b : List Nat)
    (htx : ∀ p bytes, (g.spi_tx p bytes).1 = true) (n ix sz : Nat) (w : World σ)
    (nb cmd : Nat) (hnb : (if sz ≤ DATA_PKT_SZ then sz else DATA_PKT_SZ) = nb)
    (hcmd : (0xf0 ||| (if ix = 0 then (if sz ≤ DATA_PKT_SZ then 0x3 else 0x1)
      else (if sz ≤ DATA_PKT_SZ then 0x3 else 0x2))) = cmd) :
    ∃ w1 : World σ,
      w1.log = w.log ++ ([Event.tx [cmd] true, Event.tx ((b.drop ix).take nb) true] ++
        (if g.crc_off = 0 then [Event.tx [0, 0] true] else [])) ∧
      spi_data_write_loop g b n ix sz w =
        if sz - nb ≠ 0 then
          match n with
          | 0 => (1, w1)
          | m + 1 => spi_data_write_loop g b m (ix + nb) (sz - nb) w1
        else (1, w1) := by
  rw [spi_data_write_loop]
  simp only []
  rw [hnb, hcmd]
  have h1 := call_tx_ok g htx [cmd] w
  have h2 := call_tx_ok g htx ((b.drop ix).take nb) (call_tx g [cmd] w).2
  by_cases hc : g.crc_off = 0
  · have h3 := call_tx_ok g htx [0, 0] (call_tx g ((b.drop ix).take nb) (call_tx g [cmd] w).2).2
    refine ⟨(call_tx g [0, 0] (call_tx g ((b.drop ix).take nb) (call_tx g [cmd] w).2).2).2,
      ?_, ?_⟩
    · rw [h3.2, h2.2, h1.2, if_pos hc]
      simp
    · simp only [h1.1, h2.1, if_pos hc, h3.1, Bool.not_true, Bool.false_eq_true, if_false]
  · refine ⟨(call_tx g ((b.drop ix).take nb) (call_tx g [cmd] w).2).2, ?_, ?_⟩
    · rw [h2.2, h1.2, if_neg hc]
      simp
    · simp only [h1.1, h2.1, if_neg hc, Bool.not_true, Bool.false_eq_true, if_false]

/-- With every transmit succeeding, the loop of `spi_data_write` entered
at chunk `j` with `r` further chunks to follow transmits the chunks `j` to
`j + r` and returns `N_OK`. -/
theorem spi_data_write_loop_log (g : wilc_spi σ) (b : List Nat) (N : Nat)
    (htx : ∀ p bytes, (g.spi_tx p bytes).1 = true) (r : Nat) :
    ∀ (n j : Nat) (w : World σ), j + r + 1 = chunk_count N → r ≤ n →
      (spi_data_write_loop g b n (DATA_PKT_SZ * j) (N - DATA_PKT_SZ * j) w).1 = N_OK ∧
      (spi_data_write_loop g b n (DATA_PKT_SZ * j) (N - DATA_PKT_SZ * j) w).2.log =
        w.log ++ (List.range' j (r + 1)).flatMap (chunk_events g.crc_off b N) := by
  induction r with
  | zero =>
    intro n j w hj _
    obtain ⟨hlt, hlast, hnb⟩ := chunk_arith N j (by omega)
    have hl : N - DATA_PKT_SZ * j ≤ DATA_PKT_SZ := hlast.mpr (by omega)
    obtain ⟨w1, hlog, heq⟩ := spi_data_write_loop_step g b htx n (DATA_PKT_SZ * j)
      (N - DATA_PKT_SZ * j) w _ _ hnb (order_arith N j (by omega))
    have hz : ¬ (N - DATA_PKT_SZ * j -
        (min N (DATA_PKT_SZ * (j + 1)) - DATA_PKT_SZ * j) ≠ 0) := by
      unfold DATA_PKT_SZ at *
      omega
    rw [heq, if_neg hz]
    refine ⟨rfl, ?_⟩
    rw [hlog]
    simp [chunk_events, chunk_payload]
  | succ r ih =>
    intro n j w hj hn
    obtain ⟨hlt, hlast, hnb⟩ := chunk_arith N j (by omega)
    have hl : ¬ N - DATA_PKT_SZ * j ≤ DATA_PKT_SZ := fun h => by
      have := hlast.mp h
      omega
    obtain ⟨w1, hlog, heq⟩ := spi_data_write_loop_step g b htx n (DATA_PKT_SZ * j)
      (N - DATA_PKT_SZ * j) w _ _ hnb (order_arith N j (by omega))
    have hz : N - DATA_PKT_SZ * j -
        (min N (DATA_PKT_SZ * (j + 1)) - DATA_PKT_SZ * j) ≠ 0 := by
      unfold DATA_PKT_SZ at *
      omega
    have e1 : DATA_PKT_SZ * j + (min N (DATA_PKT_SZ * (j + 1)) - DATA_PKT_SZ * j) =
        DATA_PKT_SZ * (j + 1) := by
      unfold DATA_PKT_SZ at *
      omega
    have e2 : N - DATA_PKT_SZ * j - (min N (DATA_PKT_SZ * (j + 1)) - DATA_PKT_SZ * j) =
        N - DATA_PKT_SZ * (j + 1) := by
      unfold DATA_PKT_SZ at *
      omega
    obtain ⟨m, rfl⟩ : ∃ m, n = m + 1 := ⟨n - 1, by omega⟩
    rw [heq, if_pos hz]
    simp only []
    rw [e1, e2]
    obtain ⟨r1, r2⟩ := ih m (j + 1) w1 (by omega) (by omega)
    refine ⟨r1, ?_⟩
    rw [r2, hlog, List.range'_succ j (r + 1)]
    simp [chunk_events, chunk_payload, List.flatMap_cons]

/-- With every transmit succeeding, `spi_data_write` of `N >= 1` bytes
returns `N_OK` after transmitting the chunks 0 to `chunk_count N - 1`. -/
theorem spi_data_write_log (g : wilc_spi σ) (b : List Nat) (N : Nat) (w : World σ)
    (htx : ∀ p bytes, (g.spi_tx p bytes).1 = true) (hN : 1 ≤ N) :
    (spi_data_write g b N w).1 = N_OK ∧
    (spi_data_write g b N w).2.log =
      w.log ++ (List.range (chunk_count N)).flatMap (chunk_events g.crc_off b N) := by
  have hk : 1 ≤ chunk_count N ∧ chunk_count N ≤ N := by
    unfold chunk_count DATA_PKT_SZ
    norm_num
    omega
  have h := spi_data_write_loop_log g b N htx (chunk_count N - 1) N 0 w (by omega) (by omega)
  rw [Nat.mul_zero, Nat.sub_zero, Nat.sub_add_cancel hk.1, ← List.range_eq_range'] at h
  exact h

theorem chunk_count_bounds (N : Nat) (hN : 1 ≤ N) :
    DATA_PKT_SZ * (chunk_count N - 1) < N ∧ N ≤ DATA_PKT_SZ * chunk_count N := by
  unfold chunk_count DATA_PKT_SZ
  norm_num
  omega

theorem chunk_payload_length (b : List Nat) (N i : Nat) (hb : N ≤ b.length) :
    (chunk_payload b N i).length = min N (DATA_PKT_SZ * (i + 1)) - DATA_PKT_SZ * i := by
  unfold chunk_payload
  rw [List.length_take, List.length_drop]
  have : min N (DATA_PKT_SZ * (i + 1)) ≤ N := Nat.min_le_left _ _
  omega

theorem chunk_payload_getD (b : List Nat) (N i k : Nat)
    (hk : k < min N (DATA_PKT_SZ * (i + 1)) - DATA_PKT_SZ * i) :
    (chunk_payload b N i).getD k 0 = b.getD (DATA_PKT_SZ * i + k) 0 := by
  unfold chunk_payload
  simp only [List.getD_eq_getElem?_getD]
  rw [List.getElem?_take_of_lt hk, List.getElem?_drop]

theorem chunk_payload_join (b : List Nat) (N k : Nat) (hk : k ≤ chunk_count N) :
    ((List.range k).map (chunk_payload b N)).flatten = b.take (min N (DATA_PKT_SZ * k)) := by
  induction k with
  | zero => simp
  | succ k ih =>
    have hlt := (chunk_arith N k (by omega)).1
    rw [List.range_succ, List.map_append, List.flatten_append, ih (by omega)]
    have e1 : min N (DATA_PKT_SZ * k) = DATA_PKT_SZ * k := by omega
    have e2 : min N (DATA_PKT_SZ * (k + 1)) =
        DATA_PKT_SZ * k + (min N (DATA_PKT_SZ * (k + 1)) - DATA_PKT_SZ * k) := by
      unfold DATA_PKT_SZ at *
      omega
    rw [e1]
    conv_rhs => rw [e2, List.take_add]
    simp [chunk_payload]

/-- C12: on a transport on which every transmit succeeds, `spi_data_write`
of `N >= 1` bytes returns `N_OK` after transmitting exactly
`chunk_count N = ceil(N / 8192)` chunks, chunk `i` opening with the order
byte `order_tag (chunk_count N) i`: the only chunk has `0xF3` when
`N <= 8192`; otherwise the first has `0xF1`, the last `0xF3` and every chunk
in between `0xF2`. -/
theorem data_write_chunk_tags (g : wilc_spi σ) (b : List Nat) (N : Nat) (w : World σ)
    (htx : ∀ p bytes, (g.spi_tx p bytes).1 = true) (hN : 1 ≤ N) :
    (spi_data_write g b N w).1 = N_OK ∧
    (spi_data_write g b N w).2.log =
      w.log ++ (List.range (chunk_count N)).flatMap (fun i =>
        [Event.tx [order_tag (chunk_count N) i] true, Event.tx (chunk_payload b N i) true] ++
          (if g.crc_off = 0 then [Event.tx [0, 0] true] else [])) ∧
    8192 * (chunk_count N - 1) < N ∧ N ≤ 8192 * chunk_count N ∧
    (N ≤ 8192 → chunk_count N = 1 ∧ order_tag (chunk_count N) 0 = 0xF3) ∧
    (8192 < N → 2 ≤ chunk_count N ∧ order_tag (chunk_count N) 0 = 0xF1 ∧
      order_tag (chunk_count N) (chunk_count N - 1) = 0xF3 ∧
      ∀ i, 0 < i → i + 1 < chunk_count N → order_tag (chunk_count N) i = 0xF2) := by
  obtain ⟨h1, h2⟩ := spi_data_write_log g b N w htx hN
  obtain ⟨h3, h4⟩ := chunk_count_bounds N hN
  have h8 : DATA_PKT_SZ = 8192 := rfl
  rw [h8] at h3 h4
  refine ⟨h1, h2, h3, h4, fun h => ?_, fun h => ?_⟩
  · have : chunk_count N = 1 := by omega
    rw [this]
    exact ⟨rfl, rfl⟩
  · have hk : 2 ≤ chunk_count N := by omega
    refine ⟨hk, ?_, ?_, fun i h0 hi => ?_⟩
    · unfold order_tag
      rw [if_neg (by omega), if_pos rfl]
    · unfold order_tag
      rw [if_neg (by omega), if_neg (by omega), if_pos (by omega)]
    · unfold order_tag
      rw [if_neg (by omega), if_neg (by omega), if_neg (by omega)]

theorem data_write_chunk_tags_witness :
    (∀ p bytes, ((idle_bus 1).spi_tx p bytes).1 = true) ∧ 1 ≤ 20000 ∧
    (spi_data_write (idle_bus 1) (List.replicate 20000 7) 20000 idle_world).1 = N_OK ∧
    (spi_data_write (idle_bus 1) (List.replicate 20000 7) 20000 idle_world).2.log =
      idle_world.log ++ (List.range (chunk_count 20000)).flatMap (fun i =>
        [Event.tx [order_tag (chunk_count 20000) i] true,
          Event.tx (chunk_payload (List.replicate 20000 7) 20000 i) true] ++
          (if (idle_bus 1).crc_off = 0 then [Event.tx [0, 0] true] else [])) ∧
    8192 * (chunk_count 20000 - 1) < 20000 ∧ 20000 ≤ 8192 * chunk_count 20000 ∧
    (20000 ≤ 8192 → chunk_count 20000 = 1 ∧ order_tag (chunk_count 20000) 0 = 0xF3) ∧
    (8192 < 20000 → 2 ≤ chunk_count 20000 ∧ order_tag (chunk_count 20000) 0 = 0xF1 ∧
      order_tag (chunk_count 20000) (chunk_count 20000 - 1) = 0xF3 ∧
      ∀ i, 0 < i → i + 1 < chunk_count 20000 → order_tag (chunk_count 20000) i = 0xF2) :=
  ⟨fun _ _ => rfl, by decide,
    data_write_chunk_tags (idle_bus 1) (List.replicate 20000 7) 20000 idle_world
      (fun _ _ => rfl) (by decide)⟩

/-- C13: on a transport on which every transmit succeeds, the
transmissions of `spi_data_write` for a payload `b` of `N >= 1` bytes are,
chunk after chunk, one order byte, the bytes
`b[8192 * i .. min(N, 8192 * (i + 1)) - 1]`, and two zero bytes exactly in
checksum mode (`crc_off = 0`); the chunk payloads in order make up `b`. -/
theorem data_write_chunk_payloads (g : wilc_spi σ) (b : List Nat) (N : Nat) (w : World σ)
    (htx : ∀ p bytes, (g.spi_tx p bytes).1 = true) (hN : 1 ≤ N) (hb : b.length = N) :
    (g.crc_off = 0 → (spi_data_write g b N w).2.log =
      w.log ++ (List.range (chunk_count N)).flatMap (fun i =>
        [Event.tx [order_tag (chunk_count N) i] true, Event.tx (chunk_payload b N i) true,
          Event.tx [0, 0] true])) ∧
    (g.crc_off ≠ 0 → (spi_data_write g b N w).2.log =
      w.log ++ (List.range (chunk_count N)).flatMap (fun i =>
        [Event.tx [order_tag (chunk_count N) i] true, Event.tx (chunk_payload b N i) true])) ∧
    (∀ i, i < chunk_count N →
      (chunk_payload b N i).length = min N (8192 * (i + 1)) - 8192 * i ∧
      ∀ k, k < min N (8192 * (i + 1)) - 8192 * i →
        (chunk_payload b N i).getD k 0 = b.getD (8192 * i + k) 0) ∧
    ((List.range (chunk_count N)).map (chunk_payload b N)).flatten = b := by
  obtain ⟨_, h2⟩ := spi_data_write_log g b N w htx hN
  refine ⟨fun hc => ?_, fun hc => ?_, fun i _ => ⟨?_, fun k hk => ?_⟩, ?_⟩
  · rw [h2]
    congr 2
    funext i
    simp [chunk_events, hc]
  · rw [h2]
    congr 2
    funext i
    simp [chunk_events, hc]
  · exact chunk_payload_length b N i (by omega)
  · exact chunk_payload_getD b N i k hk
  · rw [chunk_payload_join b N _ (Nat.le_refl _)]
    have := (chunk_count_bounds N hN).2
    rw [Nat.min_eq_left this, ← hb, List.take_length]

theorem data_write_chunk_payloads_witness :
    (∀ p bytes, ((idle_bus 0).spi_tx p bytes).1 = true) ∧ 1 ≤ 5 ∧ [1, 2, 3, 4, 5].length = 5 ∧
    ((idle_bus 0).crc_off = 0 → (spi_data_write (idle_bus 0) [1, 2, 3, 4, 5] 5 idle_world).2.log =
      idle_world.log ++ (List.range (chunk_count 5)).flatMap (fun i =>
        [Event.tx [order_tag (chunk_count 5) i] true,
          Event.tx (chunk_payload [1, 2, 3, 4, 5] 5 i) true, Event.tx [0, 0] true])) ∧
    ((idle_bus 0).crc_off ≠ 0 → (spi_data_write (idle_bus 0) [1, 2, 3, 4, 5] 5 idle_world).2.log =
      idle_world.log ++ (List.range (chunk_count 5)).flatMap (fun i =>
        [Event.tx [order_tag (chunk_count 5) i] true,
          Event.tx (chunk_payload [1, 2, 3, 4, 5] 5 i) true])) ∧
    (∀ i, i < chunk_count 5 →
      (chunk_payload [1, 2, 3, 4, 5] 5 i).length = min 5 (8192 * (i + 1)) - 8192 * i ∧
      ∀ k, k < min 5 (8192 * (i + 1)) - 8192 * i →
        (chunk_payload [1, 2, 3, 4, 5] 5 i).getD k 0 = [1, 2, 3, 4, 5].getD (8192 * i + k) 0) ∧
    ((List.range (chunk_count 5)).map (chunk_payload [1, 2, 3, 4, 5] 5)).flatten
      = [1, 2, 3, 4, 5] :=
  ⟨fun _ _ => rfl, by decide, rfl,
    data_write_chunk_payloads (idle_bus 0) [1, 2, 3, 4, 5] 5 idle_world
      (fun _ _ => rfl) (by decide) rfl⟩

/-! ## Lemmas: the DMA read -/

theorem store_at_eq (b : List Nat) (ix : Nat) (src : List Nat) (n : Nat)
    (hb : ix + n ≤ b.length) (hs : n ≤ src.length) :
    store_at b ix src n = b.take ix ++ src.take n ++ b.drop (ix + n) := by
  induction n with
  | zero => simp [store_at]
  | succ n ih =>
    have hl : (b.take ix ++ src.take n).length = ix + n := by
      rw [List.length_append, List.length_take, List.length_take]
      omega
    rw [store_at, ih (by omega) (by omega), List.set_append_right _ _ (by rw [hl]), hl,
      Nat.sub_self, List.drop_eq_getElem_cons (by omega : ix + n < b.length), List.set_cons_zero]
    have hlt : n < src.length := by omega
    have hv : src.getD n 0 = src[n] := by
      rw [List.getD_eq_getElem?_getD, List.getElem?_eq_getElem hlt]
      rfl
    have ht : src.take (n + 1) = src.take n ++ [src[n]] := by
      rw [List.take_succ, List.getElem?_eq_getElem hlt]
      rfl
    rw [hv, ht]
    simp only [List.append_assoc, List.singleton_append]
    rfl

theorem dma_copy_eq (rb : List Nat) (len2 sz : Nat) :
    ∀ (n : Nat) (b : List Nat) (ix rix : Nat), n = len2 - rix → ix + n ≤ sz →
      ix + n ≤ b.length →
      dma_copy rb len2 sz n b ix rix =
        (b.take ix ++ (List.range n).map (fun i => rb.getD (rix + i) 0) ++ b.drop (ix + n),
          ix + n, rix + n) := by
  intro n
  induction n with
  | zero =>
    intro b ix rix _ _ _
    simp [dma_copy]
  | succ n ih =>
    intro b ix rix hn hsz hb
    rw [dma_copy, if_pos ⟨by omega, by omega⟩, ih _ _ _ (by omega) (by omega)
      (by rw [List.length_set]; omega)]
    have e1 : (b.set ix (rb.getD rix 0)).take (ix + 1) = b.take ix ++ [rb.getD rix 0] :=
      take_set_last b ix _ (by omega)
    have e2 : (b.set ix (rb.getD rix 0)).drop (ix + 1 + n) = b.drop (ix + (n + 1)) := by
      rw [List.drop_set_of_lt _ _ (by omega)]
      congr 1
      omega
    rw [e1, e2, List.range_succ_eq_map]
    simp [Function.comp_def, Nat.add_assoc, Nat.add_comm 1]


/-- One iteration of the continuation loop of a DMA read that ends with
`N_OK`: the header poll, the receive of the block `bl` of `nb` bytes and, in
checksum mode, the receive of two bytes all succeeded, and the loop goes on
after the block is stored at `b[ix ..]`. -/
theorem dma_loop_step (g : wilc_spi σ) (fuel : Nat) (b : List Nat) (ix sz : Nat) (w : World σ)
    (nb : Nat) (hnb : (if sz ≤ DATA_PKT_SZ then sz else DATA_PKT_SZ) = nb) (hpos : 0 < sz)
    (hok : (spi_cmd_complete_dma_loop g (fuel + 1) b ix sz w).1 = N_OK) :
    ∃ (w1 w2 : World σ) (bl : List Nat) (pre post : List Event),
      w1.log = w.log ++ pre ∧ (g.spi_rx w1.peer nb).1 = true ∧ (g.spi_rx w1.peer nb).2.1 = bl ∧
      w2.log = w.log ++ (pre ++ Event.rx nb true bl :: post) ∧
      spi_cmd_complete_dma_loop g (fuel + 1) b ix sz w =
        spi_cmd_complete_dma_loop g fuel (store_at b ix bl (min nb bl.length)) (ix + nb)
          (sz - nb) w2 := by
  rw [spi_cmd_complete_dma_loop] at hok ⊢
  simp only [gt_iff_lt, hpos, if_true, hnb] at hok ⊢
  obtain ⟨pre, hpre⟩ := data_hdr_poll_ext g SPI_RESP_RETRY_COUNT w
  generalize data_hdr_poll g SPI_RESP_RETRY_COUNT w = p at hok hpre ⊢
  cases hp : p.1
  · simp only [hp, Bool.not_false, if_true] at hok
    exact absurd hok N_FAIL_ne_N_OK
  · simp only [hp, Bool.not_true, Bool.false_eq_true, if_false] at hok ⊢
    cases hr : (g.spi_rx p.2.2.peer nb).1
    · simp only [call_rx, hr, Bool.not_false, if_true] at hok
      exact absurd hok N_FAIL_ne_N_OK
    · by_cases hc : g.crc_off = 0
      · cases hcr : (call_rx g 2 (call_rx g nb p.2.2).2.2).1
        · simp only [call_rx, hr, hc, Bool.not_true, Bool.false_eq_true, if_false, if_true] at hok
          simp only [call_rx, hr] at hcr
          simp only [hcr, Bool.not_false, if_true] at hok
          exact absurd hok N_FAIL_ne_N_OK
        · refine ⟨p.2.2, (call_rx g 2 (call_rx g nb p.2.2).2.2).2.2, (g.spi_rx p.2.2.peer nb).2.1,
            pre, [Event.rx 2 (g.spi_rx (g.spi_rx p.2.2.peer nb).2.2 2).1
              (g.spi_rx (g.spi_rx p.2.2.peer nb).2.2 2).2.1], hpre, hr, rfl, ?_, ?_⟩
          · simp only [call_rx, hpre, hr, List.append_assoc, List.singleton_append]
          · have h1 : (call_rx g nb p.2.2).1 = true := hr
            simp only [h1, hc, hcr, Bool.not_true, Bool.false_eq_true, if_false, if_true]
            rfl
      · refine ⟨p.2.2, (call_rx g nb p.2.2).2.2, (g.spi_rx p.2.2.peer nb).2.1, pre, [],
          hpre, hr, rfl, ?_, ?_⟩
        · simp only [call_rx, hpre, hr, List.append_assoc, List.singleton_append]
        · have h1 : (call_rx g nb p.2.2).1 = true := hr
          simp only [h1, hc, Bool.not_true, Bool.false_eq_true, if_false]
          rfl

theorem chunk_count_zero : chunk_count 0 = 0 := by decide

theorem chunk_count_step (sz : Nat) (hpos : 0 < sz) :
    chunk_count (sz - (if sz ≤ DATA_PKT_SZ then sz else DATA_PKT_SZ)) + 1 = chunk_count sz := by
  unfold chunk_count DATA_PKT_SZ
  norm_num
  split <;> omega

/-- A continuation loop of a DMA read that ends with `N_OK`, on a transport
that delivers as many bytes as asked, has stored the received blocks one
after the other at `b[ix .. ix + sz - 1]`: `ceil(sz / 8192)` blocks of at
most 8192 bytes. -/
theorem dma_loop_cover (g : wilc_spi σ)
    (hrx : ∀ p n, (g.spi_rx p n).1 = true → (g.spi_rx p n).2.1.length = n) :
    ∀ (fuel : Nat) (b : List Nat) (ix sz : Nat) (w : World σ), sz ≤ fuel →
      ix + sz ≤ b.length → (spi_cmd_complete_dma_loop g fuel b ix sz w).1 = N_OK →
      ∃ (blocks : List (List Nat)) (evs : List Event),
        (spi_cmd_complete_dma_loop g fuel b ix sz w).2.2.log = w.log ++ evs ∧
        (blocks.map (fun bl => Event.rx bl.length true bl)).Sublist evs ∧
        (spi_cmd_complete_dma_loop g fuel b ix sz w).2.1 =
          b.take ix ++ blocks.flatten ++ b.drop (ix + sz) ∧
        blocks.length = chunk_count sz ∧ (∀ bl ∈ blocks, bl.length ≤ DATA_PKT_SZ) ∧
        blocks.flatten.length = sz := by
  intro fuel
  induction fuel with
  | zero =>
    intro b ix sz w hf _ _
    obtain rfl : sz = 0 := by omega
    refine ⟨[], [], ?_, ?_, ?_, ?_, ?_, ?_⟩ <;> simp [spi_cmd_complete_dma_loop, chunk_count_zero]
  | succ fuel ih =>
    intro b ix sz w hf hb hok
    rcases Nat.eq_zero_or_pos sz with rfl | hpos
    · refine ⟨[], [], ?_, ?_, ?_, ?_, ?_, ?_⟩ <;>
        simp [spi_cmd_complete_dma_loop, chunk_count_zero]
    · obtain ⟨w1, w2, bl, pre, post, h1, hr, hbl, h2, heq⟩ :=
        dma_loop_step g fuel b ix sz w _ rfl hpos hok
      have hlen : bl.length = (if sz ≤ DATA_PKT_SZ then sz else DATA_PKT_SZ) := by
        rw [← hbl]
        exact hrx _ _ hr
      have hnb : (if sz ≤ DATA_PKT_SZ then sz else DATA_PKT_SZ) ≤ sz ∧
          1 ≤ (if sz ≤ DATA_PKT_SZ then sz else DATA_PKT_SZ) ∧
          (if sz ≤ DATA_PKT_SZ then sz else DATA_PKT_SZ) ≤ DATA_PKT_SZ := by
        unfold DATA_PKT_SZ
        split <;> omega
      have hcc := chunk_count_step sz hpos
      generalize (if sz ≤ DATA_PKT_SZ then sz else DATA_PKT_SZ) = nb at *
      rw [heq] at hok ⊢
      rw [hlen, Nat.min_self] at hok heq ⊢
      have hst := store_at_eq b ix bl nb (by omega) (by omega)
      rw [← hlen, List.take_length] at hst
      rw [hlen] at hst
      obtain ⟨blocks, evs, e1, e2, e3, e4, e5, e6⟩ := ih (store_at b ix bl nb) (ix + nb)
        (sz - nb) w2 (by omega) (by rw [hst]; simp; omega) hok
      refine ⟨bl :: blocks, pre ++ Event.rx nb true bl :: (post ++ evs), ?_, ?_, ?_, ?_, ?_, ?_⟩
      · rw [e1, h2]
        simp
      · rw [List.map_cons, hlen]
        have s1 := e2.trans (List.sublist_append_right post evs)
        have s2 := (s1.cons₂ (Event.rx nb true bl)).trans
          (List.sublist_append_right pre (Event.rx nb true bl :: (post ++ evs)))
        exact s2
      · rw [e3, hst]
        have t1 : (b.take ix ++ bl ++ b.drop (ix + nb)).take (ix + nb) = b.take ix ++ bl := by
          rw [List.take_append_of_le_length (by simp; omega), List.take_of_length_le (by simp; omega)]
        have t2 : (b.take ix ++ bl ++ b.drop (ix + nb)).drop (ix + nb + (sz - nb)) =
            b.drop (ix + sz) := by
          rw [List.drop_append_eq_append_drop, List.drop_of_length_le (by simp; omega),
            List.drop_drop, List.nil_append]
          congr 1
          simp
          omega
        rw [t1, t2]
        simp
      · simp [e4]
        omega
      · intro x hx
        rcases List.mem_cons.mp hx with rfl | hx
        · omega
        · exact e5 x hx
      · simp [e6, hlen]
        omega


/-- A read command that returns `N_OK` had a successful exchange with the
right echo, status `0x00` and a data-header sentinel, and its result is that
of the extraction entered behind the first sentinel. -/
theorem read_ok_inv (g : wilc_spi σ) (cmd addr : Nat) (b : List Nat) (sz clockless : Nat)
    (w : World σ) (wb : List Nat) (len : Nat) (hcmd : cmd ∈ read_opcodes)
    (hf : spi_cmd_complete_frame g.crc_off cmd addr b sz clockless = some (wb, len))
    (hok : (spi_cmd_complete g cmd addr b sz clockless w).1 = N_OK) :
    ∃ rb p s,
      g.spi_trx w.peer (wb.take len ++
        List.replicate (spi_cmd_complete_len2 g.crc_off cmd len - len) 0) = (true, rb, p) ∧
      rb.getD len 0 = cmd ∧ rb.getD (len + 1) 0 = 0x00 ∧
      first_sentinel rb (len + 2) (spi_cmd_complete_len2 g.crc_off cmd len) s ∧
      spi_cmd_complete g cmd addr b sz clockless w =
        (if cmd = CMD_INTERNAL_READ ∨ cmd = CMD_SINGLE_READ then
          spi_cmd_complete_reg g b (spi_cmd_complete_len2 g.crc_off cmd len) rb (s + 1)
            { peer := p, log := w.log ++ [Event.trx (wb.take len ++
              List.replicate (spi_cmd_complete_len2 g.crc_off cmd len - len) 0) true rb] }
        else
          spi_cmd_complete_dma g b sz (spi_cmd_complete_len2 g.crc_off cmd len) rb (s + 1)
            { peer := p, log := w.log ++ [Event.trx (wb.take len ++
              List.replicate (spi_cmd_complete_len2 g.crc_off cmd len - len) 0) true rb] }) := by
  obtain ⟨hop, n1, n2, n3, -⟩ := read_opcodes_sub cmd hcmd
  have ns : ¬ (cmd = CMD_RESET ∨ cmd = CMD_TERMINATE ∨ cmd = CMD_REPEAT) := by tauto
  obtain ⟨hwb, -, hlen9⟩ := spi_cmd_complete_frame_bounds g.crc_off cmd addr b sz clockless wb len
    hop hf
  have hl2 := spi_cmd_complete_len2_bounds g.crc_off cmd len
  have heq := spi_cmd_complete_eq g cmd addr b sz clockless w wb len hf (by omega)
  rw [sent_bytes_eq wb len _ (by omega) (by omega)] at heq
  generalize hsent : wb.take len ++
    List.replicate (spi_cmd_complete_len2 g.crc_off cmd len - len) 0 = sent at heq
  have htrx : g.spi_trx w.peer sent
      = ((g.spi_trx w.peer sent).1, (g.spi_trx w.peer sent).2.1, (g.spi_trx w.peer sent).2.2) :=
    rfl
  cases hst : (g.spi_trx w.peer sent).1
  · rw [heq] at hok
    simp only [call_trx, hst, Bool.not_false, if_true] at hok
    exact absurd hok N_FAIL_ne_N_OK
  · rw [hst] at htrx
    by_cases hecho : (g.spi_trx w.peer sent).2.1.getD len 0 = cmd
    · by_cases hstatus : (g.spi_trx w.peer sent).2.1.getD (len + 1) 0 = 0x00
      · subst hsent
        have hpath := spi_cmd_complete_read_path g cmd addr b sz clockless w wb len _ _ hcmd hf
          htrx hecho hstatus
        by_cases hex : ∃ j, len + 2 ≤ j ∧ j < spi_cmd_complete_len2 g.crc_off cmd len ∧
            (g.spi_trx w.peer (wb.take len ++ List.replicate
              (spi_cmd_complete_len2 g.crc_off cmd len - len) 0)).2.1.getD j 0 / 16 % 16 = 0xf
        · obtain ⟨s, hs⟩ := first_sentinel_exists _ _ _ hex
          refine ⟨_, _, s, htrx, hecho, hstatus, hs, ?_⟩
          rw [hpath, read_found g cmd b sz _ _ _ s _ hs (by omega)]
        · rw [hpath, read_not_found g cmd b sz _ _ _ _
            (fun j h1 h2 h3 => hex ⟨j, h1, h2, h3⟩)] at hok
          exact absurd hok N_RESET_ne_N_OK
      · rw [heq] at hok
        unfold spi_cmd_complete_rsp at hok
        simp only [call_trx, hst, Bool.not_true, Bool.false_eq_true, if_false, ns, hecho,
          ne_eq, not_true_eq_false, hstatus, not_false_eq_true, if_true] at hok
        exact absurd hok N_FAIL_ne_N_OK
    · rw [heq] at hok
      unfold spi_cmd_complete_rsp at hok
      simp only [call_trx, hst, Bool.not_true, Bool.false_eq_true, if_false, ns, hecho,
        ne_eq, not_false_eq_true, if_true] at hok
      exact absurd hok N_FAIL_ne_N_OK


/-- The first block of a DMA read that ends with `N_OK`: the captured bytes
behind the sentinel were all copied, the first receive of `nb` bytes and, in
checksum mode, the receive of two bytes succeeded, and the continuation loop
runs on what is left. -/
theorem dma_first_step (g : wilc_spi σ) (b : List Nat) (sz len2 : Nat) (rb : List Nat)
    (rix : Nat) (w : World σ) (n nb : Nat) (hn : n = len2 - rix) (hlt : n < sz)
    (hb : sz ≤ b.length)
    (hnb : (if sz - n ≤ DATA_PKT_SZ - n then sz - n else DATA_PKT_SZ - n) = nb)
    (hok : (spi_cmd_complete_dma g b sz len2 rb rix w).1 = N_OK) :
    ∃ (w2 : World σ) (bl : List Nat) (post : List Event),
      (g.spi_rx w.peer nb).1 = true ∧ (g.spi_rx w.peer nb).2.1 = bl ∧
      w2.log = w.log ++ Event.rx nb true bl :: post ∧
      spi_cmd_complete_dma g b sz len2 rb rix w =
        spi_cmd_complete_dma_loop g (sz - n - nb)
          (store_at ((List.range n).map (fun i => rb.getD (rix + i) 0) ++ b.drop n) n bl
            (min nb bl.length)) (n + nb) (sz - n - nb) w2 := by
  have hcopy := dma_copy_eq rb len2 sz n b 0 rix hn (by omega) (by omega)
  simp only [List.take_zero, List.nil_append, Nat.zero_add] at hcopy
  have hpos : sz - n > 0 := by omega
  unfold spi_cmd_complete_dma at hok ⊢
  simp only [← hn, hcopy, hpos, if_true, hnb] at hok ⊢
  cases hr : (g.spi_rx w.peer nb).1
  · simp only [call_rx, hr, Bool.not_false, if_true] at hok
    exact absurd hok N_FAIL_ne_N_OK
  · by_cases hc : g.crc_off = 0
    · cases hcr : (call_rx g 2 (call_rx g nb w).2.2).1
      · simp only [call_rx, hr, hc, Bool.not_true, Bool.false_eq_true, if_false, if_true] at hok
        simp only [call_rx, hr] at hcr
        simp only [hcr, Bool.not_false, if_true] at hok
        exact absurd hok N_FAIL_ne_N_OK
      · refine ⟨(call_rx g 2 (call_rx g nb w).2.2).2.2, (g.spi_rx w.peer nb).2.1,
          [Event.rx 2 (g.spi_rx (g.spi_rx w.peer nb).2.2 2).1
            (g.spi_rx (g.spi_rx w.peer nb).2.2 2).2.1], rfl, rfl, ?_, ?_⟩
        · simp only [call_rx, hr, List.append_assoc, List.singleton_append]
        · have h1 : (call_rx g nb w).1 = true := hr
          simp only [h1, hc, hcr, Bool.not_true, Bool.false_eq_true, if_false, if_true]
          rfl
    · refine ⟨(call_rx g nb w).2.2, (g.spi_rx w.peer nb).2.1, [], rfl, rfl, ?_, ?_⟩
      · simp only [call_rx, hr]
      · have h1 : (call_rx g nb w).1 = true := hr
        simp only [h1, hc, Bool.not_true, Bool.false_eq_true, if_false]
        rfl

/-- A DMA read that ends with `N_OK`, on a transport that delivers as many
bytes as asked, has written `b[0 .. sz - 1]` front to back: the bytes
captured behind the sentinel, then the received blocks. -/
theorem dma_cover (g : wilc_spi σ)
    (hrx : ∀ p n, (g.spi_rx p n).1 = true → (g.spi_rx p n).2.1.length = n)
    (b : List Nat) (sz len2 : Nat) (rb : List Nat) (rix : Nat) (w : World σ)
    (hlt : len2 - rix < sz) (h8 : len2 - rix < DATA_PKT_SZ) (hb : sz ≤ b.length)
    (hok : (spi_cmd_complete_dma g b sz len2 rb rix w).1 = N_OK) :
    ∃ (blocks : List (List Nat)) (evs : List Event),
      (spi_cmd_complete_dma g b sz len2 rb rix w).2.2.log = w.log ++ evs ∧
      (blocks.map (fun bl => Event.rx bl.length true bl)).Sublist evs ∧
      (spi_cmd_complete_dma g b sz len2 rb rix w).2.1 =
        (List.range (len2 - rix)).map (fun i => rb.getD (rix + i) 0) ++ blocks.flatten ++
          b.drop sz ∧
      blocks.length = chunk_count sz ∧
      (len2 - rix) + (blocks.headD []).length = min sz DATA_PKT_SZ ∧
      (∀ bl ∈ blocks.tail, bl.length ≤ DATA_PKT_SZ) ∧
      (len2 - rix) + blocks.flatten.length = sz := by
  generalize hn : len2 - rix = n at *
  obtain ⟨w2, bl, post, hr, hbl, h2, heq⟩ :=
    dma_first_step g b sz len2 rb rix w n _ hn.symm hlt hb rfl hok
  have hlen : bl.length = (if sz - n ≤ DATA_PKT_SZ - n then sz - n else DATA_PKT_SZ - n) := by
    rw [← hbl]
    exact hrx _ _ hr
  have hnb : n + (if sz - n ≤ DATA_PKT_SZ - n then sz - n else DATA_PKT_SZ - n) =
      (if sz ≤ DATA_PKT_SZ then sz else DATA_PKT_SZ) := by
    unfold DATA_PKT_SZ at *
    split <;> split <;> omega
  have hcc := chunk_count_step sz (by omega)
  have hmin : min sz DATA_PKT_SZ = (if sz ≤ DATA_PKT_SZ then sz else DATA_PKT_SZ) := by
    split <;> omega
  have hle : (if sz ≤ DATA_PKT_SZ then sz else DATA_PKT_SZ) ≤ sz := by
    split <;> omega
  generalize (if sz - n ≤ DATA_PKT_SZ - n then sz - n else DATA_PKT_SZ - n) = nb at *
  generalize (if sz ≤ DATA_PKT_SZ then sz else DATA_PKT_SZ) = m at *
  rw [heq] at hok ⊢
  rw [hlen, Nat.min_self] at hok heq ⊢
  generalize hcap : (List.range n).map (fun i => rb.getD (rix + i) 0) = cap at *
  have hcl : cap.length = n := by rw [← hcap]; simp
  have hst := store_at_eq (cap ++ b.drop n) n bl nb (by simp; omega) (by omega)
  rw [← hlen, List.take_length] at hst
  rw [hlen] at hst
  have t0 : (cap ++ b.drop n).take n = cap := by
    rw [List.take_append_of_le_length (by omega), List.take_of_length_le (by omega)]
  have t3 : (cap ++ b.drop n).drop (n + nb) = b.drop (n + nb) := by
    rw [List.drop_append_eq_append_drop, List.drop_of_length_le (by omega), List.drop_drop,
      List.nil_append]
    congr 1
    omega
  rw [t0, t3] at hst
  obtain ⟨blocks, evs, e1, e2, e3, e4, e5, e6⟩ := dma_loop_cover g hrx (sz - n - nb)
    (store_at (cap ++ b.drop n) n bl nb) (n + nb) (sz - n - nb) w2 (Nat.le_refl _)
    (by rw [hst]; simp; omega) hok
  refine ⟨bl :: blocks, Event.rx nb true bl :: (post ++ evs), ?_, ?_, ?_, ?_, ?_, ?_, ?_⟩
  · rw [e1, h2]
    simp
  · rw [List.map_cons, hlen]
    exact (e2.trans (List.sublist_append_right post evs)).cons₂ _
  · rw [e3, hst]
    have t1 : (cap ++ bl ++ b.drop (n + nb)).take (n + nb) = cap ++ bl := by
      rw [List.take_append_of_le_length (by simp; omega), List.take_of_length_le (by simp; omega)]
    have t2 : (cap ++ bl ++ b.drop (n + nb)).drop (n + nb + (sz - n - nb)) = b.drop sz := by
      rw [List.drop_append_eq_append_drop, List.drop_of_length_le (by simp; omega),
        List.drop_drop, List.nil_append]
      congr 1
      simp
      omega
    rw [t1, t2]
    simp
  · have : sz - n - nb = sz - m := by omega
    rw [this] at e4
    simp [e4]
    omega
  · simp [hlen]
    omega
  · intro x hx
    exact e5 x (by simpa using hx)
  · simp [e6, hlen]
    omega


/-- The frame of an extended DMA command: 8 bytes in checksum mode and 7
otherwise, in an exchange of 5 more bytes that opens with the opcode, three
address bytes and three size bytes. -/
theorem ext_dma_frame (crc_off : Int) (cmd addr : Nat) (b : List Nat) (sz : Nat)
    (hcmd : cmd = CMD_DMA_EXT_WRITE ∨ cmd = CMD_DMA_EXT_READ) :
    ∃ wb len tail,
      spi_cmd_complete_frame crc_off cmd addr b sz 0 = some (wb, len) ∧
      len = (if crc_off = 0 then 8 else 7) ∧
      spi_cmd_complete_len2 crc_off cmd len = len + 5 ∧
      wb.take len ++ List.replicate (spi_cmd_complete_len2 crc_off cmd len - len) 0 =
        [cmd, u8 (addr >>> 16), u8 (addr >>> 8), u8 addr,
          u8 (sz >>> 16), u8 (sz >>> 8), u8 sz] ++ tail := by
  have hop : cmd ∈ opcodes := by
    rcases hcmd with h | h <;> subst h <;> decide
  obtain ⟨wb0, len0, wb, len, tail, hs, hf, hl, -, -, -, hsent, -, -⟩ :=
    exchange_facts crc_off cmd addr b sz 0 hop
  have hw0 : wb0.take (len0 - 1) = [cmd, u8 (addr >>> 16), u8 (addr >>> 8), u8 addr,
      u8 (sz >>> 16), u8 (sz >>> 8), u8 sz] := by
    rcases hcmd with h | h <;> subst h <;>
      simp [spi_cmd_complete_switch, CMD_DMA_EXT_WRITE, CMD_DMA_EXT_READ, CMD_SINGLE_READ,
        CMD_INTERNAL_READ, CMD_TERMINATE, CMD_REPEAT, CMD_RESET, CMD_DMA_WRITE, CMD_DMA_READ,
        scratch] at hs <;>
      · obtain ⟨h1, h2⟩ := hs
        subst h1 h2
        rfl
  have hlen : len = (if crc_off = 0 then 8 else 7) := by
    rw [hl]
    rcases hcmd with h | h <;> subst h <;> unfold peer_frame_len <;> split <;> rfl
  have hl2 : spi_cmd_complete_len2 crc_off cmd len = len + 5 := by
    rcases hcmd with h | h <;> subst h <;> rfl
  rw [hw0] at hsent
  exact ⟨wb, len, tail, hf, hlen, hl2, hsent⟩

theorem size_bytes (N : Nat) (h : N < 2 ^ 24) :
    u8 (N >>> 16) * 2 ^ 16 + u8 (N >>> 8) * 2 ^ 8 + u8 N = N := by
  simp only [u8, Nat.shiftRight_eq_div_pow]
  omega

/-- C14: when an extended DMA read of `N` bytes (`4 < N < 2 ^ 24`) returns
`N_OK`, on a transport whose successful receives deliver as many bytes as
asked, the destination `b[0 .. N-1]` has been written front to back and
nothing else: first the bytes captured behind the data-header sentinel of
the combined exchange, then the received blocks in the order of their
receives. The captured bytes and the first block are `min(N, 8192)` bytes
together, every later block is at most 8192 bytes, and there are
`chunk_count N = ceil(N / 8192)` blocks. -/
theorem dma_read_covers_buffer (g : wilc_spi σ) (addr N : Nat) (b : List Nat) (w : World σ)
    (hrx : ∀ p n, (g.spi_rx p n).1 = true → (g.spi_rx p n).2.1.length = n)
    (hN : 4 < N) (hmax : N < 2 ^ 24) (hb : N ≤ b.length)
    (hok : (spi_cmd_complete g CMD_DMA_EXT_READ addr b N 0 w).1 = N_OK) :
    ∃ (len s : Nat) (sent rb captured : List Nat) (blocks : List (List Nat))
      (evs : List Event),
      len = (if g.crc_off = 0 then 8 else 7) ∧
      (spi_cmd_complete g CMD_DMA_EXT_READ addr b N 0 w).2.2.log =
        w.log ++ Event.trx sent true rb :: evs ∧
      sent.getD 0 0 = 0xC8 ∧
      sent.getD 4 0 * 2 ^ 16 + sent.getD 5 0 * 2 ^ 8 + sent.getD 6 0 = N ∧
      first_sentinel rb (len + 2) (len + 5) s ∧
      captured = (List.range (len + 4 - s)).map (fun i => rb.getD (s + 1 + i) 0) ∧
      (blocks.map (fun bl => Event.rx bl.length true bl)).Sublist evs ∧
      (spi_cmd_complete g CMD_DMA_EXT_READ addr b N 0 w).2.1 =
        captured ++ blocks.flatten ++ b.drop N ∧
      (captured ++ blocks.flatten).length = N ∧
      blocks.length = chunk_count N ∧
      8192 * (chunk_count N - 1) < N ∧ N ≤ 8192 * chunk_count N ∧
      captured.length + (blocks.headD []).length = min N 8192 ∧
      (∀ bl ∈ blocks.tail, bl.length ≤ 8192) := by
  obtain ⟨wb, len, tail, hf, hlen, hl2, hsent⟩ :=
    ext_dma_frame g.crc_off CMD_DMA_EXT_READ addr b N (Or.inr rfl)
  obtain ⟨rb, p, s, htrx, -, -, hs, heq⟩ :=
    read_ok_inv g CMD_DMA_EXT_READ addr b N 0 w wb len (by decide) hf hok
  rw [if_neg (by decide)] at heq
  rw [hl2] at hs heq hsent
  rw [hsent] at heq
  have hs1 := hs.1
  have hs2 := hs.2.1
  have h8 : DATA_PKT_SZ = 8192 := rfl
  rw [heq] at hok ⊢
  obtain ⟨blocks, evs, e1, e2, e3, e4, e5, e6, e7⟩ := dma_cover g hrx b N (len + 5) rb (s + 1)
    _ (by omega) (by rw [h8]; omega) hb hok
  obtain ⟨c1, c2⟩ := chunk_count_bounds N (by omega)
  have hcl : len + 5 - (s + 1) = len + 4 - s := by omega
  rw [hcl] at e3 e5 e7
  rw [h8] at e5 e6 c1 c2
  refine ⟨len, s, [CMD_DMA_EXT_READ, u8 (addr >>> 16), u8 (addr >>> 8), u8 addr,
    u8 (N >>> 16), u8 (N >>> 8), u8 N] ++ tail, rb,
    (List.range (len + 4 - s)).map (fun i => rb.getD (s + 1 + i) 0), blocks, evs, hlen, ?_, ?_,
    ?_, hs, rfl, e2, e3, ?_, e4, c1, c2, ?_, e6⟩
  · rw [e1]
    simp
  · rfl
  · exact size_bytes N hmax
  · rw [List.length_append, List.length_map, List.length_range]
    exact e7
  · rw [List.length_map, List.length_range]
    exact e5

theorem dma_read_covers_buffer_witness :
    (∀ p n, ((scripted_bus 1 dma_sample_reply).spi_rx p n).1 = true →
      ((scripted_bus 1 dma_sample_reply).spi_rx p n).2.1.length = n) ∧
    4 < 5 ∧ 5 < 2 ^ 24 ∧ 5 ≤ [0, 0, 0, 0, 0].length ∧
    (spi_cmd_complete (scripted_bus 1 dma_sample_reply) CMD_DMA_EXT_READ 0x1000
      [0, 0, 0, 0, 0] 5 0 idle_world).1 = N_OK ∧
    ∃ (len s : Nat) (sent rb captured : List Nat) (blocks : List (List Nat))
      (evs : List Event),
      len = (if (scripted_bus 1 dma_sample_reply).crc_off = 0 then 8 else 7) ∧
      (spi_cmd_complete (scripted_bus 1 dma_sample_reply) CMD_DMA_EXT_READ 0x1000
        [0, 0, 0, 0, 0] 5 0 idle_world).2.2.log =
        idle_world.log ++ Event.trx sent true rb :: evs ∧
      sent.getD 0 0 = 0xC8 ∧
      sent.getD 4 0 * 2 ^ 16 + sent.getD 5 0 * 2 ^ 8 + sent.getD 6 0 = 5 ∧
      first_sentinel rb (len + 2) (len + 5) s ∧
      captured = (List.range (len + 4 - s)).map (fun i => rb.getD (s + 1 + i) 0) ∧
      (blocks.map (fun bl => Event.rx bl.length true bl)).Sublist evs ∧
      (spi_cmd_complete (scripted_bus 1 dma_sample_reply) CMD_DMA_EXT_READ 0x1000
        [0, 0, 0, 0, 0] 5 0 idle_world).2.1 =
        captured ++ blocks.flatten ++ [0, 0, 0, 0, 0].drop 5 ∧
      (captured ++ blocks.flatten).length = 5 ∧
      blocks.length = chunk_count 5 ∧
      8192 * (chunk_count 5 - 1) < 5 ∧ 5 ≤ 8192 * chunk_count 5 ∧
      captured.length + (blocks.headD []).length = min 5 8192 ∧
      (∀ bl ∈ blocks.tail, bl.length ≤ 8192) :=
  ⟨fun _ n _ => List.length_replicate n 0xff, by decide, by decide, by decide, by decide,
    dma_read_covers_buffer (scripted_bus 1 dma_sample_reply) 0x1000 5 [0, 0, 0, 0, 0] idle_world
      (fun _ n _ => List.length_replicate n 0xff) (by decide) (by decide) (by decide)
      (by decide)⟩

/-! ## Lemmas: a continuation chunk without sentinel -/

/-- On a bus whose receives deliver a byte without the sentinel nibble, the
header poll of a continuation chunk reads `retry + 1` bytes and ends with
`retry = -1`, all receives having succeeded. -/
theorem fill_poll (crc_off : Int) (rb : List Nat) (retry : Nat) (w : World Unit) :
    data_hdr_poll (filling_bus crc_off rb 0x55) retry w =
      (true, -1, { peer := (), log := w.log ++ List.replicate (retry + 1) (Event.rx 1 true [0x55]) }) := by
  induction retry generalizing w with
  | zero =>
    rw [data_hdr_poll]
    simp [call_rx, filling_bus, is_data_hdr]
    decide
  | succ n ih =>
    rw [data_hdr_poll]
    simp only [call_rx, filling_bus, is_data_hdr]
    simp only [List.replicate_one, List.getD_cons_zero]
    rw [if_neg (by decide), if_neg (by decide)]
    have := ih { peer := (), log := w.log ++ [Event.rx 1 true [0x55]] }
    simp only [filling_bus] at this
    rw [this]
    simp [List.replicate_succ]


/-- The last continuation chunk, of one byte, on the bus of `fill_poll`:
after eleven header bytes without sentinel the byte is received and stored,
and the loop ends with `N_OK`. -/
theorem fill_loop_last (rb b : List Nat) (ix : Nat) (w : World Unit) :
    spi_cmd_complete_dma_loop (filling_bus 1 rb 0x55) 1 b ix 1 w =
      (N_OK, store_at b ix [0x55] 1,
        { peer := (), log := w.log ++ (List.replicate 11 (Event.rx 1 true [0x55]) ++
          [Event.rx 1 true [0x55]]) }) := by
  rw [spi_cmd_complete_dma_loop]
  have h1 : (1 : Nat) ≤ DATA_PKT_SZ := by decide
  simp only [gt_iff_lt, Nat.lt_one_iff, Nat.pos_of_ne_zero, if_true, h1, fill_poll,
    SPI_RESP_RETRY_COUNT, Bool.not_true, Bool.false_eq_true, if_false, Nat.zero_lt_one]
  simp only [call_rx, filling_bus, List.replicate_one, List.length_singleton, Nat.min_self,
    Bool.not_true, Bool.false_eq_true, if_false]
  rw [if_neg (by decide)]
  simp only [Nat.sub_self, spi_cmd_complete_dma_loop, List.append_assoc]

/-- An extended DMA read of 8193 bytes on the bus of `fill_poll`, entered
behind the sentinel of `dma_sample_reply`: two captured bytes, a first
block of 8190 bytes, and a continuation chunk of one byte that is read
although none of its eleven header bytes is a sentinel. -/
theorem fill_dma (b : List Nat) (w : World Unit) (hb : b.length = 8193) :
    spi_cmd_complete_dma (filling_bus 1 dma_sample_reply 0x55) b 8193 12 dma_sample_reply 10 w =
      (N_OK, [0x11, 0x22] ++ List.replicate 8190 0x55 ++ [0x55],
        { peer := (), log := w.log ++ (Event.rx 8190 true (List.replicate 8190 0x55) ::
          (List.replicate 11 (Event.rx 1 true [0x55]) ++ [Event.rx 1 true [0x55]])) }) := by
  have hcopy := dma_copy_eq dma_sample_reply 12 8193 2 b 0 10 rfl (by omega) (by omega)
  have hcap : (List.range 2).map (fun i => dma_sample_reply.getD (10 + i) 0) = [0x11, 0x22] := by
    decide
  rw [hcap] at hcopy
  simp only [List.take_zero, List.nil_append, Nat.zero_add] at hcopy
  have e1 : (12 : Nat) - 10 = 2 := rfl
  have e2 : (8193 : Nat) - 2 = 8191 := rfl
  have e3 : DATA_PKT_SZ - 2 = 8190 := rfl
  have e4 : (8191 : Nat) - 8190 = 1 := rfl
  have e5 : (2 : Nat) + 8190 = 8192 := rfl
  unfold spi_cmd_complete_dma
  have e6 : (if (8191 : Nat) ≤ 8190 then 8191 else 8190) = 8190 := rfl
  have e7 : (8191 : Nat) > 0 := by omega
  simp only [e1, hcopy, e2, e3, e6, e7, if_true]
  simp only [call_rx, filling_bus, List.length_replicate, Nat.min_self, Bool.not_true,
    Bool.false_eq_true, if_false]
  rw [if_neg (by decide)]
  simp only [e4, e5]
  have hfl := fill_loop_last dma_sample_reply
  simp only [filling_bus] at hfl
  rw [hfl]
  generalize hR : List.replicate 8190 0x55 = R
  have hRl : R.length = 8190 := by rw [← hR, List.length_replicate]
  have hs1 := store_at_eq ([0x11, 0x22] ++ b.drop 2) 2 R 8190
    (by simp only [List.length_append, List.length_cons, List.length_nil, List.length_drop]
        omega) (by omega)
  have t0 : ([0x11, 0x22] ++ b.drop 2).take 2 = [0x11, 0x22] := rfl
  have t1 : ([0x11, 0x22] ++ b.drop 2).drop (2 + 8190) = b.drop 8192 := by
    show (b.drop 2).drop 8190 = b.drop 8192
    rw [List.drop_drop]
  have t2 : R.take 8190 = R := List.take_of_length_le (by omega)
  rw [t0, t1, t2] at hs1
  rw [hs1]
  have hl2 : ([0x11, 0x22] ++ R).length = 8192 := by
    simp only [List.length_append, List.length_cons, List.length_nil]
    omega
  have hs2 := store_at_eq ([0x11, 0x22] ++ R ++ b.drop 8192) 8192 [0x55] 1
    (by simp only [List.length_append, hl2, List.length_drop]
        omega) (by simp only [List.length_singleton]; omega)
  have t3 : ([0x11, 0x22] ++ R ++ b.drop 8192).take 8192 = [0x11, 0x22] ++ R := by
    rw [List.take_append_of_le_length (by omega), List.take_of_length_le (by omega)]
  have t4 : ([0x11, 0x22] ++ R ++ b.drop 8192).drop (8192 + 1) = [] := by
    rw [List.drop_eq_nil_iff]
    simp only [List.length_append, hl2, List.length_drop]
    omega
  have t5 : [0x55].take 1 = [0x55] := rfl
  rw [t3, t4, t5, List.append_nil] at hs2
  rw [hs2]
  simp only [List.append_assoc, List.singleton_append]


/-- On the bus of `fill_poll`, `spi_read` of 8193 bytes succeeds at its
first attempt although the continuation chunk never sees a sentinel. -/
theorem fill_read (b : List Nat) (w : World Unit) (hb : b.length = 8193) :
    spi_read (filling_bus 1 dma_sample_reply 0x55) 0x1000 b 8193 w =
      (N_OK, [0x11, 0x22] ++ List.replicate 8190 0x55 ++ [0x55],
        { peer := (), log := w.log ++
          (Event.trx [0xc8, 0x00, 0x10, 0x00, 0x00, 0x20, 0x01, 0, 0, 0, 0, 0] true
            dma_sample_reply ::
          Event.rx 8190 true (List.replicate 8190 0x55) ::
          (List.replicate 11 (Event.rx 1 true [0x55]) ++ [Event.rx 1 true [0x55]])) }) := by
  have hf : spi_cmd_complete_frame (filling_bus 1 dma_sample_reply 0x55).crc_off
      CMD_DMA_EXT_READ 0x1000 b 8193 0 =
      some ([0xc8, 0x00, 0x10, 0x00, 0x00, 0x20, 0x01] ++ List.replicate 25 0xaa, 7) := rfl
  have hl2 : spi_cmd_complete_len2 (filling_bus 1 dma_sample_reply 0x55).crc_off
      CMD_DMA_EXT_READ 7 = 12 := rfl
  have hpath := spi_cmd_complete_read_path (filling_bus 1 dma_sample_reply 0x55)
    CMD_DMA_EXT_READ 0x1000 b 8193 0 w _ 7 dma_sample_reply () (by decide) hf rfl rfl rfl
  have hs : first_sentinel dma_sample_reply (7 + 2) 12 9 :=
    ⟨by omega, by omega, by decide, fun j h1 h2 => by omega⟩
  rw [hl2] at hpath
  rw [read_found _ _ _ _ _ _ _ 9 _ hs (by omega), if_neg (by decide)] at hpath
  rw [fill_dma b _ hb] at hpath
  unfold spi_read
  rw [if_neg (by omega)]
  unfold spi_read_from
  simp only [hpath]
  rw [if_neg (by decide)]
  simp only [List.append_assoc, List.singleton_append, List.cons_append, List.nil_append]
  rfl

/-- On the same bus the block read of the build with `USE_OLD_SPI_SW`
gives up at the first chunk: after the eleven header bytes `retry` is -1
and `spi_data_read` returns `N_FAIL` without receiving the payload. -/
theorem fill_data_read (rb b : List Nat) (sz : Nat) (w : World Unit) :
    spi_data_read (filling_bus 1 rb 0x55) b sz w =
      (N_FAIL, b, { peer := (), log := w.log ++ List.replicate 11 (Event.rx 1 true [0x55]) }) := by
  unfold spi_data_read
  rw [spi_data_read_loop]
  simp only [fill_poll, SPI_RESP_RETRY_COUNT, Bool.not_true, Bool.false_eq_true, if_false]
  rw [if_pos (by decide)]

/-- C15 (what the code does): `spi_read` of 8193 bytes in checksum-off
mode, on a bus whose combined exchange is answered by `dma_sample_reply` and
whose receives deliver bytes `0x55`. The byte `0x55` is no data-header
sentinel, so the continuation chunk (the byte at offset 8192) sees none in
the eleven bytes of its header loop; all the same the chunk is received,
stored in the buffer, and the first attempt returns `N_OK`. On the same bus
`spi_data_read`, the block read of the build with `USE_OLD_SPI_SW`, returns
`N_FAIL` after the eleven header bytes with the buffer untouched. -/
theorem continuation_chunk_without_sentinel_accepted :
    is_data_hdr 0x55 = false ∧
    spi_read (filling_bus 1 dma_sample_reply 0x55) 0x1000 (List.replicate 8193 0) 8193
        idle_world =
      (N_OK, [0x11, 0x22] ++ List.replicate 8190 0x55 ++ [0x55],
        { peer := (), log := idle_world.log ++
          (Event.trx [0xc8, 0x00, 0x10, 0x00, 0x00, 0x20, 0x01, 0, 0, 0, 0, 0] true
            dma_sample_reply ::
          Event.rx 8190 true (List.replicate 8190 0x55) ::
          (List.replicate 11 (Event.rx 1 true [0x55]) ++ [Event.rx 1 true [0x55]])) }) ∧
    spi_data_read (filling_bus 1 dma_sample_reply 0x55) (List.replicate 8193 0) 8193
        idle_world =
      (N_FAIL, List.replicate 8193 0,
        { peer := (), log := idle_world.log ++ List.replicate 11 (Event.rx 1 true [0x55]) }) :=
  ⟨by decide, fill_read _ _ (List.length_replicate 8193 0), fill_data_read _ _ _ _⟩

/-! ## Lemmas: retried operations -/

theorem retry_state_shift {S : Type} (attempt : S → Int × S) (reset : S → S) (i : Nat) (s : S) :
    retry_state attempt reset (i + 1) s = retry_state attempt reset i (reset (attempt s).2) := by
  induction i with
  | zero => rfl
  | succ i ih =>
    show reset (attempt (retry_state attempt reset (i + 1) s)).2 = _
    rw [ih]
    rfl

/-- A loop of the shape of the bodies from `_RETRY_` on keeps the retry
contract with `n + 1` attempts when entered with `retry = n + 1`. -/
theorem retry_generic {S : Type} (L : Nat → S → Int × S) (attempt : S → Int × S)
    (reset : S → S)
    (h0 : ∀ s, L 0 s = if (attempt s).1 ≠ N_OK then ((attempt s).1, reset (attempt s).2)
      else ((attempt s).1, (attempt s).2))
    (hs : ∀ m s, L (m + 1) s = if (attempt s).1 ≠ N_OK then L m (reset (attempt s).2)
      else ((attempt s).1, (attempt s).2))
    (n : Nat) : retried (n + 1) (L n) attempt reset := by
  induction n with
  | zero =>
    intro s
    constructor
    · intro hall
      have h : (attempt s).1 ≠ N_OK := hall 0 (by omega)
      rw [h0, if_pos h]
      rfl
    · intro k hk _ hok
      obtain rfl : k = 0 := by omega
      have hok' : (attempt s).1 = N_OK := hok
      rw [h0, if_neg (by rw [hok']; exact fun h => h rfl), hok']
      rfl
  | succ n ih =>
    intro s
    constructor
    · intro hall
      have h : (attempt s).1 ≠ N_OK := hall 0 (by omega)
      rw [hs, if_pos h]
      have := (ih (reset (attempt s).2)).1 (fun i hi => by
        rw [← retry_state_shift]
        exact hall (i + 1) (by omega))
      rw [this, ← retry_state_shift]
      rfl
    · intro k hk hfail hok
      rcases Nat.eq_zero_or_pos k with rfl | hpos
      · have hok' : (attempt s).1 = N_OK := hok
        rw [hs, if_neg (by rw [hok']; exact fun h => h rfl), hok']
        rfl
      · obtain ⟨j, rfl⟩ : ∃ j, k = j + 1 := ⟨k - 1, by omega⟩
        have h : (attempt s).1 ≠ N_OK := hfail 0 (by omega)
        rw [hs, if_pos h]
        rw [retry_state_shift] at hok
        have := (ih (reset (attempt s).2)).2 j (by omega) (fun i hi => by
          rw [← retry_state_shift]
          exact hfail (i + 1) (by omega)) hok
        rw [this, ← retry_state_shift]


theorem spi_read_reg_retried (g : wilc_spi σ) (A : Nat) :
    retried SPI_RETRY_COUNT (fun s : Nat × World σ => spi_read_reg g A s.1 s.2)
      (read_reg_attempt g A) (reset_keep g) :=
  retry_generic (fun n (s : Nat × World σ) => spi_read_reg_from g A n s.1 s.2)
    (read_reg_attempt g A) (reset_keep g)
    (fun s => by
      show spi_read_reg_from g A 0 s.1 s.2 = _
      rw [spi_read_reg_from]
      rfl)
    (fun m s => by
      show spi_read_reg_from g A (m + 1) s.1 s.2 = _
      rw [spi_read_reg_from]
      rfl) 9

theorem spi_write_reg_retried (g : wilc_spi σ) (A V : Nat) :
    retried SPI_RETRY_COUNT (spi_write_reg g A V) (write_reg_attempt g A V) (reset_world g) :=
  retry_generic (fun n (w : World σ) => spi_write_reg_from g A V n w)
    (write_reg_attempt g A V) (reset_world g)
    (fun s => by
      show spi_write_reg_from g A V 0 s = _
      rw [spi_write_reg_from]
      rfl)
    (fun m s => by
      show spi_write_reg_from g A V (m + 1) s = _
      rw [spi_write_reg_from]
      rfl) 9

theorem spi_internal_read_retried (g : wilc_spi σ) (A : Nat) :
    retried SPI_RETRY_COUNT (fun s : Nat × World σ => spi_internal_read g A s.1 s.2)
      (internal_read_attempt g A) (reset_keep g) :=
  retry_generic (fun n (s : Nat × World σ) => spi_internal_read_from g A n s.1 s.2)
    (internal_read_attempt g A) (reset_keep g)
    (fun s => by
      show spi_internal_read_from g A 0 s.1 s.2 = _
      rw [spi_internal_read_from]
      rfl)
    (fun m s => by
      show spi_internal_read_from g A (m + 1) s.1 s.2 = _
      rw [spi_internal_read_from]
      rfl) 9

theorem spi_internal_write_retried (g : wilc_spi σ) (A V : Nat) :
    retried SPI_RETRY_COUNT (spi_internal_write g A V) (internal_write_attempt g A V)
      (reset_world g) :=
  retry_generic (fun n (w : World σ) => spi_internal_write_from g A V n w)
    (internal_write_attempt g A V) (reset_world g)
    (fun s => by
      show spi_internal_write_from g A V 0 s = _
      rw [spi_internal_write_from]
      rfl)
    (fun m s => by
      show spi_internal_write_from g A V (m + 1) s = _
      rw [spi_internal_write_from]
      rfl) 9

theorem spi_read_retried (g : wilc_spi σ) (addr size : Nat) (hsize : 4 < size) :
    retried SPI_RETRY_COUNT (fun s : List Nat × World σ => spi_read g addr s.1 size s.2)
      (block_read_attempt g addr size) (reset_keep g) := by
  have h := retry_generic (fun n (s : List Nat × World σ) => spi_read_from g addr size n s.1 s.2)
    (block_read_attempt g addr size) (reset_keep g)
    (fun s => by
      show spi_read_from g addr size 0 s.1 s.2 = _
      rw [spi_read_from]
      rfl)
    (fun m s => by
      show spi_read_from g addr size (m + 1) s.1 s.2 = _
      rw [spi_read_from]
      rfl) 9
  have e : (fun s : List Nat × World σ => spi_read g addr s.1 size s.2) =
      (fun s : List Nat × World σ => spi_read_from g addr size 9 s.1 s.2) := by
    funext s
    unfold spi_read
    rw [if_neg (by omega)]
    rfl
  rw [e]
  exact h

theorem spi_write_retried (g : wilc_spi σ) (addr size : Nat) (buf : List Nat)
    (hsize : 4 < size) :
    retried SPI_RETRY_COUNT (spi_write g addr buf size) (spi_write_attempt g addr buf size)
      (reset_world g) := by
  have h := retry_generic (fun n (w : World σ) => spi_write_from g addr buf size n w)
    (spi_write_attempt g addr buf size) (reset_world g)
    (fun s => by
      show spi_write_from g addr buf size 0 s = _
      rw [spi_write_from]
      rfl)
    (fun m s => by
      show spi_write_from g addr buf size (m + 1) s = _
      rw [spi_write_from]
      rfl) 9
  have e : spi_write g addr buf size = (fun w => spi_write_from g addr buf size 9 w) := by
    funext w
    unfold spi_write
    rw [if_neg (by omega)]
    rfl
  rw [e]
  exact h

/-- C16: each of `spi_read_reg`, `spi_write_reg`, `spi_internal_read`,
`spi_internal_write`, `spi_read` and `spi_write` (the last two with
`size > 4`) keeps the retry contract `retried` with `SPI_RETRY_COUNT = 10`
attempts: when all ten attempts fail the value returned is the result of the
tenth, and the state is the one reached through ten attempts each followed
by a bus reset whose own result plays no part; when an attempt returns
`N_OK`, the operation returns `N_OK` in the state right after that attempt,
with no further attempt or reset. -/
theorem retry_contract (g : wilc_spi σ) (A V size : Nat) (buf : List Nat) (hsize : 4 < size) :
    SPI_RETRY_COUNT = 10 ∧
    retried SPI_RETRY_COUNT (fun s : Nat × World σ => spi_read_reg g A s.1 s.2)
      (read_reg_attempt g A) (reset_keep g) ∧
    retried SPI_RETRY_COUNT (spi_write_reg g A V) (write_reg_attempt g A V) (reset_world g) ∧
    retried SPI_RETRY_COUNT (fun s : Nat × World σ => spi_internal_read g A s.1 s.2)
      (internal_read_attempt g A) (reset_keep g) ∧
    retried SPI_RETRY_COUNT (spi_internal_write g A V) (internal_write_attempt g A V)
      (reset_world g) ∧
    retried SPI_RETRY_COUNT (fun s : List Nat × World σ => spi_read g A s.1 size s.2)
      (block_read_attempt g A size) (reset_keep g) ∧
    retried SPI_RETRY_COUNT (spi_write g A buf size) (spi_write_attempt g A buf size)
      (reset_world g) :=
  ⟨rfl, spi_read_reg_retried g A, spi_write_reg_retried g A V, spi_internal_read_retried g A,
    spi_internal_write_retried g A V, spi_read_retried g A size hsize,
    spi_write_retried g A size buf hsize⟩

theorem retry_contract_witness :
    4 < 5 ∧ SPI_RETRY_COUNT = 10 ∧
    retried SPI_RETRY_COUNT (fun s : Nat × World Unit => spi_read_reg (idle_bus 1) 0x3b0000 s.1 s.2)
      (read_reg_attempt (idle_bus 1) 0x3b0000) (reset_keep (idle_bus 1)) ∧
    retried SPI_RETRY_COUNT (spi_write_reg (idle_bus 1) 0x3b0000 7)
      (write_reg_attempt (idle_bus 1) 0x3b0000 7) (reset_world (idle_bus 1)) ∧
    retried SPI_RETRY_COUNT
      (fun s : Nat × World Unit => spi_internal_read (idle_bus 1) 0x3b0000 s.1 s.2)
      (internal_read_attempt (idle_bus 1) 0x3b0000) (reset_keep (idle_bus 1)) ∧
    retried SPI_RETRY_COUNT (spi_internal_write (idle_bus 1) 0x3b0000 7)
      (internal_write_attempt (idle_bus 1) 0x3b0000 7) (reset_world (idle_bus 1)) ∧
    retried SPI_RETRY_COUNT
      (fun s : List Nat × World Unit => spi_read (idle_bus 1) 0x3b0000 s.1 5 s.2)
      (block_read_attempt (idle_bus 1) 0x3b0000 5) (reset_keep (idle_bus 1)) ∧
    retried SPI_RETRY_COUNT (spi_write (idle_bus 1) 0x3b0000 [1, 2, 3, 4, 5] 5)
      (spi_write_attempt (idle_bus 1) 0x3b0000 [1, 2, 3, 4, 5] 5) (reset_world (idle_bus 1)) :=
  ⟨by decide, retry_contract (idle_bus 1) 0x3b0000 7 5 [1, 2, 3, 4, 5] (by decide)⟩


theorem reset_request_is_reset (e : Event) (h : reset_request e) : is_reset e = true := by
  obtain ⟨wb, ok, rb, rfl, h0, -⟩ := h
  simp only [is_reset, h0, beq_self_eq_true]

theorem reg_request_not_reset (internal single A : Nat) (e : Event)
    (h1 : internal ≠ CMD_RESET) (h2 : single ≠ CMD_RESET)
    (h : reg_request internal single A e) : is_reset e = false := by
  obtain ⟨wb, ok, rb, rfl, hi, hs⟩ := h
  by_cases hA : A ≤ 0x30
  · have := (hi.mpr hA).1
    simp only [is_reset, this]
    exact beq_false_of_ne h1
  · have := (hs.mpr (by omega)).1
    simp only [is_reset, this]
    exact beq_false_of_ne h2

/-- A register read that fails has made `n + 1` attempts, each followed by
a bus reset: its exchanges are `n + 1` requests and `n + 1` resets, the last
of them a reset. -/
theorem spi_read_reg_from_failed (g : wilc_spi σ) (A : Nat) :
    ∀ (n data : Nat) (w : World σ), (spi_read_reg_from g A n data w).1 ≠ N_OK →
      ∃ evs, (spi_read_reg_from g A n data w).2.2.log = w.log ++ evs ∧
        evs.countP is_reset = n + 1 ∧ evs.length = 2 * (n + 1) ∧
        ∃ e, evs.getLast? = some e ∧ is_reset e = true := by
  intro n
  induction n with
  | zero =>
    intro data w hres
    obtain ⟨e1, hl1, hq1⟩ := read_attempt_log g A (word_bytes data) w
    have hn1 := reg_request_not_reset _ _ _ _ (by decide) (by decide) hq1
    rw [spi_read_reg_from] at hres ⊢
    simp only [] at hres ⊢
    generalize spi_cmd_complete g (if A ≤ 0x30 then CMD_INTERNAL_READ else CMD_SINGLE_READ) A
      (word_bytes data) 4 (if A ≤ 0x30 then 1 else 0) w = r at hl1 hres ⊢
    split
    · obtain ⟨e2, hl2, hq2⟩ := spi_reset_log g r.2.2
      have hr2 := reset_request_is_reset _ hq2
      refine ⟨[e1, e2], ?_, ?_, rfl, e2, rfl, hr2⟩
      · rw [hl2, hl1]
        simp
      · simp [List.countP_cons, hn1, hr2]
    · rename_i hok
      rw [if_neg hok] at hres
      exact absurd hres hok
  | succ n ih =>
    intro data w hres
    obtain ⟨e1, hl1, hq1⟩ := read_attempt_log g A (word_bytes data) w
    have hn1 := reg_request_not_reset _ _ _ _ (by decide) (by decide) hq1
    rw [spi_read_reg_from] at hres ⊢
    simp only [] at hres ⊢
    generalize spi_cmd_complete g (if A ≤ 0x30 then CMD_INTERNAL_READ else CMD_SINGLE_READ) A
      (word_bytes data) 4 (if A ≤ 0x30 then 1 else 0) w = r at hl1 hres ⊢
    split
    · rename_i hfail
      rw [if_pos hfail] at hres
      obtain ⟨e2, hl2, hq2⟩ := spi_reset_log g r.2.2
      have hr2 := reset_request_is_reset _ hq2
      obtain ⟨evs, h1, h2, h3, e, h4, h5⟩ := ih _ _ hres
      refine ⟨e1 :: e2 :: evs, ?_, ?_, ?_, e, ?_, h5⟩
      · rw [h1, hl2, hl1]
        simp
      · simp [List.countP_cons, hn1, hr2, h2]
      · simp [h3]
        omega
      · cases evs with
        | nil => simp at h4
        | cons x xs => simpa using h4
    · rename_i hok
      rw [if_neg hok] at hres
      exact absurd hres hok

/-- A register write that fails has made `n + 1` attempts, each followed by
a bus reset. -/
theorem spi_write_reg_from_failed (g : wilc_spi σ) (A V : Nat) :
    ∀ (n : Nat) (w : World σ), (spi_write_reg_from g A V n w).1 ≠ N_OK →
      ∃ evs, (spi_write_reg_from g A V n w).2.log = w.log ++ evs ∧
        evs.countP is_reset = n + 1 ∧ evs.length = 2 * (n + 1) ∧
        ∃ e, evs.getLast? = some e ∧ is_reset e = true := by
  intro n
  induction n with
  | zero =>
    intro w hres
    obtain ⟨e1, hl1, hq1⟩ := write_attempt_log g A (word_bytes V) w
    have hn1 := reg_request_not_reset _ _ _ _ (by decide) (by decide) hq1
    rw [spi_write_reg_from] at hres ⊢
    simp only [] at hres ⊢
    generalize spi_cmd_complete g (if A ≤ 0x30 then CMD_INTERNAL_WRITE else CMD_SINGLE_WRITE) A
      (word_bytes V) 4 (if A ≤ 0x30 then 1 else 0) w = r at hl1 hres ⊢
    split
    · obtain ⟨e2, hl2, hq2⟩ := spi_reset_log g r.2.2
      have hr2 := reset_request_is_reset _ hq2
      refine ⟨[e1, e2], ?_, ?_, rfl, e2, rfl, hr2⟩
      · rw [hl2, hl1]
        simp
      · simp [List.countP_cons, hn1, hr2]
    · rename_i hok
      rw [if_neg hok] at hres
      exact absurd hres hok
  | succ n ih =>
    intro w hres
    obtain ⟨e1, hl1, hq1⟩ := write_attempt_log g A (word_bytes V) w
    have hn1 := reg_request_not_reset _ _ _ _ (by decide) (by decide) hq1
    rw [spi_write_reg_from] at hres ⊢
    simp only [] at hres ⊢
    generalize spi_cmd_complete g (if A ≤ 0x30 then CMD_INTERNAL_WRITE else CMD_SINGLE_WRITE) A
      (word_bytes V) 4 (if A ≤ 0x30 then 1 else 0) w = r at hl1 hres ⊢
    split
    · rename_i hfail
      rw [if_pos hfail] at hres
      obtain ⟨e2, hl2, hq2⟩ := spi_reset_log g r.2.2
      have hr2 := reset_request_is_reset _ hq2
      obtain ⟨evs, h1, h2, h3, e, h4, h5⟩ := ih _ hres
      refine ⟨e1 :: e2 :: evs, ?_, ?_, ?_, e, ?_, h5⟩
      · rw [h1, hl2, hl1]
        simp
      · simp [List.countP_cons, hn1, hr2, h2]
      · simp [h3]
        omega
      · cases evs with
        | nil => simp at h4
        | cons x xs => simpa using h4
    · rename_i hok
      rw [if_neg hok] at hres
      exact absurd hres hok


/-- C17 (counterexample): on a bus whose every reply to a single-word read
carries the right echo and the bad status `0x01`, one call of
`spi_read_reg` fails with `N_FAIL` after 20 exchanges of which 10, not
`SPI_RETRY_COUNT - 1 = 9`, are bus resets. -/
theorem reset_count_not_nine :
    bad_status_reply.getD 4 0 = CMD_SINGLE_READ ∧ bad_status_reply.getD 5 0 ≠ 0x00 ∧
    (spi_read_reg (scripted_bus 1 bad_status_reply) 0x3b0000 0 idle_world).1 = N_FAIL ∧
    (spi_read_reg (scripted_bus 1 bad_status_reply) 0x3b0000 0 idle_world).2.2.log.length = 20 ∧
    (spi_read_reg (scripted_bus 1 bad_status_reply) 0x3b0000 0 idle_world).2.2.log.countP
      is_reset = 10 ∧
    SPI_RETRY_COUNT - 1 = 9 := by
  decide

/-- C17 (amended): when a call of `spi_read_reg` or `spi_write_reg` fails,
as it does when status validation always fails, its exchanges are
`2 * SPI_RETRY_COUNT = 20`, of which exactly `SPI_RETRY_COUNT = 10` are bus
resets, one after every failed attempt; the last exchange of all is the
reset after the last attempt. -/
theorem reset_after_every_failed_attempt (g : wilc_spi σ) (A V data : Nat) (w : World σ) :
    SPI_RETRY_COUNT = 10 ∧
    ((spi_read_reg g A data w).1 ≠ N_OK →
      ∃ evs, (spi_read_reg g A data w).2.2.log = w.log ++ evs ∧
        evs.countP is_reset = SPI_RETRY_COUNT ∧ evs.length = 2 * SPI_RETRY_COUNT ∧
        ∃ e, evs.getLast? = some e ∧ is_reset e = true) ∧
    ((spi_write_reg g A V w).1 ≠ N_OK →
      ∃ evs, (spi_write_reg g A V w).2.log = w.log ++ evs ∧
        evs.countP is_reset = SPI_RETRY_COUNT ∧ evs.length = 2 * SPI_RETRY_COUNT ∧
        ∃ e, evs.getLast? = some e ∧ is_reset e = true) :=
  ⟨rfl, fun h => spi_read_reg_from_failed g A 9 data w h,
    fun h => spi_write_reg_from_failed g A V 9 w h⟩

theorem reset_after_every_failed_attempt_witness :
    (spi_read_reg (scripted_bus 1 bad_status_reply) 0x3b0000 0 idle_world).1 ≠ N_OK ∧
    ∃ evs, (spi_read_reg (scripted_bus 1 bad_status_reply) 0x3b0000 0 idle_world).2.2.log =
        idle_world.log ++ evs ∧
      evs.countP is_reset = SPI_RETRY_COUNT ∧ evs.length = 2 * SPI_RETRY_COUNT ∧
      ∃ e, evs.getLast? = some e ∧ is_reset e = true :=
  ⟨by decide, (reset_after_every_failed_attempt (scripted_bus 1 bad_status_reply) 0x3b0000 0 0
    idle_world).2.1 (by decide)⟩

/-- An attempt of a register read whose first sentinel comes later than
index `len + 5` runs into one of the buffer-overrun branches and returns
`N_FAIL`. -/
theorem reg_read_overrun (g : wilc_spi σ) (cmd addr : Nat) (b : List Nat)
    (sz clockless : Nat) (w : World σ) (wb : List Nat) (len : Nat) (rb : List Nat) (p : σ)
    (s : Nat) (hcmd : cmd = CMD_INTERNAL_READ ∨ cmd = CMD_SINGLE_READ) (hb : b.length = 4)
    (hf : spi_cmd_complete_frame g.crc_off cmd addr b sz clockless = some (wb, len))
    (htrx : g.spi_trx w.peer (wb.take len ++
      List.replicate (spi_cmd_complete_len2 g.crc_off cmd len - len) 0) = (true, rb, p))
    (hecho : rb.getD len 0 = cmd) (hstatus : rb.getD (len + 1) 0 = 0x00)
    (hs : first_sentinel rb (len + 2) (spi_cmd_complete_len2 g.crc_off cmd len) s)
    (hlate : len + 5 < s) :
    (spi_cmd_complete g cmd addr b sz clockless w).1 = N_FAIL := by
  have hro : cmd ∈ read_opcodes := by rcases hcmd with rfl | rfl <;> decide
  obtain ⟨hiff, -⟩ := reg_read_parse g cmd addr b sz clockless w wb len rb p hcmd hb hf htrx
    hecho hstatus
  have hne : (spi_cmd_complete g cmd addr b sz clockless w).1 ≠ N_OK := by
    intro hok
    obtain ⟨t, ht, hle⟩ := hiff.mp hok
    have := first_sentinel_unique rb _ _ s t hs ht
    omega
  have hl2 := spi_cmd_complete_len2_bounds g.crc_off cmd len
  rw [spi_cmd_complete_read_path g cmd addr b sz clockless w wb len rb p hro hf htrx hecho
    hstatus, read_found g cmd b sz _ rb _ s _ hs (by omega), if_pos hcmd] at hne ⊢
  rcases spi_cmd_complete_reg_result g b _ rb (s + 1) _ with h | h
  · exact absurd h hne
  · exact h


/-- After a failed first attempt `spi_read_reg` goes on with a bus reset
and a second attempt: its log starts with a request, a reset and a
request. -/
theorem spi_read_reg_retries (g : wilc_spi σ) (A data : Nat) (w : World σ)
    (hfail : (spi_cmd_complete g (if A ≤ 0x30 then CMD_INTERNAL_READ else CMD_SINGLE_READ) A
      (word_bytes data) 4 (if A ≤ 0x30 then 1 else 0) w).1 ≠ N_OK) :
    ∃ e1 e2 e3 rest, (spi_read_reg g A data w).2.2.log = w.log ++ e1 :: e2 :: e3 :: rest ∧
      reg_request CMD_INTERNAL_READ CMD_SINGLE_READ A e1 ∧ reset_request e2 ∧
      reg_request CMD_INTERNAL_READ CMD_SINGLE_READ A e3 := by
  obtain ⟨e1, hl1, hq1⟩ := read_attempt_log g A (word_bytes data) w
  have e : spi_read_reg g A data w = spi_read_reg_from g A (8 + 1) data w := rfl
  rw [e, spi_read_reg_from]
  simp only []
  generalize spi_cmd_complete g (if A ≤ 0x30 then CMD_INTERNAL_READ else CMD_SINGLE_READ) A
    (word_bytes data) 4 (if A ≤ 0x30 then 1 else 0) w = r at hl1 hfail ⊢
  rw [if_pos hfail]
  obtain ⟨e2, hl2, hq2⟩ := spi_reset_log g r.2.2
  obtain ⟨evs, hl3, ⟨e3, rest, rfl, hq3⟩, -⟩ :=
    spi_read_reg_from_log g A 8 (bytes_word r.2.1) (spi_reset g r.2.2).2
  refine ⟨e1, e2, e3, rest, ?_, hq1, hq2, hq3⟩
  rw [hl3, hl2, hl1]
  simp

/-- C18 (counterexample): a reply to a single-word read whose data header
comes so late (index 10 of 14) that the four payload bytes do not fit. The
attempt takes the buffer-overrun branch and returns `N_FAIL`; `spi_read_reg`
does not stop there but resets the bus and tries again, ten attempts and ten
resets in all. -/
theorem overrun_is_retried :
    first_sentinel late_header_reply (4 + 2) 14 10 ∧ ¬ (10 + 4 < 14) ∧
    (spi_cmd_complete (scripted_bus 1 late_header_reply) CMD_SINGLE_READ 0x3b0000
      (word_bytes 0) 4 0 idle_world).1 = N_FAIL ∧
    (spi_read_reg (scripted_bus 1 late_header_reply) 0x3b0000 0 idle_world).1 = N_FAIL ∧
    (spi_read_reg (scripted_bus 1 late_header_reply) 0x3b0000 0 idle_world).2.2.log.length
      = 20 ∧
    (spi_read_reg (scripted_bus 1 late_header_reply) 0x3b0000 0 idle_world).2.2.log.countP
      is_reset = 10 := by
  refine ⟨⟨by decide, by decide, by decide, fun j h1 h2 => ?_⟩, by decide, by decide, by decide,
    by decide, by decide⟩
  have hj : j = 6 ∨ j = 7 ∨ j = 8 ∨ j = 9 := by omega
  rcases hj with rfl | rfl | rfl | rfl <;> decide

/-- C18 (amended): when an attempt of `spi_read_reg` has a good exchange,
echo and status but its first data-header sentinel comes later than index
`len + 5`, so that the payload or checksum bytes do not fit in the captured
buffer, the attempt returns `N_FAIL` and is retried like any other failed
attempt: the log of `spi_read_reg` goes on with a bus reset and a second
request. -/
theorem overrun_failure_retried (g : wilc_spi σ) (A data : Nat) (w : World σ)
    (wb : List Nat) (len : Nat) (rb : List Nat) (p : σ) (s : Nat)
    (hf : spi_cmd_complete_frame g.crc_off
      (if A ≤ 0x30 then CMD_INTERNAL_READ else CMD_SINGLE_READ) A (word_bytes data) 4
      (if A ≤ 0x30 then 1 else 0) = some (wb, len))
    (htrx : g.spi_trx w.peer (wb.take len ++ List.replicate (spi_cmd_complete_len2 g.crc_off
      (if A ≤ 0x30 then CMD_INTERNAL_READ else CMD_SINGLE_READ) len - len) 0) = (true, rb, p))
    (hecho : rb.getD len 0 = (if A ≤ 0x30 then CMD_INTERNAL_READ else CMD_SINGLE_READ))
    (hstatus : rb.getD (len + 1) 0 = 0x00)
    (hs : first_sentinel rb (len + 2) (spi_cmd_complete_len2 g.crc_off
      (if A ≤ 0x30 then CMD_INTERNAL_READ else CMD_SINGLE_READ) len) s)
    (hlate : len + 5 < s) :
    (spi_cmd_complete g (if A ≤ 0x30 then CMD_INTERNAL_READ else CMD_SINGLE_READ) A
      (word_bytes data) 4 (if A ≤ 0x30 then 1 else 0) w).1 = N_FAIL ∧
    ∃ e1 e2 e3 rest, (spi_read_reg g A data w).2.2.log = w.log ++ e1 :: e2 :: e3 :: rest ∧
      reg_request CMD_INTERNAL_READ CMD_SINGLE_READ A e1 ∧ reset_request e2 ∧
      reg_request CMD_INTERNAL_READ CMD_SINGLE_READ A e3 := by
  have hcmd : (if A ≤ 0x30 then CMD_INTERNAL_READ else CMD_SINGLE_READ) = CMD_INTERNAL_READ ∨
      (if A ≤ 0x30 then CMD_INTERNAL_READ else CMD_SINGLE_READ) = CMD_SINGLE_READ := by
    split
    · exact Or.inl rfl
    · exact Or.inr rfl
  have hfail := reg_read_overrun g _ A (word_bytes data) 4 _ w wb len rb p s hcmd rfl hf htrx
    hecho hstatus hs hlate
  refine ⟨hfail, spi_read_reg_retries g A data w ?_⟩
  rw [hfail]
  exact N_FAIL_ne_N_OK

theorem overrun_failure_retried_witness :
    spi_cmd_complete_frame (scripted_bus 1 late_header_reply).crc_off
      (if 0x3b0000 ≤ 0x30 then CMD_INTERNAL_READ else CMD_SINGLE_READ) 0x3b0000 (word_bytes 0) 4
      (if 0x3b0000 ≤ 0x30 then 1 else 0)
      = some ([0xca, 0x3b, 0x00, 0x00] ++ List.replicate 28 0xaa, 4) ∧
    (scripted_bus 1 late_header_reply).spi_trx idle_world.peer
      (([0xca, 0x3b, 0x00, 0x00] ++ List.replicate 28 0xaa).take 4 ++ List.replicate
        (spi_cmd_complete_len2 (scripted_bus 1 late_header_reply).crc_off
          (if 0x3b0000 ≤ 0x30 then CMD_INTERNAL_READ else CMD_SINGLE_READ) 4 - 4) 0)
      = (true, late_header_reply, ()) ∧
    late_header_reply.getD 4 0 = (if 0x3b0000 ≤ 0x30 then CMD_INTERNAL_READ else CMD_SINGLE_READ) ∧
    late_header_reply.getD (4 + 1) 0 = 0x00 ∧
    first_sentinel late_header_reply (4 + 2)
      (spi_cmd_complete_len2 (scripted_bus 1 late_header_reply).crc_off
        (if 0x3b0000 ≤ 0x30 then CMD_INTERNAL_READ else CMD_SINGLE_READ) 4) 10 ∧
    4 + 5 < 10 ∧
    (spi_cmd_complete (scripted_bus 1 late_header_reply)
      (if 0x3b0000 ≤ 0x30 then CMD_INTERNAL_READ else CMD_SINGLE_READ) 0x3b0000
      (word_bytes 0) 4 (if 0x3b0000 ≤ 0x30 then 1 else 0) idle_world).1 = N_FAIL ∧
    ∃ e1 e2 e3 rest,
      (spi_read_reg (scripted_bus 1 late_header_reply) 0x3b0000 0 idle_world).2.2.log =
        idle_world.log ++ e1 :: e2 :: e3 :: rest ∧
      reg_request CMD_INTERNAL_READ CMD_SINGLE_READ 0x3b0000 e1 ∧ reset_request e2 ∧
      reg_request CMD_INTERNAL_READ CMD_SINGLE_READ 0x3b0000 e3 :=
  have hs : first_sentinel late_header_reply (4 + 2)
      (spi_cmd_complete_len2 (scripted_bus 1 late_header_reply).crc_off
        (if 0x3b0000 ≤ 0x30 then CMD_INTERNAL_READ else CMD_SINGLE_READ) 4) 10 :=
    ⟨by decide, by decide, by decide, fun j h1 h2 => by
      have hj : j = 6 ∨ j = 7 ∨ j = 8 ∨ j = 9 := by omega
      rcases hj with rfl | rfl | rfl | rfl <;> decide⟩
  ⟨by decide, rfl, by decide, by decide, hs, by decide,
    overrun_failure_retried (scripted_bus 1 late_header_reply) 0x3b0000 0 idle_world
      ([0xca, 0x3b, 0x00, 0x00] ++ List.replicate 28 0xaa) 4 late_header_reply () 10
      (by decide) rfl (by decide) (by decide) hs (by decide)⟩

/-! ## Lemmas: initialisation -/

theorem zero_ne_one_int : ¬ ((0 : Int) = 1) := by decide

theorem spi_init_finish_ok (g : wilc_spi σ) (w : World σ) (h : (spi_init_finish g w).1 = 1) :
    (spi_read_reg g 0x3b0000 0 w).1 ≠ 0 ∧
    spi_init_finish g w =
      (1, { g_spi := { g with has_thrpt_enh := 1 }, isinit := 1 },
        (spi_read_reg g 0x3b0000 0 w).2.2) := by
  unfold spi_init_finish at h ⊢
  simp only [] at h ⊢
  split
  · rename_i h0
    rw [if_pos h0] at h
    exact absurd h zero_ne_one_int
  · rename_i h0
    exact ⟨h0, rfl⟩

/-- The protocol configuration that ends with result 1, entered in
checksum mode: either the read of the protocol register returned nonzero,
the changed word was written with a nonzero result and the chip id was read
in checksum-off mode; or the read returned 0, was repeated in checksum-off
mode with a nonzero result, and the chip id was read. -/
theorem spi_init_protocol_ok (P : Nat) (g : wilc_spi σ) (w : World σ) (hg : g.crc_off = 0)
    (h : (spi_init_protocol P g w).1 = 1) :
    ((spi_internal_read g P 0 w).1 ≠ 0 →
      (spi_internal_write g P (spi_init_reg (spi_internal_read g P 0 w).2.1)
        (spi_internal_read g P 0 w).2.2).1 ≠ 0 ∧
      spi_init_protocol P g w = spi_init_finish { g with crc_off := 1 }
        (spi_internal_write g P (spi_init_reg (spi_internal_read g P 0 w).2.1)
          (spi_internal_read g P 0 w).2.2).2) ∧
    ((spi_internal_read g P 0 w).1 = 0 →
      (spi_internal_read { g with crc_off := 1 } P (spi_internal_read g P 0 w).2.1
        (spi_internal_read g P 0 w).2.2).1 ≠ 0 ∧
      spi_init_protocol P g w = spi_init_finish { g with crc_off := 1 }
        (spi_internal_read { g with crc_off := 1 } P (spi_internal_read g P 0 w).2.1
          (spi_internal_read g P 0 w).2.2).2.2) := by
  unfold spi_init_protocol at h ⊢
  simp only [] at h ⊢
  generalize spi_internal_read g P 0 w = r1 at h ⊢
  constructor
  · intro h1
    rw [if_neg h1, if_pos hg] at h ⊢
    generalize spi_internal_write g P (spi_init_reg r1.2.1) r1.2.2 = wr at h ⊢
    by_cases hw : wr.1 = 0
    · rw [if_pos hw] at h
      exact absurd h zero_ne_one_int
    · rw [if_neg hw]
      exact ⟨hw, rfl⟩
  · intro h1
    rw [if_pos h1] at h ⊢
    generalize spi_internal_read { g with crc_off := 1 } P r1.2.1 r1.2.2 = r2 at h ⊢
    by_cases h2 : r2.1 = 0
    · rw [if_pos h2] at h
      exact absurd h zero_ne_one_int
    · rw [if_neg h2, if_neg (by decide)]
      exact ⟨h2, rfl⟩

/-- A first call of `spi_init` that returns 1 went through `io_init`, the
probe and the protocol configuration. -/
theorem spi_init_first_ok (P : Nat) (inp : wilc_wlan_inp σ) (d : Driver σ) (w : World σ)
    (h0 : d.isinit = 0) (h : (spi_init P inp d w).1 = 1) :
    ∃ io_init, inp.io_init = some io_init ∧ (io_init w.peer).1 = true ∧
      spi_init P inp d w = spi_init_protocol P (init_session inp)
        (spi_cmd_complete (init_session inp) CMD_INTERNAL_READ P (scratch 32) 4 0
          { peer := (io_init w.peer).2, log := w.log }).2.2 := by
  unfold spi_init at h ⊢
  rw [if_neg (by rw [h0]; decide)] at h ⊢
  cases hio : inp.io_init with
  | none =>
    rw [hio] at h
    exact absurd h zero_ne_one_int
  | some f =>
    rw [hio] at h
    simp only [] at h ⊢
    refine ⟨f, rfl, ?_⟩
    cases hi : (f w.peer).1
    · rw [hi] at h
      simp only [Bool.not_false, if_true] at h
      exact absurd h zero_ne_one_int
    · rw [hi] at h
      simp only [Bool.not_true, Bool.false_eq_true, if_false] at h ⊢
      refine ⟨trivial, ?_⟩
      split
      · rename_i hp
        rw [if_pos hp] at h
        exact absurd h zero_ne_one_int
      · rfl


theorem spi_init_reg_eq (reg : Nat) :
    spi_init_reg reg = ((reg &&& 0xfffffff3) &&& 0xffffff8f) ||| 0x50 := rfl

theorem mask_bits :
    (∀ i, i < 32 → Nat.testBit 0xfffffff3 i = decide (i ≠ 2 ∧ i ≠ 3)) ∧
    (∀ i, i < 32 → Nat.testBit 0xffffff8f i = decide (i ≠ 4 ∧ i ≠ 5 ∧ i ≠ 6)) ∧
    (∀ i, i < 32 → Nat.testBit 0x50 i = decide (i = 4 ∨ i = 6)) := by
  decide

/-- Bit by bit, the word `spi_init` writes back: bits 2, 3 and 5 are
clear, bits 4 and 6 are set, every other bit is that of the 32-bit word
read. -/
theorem spi_init_reg_testBit (reg i : Nat) :
    (spi_init_reg reg).testBit i =
      if i = 2 ∨ i = 3 ∨ i = 5 then false
      else if i = 4 ∨ i = 6 then true
      else (reg % 2 ^ 32).testBit i := by
  rw [spi_init_reg_eq, Nat.testBit_or, Nat.testBit_and, Nat.testBit_and,
    Nat.testBit_mod_two_pow]
  by_cases hi : i < 32
  · obtain ⟨m1, m2, m3⟩ := mask_bits
    rw [m1 i hi, m2 i hi, m3 i hi]
    by_cases e2 : i = 2
    · subst e2
      simp
    by_cases e3 : i = 3
    · subst e3
      simp
    by_cases e4 : i = 4
    · subst e4
      simp
    by_cases e5 : i = 5
    · subst e5
      simp
    by_cases e6 : i = 6
    · subst e6
      simp
    simp [e2, e3, e4, e5, e6, hi]
  · have hp : 2 ^ 32 ≤ 2 ^ i := Nat.pow_le_pow_right (by decide) (by omega)
    have h1 : Nat.testBit 0xfffffff3 i = false :=
      Nat.testBit_lt_two_pow (Nat.lt_of_lt_of_le (by decide) hp)
    have h2 : Nat.testBit 0x50 i = false :=
      Nat.testBit_lt_two_pow (Nat.lt_of_lt_of_le (by decide) hp)
    rw [h1, h2, if_neg (by omega), if_neg (by omega)]
    simp [hi]


/-- A call of `spi_init` that returns 1 leaves `isinit` nonzero. -/
theorem spi_init_ok_isinit (P : Nat) (inp : wilc_wlan_inp σ) (d : Driver σ) (w : World σ)
    (h : (spi_init P inp d w).1 = 1) : (spi_init P inp d w).2.1.isinit ≠ 0 := by
  by_cases h0 : d.isinit = 0
  · obtain ⟨f, -, -, heq⟩ := spi_init_first_ok P inp d w h0 h
    rw [heq] at h ⊢
    generalize (spi_cmd_complete (init_session inp) CMD_INTERNAL_READ P (scratch 32) 4 0
      { peer := (f w.peer).2, log := w.log }).2.2 = w1 at h ⊢
    obtain ⟨ha, hb⟩ := spi_init_protocol_ok P (init_session inp) w1 rfl h
    by_cases h1 : (spi_internal_read (init_session inp) P 0 w1).1 = 0
    · obtain ⟨-, e⟩ := hb h1
      rw [e] at h ⊢
      rw [(spi_init_finish_ok _ _ h).2]
      show (1 : Int) ≠ 0
      decide
    · obtain ⟨-, e⟩ := ha h1
      rw [e] at h ⊢
      rw [(spi_init_finish_ok _ _ h).2]
      show (1 : Int) ≠ 0
      decide
  · unfold spi_init
    rw [if_pos h0]
    simp only []
    split <;> exact h0

/-- With `isinit` nonzero `spi_init` is the read of the chip id and
nothing else. -/
theorem spi_init_again (P : Nat) (inp : wilc_wlan_inp σ) (d : Driver σ) (w : World σ)
    (h : d.isinit ≠ 0) :
    spi_init P inp d w =
      (if (spi_read_reg d.g_spi 0x3b0000 0 w).1 = 0 then 0 else 1, d,
        (spi_read_reg d.g_spi 0x3b0000 0 w).2.2) := by
  unfold spi_init
  rw [if_pos h]
  simp only []
  split <;> rfl

/-- C19: once a call of `spi_init` has returned 1, a later call, whatever
input `inp2` it is given and in whatever world, is one `spi_read_reg` of
address `0x3b0000` with the session as it is: the result is 1 when that read
returns nonzero and 0 otherwise, the driver state (`g_spi` and `isinit`)
comes back unchanged, so the same holds for every call after it, and the
world is the one `spi_read_reg` leaves: `io_init` has not touched the peer
and every logged exchange is a request for `0x3b0000` or a bus reset. -/
theorem later_calls_only_probe (P : Nat) (inp : wilc_wlan_inp σ) (d : Driver σ) (w : World σ)
    (h : (spi_init P inp d w).1 = 1) (inp2 : wilc_wlan_inp σ) (w2 : World σ) :
    spi_init P inp2 (spi_init P inp d w).2.1 w2 =
      (if (spi_read_reg (spi_init P inp d w).2.1.g_spi 0x3b0000 0 w2).1 = 0 then 0 else 1,
        (spi_init P inp d w).2.1,
        (spi_read_reg (spi_init P inp d w).2.1.g_spi 0x3b0000 0 w2).2.2) ∧
    ∃ evs, (spi_init P inp2 (spi_init P inp d w).2.1 w2).2.2.log = w2.log ++ evs ∧
      attempts_and_resets (reg_request CMD_INTERNAL_READ CMD_SINGLE_READ 0x3b0000) evs := by
  have heq := spi_init_again P inp2 _ w2 (spi_init_ok_isinit P inp d w h)
  refine ⟨heq, ?_⟩
  rw [heq]
  exact spi_read_reg_from_log _ 0x3b0000 _ 0 w2

set_option maxRecDepth 100000 in
theorem later_calls_only_probe_witness :
    (spi_init 0x24 compliant_inp fresh_driver idle_world).1 = 1 ∧
    spi_init 0x24 compliant_inp (spi_init 0x24 compliant_inp fresh_driver idle_world).2.1
        idle_world =
      (if (spi_read_reg (spi_init 0x24 compliant_inp fresh_driver idle_world).2.1.g_spi
          0x3b0000 0 idle_world).1 = 0 then 0 else 1,
        (spi_init 0x24 compliant_inp fresh_driver idle_world).2.1,
        (spi_read_reg (spi_init 0x24 compliant_inp fresh_driver idle_world).2.1.g_spi
          0x3b0000 0 idle_world).2.2) ∧
    ∃ evs, (spi_init 0x24 compliant_inp
        (spi_init 0x24 compliant_inp fresh_driver idle_world).2.1 idle_world).2.2.log =
        idle_world.log ++ evs ∧
      attempts_and_resets (reg_request CMD_INTERNAL_READ CMD_SINGLE_READ 0x3b0000) evs :=
  ⟨by decide, later_calls_only_probe 0x24 compliant_inp fresh_driver idle_world (by decide)
    compliant_inp idle_world⟩

/-- C20: a first call of `spi_init` (`isinit = 0`) that returns 1 leaves
`g_spi.crc_off = 1` and `g_spi.has_thrpt_enh = 1`. When the read of the
protocol register in checksum mode returned nonzero, the word written back
with `spi_internal_write` is `spi_init_reg` of the word read, the write
returned nonzero, and the chip id was then read in checksum-off mode; when
that read returned 0, the register was read again in checksum-off mode and
nothing was written. Bit by bit, `spi_init_reg reg` has bits 2 and 3 clear,
bits 4 to 6 equal to 5 (bits 4 and 6 set, bit 5 clear), and every other bit
as in the 32-bit word `reg`. -/
theorem negotiation_ends_checksum_off (P : Nat) (inp : wilc_wlan_inp σ) (d : Driver σ)
    (w : World σ) (h0 : d.isinit = 0) (h : (spi_init P inp d w).1 = 1) :
    (spi_init P inp d w).2.1.g_spi.crc_off = 1 ∧
    (spi_init P inp d w).2.1.g_spi.has_thrpt_enh = 1 ∧
    (∃ io_init w1 r1, inp.io_init = some io_init ∧
      w1 = (spi_cmd_complete (init_session inp) CMD_INTERNAL_READ P (scratch 32) 4 0
        { peer := (io_init w.peer).2, log := w.log }).2.2 ∧
      r1 = spi_internal_read (init_session inp) P 0 w1 ∧
      (r1.1 ≠ 0 →
        (spi_internal_write (init_session inp) P (spi_init_reg r1.2.1) r1.2.2).1 ≠ 0 ∧
        (spi_init P inp d w).2.2 =
          (spi_read_reg { init_session inp with crc_off := 1 } 0x3b0000 0
            (spi_internal_write (init_session inp) P (spi_init_reg r1.2.1) r1.2.2).2).2.2) ∧
      (r1.1 = 0 →
        (spi_internal_read { init_session inp with crc_off := 1 } P r1.2.1 r1.2.2).1 ≠ 0 ∧
        (spi_init P inp d w).2.2 =
          (spi_read_reg { init_session inp with crc_off := 1 } 0x3b0000 0
            (spi_internal_read { init_session inp with crc_off := 1 } P r1.2.1
              r1.2.2).2.2).2.2)) ∧
    (∀ reg i, (spi_init_reg reg).testBit i =
      if i = 2 ∨ i = 3 ∨ i = 5 then false
      else if i = 4 ∨ i = 6 then true
      else (reg % 2 ^ 32).testBit i) := by
  obtain ⟨f, hf, -, heq⟩ := spi_init_first_ok P inp d w h0 h
  rw [heq] at h ⊢
  generalize hw1 : (spi_cmd_complete (init_session inp) CMD_INTERNAL_READ P (scratch 32) 4 0
    { peer := (f w.peer).2, log := w.log }).2.2 = w1 at h ⊢
  obtain ⟨ha, hb⟩ := spi_init_protocol_ok P (init_session inp) w1 rfl h
  have hfin : ∀ w2, spi_init_protocol P (init_session inp) w1 =
      spi_init_finish { init_session inp with crc_off := 1 } w2 →
      (spi_init_protocol P (init_session inp) w1).2.1.g_spi.crc_off = 1 ∧
      (spi_init_protocol P (init_session inp) w1).2.1.g_spi.has_thrpt_enh = 1 ∧
      (spi_init_protocol P (init_session inp) w1).2.2 =
        (spi_read_reg { init_session inp with crc_off := 1 } 0x3b0000 0 w2).2.2 := by
    intro w2 e
    rw [e] at h ⊢
    rw [(spi_init_finish_ok _ _ h).2]
    exact ⟨rfl, rfl, rfl⟩
  have hboth : (spi_init_protocol P (init_session inp) w1).2.1.g_spi.crc_off = 1 ∧
      (spi_init_protocol P (init_session inp) w1).2.1.g_spi.has_thrpt_enh = 1 := by
    by_cases h1 : (spi_internal_read (init_session inp) P 0 w1).1 = 0
    · obtain ⟨c1, c2, -⟩ := hfin _ (hb h1).2
      exact ⟨c1, c2⟩
    · obtain ⟨c1, c2, -⟩ := hfin _ (ha h1).2
      exact ⟨c1, c2⟩
  refine ⟨hboth.1, hboth.2, ⟨f, w1, spi_internal_read (init_session inp) P 0 w1, hf, hw1.symm,
    rfl, fun h1 => ⟨(ha h1).1, (hfin _ (ha h1).2).2.2⟩,
    fun h1 => ⟨(hb h1).1, (hfin _ (hb h1).2).2.2⟩⟩, spi_init_reg_testBit⟩


set_option maxRecDepth 100000 in
theorem negotiation_ends_checksum_off_witness :
    fresh_driver.isinit = 0 ∧
    (spi_init 0x24 compliant_inp fresh_driver idle_world).1 = 1 ∧
    (spi_init 0x24 compliant_inp fresh_driver idle_world).2.2.log.map
      (fun e => (sent_frame e).take 8) =
      [[0xc4, 0x00, 0x24, 0x00, 0x20, 0, 0, 0], [0xc4, 0x00, 0x24, 0x00, 0x20, 0, 0, 0],
        [0xc3, 0x00, 0x24, 0x44, 0x33, 0x22, 0x51, 0xf4], [0xca, 0x3b, 0x00, 0x00, 0, 0, 0, 0]] ∧
    (spi_init 0x24 compliant_inp fresh_driver idle_world).2.1.g_spi.crc_off = 1 ∧
    (spi_init 0x24 compliant_inp fresh_driver idle_world).2.1.g_spi.has_thrpt_enh = 1 ∧
    (∃ io_init w1 r1, compliant_inp.io_init = some io_init ∧
      w1 = (spi_cmd_complete (init_session compliant_inp) CMD_INTERNAL_READ 0x24 (scratch 32) 4 0
        { peer := (io_init idle_world.peer).2, log := idle_world.log }).2.2 ∧
      r1 = spi_internal_read (init_session compliant_inp) 0x24 0 w1 ∧
      (r1.1 ≠ 0 →
        (spi_internal_write (init_session compliant_inp) 0x24 (spi_init_reg r1.2.1) r1.2.2).1 ≠ 0 ∧
        (spi_init 0x24 compliant_inp fresh_driver idle_world).2.2 =
          (spi_read_reg { init_session compliant_inp with crc_off := 1 } 0x3b0000 0
            (spi_internal_write (init_session compliant_inp) 0x24 (spi_init_reg r1.2.1) r1.2.2).2).2.2) ∧
      (r1.1 = 0 →
        (spi_internal_read { init_session compliant_inp with crc_off := 1 } 0x24 r1.2.1 r1.2.2).1 ≠ 0 ∧
        (spi_init 0x24 compliant_inp fresh_driver idle_world).2.2 =
          (spi_read_reg { init_session compliant_inp with crc_off := 1 } 0x3b0000 0
            (spi_internal_read { init_session compliant_inp with crc_off := 1 } 0x24 r1.2.1
              r1.2.2).2.2).2.2)) ∧
    (∀ reg i, (spi_init_reg reg).testBit i =
      if i = 2 ∨ i = 3 ∨ i = 5 then false
      else if i = 4 ∨ i = 6 then true
      else (reg % 2 ^ 32).testBit i) :=
  ⟨rfl, by decide, by decide,
    negotiation_ends_checksum_off 0x24 compliant_inp fresh_driver idle_world rfl (by decide)⟩

/-! ## Lemmas: the table and the shift register -/

/-- The shift of the 7-bit register, without feedback. -/
theorem shl7_xor (s m : Nat) :
    ((s ^^^ m) <<< 1) &&& 0x7f = ((s <<< 1) &&& 0x7f) ^^^ ((m <<< 1) &&& 0x7f) := by
  apply Nat.eq_of_testBit_eq
  intro i
  simp only [Nat.testBit_and, Nat.testBit_xor, Nat.testBit_shiftLeft]
  generalize decide (i ≥ 1) = a
  generalize s.testBit (i - 1) = b
  generalize m.testBit (i - 1) = c
  generalize Nat.testBit 0x7f i = d
  revert a b c d
  decide

/-- One clock of the register is linear: a state offset `m` acts like its
top bit added to the input, plus the shifted offset. -/
theorem crc7_shift_xor (s m : Nat) (b : Bool) :
    crc7_shift (s ^^^ m) b =
      crc7_shift s (b != m.testBit 6) ^^^ ((m <<< 1) &&& 0x7f) := by
  unfold crc7_shift
  simp only [shl7_xor, Nat.testBit_xor]
  generalize (s <<< 1) &&& 0x7f = A
  generalize (m <<< 1) &&& 0x7f = M
  cases s.testBit 6 <;> cases m.testBit 6 <;> cases b <;>
    simp [Nat.xor_assoc, Nat.xor_comm M]


theorem testBit_7f (i : Nat) : Nat.testBit 0x7f i = decide (i < 7) :=
  Nat.testBit_two_pow_sub_one 7 i

/-- The table entry of `(c << 1) ^ d` read bit-serially: shifting the byte
`d` in from the state `c` is the same as shifting `(c << 1) ^ d` in from the
state 0. -/
theorem crc7_serial_byte_zero (c d : Nat) :
    crc7_serial_byte c d = crc7_serial_byte 0 ((c <<< 1) ^^^ d) := by
  unfold crc7_serial_byte
  conv_lhs => rw [← Nat.zero_xor c]
  rw [crc7_shift_xor, crc7_shift_xor, crc7_shift_xor, crc7_shift_xor, crc7_shift_xor,
    crc7_shift_xor, crc7_shift_xor, crc7_shift_xor]
  have h8 : ((((((((c <<< 1 &&& 0x7f) <<< 1 &&& 0x7f) <<< 1 &&& 0x7f) <<< 1 &&& 0x7f) <<< 1
      &&& 0x7f) <<< 1 &&& 0x7f) <<< 1 &&& 0x7f) <<< 1 &&& 0x7f) = 0 := by
    apply Nat.eq_of_testBit_eq
    intro i
    simp only [Nat.testBit_and, Nat.testBit_shiftLeft, testBit_7f, Nat.zero_testBit]
    by_cases h : i < 7
    · have : ¬ (i - 1 - 1 - 1 - 1 - 1 - 1 - 1 ≥ 1) := by omega
      simp [this]
    · simp [h]
  rw [h8, Nat.xor_zero]
  simp only [Nat.testBit_and, Nat.testBit_shiftLeft, Nat.testBit_xor, testBit_7f]
  simp
  simp only [Bool.xor_comm (Nat.testBit d _)]


set_option maxRecDepth 1000000 in
/-- Every table entry is the bit-serial CRC-7 of its index from the state
0. -/
theorem crc7_syndrome_table_serial :
    ∀ x, x < 256 → crc7_syndrome_table.getD x 0 = crc7_serial_byte 0 x := by
  decide

/-- The table step and the bit-serial step agree on a 7-bit state and a
byte. -/
theorem crc7_byte_serial (c d : Nat) (hc : c ≤ 0x7f) (hd : d < 256) :
    crc7_byte c d = crc7_serial_byte c d := by
  have hi := crc7_byte_index_lt c d hc hd
  rw [crc7_syndrome_table_length] at hi
  rw [crc7_serial_byte_zero]
  exact crc7_syndrome_table_serial _ hi

theorem crc7_shift_le (c : Nat) (b : Bool) : crc7_shift c b ≤ 0x7f := by
  unfold crc7_shift
  have h1 : (c <<< 1) &&& 0x7f < 2 ^ 7 := Nat.lt_of_le_of_lt Nat.and_le_right (by decide)
  split
  · exact Nat.le_of_lt_succ (Nat.xor_lt_two_pow h1 (by decide))
  · exact Nat.le_of_lt_succ h1

/-- C24: the table-driven CRC is the bit-serial CRC-7 with generator
polynomial `x^7 + x^3 + 1`. For a 7-bit state `c` and a byte `d` the index
`(c << 1) ^ d` is inside the table and `crc7_byte c d` is the state reached
by shifting the 8 bits of `d`, most significant first, into the register
(`crc7_serial_byte`); hence `crc7` from the seed `0x7f` over bytes equals
the bit-serial `crc7_serial` and is at most `0x7f`. -/
theorem table_crc_is_bit_serial :
    (∀ c d, c ≤ 0x7f → d < 256 →
      (c <<< 1) ^^^ d < 256 ∧ crc7_syndrome_table.length = 256 ∧
      crc7_byte c d = crc7_serial_byte c d ∧ crc7_byte c d ≤ 0x7f) ∧
    (∀ bytes : List Nat, (∀ d ∈ bytes, d < 256) →
      crc7 0x7f bytes = crc7_serial 0x7f bytes ∧ crc7 0x7f bytes ≤ 0x7f) := by
  constructor
  · intro c d hc hd
    have hi := crc7_byte_index_lt c d hc hd
    rw [crc7_syndrome_table_length] at hi
    exact ⟨hi, crc7_syndrome_table_length, crc7_byte_serial c d hc hd, crc7_byte_le c d⟩
  · intro bytes hb
    refine ⟨?_, crc7_le _ _ (by decide)⟩
    have hgen : ∀ (l : List Nat) (c : Nat), c ≤ 0x7f → (∀ d ∈ l, d < 256) →
        crc7 c l = crc7_serial c l := by
      intro l
      induction l with
      | nil => intro c _ _; rfl
      | cons d rest ih =>
        intro c hc hl
        have hd := hl d (List.mem_cons_self d rest)
        show crc7 (crc7_byte c d) rest = crc7_serial (crc7_serial_byte c d) rest
        rw [← crc7_byte_serial c d hc hd]
        exact ih _ (crc7_byte_le c d) (fun x hx => hl x (List.mem_cons_of_mem d hx))
    exact hgen bytes 0x7f (by decide) hb

set_option maxRecDepth 100000 in
theorem table_crc_is_bit_serial_witness :
    (0x7f : Nat) ≤ 0x7f ∧ (0xc4 : Nat) < 256 ∧
    ((0x7f <<< 1) ^^^ 0xc4 < 256 ∧ crc7_syndrome_table.length = 256 ∧
      crc7_byte 0x7f 0xc4 = crc7_serial_byte 0x7f 0xc4 ∧ crc7_byte 0x7f 0xc4 ≤ 0x7f) ∧
    (∀ d ∈ [0xc4, 0x00, 0x24, 0x00], d < 256) ∧
    (crc7 0x7f [0xc4, 0x00, 0x24, 0x00] = crc7_serial 0x7f [0xc4, 0x00, 0x24, 0x00] ∧
      crc7 0x7f [0xc4, 0x00, 0x24, 0x00] ≤ 0x7f) ∧
    crc7_serial 0x7f [0xc4, 0x00, 0x24, 0x00] = 0x10 :=
  ⟨by decide, by decide, table_crc_is_bit_serial.1 0x7f 0xc4 (by decide) (by decide),
    by decide, table_crc_is_bit_serial.2 [0xc4, 0x00, 0x24, 0x00] (by decide), by decide⟩

/-! ## Lemmas: the two framers -/

theorem framers_switch_agree (cmd addr data sz clockless : Nat) (hcmd : cmd ∈ opcodes)
    (hcl : clockless ≤ 1 ∨ (cmd ≠ CMD_INTERNAL_READ ∧ cmd ≠ CMD_INTERNAL_WRITE)) :
    ∃ bc wb len, spi_cmd_switch cmd addr data sz clockless = some (bc, len) ∧
      spi_cmd_complete_switch cmd addr (word_bytes data) sz clockless = some (wb, len) ∧
      5 ≤ len ∧ len ≤ 9 ∧ bc.length = 9 ∧ wb.length = 32 ∧
      wb.take (len - 1) = bc.take (len - 1) := by
  simp only [opcodes, List.mem_cons, List.mem_singleton, List.not_mem_nil, or_false] at hcmd
  have h01 : clockless = 0 ∨ clockless = 1 ∨
      (cmd ≠ CMD_INTERNAL_READ ∧ cmd ≠ CMD_INTERNAL_WRITE) := by omega
  rcases h01 with rfl | rfl | ⟨h1, h2⟩
  all_goals
    rcases hcmd with rfl | rfl | rfl | rfl | rfl | rfl | rfl | rfl | rfl | rfl | rfl <;>
    first
    | exact absurd rfl h1
    | exact absurd rfl h2
    | (simp [spi_cmd_switch, spi_cmd_complete_switch, scratch, u8, word_bytes, CMD_DMA_WRITE,
        CMD_DMA_READ, CMD_INTERNAL_WRITE,
        CMD_INTERNAL_READ, CMD_TERMINATE, CMD_REPEAT, CMD_DMA_EXT_WRITE, CMD_DMA_EXT_READ,
        CMD_SINGLE_WRITE, CMD_SINGLE_READ, CMD_RESET, Nat.shiftRight_eq_div_pow,
        Nat.shiftLeft_eq, or_bit7_mod]
       exact ⟨_, _, _, ⟨rfl, rfl⟩, ⟨rfl, rfl⟩, by omega, by omega, rfl, rfl, rfl⟩)

theorem framers_frame_agree (crc_off : Int) (cmd addr data sz clockless : Nat)
    (hcmd : cmd ∈ opcodes)
    (hcl : clockless ≤ 1 ∨ (cmd ≠ CMD_INTERNAL_READ ∧ cmd ≠ CMD_INTERNAL_WRITE)) :
    ∃ frame wb, spi_cmd_frame crc_off cmd addr data sz clockless = some frame ∧
      spi_cmd_complete_frame crc_off cmd addr (word_bytes data) sz clockless
        = some (wb, frame.length) ∧
      4 ≤ frame.length ∧ frame.length ≤ 9 ∧ wb.length = 32 ∧ wb.take frame.length = frame := by
  obtain ⟨bc, wb, len, hs, hs2, h5, h9, hbc, hwb, hag⟩ :=
    framers_switch_agree cmd addr data sz clockless hcmd hcl
  by_cases hc : crc_off = 0
  · subst hc
    obtain ⟨e1, -, e3⟩ := crc_step_on bc len (by omega) (by omega)
    obtain ⟨f1, f2, f3⟩ := crc_step_on wb len (by omega) (by omega)
    have hlen : (bc.take (len - 1) ++ [u8 (crc7 0x7f (bc.take (len - 1)) <<< 1)]).length = len := by
      rw [List.length_append, List.length_take, hbc]
      simp only [List.length_singleton]; omega
    refine ⟨bc.take (len - 1) ++ [u8 (crc7 0x7f (bc.take (len - 1)) <<< 1)],
      (crc_step 0 wb len).1, ?_, ?_, ?_, ?_, ?_, ?_⟩
    · simp only [spi_cmd_frame, hs, e1, e3]
    · simp only [spi_cmd_complete_frame, hs2, hlen]
      exact congrArg some (Prod.ext rfl f1)
    · omega
    · omega
    · rw [f2, hwb]
    · rw [hlen, f3, hag]
  · have hlen : (bc.take (len - 1)).length = len - 1 := by
      rw [List.length_take, hbc]; omega
    refine ⟨bc.take (len - 1), wb, ?_, ?_, ?_, ?_, hwb, ?_⟩
    · simp only [spi_cmd_frame, hs, crc_step_off crc_off bc len hc]
    · simp only [spi_cmd_complete_frame, hs2, crc_step_off crc_off wb len hc, hlen]
    · omega
    · omega
    · rw [hlen, hag]

theorem framers_clockless_bit (crc_off : Int) (cmd addr data sz clockless : Nat)
    (hcmd : cmd = CMD_INTERNAL_READ ∨ cmd = CMD_INTERNAL_WRITE) (hcl : 2 ≤ clockless) :
    ∃ frame wb len, spi_cmd_frame crc_off cmd addr data sz clockless = some frame ∧
      spi_cmd_complete_frame crc_off cmd addr (word_bytes data) sz clockless = some (wb, len) ∧
      frame.getD 1 0 = u8 (addr >>> 8) ||| 0x80 ∧
      (wb.take len).getD 1 0 = u8 (addr >>> 8) := by
  have h0 : clockless ≠ 0 := by omega
  have h1 : clockless ≠ 1 := by omega
  by_cases hc : crc_off = 0 <;> rcases hcmd with rfl | rfl <;>
    simp [spi_cmd_frame, spi_cmd_complete_frame, spi_cmd_switch, spi_cmd_complete_switch,
      crc_step, hc, h0, h1, scratch, u8, word_bytes, CMD_DMA_WRITE,
      CMD_DMA_READ, CMD_INTERNAL_WRITE,
      CMD_INTERNAL_READ, CMD_TERMINATE, CMD_REPEAT, CMD_DMA_EXT_WRITE, CMD_DMA_EXT_READ,
      CMD_SINGLE_WRITE, CMD_SINGLE_READ, CMD_RESET, Nat.shiftRight_eq_div_pow,
      Nat.shiftLeft_eq, or_bit7_mod] <;>
    exact ⟨_, _, ⟨rfl, rfl⟩, rfl⟩

theorem or_bit7_testBit (a : Nat) : (a ||| 0x80).testBit 7 = true := by
  rw [Nat.testBit_or]
  have : Nat.testBit 0x80 7 = true := by decide
  rw [this, Bool.or_true]

theorem u8_shift8_testBit (addr : Nat) : (u8 (addr >>> 8)).testBit 7 = addr.testBit 15 := by
  have h : u8 (addr >>> 8) = (addr >>> 8) % 2 ^ 8 := rfl
  rw [h, Nat.testBit_mod_two_pow, Nat.testBit_shiftRight]
  simp

/-- C26. The two framers agree. For a recognised opcode, any address, size,
32-bit data word and checksum mode, and a clockless flag in {0, 1} (or any
flag when the opcode is not an internal read/write), the bytes that
`spi_cmd` hands to the transport are the first `len` bytes of the write
buffer of `spi_cmd_complete` called with the little-endian byte view of the
data word, and the exchange of `spi_cmd_complete` starts with these bytes.
For an internal read/write with a flag outside {0, 1}, byte 1 of the frame
of `spi_cmd` has bit 7 set while byte 1 of the frame of `spi_cmd_complete`
is the plain address byte, whose bit 7 is address bit 15: the two frames
differ there whenever address bit 15 is clear. -/
theorem framers_agree (g : wilc_spi σ) (cmd addr data sz clockless : Nat) (w w2 : World σ)
    (hcmd : cmd ∈ opcodes) :
    (clockless ≤ 1 ∨ (cmd ≠ CMD_INTERNAL_READ ∧ cmd ≠ CMD_INTERNAL_WRITE) →
      ∃ frame wb ok ok2 rb rest,
        spi_cmd_frame g.crc_off cmd addr data sz clockless = some frame ∧
        (spi_cmd g cmd addr data sz clockless w).2.log = w.log ++ [Event.tx frame ok] ∧
        spi_cmd_complete_frame g.crc_off cmd addr (word_bytes data) sz clockless
          = some (wb, frame.length) ∧
        wb.take frame.length = frame ∧
        (spi_cmd_complete g cmd addr (word_bytes data) sz clockless w2).2.2.log
          = w2.log ++ Event.trx
              (frame ++ List.replicate
                (spi_cmd_complete_len2 g.crc_off cmd frame.length - frame.length) 0)
              ok2 rb :: rest) ∧
    (2 ≤ clockless → cmd = CMD_INTERNAL_READ ∨ cmd = CMD_INTERNAL_WRITE →
      ∃ frame wb len,
        spi_cmd_frame g.crc_off cmd addr data sz clockless = some frame ∧
        spi_cmd_complete_frame g.crc_off cmd addr (word_bytes data) sz clockless
          = some (wb, len) ∧
        frame.getD 1 0 = (wb.take len).getD 1 0 ||| 0x80 ∧
        (frame.getD 1 0).testBit 7 = true ∧
        ((wb.take len).getD 1 0).testBit 7 = addr.testBit 15 ∧
        (addr.testBit 15 = false → frame ≠ wb.take len)) := by
  constructor
  · intro hcl
    obtain ⟨frame, wb, hf, hf2, -, h9, hwb, htk⟩ :=
      framers_frame_agree g.crc_off cmd addr data sz clockless hcmd hcl
    obtain ⟨ok, hlog⟩ := spi_cmd_log g cmd addr data sz clockless w frame hf
    obtain ⟨ok2, rb, rest, hlog2⟩ := spi_cmd_complete_log_frame g cmd addr (word_bytes data) sz
      clockless w2 wb frame.length hf2 h9 hwb
    rw [htk] at hlog2
    exact ⟨frame, wb, ok, ok2, rb, rest, hf, hlog, hf2, htk, hlog2⟩
  · intro hcl hi
    obtain ⟨frame, wb, len, hf, hf2, h1, h2⟩ :=
      framers_clockless_bit g.crc_off cmd addr data sz clockless hi hcl
    refine ⟨frame, wb, len, hf, hf2, by rw [h1, h2], ?_, ?_, ?_⟩
    · rw [h1]; exact or_bit7_testBit _
    · rw [h2]; exact u8_shift8_testBit addr
    · intro hb heq
      have e1 : (frame.getD 1 0).testBit 7 = true := by rw [h1]; exact or_bit7_testBit _
      have e2 : ((wb.take len).getD 1 0).testBit 7 = false := by
        rw [h2, u8_shift8_testBit addr, hb]
      rw [heq, e2] at e1
      exact Bool.false_ne_true e1

theorem framers_agree_witness :
    (∃ frame wb ok ok2 rb rest,
        spi_cmd_frame (1 : Int) CMD_INTERNAL_WRITE 0x1234 0xdeadbeef 4 1 = some frame ∧
        (spi_cmd (idle_bus 1) CMD_INTERNAL_WRITE 0x1234 0xdeadbeef 4 1 idle_world).2.log
          = idle_world.log ++ [Event.tx frame ok] ∧
        spi_cmd_complete_frame (1 : Int) CMD_INTERNAL_WRITE 0x1234 (word_bytes 0xdeadbeef) 4 1
          = some (wb, frame.length) ∧
        wb.take frame.length = frame ∧
        (spi_cmd_complete (idle_bus 1) CMD_INTERNAL_WRITE 0x1234 (word_bytes 0xdeadbeef) 4 1
            idle_world).2.2.log
          = idle_world.log ++ Event.trx
              (frame ++ List.replicate
                (spi_cmd_complete_len2 1 CMD_INTERNAL_WRITE frame.length - frame.length) 0)
              ok2 rb :: rest) :=
  (framers_agree (idle_bus 1) CMD_INTERNAL_WRITE 0x1234 0xdeadbeef 4 1 idle_world idle_world
    (by decide)).1 (Or.inl (by decide))

/-! ## Lemmas: the exchange stays inside the scratch buffers -/

theorem data_hdr_scan_agree (rb rb2 : List Nat) (len2 : Nat)
    (h : ∀ i, i < len2 → rb.getD i 0 = rb2.getD i 0) (retry rix : Nat) :
    data_hdr_scan rb len2 retry rix = data_hdr_scan rb2 len2 retry rix := by
  induction retry generalizing rix with
  | zero =>
    unfold data_hdr_scan
    by_cases hr : rix < len2
    · simp only [hr, if_true, h rix hr]
    · simp only [hr, if_false]
  | succ n ih =>
    unfold data_hdr_scan
    by_cases hr : rix < len2
    · simp only [hr, if_true, h rix hr, ih]
    · simp only [hr, if_false]

theorem dma_copy_agree (rb rb2 : List Nat) (len2 sz : Nat)
    (h : ∀ i, i < len2 → rb.getD i 0 = rb2.getD i 0) (n : Nat) (b : List Nat) (ix rix : Nat) :
    dma_copy rb len2 sz n b ix rix = dma_copy rb2 len2 sz n b ix rix := by
  induction n generalizing b ix rix with
  | zero => rfl
  | succ n ih =>
    unfold dma_copy
    by_cases hr : rix < len2 ∧ ix < sz
    · simp only [hr, and_self, if_true, h rix hr.1, ih]
    · simp only [hr, if_false]

theorem spi_cmd_complete_reg_agree (g : wilc_spi σ) (b : List Nat) (len2 : Nat)
    (rb rb2 : List Nat) (h : ∀ i, i < len2 → rb.getD i 0 = rb2.getD i 0) (rix : Nat)
    (w : World σ) :
    spi_cmd_complete_reg g b len2 rb rix w = spi_cmd_complete_reg g b len2 rb2 rix w := by
  unfold spi_cmd_complete_reg
  by_cases hr : rix + 3 < len2
  · simp only [hr, if_true, h rix (by omega), h (rix + 1) (by omega), h (rix + 2) (by omega),
      h (rix + 3) hr]
  · simp only [hr, if_false]

theorem spi_cmd_complete_rsp_agree (g : wilc_spi σ) (cmd : Nat) (b : List Nat) (sz len2 : Nat)
    (rb rb2 : List Nat) (len : Nat) (w : World σ) (hlen : len + 3 ≤ len2)
    (h : ∀ i, i < len2 → rb.getD i 0 = rb2.getD i 0) :
    spi_cmd_complete_rsp g cmd b sz len2 rb len w
      = spi_cmd_complete_rsp g cmd b sz len2 rb2 len w := by
  unfold spi_cmd_complete_rsp spi_cmd_complete_read spi_cmd_complete_dma
  simp only [data_hdr_scan_agree rb rb2 len2 h, dma_copy_agree rb rb2 len2 _ h,
    spi_cmd_complete_reg_agree g _ len2 rb rb2 h]
  by_cases hc : cmd = CMD_RESET ∨ cmd = CMD_TERMINATE ∨ cmd = CMD_REPEAT
  · simp only [hc, if_true, h (len + 1) (by omega), h (len + 1 + 1) (by omega)]
  · simp only [hc, if_false, h len (by omega), h (len + 1) (by omega)]

theorem spi_cmd_complete_frame_tail (crc_off : Int) (cmd addr : Nat) (b : List Nat)
    (sz clockless : Nat) (hcmd : cmd ∈ opcodes) :
    ∃ wb len, spi_cmd_complete_frame crc_off cmd addr b sz clockless = some (wb, len) ∧
      wb.length = 32 ∧ 4 ≤ len ∧ len ≤ 9 ∧ wb.drop len = (scratch 32).drop len ∧
      spi_cmd_complete_len2 crc_off cmd len ≤ 17 := by
  simp only [opcodes, List.mem_cons, List.mem_singleton, List.not_mem_nil, or_false] at hcmd
  by_cases hc : crc_off = 0 <;> by_cases hcl : clockless = 1 <;>
    rcases hcmd with rfl | rfl | rfl | rfl | rfl | rfl | rfl | rfl | rfl | rfl | rfl <;>
    simp [spi_cmd_complete_frame, spi_cmd_complete_switch, crc_step, hc, hcl, scratch,
      spi_cmd_complete_len2, NUM_SKIP_BYTES, NUM_RSP_BYTES, NUM_DUMMY_BYTES, NUM_DATA_HDR_BYTES,
      NUM_DATA_BYTES, NUM_CRC_BYTES, CMD_DMA_WRITE,
      CMD_DMA_READ, CMD_INTERNAL_WRITE,
      CMD_INTERNAL_READ, CMD_TERMINATE, CMD_REPEAT, CMD_DMA_EXT_WRITE, CMD_DMA_EXT_READ,
      CMD_SINGLE_WRITE, CMD_SINGLE_READ, CMD_RESET] <;>
    exact ⟨_, _, ⟨rfl, rfl⟩, rfl, by omega, by omega, rfl, by omega⟩

theorem zero_fill_drop (wb : List Nat) (n wix : Nat) (h : wix + n ≤ wb.length) :
    (zero_fill wb n wix).drop (wix + n) = wb.drop (wix + n) := by
  rw [zero_fill_eq wb n wix h]
  apply List.drop_left'
  simp
  omega

/-- C25. For every recognised opcode and both checksum modes the exchange
length `len2` of `spi_cmd_complete` is at most 17, hence at most the 32 bytes
of the scratch buffers, and the call is the exchange followed by the
response part: the branch for `len2 > 32` is not taken. The frame
construction leaves `wb` untouched from index `len` on, the zero fill keeps
the frame and leaves `wb` untouched from index `len2` on, the bytes handed
to the transport are the first `len2` bytes, and the response part (echo and
status check, sentinel scan, payload extraction) depends on `rb` only
through the indexes below `len2`, where `len + 5 <= len2` covers the echo
and status bytes. -/
theorem exchange_within_scratch (g : wilc_spi σ) (cmd addr : Nat) (b : List Nat)
    (sz clockless : Nat) (w : World σ) (hcmd : cmd ∈ opcodes) :
    ∃ wb len,
      spi_cmd_complete_frame g.crc_off cmd addr b sz clockless = some (wb, len) ∧
      len + 5 ≤ spi_cmd_complete_len2 g.crc_off cmd len ∧
      spi_cmd_complete_len2 g.crc_off cmd len ≤ 17 ∧
      ¬ spi_cmd_complete_len2 g.crc_off cmd len > 32 ∧
      wb.length = 32 ∧
      wb.drop len = (scratch 32).drop len ∧
      (zero_fill wb (spi_cmd_complete_len2 g.crc_off cmd len - len) len).length = 32 ∧
      (zero_fill wb (spi_cmd_complete_len2 g.crc_off cmd len - len) len).take len
        = wb.take len ∧
      (zero_fill wb (spi_cmd_complete_len2 g.crc_off cmd len - len) len).drop
          (spi_cmd_complete_len2 g.crc_off cmd len)
        = (scratch 32).drop (spi_cmd_complete_len2 g.crc_off cmd len) ∧
      (sent_bytes wb len (spi_cmd_complete_len2 g.crc_off cmd len)).length
        = spi_cmd_complete_len2 g.crc_off cmd len ∧
      spi_cmd_complete g cmd addr b sz clockless w =
        (if !(call_trx g (sent_bytes wb len (spi_cmd_complete_len2 g.crc_off cmd len)) w).1 then
          (N_FAIL, b,
            (call_trx g (sent_bytes wb len (spi_cmd_complete_len2 g.crc_off cmd len)) w).2.2)
        else
          spi_cmd_complete_rsp g cmd b sz (spi_cmd_complete_len2 g.crc_off cmd len)
            (call_trx g (sent_bytes wb len (spi_cmd_complete_len2 g.crc_off cmd len)) w).2.1
            len
            (call_trx g (sent_bytes wb len (spi_cmd_complete_len2 g.crc_off cmd len)) w).2.2) ∧
      ∀ (rb rb2 : List Nat) (w2 : World σ),
        (∀ i, i < spi_cmd_complete_len2 g.crc_off cmd len → rb.getD i 0 = rb2.getD i 0) →
        spi_cmd_complete_rsp g cmd b sz (spi_cmd_complete_len2 g.crc_off cmd len) rb len w2
          = spi_cmd_complete_rsp g cmd b sz (spi_cmd_complete_len2 g.crc_off cmd len) rb2 len
              w2 := by
  obtain ⟨wb, len, hf, hwb, h4, h9, hdrop, h17⟩ :=
    spi_cmd_complete_frame_tail g.crc_off cmd addr b sz clockless hcmd
  have hb := (spi_cmd_complete_len2_bounds g.crc_off cmd len).1
  have heq := spi_cmd_complete_eq g cmd addr b sz clockless w wb len hf (by omega)
  refine ⟨wb, len, hf, ?_⟩
  generalize hl2 : spi_cmd_complete_len2 g.crc_off cmd len = len2 at *
  have hadd : len + (len2 - len) = len2 := by omega
  have hzd := zero_fill_drop wb (len2 - len) len (by omega)
  rw [hadd] at hzd
  have hdrop2 : wb.drop len2 = (scratch 32).drop len2 := by
    have e : len2 = len + (len2 - len) := by omega
    rw [e, ← List.drop_drop, ← List.drop_drop, hdrop]
  refine ⟨hb, h17, by omega, hwb, hdrop, ?_, ?_, ?_, ?_, heq, ?_⟩
  · rw [zero_fill_length, hwb]
  · exact zero_fill_take wb _ len len (Nat.le_refl _)
  · rw [hzd, hdrop2]
  · rw [sent_bytes_eq wb len len2 (by omega) (by omega)]
    simp only [List.length_append, List.length_take, List.length_replicate, hwb]
    omega
  · intro rb rb2 w2 h
    exact spi_cmd_complete_rsp_agree g cmd b sz len2 rb rb2 len w2 (by omega) h

theorem exchange_within_scratch_witness :
    CMD_SINGLE_READ ∈ opcodes ∧
    ∃ wb len,
      spi_cmd_complete_frame 0 CMD_SINGLE_READ 0x3b0000 [0, 0, 0, 0] 4 0 = some (wb, len) ∧
      len + 5 ≤ spi_cmd_complete_len2 0 CMD_SINGLE_READ len ∧
      spi_cmd_complete_len2 0 CMD_SINGLE_READ len ≤ 17 ∧
      wb.drop len = (scratch 32).drop len := by
  obtain ⟨wb, len, hf, h5, h17, -, -, hd, -⟩ :=
    exchange_within_scratch (idle_bus 0) CMD_SINGLE_READ 0x3b0000 [0, 0, 0, 0] 4 0 idle_world
      (by decide)
  exact ⟨by decide, wb, len, hf, h5, h17, hd⟩

/-! ## Initialisation on the peers of the scenarios -/

set_option maxRecDepth 100000 in
/-- C21, as stated, fails: a first call of `spi_init` (protocol register at
`0x24`) with a working `io_init` on a peer that answers every checksum-on
exchange with error status `0x01` and every checksum-off exchange
correctly. The probe before the negotiation is a checksum-on exchange: it
returns `N_FAIL`, and `spi_init` returns 0 after this one exchange with
`isinit` still 0. The peer does answer checksum-off exchanges: the
statements after the probe, entered on the same peer, make ten failed
checksum-on reads, each followed by a reset, then the read with
`crc_off = 1` and the read of the chip id, and end with result 1,
`crc_off = 1` and `isinit = 1`. -/
theorem probe_blocks_checksum_off_trial :
    (spi_init 0x24 checksum_off_only_inp fresh_driver idle_world).1 = 0 ∧
    (spi_init 0x24 checksum_off_only_inp fresh_driver idle_world).2.1.isinit = 0 ∧
    (spi_init 0x24 checksum_off_only_inp fresh_driver idle_world).2.2.log.map sent_frame =
      [[0xc4, 0x00, 0x24, 0x00, 0x20, 0, 0, 0, 0, 0, 0, 0, 0, 0, 0, 0, 0]] ∧
    (spi_cmd_complete (init_session checksum_off_only_inp) CMD_INTERNAL_READ 0x24 (scratch 32)
      4 0 idle_world).1 = N_FAIL ∧
    (spi_init_protocol 0x24 (init_session checksum_off_only_inp) idle_world).1 = 1 ∧
    (spi_init_protocol 0x24 (init_session checksum_off_only_inp) idle_world).2.1.isinit = 1 ∧
    (spi_init_protocol 0x24 (init_session checksum_off_only_inp) idle_world).2.1.g_spi.crc_off
      = 1 ∧
    (spi_init_protocol 0x24 (init_session checksum_off_only_inp) idle_world).2.2.log.length
      = 22 ∧
    ((spi_init_protocol 0x24 (init_session checksum_off_only_inp) idle_world).2.2.log.map
        sent_frame).drop 18 =
      [[0xc4, 0x00, 0x24, 0x00, 0x20, 0, 0, 0, 0, 0, 0, 0, 0, 0, 0, 0, 0],
       [0xcf, 0xff, 0xff, 0xff, 0xaa, 0, 0, 0, 0, 0, 0],
       [0xc4, 0x00, 0x24, 0x00, 0, 0, 0, 0, 0, 0, 0, 0, 0, 0],
       [0xca, 0x3b, 0x00, 0x00, 0, 0, 0, 0, 0, 0, 0, 0, 0, 0]] := by
  decide

set_option maxRecDepth 100000 in
/-- C22 (what the code does): a first call of `spi_init` (protocol register
at `0x24`) on a peer that follows the negotiation but acknowledges the read
of the chip id `0x3b0000` without ever sending a data header. Each of the
ten attempts of the final `spi_read_reg` returns `N_RESET`, so does the
call, and the test `!spi_read_reg(...)` lets it pass: `spi_init` returns 1
with `isinit = 1` after 23 exchanges (probe, read and write of the protocol
register, ten chip-id frames each followed by a reset). The next call
finds `isinit` set: it reads the chip id again (ten attempts) and returns 1
without any negotiation frame. -/
theorem chip_id_reset_result_accepted :
    (spi_read_reg (headerless_bus [CMD_INTERNAL_READ]) 0x3b0000 0 idle_world).1 = N_RESET ∧
    (∀ i, i < 10 →
      (read_reg_attempt (headerless_bus [CMD_INTERNAL_READ]) 0x3b0000
        (retry_state (read_reg_attempt (headerless_bus [CMD_INTERNAL_READ]) 0x3b0000)
          (reset_keep (headerless_bus [CMD_INTERNAL_READ])) i (0, idle_world))).1 = N_RESET) ∧
    (spi_init 0x24 (headerless_inp [CMD_INTERNAL_READ]) fresh_driver idle_world).1 = 1 ∧
    (spi_init 0x24 (headerless_inp [CMD_INTERNAL_READ]) fresh_driver idle_world).2.1.isinit
      = 1 ∧
    (spi_init 0x24 (headerless_inp [CMD_INTERNAL_READ]) fresh_driver idle_world).2.2.log.length
      = 23 ∧
    ((spi_init 0x24 (headerless_inp [CMD_INTERNAL_READ]) fresh_driver idle_world).2.2.log.map
        sent_frame).take 5 =
      [[0xc4, 0x00, 0x24, 0x00, 0x20, 0, 0, 0, 0, 0, 0, 0, 0, 0, 0, 0, 0],
       [0xc4, 0x00, 0x24, 0x00, 0x20, 0, 0, 0, 0, 0, 0, 0, 0, 0, 0, 0, 0],
       [0xc3, 0x00, 0x24, 0x44, 0x33, 0x22, 0x51, 0xf4, 0, 0, 0, 0, 0],
       [0xca, 0x3b, 0x00, 0x00, 0, 0, 0, 0, 0, 0, 0, 0, 0, 0],
       [0xcf, 0xff, 0xff, 0xff, 0, 0, 0, 0, 0, 0]] ∧
    ((spi_init 0x24 (headerless_inp [CMD_INTERNAL_READ]) fresh_driver idle_world).2.2.log.map
        sent_frame).countP (fun f => f.take 4 == [0xca, 0x3b, 0x00, 0x00]) = 10 ∧
    (spi_init 0x24 (headerless_inp [CMD_INTERNAL_READ])
      (spi_init 0x24 (headerless_inp [CMD_INTERNAL_READ]) fresh_driver idle_world).2.1
      idle_world).1 = 1 ∧
    ((spi_init 0x24 (headerless_inp [CMD_INTERNAL_READ])
      (spi_init 0x24 (headerless_inp [CMD_INTERNAL_READ]) fresh_driver idle_world).2.1
      idle_world).2.2.log.map sent_frame).countP (fun f => f.getD 0 0 == CMD_INTERNAL_READ ||
        f.getD 0 0 == CMD_INTERNAL_WRITE) = 0 := by
  decide

/-! ## The interrupt configuration -/

/-- The bit loops of `spi_sync_ext`, entered with a `nint` that is not
negative: `min nint k` bits from `base + i` on are added to `reg`, and `nint`
is lowered by as many. -/
theorem spi_sync_ext_bits_eq (base k i n reg : Nat) :
    (∀ j, (spi_sync_ext_bits base k i (n : Int) reg).1.testBit j =
      (reg.testBit j || decide (base + i ≤ j ∧ j < base + i + min n k))) ∧
    (spi_sync_ext_bits base k i (n : Int) reg).2 = ((n - min n k : Nat) : Int) := by
  induction k generalizing i n reg with
  | zero =>
    refine ⟨fun j => ?_, ?_⟩
    · have : ¬ (base + i ≤ j ∧ j < base + i + min n 0) := by omega
      simp [spi_sync_ext_bits, this]
    · simp [spi_sync_ext_bits]
  | succ k ih =>
    cases n with
    | zero =>
      refine ⟨fun j => ?_, ?_⟩
      · have : ¬ (base + i ≤ j ∧ j < base + i + min 0 (k + 1)) := by omega
        simp [spi_sync_ext_bits, this]
      · simp [spi_sync_ext_bits]
    | succ m =>
      have hpos : ((m + 1 : Nat) : Int) > 0 := by omega
      have hsub : ((m + 1 : Nat) : Int) - 1 = (m : Int) := by omega
      rw [spi_sync_ext_bits, if_pos hpos, hsub]
      obtain ⟨h1, h2⟩ := ih (i + 1) m (reg ||| (1 <<< (base + i)))
      refine ⟨fun j => ?_, ?_⟩
      · rw [h1 j, Nat.testBit_or, Nat.one_shiftLeft, Nat.testBit_two_pow]
        by_cases hj : base + i = j
        · subst hj
          have : base + i ≤ base + i ∧ base + i < base + i + min (m + 1) (k + 1) := by omega
          simp [this]
        · have e : (base + (i + 1) ≤ j ∧ j < base + (i + 1) + min m k) ↔
              (base + i ≤ j ∧ j < base + i + min (m + 1) (k + 1)) := by omega
          simp [hj, e]
      · rw [h2]
        congr 1
        omega

set_option maxRecDepth 100000 in
/-- The exchanges of `spi_sync_ext(6)` and the rejected `spi_sync_ext(9)` on
the peer of `compliant_bus`, with `MAX_NUM_INT = 8` and the registers at
`0x1408`, `0x1a00`, `0x1a04`. -/
theorem spi_sync_ext_trace :
    (spi_sync_ext 8 0x1408 0x1a00 0x1a04 compliant_bus 6 0 idle_world).1 = 1 ∧
    (spi_sync_ext 8 0x1408 0x1a00 0x1a04 compliant_bus 6 0 idle_world).2.1.nint = 6 ∧
    (spi_sync_ext 8 0x1408 0x1a00 0x1a04 compliant_bus 6 0 idle_world).2.2.log.map sent_frame =
      [[0xca, 0x00, 0x14, 0x08, 0, 0, 0, 0, 0, 0, 0, 0, 0, 0],
       [0xc9, 0x00, 0x14, 0x08, 0x44, 0x33, 0x23, 0x11, 0, 0, 0, 0, 0],
       [0xca, 0x00, 0x1a, 0x00, 0, 0, 0, 0, 0, 0, 0, 0, 0, 0],
       [0xc9, 0x00, 0x1a, 0x00, 0xfc, 0x33, 0x22, 0x11, 0, 0, 0, 0, 0],
       [0xca, 0x00, 0x1a, 0x04, 0, 0, 0, 0, 0, 0, 0, 0, 0, 0],
       [0xca, 0x00, 0x1a, 0x04, 0, 0, 0, 0, 0, 0, 0, 0, 0, 0]] ∧
    (spi_sync_ext 8 0x1408 0x1a00 0x1a04 compliant_bus 9 0 idle_world).1 = 0 ∧
    (spi_sync_ext 8 0x1408 0x1a00 0x1a04 compliant_bus 9 0 idle_world).2.1.nint = 0 ∧
    (spi_sync_ext 8 0x1408 0x1a00 0x1a04 compliant_bus 9 0 idle_world).2.2.log = [] := by
  decide

/-- C23 (what the code does): `spi_sync_ext(6)` with `MAX_NUM_INT = 8` and
the registers at `0x1408`, `0x1a00`, `0x1a04`, in checksum-off mode on a peer
that acknowledges every frame and answers every register read with
`0x44332211`. The call returns 1 and stores `nint = 6`; it reads and writes
the pin mux register (bit 8 added), reads `WILC_INTR_ENABLE` and writes it
with bits 27 to 31 added (`0xfc332211`), and then reads `WILC_INTR2_ENABLE`
twice: the six exchanges hold no write frame (`0xc9`) for `0x1a04`, so the
word with bit 0 added is never sent. With `nint = 9` the call returns 0 and
leaves `nint` (0 before the call) and the bus alone. For every `n >= 0` the
first loop adds the bits `27 .. 27 + min(n, 5) - 1` to the word read and
leaves `n - min(n, 5)` for the second loop, which adds the bits
`0 .. min(n - min(n, 5), 3) - 1` to a word that is then not written. -/
theorem sync_ext_second_register_not_written :
    ((spi_sync_ext 8 0x1408 0x1a00 0x1a04 compliant_bus 6 0 idle_world).1 = 1 ∧
     (spi_sync_ext 8 0x1408 0x1a00 0x1a04 compliant_bus 6 0 idle_world).2.1.nint = 6 ∧
     (spi_sync_ext 8 0x1408 0x1a00 0x1a04 compliant_bus 6 0 idle_world).2.2.log.map sent_frame =
        [[0xca, 0x00, 0x14, 0x08, 0, 0, 0, 0, 0, 0, 0, 0, 0, 0],
         [0xc9, 0x00, 0x14, 0x08, 0x44, 0x33, 0x23, 0x11, 0, 0, 0, 0, 0],
         [0xca, 0x00, 0x1a, 0x00, 0, 0, 0, 0, 0, 0, 0, 0, 0, 0],
         [0xc9, 0x00, 0x1a, 0x00, 0xfc, 0x33, 0x22, 0x11, 0, 0, 0, 0, 0],
         [0xca, 0x00, 0x1a, 0x04, 0, 0, 0, 0, 0, 0, 0, 0, 0, 0],
         [0xca, 0x00, 0x1a, 0x04, 0, 0, 0, 0, 0, 0, 0, 0, 0, 0]] ∧
     (spi_sync_ext 8 0x1408 0x1a00 0x1a04 compliant_bus 9 0 idle_world).1 = 0 ∧
     (spi_sync_ext 8 0x1408 0x1a00 0x1a04 compliant_bus 9 0 idle_world).2.1.nint = 0 ∧
     (spi_sync_ext 8 0x1408 0x1a00 0x1a04 compliant_bus 9 0 idle_world).2.2.log = []) ∧
    (∀ n reg j : Nat,
      (spi_sync_ext_bits 27 5 0 (n : Int) reg).1.testBit j =
        (reg.testBit j || decide (27 ≤ j ∧ j < 27 + min n 5)) ∧
      (spi_sync_ext_bits 27 5 0 (n : Int) reg).2 = ((n - min n 5 : Nat) : Int) ∧
      (spi_sync_ext_bits 0 3 0 ((n - min n 5 : Nat) : Int) reg).1.testBit j =
        (reg.testBit j || decide (j < min (n - min n 5) 3))) :=
  ⟨spi_sync_ext_trace, fun n reg j =>
    ⟨(spi_sync_ext_bits_eq 27 5 0 n reg).1 j, (spi_sync_ext_bits_eq 27 5 0 n reg).2,
      by
        have h := (spi_sync_ext_bits_eq 0 3 0 (n - min n 5) reg).1 j
        simp only [Nat.zero_add, Nat.zero_le, true_and] at h
        exact h⟩⟩

/-! ## Lemmas: the three results and the callers that test for zero -/

/-- The three results of the file. -/
theorem int_result_cases : (N_OK : Int) = 1 ∧ (N_FAIL : Int) = 0 ∧ (N_RESET : Int) = -1 :=
  ⟨rfl, rfl, rfl⟩

theorem spi_cmd_complete_read_range (g : wilc_spi σ) (cmd : Nat) (b : List Nat) (sz len2 : Nat)
    (rb : List Nat) (rix : Nat) (w : World σ) :
    ((spi_cmd_complete_read g cmd b sz len2 rb rix w).1 = N_OK ∨
      (spi_cmd_complete_read g cmd b sz len2 rb rix w).1 = N_FAIL ∨
      (spi_cmd_complete_read g cmd b sz len2 rb rix w).1 = N_RESET) ∧
    ((spi_cmd_complete_read g cmd b sz len2 rb rix w).1 = N_RESET →
      (spi_cmd_complete_read g cmd b sz len2 rb rix w).2.1 = b) := by
  unfold spi_cmd_complete_read
  simp only []
  split
  · exact ⟨Or.inr (Or.inr rfl), fun _ => rfl⟩
  · split
    · rcases spi_cmd_complete_reg_result g b len2 rb
        (data_hdr_scan rb len2 SPI_RESP_RETRY_COUNT rix).2 w with h | h
      · exact ⟨Or.inl h, fun h2 => absurd (h.symm.trans h2) (by decide)⟩
      · exact ⟨Or.inr (Or.inl h), fun h2 => absurd (h.symm.trans h2) (by decide)⟩
    · rcases spi_cmd_complete_dma_result g b sz len2 rb
        (data_hdr_scan rb len2 SPI_RESP_RETRY_COUNT rix).2 w with h | h
      · exact ⟨Or.inl h, fun h2 => absurd (h.symm.trans h2) (by decide)⟩
      · exact ⟨Or.inr (Or.inl h), fun h2 => absurd (h.symm.trans h2) (by decide)⟩

theorem spi_cmd_complete_rsp_range (g : wilc_spi σ) (cmd : Nat) (b : List Nat) (sz len2 : Nat)
    (rb : List Nat) (rix : Nat) (w : World σ) :
    ((spi_cmd_complete_rsp g cmd b sz len2 rb rix w).1 = N_OK ∨
      (spi_cmd_complete_rsp g cmd b sz len2 rb rix w).1 = N_FAIL ∨
      (spi_cmd_complete_rsp g cmd b sz len2 rb rix w).1 = N_RESET) ∧
    ((spi_cmd_complete_rsp g cmd b sz len2 rb rix w).1 = N_RESET →
      (spi_cmd_complete_rsp g cmd b sz len2 rb rix w).2.1 = b) := by
  unfold spi_cmd_complete_rsp
  simp only []
  generalize (if cmd = CMD_RESET ∨ cmd = CMD_TERMINATE ∨ cmd = CMD_REPEAT then rix + 1
    else rix) = r0
  split
  · exact ⟨Or.inr (Or.inl rfl), fun _ => rfl⟩
  · split
    · exact ⟨Or.inr (Or.inl rfl), fun _ => rfl⟩
    · split
      · exact spi_cmd_complete_read_range g cmd b sz len2 rb _ w
      · exact ⟨Or.inl rfl, fun _ => rfl⟩

theorem spi_cmd_complete_range (g : wilc_spi σ) (cmd addr : Nat) (b : List Nat)
    (sz clockless : Nat) (w : World σ) :
    ((spi_cmd_complete g cmd addr b sz clockless w).1 = N_OK ∨
      (spi_cmd_complete g cmd addr b sz clockless w).1 = N_FAIL ∨
      (spi_cmd_complete g cmd addr b sz clockless w).1 = N_RESET) ∧
    ((spi_cmd_complete g cmd addr b sz clockless w).1 = N_RESET →
      (spi_cmd_complete g cmd addr b sz clockless w).2.1 = b) := by
  unfold spi_cmd_complete
  split
  · exact ⟨Or.inr (Or.inl rfl), fun _ => rfl⟩
  · simp only []
    split
    · exact ⟨Or.inr (Or.inl rfl), fun _ => rfl⟩
    · split
      · exact ⟨Or.inr (Or.inl rfl), fun _ => rfl⟩
      · exact spi_cmd_complete_rsp_range g cmd b sz _ _ _ _

/-- A loop of the shape of the bodies from `_RETRY_` on returns the result
of one of its attempts. -/
theorem retry_range {S : Type} (L : Nat → S → Int × S) (attempt : S → Int × S)
    (reset : S → S)
    (h0 : ∀ s, L 0 s = if (attempt s).1 ≠ N_OK then ((attempt s).1, reset (attempt s).2)
      else ((attempt s).1, (attempt s).2))
    (hs : ∀ m s, L (m + 1) s = if (attempt s).1 ≠ N_OK then L m (reset (attempt s).2)
      else ((attempt s).1, (attempt s).2))
    (P : Int → Prop) (hP : ∀ s, P (attempt s).1) (n : Nat) (s : S) : P (L n s).1 := by
  induction n generalizing s with
  | zero =>
    rw [h0]
    split <;> exact hP s
  | succ n ih =>
    rw [hs]
    split
    · exact ih _
    · exact hP s

theorem spi_read_reg_range (g : wilc_spi σ) (A data : Nat) (w : World σ) :
    (spi_read_reg g A data w).1 = N_OK ∨ (spi_read_reg g A data w).1 = N_FAIL ∨
      (spi_read_reg g A data w).1 = N_RESET :=
  retry_range (fun n (s : Nat × World σ) => spi_read_reg_from g A n s.1 s.2)
    (read_reg_attempt g A) (reset_keep g)
    (fun s => by
      show spi_read_reg_from g A 0 s.1 s.2 = _
      rw [spi_read_reg_from]
      rfl)
    (fun m s => by
      show spi_read_reg_from g A (m + 1) s.1 s.2 = _
      rw [spi_read_reg_from]
      rfl)
    (fun r => r = N_OK ∨ r = N_FAIL ∨ r = N_RESET)
    (fun s => (spi_cmd_complete_range g _ A _ 4 _ s.2).1) 9 (data, w)

theorem spi_internal_read_range (g : wilc_spi σ) (A data : Nat) (w : World σ) :
    (spi_internal_read g A data w).1 = N_OK ∨ (spi_internal_read g A data w).1 = N_FAIL ∨
      (spi_internal_read g A data w).1 = N_RESET :=
  retry_range (fun n (s : Nat × World σ) => spi_internal_read_from g A n s.1 s.2)
    (internal_read_attempt g A) (reset_keep g)
    (fun s => by
      show spi_internal_read_from g A 0 s.1 s.2 = _
      rw [spi_internal_read_from]
      rfl)
    (fun m s => by
      show spi_internal_read_from g A (m + 1) s.1 s.2 = _
      rw [spi_internal_read_from]
      rfl)
    (fun r => r = N_OK ∨ r = N_FAIL ∨ r = N_RESET)
    (fun s => (spi_cmd_complete_range g _ A _ 4 _ s.2).1) 9 (data, w)

theorem spi_read_range (g : wilc_spi σ) (A : Nat) (buf : List Nat) (size : Nat) (w : World σ) :
    (spi_read g A buf size w).1 = N_OK ∨ (spi_read g A buf size w).1 = N_FAIL ∨
      (spi_read g A buf size w).1 = N_RESET := by
  unfold spi_read
  split
  · exact Or.inr (Or.inl rfl)
  · exact retry_range (fun n (s : List Nat × World σ) => spi_read_from g A size n s.1 s.2)
      (block_read_attempt g A size) (reset_keep g)
      (fun s => by
        show spi_read_from g A size 0 s.1 s.2 = _
        rw [spi_read_from]
        rfl)
      (fun m s => by
        show spi_read_from g A size (m + 1) s.1 s.2 = _
        rw [spi_read_from]
        rfl)
      (fun r => r = N_OK ∨ r = N_FAIL ∨ r = N_RESET)
      (fun s => (spi_cmd_complete_range g _ A _ size _ s.2).1) 9 (buf, w)

theorem bytes_word_word_bytes (d : Nat) : bytes_word (word_bytes d) = d % 2 ^ 32 := by
  simp only [bytes_word, word_bytes, u8, List.getD_cons_zero, List.getD_cons_succ,
    Nat.shiftRight_eq_div_pow, Nat.shiftLeft_eq]
  omega

/-- What an attempt that returns `N_RESET` and the reset behind it leave
alone is the same at the start of every attempt, as long as all attempts
before it returned `N_RESET`. -/
theorem retry_state_kept {S α : Type} (attempt : S → Int × S) (reset : S → S) (π : S → α)
    (hπ : ∀ s, (attempt s).1 = N_RESET → π (reset (attempt s).2) = π s) (s : S) (i : Nat)
    (hall : ∀ j, j < i → (attempt (retry_state attempt reset j s)).1 = N_RESET) :
    π (retry_state attempt reset i s) = π s := by
  induction i with
  | zero => rfl
  | succ i ih =>
    show π (reset (attempt (retry_state attempt reset i s)).2) = π s
    rw [hπ _ (hall i (by omega))]
    exact ih (fun j hj => hall j (by omega))

/-- A retried operation all of whose attempts return `N_RESET` returns
`N_RESET`, and what such attempts leave alone is as before the call. -/
theorem retried_all_reset {S α : Type} (n : Nat) (f : S → Int × S) (attempt : S → Int × S)
    (reset : S → S) (h : retried (n + 1) f attempt reset) (π : S → α)
    (hπ : ∀ s, (attempt s).1 = N_RESET → π (reset (attempt s).2) = π s) (s : S)
    (hall : ∀ i, i < n + 1 → (attempt (retry_state attempt reset i s)).1 = N_RESET) :
    (f s).1 = N_RESET ∧ π (f s).2 = π s := by
  have hf := (h s).1 (fun i hi => by rw [hall i hi]; decide)
  rw [hf]
  refine ⟨hall n (by omega), ?_⟩
  show π (reset (attempt (retry_state attempt reset n s)).2) = π s
  rw [hπ _ (hall n (by omega))]
  exact retry_state_kept attempt reset π hπ s n (fun j hj => hall j (by omega))

/-- What every attempt that returns `N_RESET` establishes holds after a
retried operation all of whose attempts return `N_RESET`. -/
theorem retried_all_reset_last {S : Type} (n : Nat) (f : S → Int × S) (attempt : S → Int × S)
    (reset : S → S) (h : retried (n + 1) f attempt reset) (Q : S → Prop)
    (hQ : ∀ s, (attempt s).1 = N_RESET → Q (reset (attempt s).2)) (s : S)
    (hall : ∀ i, i < n + 1 → (attempt (retry_state attempt reset i s)).1 = N_RESET) :
    Q (f s).2 := by
  have hf := (h s).1 (fun i hi => by rw [hall i hi]; decide)
  rw [hf]
  exact hQ _ (hall n (by omega))

theorem read_reg_attempt_reset (g : wilc_spi σ) (A : Nat) (s : Nat × World σ)
    (hs : (read_reg_attempt g A s).1 = N_RESET) :
    (read_reg_attempt g A s).2.1 = s.1 % 2 ^ 32 := by
  show bytes_word (spi_cmd_complete g _ A (word_bytes s.1) 4 _ s.2).2.1 = _
  rw [(spi_cmd_complete_range g _ A (word_bytes s.1) 4 _ s.2).2 hs, bytes_word_word_bytes]

theorem internal_read_attempt_reset (g : wilc_spi σ) (A : Nat) (s : Nat × World σ)
    (hs : (internal_read_attempt g A s).1 = N_RESET) :
    (internal_read_attempt g A s).2.1 = s.1 % 2 ^ 32 := by
  show bytes_word (spi_cmd_complete g _ A (word_bytes s.1) 4 _ s.2).2.1 = _
  rw [(spi_cmd_complete_range g _ A (word_bytes s.1) 4 _ s.2).2 hs, bytes_word_word_bytes]

/-- When all ten attempts of `spi_read_reg` return `N_RESET`, so does the
call, and `*data` holds the 32-bit word it held before the call. -/
theorem spi_read_reg_all_reset (g : wilc_spi σ) (A data : Nat) (w : World σ)
    (hall : ∀ i, i < SPI_RETRY_COUNT →
      (read_reg_attempt g A (retry_state (read_reg_attempt g A) (reset_keep g) i (data, w))).1
        = N_RESET) :
    (spi_read_reg g A data w).1 = N_RESET ∧ (spi_read_reg g A data w).2.1 = data % 2 ^ 32 := by
  have h1 := retried_all_reset 9 (fun s : Nat × World σ => spi_read_reg g A s.1 s.2)
    (read_reg_attempt g A) (reset_keep g) (spi_read_reg_retried g A)
    (fun s => s.1 % 2 ^ 32)
    (fun s hs => by
      show (read_reg_attempt g A s).2.1 % 2 ^ 32 = _
      rw [read_reg_attempt_reset g A s hs]
      exact Nat.mod_mod _ _) (data, w) hall
  have h2 := retried_all_reset_last 9 (fun s : Nat × World σ => spi_read_reg g A s.1 s.2)
    (read_reg_attempt g A) (reset_keep g) (spi_read_reg_retried g A)
    (fun s => s.1 < 2 ^ 32)
    (fun s hs => by
      show (read_reg_attempt g A s).2.1 < 2 ^ 32
      rw [read_reg_attempt_reset g A s hs]
      exact Nat.mod_lt _ (by decide)) (data, w) hall
  refine ⟨h1.1, ?_⟩
  have h3 := h1.2
  simp only [] at h2 h3
  rw [Nat.mod_eq_of_lt h2] at h3
  exact h3

/-- When all ten attempts of `spi_internal_read` return `N_RESET`, so does
the call, and `*data` holds the 32-bit word it held before the call. -/
theorem spi_internal_read_all_reset (g : wilc_spi σ) (A data : Nat) (w : World σ)
    (hall : ∀ i, i < SPI_RETRY_COUNT →
      (internal_read_attempt g A
        (retry_state (internal_read_attempt g A) (reset_keep g) i (data, w))).1 = N_RESET) :
    (spi_internal_read g A data w).1 = N_RESET ∧
    (spi_internal_read g A data w).2.1 = data % 2 ^ 32 := by
  have h1 := retried_all_reset 9 (fun s : Nat × World σ => spi_internal_read g A s.1 s.2)
    (internal_read_attempt g A) (reset_keep g) (spi_internal_read_retried g A)
    (fun s => s.1 % 2 ^ 32)
    (fun s hs => by
      show (internal_read_attempt g A s).2.1 % 2 ^ 32 = _
      rw [internal_read_attempt_reset g A s hs]
      exact Nat.mod_mod _ _) (data, w) hall
  have h2 := retried_all_reset_last 9 (fun s : Nat × World σ => spi_internal_read g A s.1 s.2)
    (internal_read_attempt g A) (reset_keep g) (spi_internal_read_retried g A)
    (fun s => s.1 < 2 ^ 32)
    (fun s hs => by
      show (internal_read_attempt g A s).2.1 < 2 ^ 32
      rw [internal_read_attempt_reset g A s hs]
      exact Nat.mod_lt _ (by decide)) (data, w) hall
  refine ⟨h1.1, ?_⟩
  have h3 := h1.2
  simp only [] at h2 h3
  rw [Nat.mod_eq_of_lt h2] at h3
  exact h3

/-- When all ten attempts of `spi_read` return `N_RESET`, so does the call,
and the caller's buffer is as before the call. -/
theorem spi_read_all_reset (g : wilc_spi σ) (A : Nat) (buf : List Nat) (size : Nat)
    (w : World σ) (hsize : 4 < size)
    (hall : ∀ i, i < SPI_RETRY_COUNT →
      (block_read_attempt g A size
        (retry_state (block_read_attempt g A size) (reset_keep g) i (buf, w))).1 = N_RESET) :
    (spi_read g A buf size w).1 = N_RESET ∧ (spi_read g A buf size w).2.1 = buf :=
  retried_all_reset 9 (fun s : List Nat × World σ => spi_read g A s.1 size s.2)
    (block_read_attempt g A size) (reset_keep g) (spi_read_retried g A size hsize)
    (fun s => s.1)
    (fun s hs => (spi_cmd_complete_range g _ A s.1 size _ s.2).2 hs) (buf, w) hall

theorem reset_ne_zero (r : Int) (h : r = N_RESET) : ¬ (r = 0) := by
  rw [h]
  decide

theorem spi_init_finish_reset (g : wilc_spi σ) (w : World σ)
    (h : (spi_read_reg g 0x3b0000 0 w).1 = N_RESET) :
    spi_init_finish g w =
      (1, { g_spi := { g with has_thrpt_enh := 1 }, isinit := 1 },
        (spi_read_reg g 0x3b0000 0 w).2.2) := by
  unfold spi_init_finish
  simp only []
  rw [if_neg (reset_ne_zero _ h)]

theorem spi_init_again_reset (P : Nat) (inp : wilc_wlan_inp σ) (d : Driver σ) (w : World σ)
    (hd : d.isinit ≠ 0) (h : (spi_read_reg d.g_spi 0x3b0000 0 w).1 = N_RESET) :
    spi_init P inp d w = (1, d, (spi_read_reg d.g_spi 0x3b0000 0 w).2.2) := by
  unfold spi_init
  rw [if_pos hd]
  simp only []
  rw [if_neg (reset_ne_zero _ h)]

theorem spi_clear_int_reset (X : Nat) (g : wilc_spi σ) (reg : Nat) (w : World σ)
    (h : (spi_read_reg g X reg w).1 = N_RESET) :
    spi_clear_int X g reg w =
      (1, (spi_write_reg g X ((spi_read_reg g X reg w).2.1 &&& 0xfffffffe)
        (spi_read_reg g X reg w).2.2).2) := by
  unfold spi_clear_int
  simp only []
  rw [if_neg (reset_ne_zero _ h)]

theorem spi_sync_ext_reset (M : Int) (P E E2 : Nat) (g : wilc_spi σ) (nint : Int) (reg : Nat)
    (w : World σ) (hn : ¬ nint > M)
    (h : (spi_read_reg { g with nint := nint } P reg w).1 = N_RESET) :
    spi_sync_ext M P E E2 g nint reg w =
      ((spi_sync_ext_mux P E E2 { g with nint := nint } nint
          (spi_read_reg { g with nint := nint } P reg w).2.1
          (spi_read_reg { g with nint := nint } P reg w).2.2).1,
        { g with nint := nint },
        (spi_sync_ext_mux P E E2 { g with nint := nint } nint
          (spi_read_reg { g with nint := nint } P reg w).2.1
          (spi_read_reg { g with nint := nint } P reg w).2.2).2) := by
  unfold spi_sync_ext
  rw [if_neg hn]
  simp only []
  rw [if_neg (reset_ne_zero _ h)]

/-- C27. The result of `spi_read_reg`, `spi_internal_read` and `spi_read`
is `N_OK` (1), `N_FAIL` (0) or `N_RESET` (-1). When all ten attempts of one
of them return `N_RESET` (the data header is missing), the call returns
`N_RESET`, which is not 0, and the output holds what it held before the call
(for a register read the 32-bit word of `*data`, for `spi_read` the buffer).
A caller that tests the result against 0 then goes on: `spi_init` sets
`isinit = 1` and returns 1, on a first call and on a later one,
`spi_clear_int` writes the word back with bit 0 cleared and returns 1, and
`spi_sync_ext` goes on to the write of the pin mux register. -/
theorem reset_result_passes_zero_test (g : wilc_spi σ) (A data : Nat) (buf : List Nat)
    (size : Nat) (w : World σ) :
    ((spi_read_reg g A data w).1 = N_OK ∨ (spi_read_reg g A data w).1 = N_FAIL ∨
      (spi_read_reg g A data w).1 = N_RESET) ∧
    ((spi_internal_read g A data w).1 = N_OK ∨ (spi_internal_read g A data w).1 = N_FAIL ∨
      (spi_internal_read g A data w).1 = N_RESET) ∧
    ((spi_read g A buf size w).1 = N_OK ∨ (spi_read g A buf size w).1 = N_FAIL ∨
      (spi_read g A buf size w).1 = N_RESET) ∧
    (N_OK = 1 ∧ N_FAIL = 0 ∧ N_RESET = -1 ∧ N_RESET ≠ 0) ∧
    ((∀ i, i < SPI_RETRY_COUNT →
        (read_reg_attempt g A
          (retry_state (read_reg_attempt g A) (reset_keep g) i (data, w))).1 = N_RESET) →
      (spi_read_reg g A data w).1 = N_RESET ∧
      (spi_read_reg g A data w).2.1 = data % 2 ^ 32) ∧
    ((∀ i, i < SPI_RETRY_COUNT →
        (internal_read_attempt g A
          (retry_state (internal_read_attempt g A) (reset_keep g) i (data, w))).1 = N_RESET) →
      (spi_internal_read g A data w).1 = N_RESET ∧
      (spi_internal_read g A data w).2.1 = data % 2 ^ 32) ∧
    (4 < size →
      (∀ i, i < SPI_RETRY_COUNT →
        (block_read_attempt g A size
          (retry_state (block_read_attempt g A size) (reset_keep g) i (buf, w))).1 = N_RESET) →
      (spi_read g A buf size w).1 = N_RESET ∧ (spi_read g A buf size w).2.1 = buf) ∧
    ((spi_read_reg g 0x3b0000 0 w).1 = N_RESET →
      spi_init_finish g w =
        (1, { g_spi := { g with has_thrpt_enh := 1 }, isinit := 1 },
          (spi_read_reg g 0x3b0000 0 w).2.2) ∧
      ∀ (P : Nat) (inp : wilc_wlan_inp σ) (isinit : Int), isinit ≠ 0 →
        spi_init P inp { g_spi := g, isinit := isinit } w =
          (1, { g_spi := g, isinit := isinit }, (spi_read_reg g 0x3b0000 0 w).2.2)) ∧
    ((spi_read_reg g A data w).1 = N_RESET →
      spi_clear_int A g data w =
        (1, (spi_write_reg g A ((spi_read_reg g A data w).2.1 &&& 0xfffffffe)
          (spi_read_reg g A data w).2.2).2)) ∧
    (∀ (M : Int) (E E2 : Nat) (nint : Int), ¬ nint > M →
      (spi_read_reg { g with nint := nint } A data w).1 = N_RESET →
      spi_sync_ext M A E E2 g nint data w =
        ((spi_sync_ext_mux A E E2 { g with nint := nint } nint
            (spi_read_reg { g with nint := nint } A data w).2.1
            (spi_read_reg { g with nint := nint } A data w).2.2).1,
          { g with nint := nint },
          (spi_sync_ext_mux A E E2 { g with nint := nint } nint
            (spi_read_reg { g with nint := nint } A data w).2.1
            (spi_read_reg { g with nint := nint } A data w).2.2).2)) :=
  ⟨spi_read_reg_range g A data w, spi_internal_read_range g A data w,
    spi_read_range g A buf size w, ⟨rfl, rfl, rfl, by decide⟩,
    spi_read_reg_all_reset g A data w, spi_internal_read_all_reset g A data w,
    spi_read_all_reset g A buf size w,
    fun h => ⟨spi_init_finish_reset g w h,
      fun P inp isinit hi => spi_init_again_reset P inp { g_spi := g, isinit := isinit } w hi h⟩,
    spi_clear_int_reset A g data w,
    fun M E E2 nint hn h => spi_sync_ext_reset M A E E2 g nint data w hn h⟩

set_option maxRecDepth 100000 in
theorem reset_result_passes_zero_test_witness :
    ((spi_read_reg (headerless_bus []) 0x3b0000 0 idle_world).1 = N_RESET ∧
      (spi_read_reg (headerless_bus []) 0x3b0000 0 idle_world).2.1 = 0 % 2 ^ 32) ∧
    ((spi_internal_read (headerless_bus []) 0x3b0000 0 idle_world).1 = N_RESET ∧
      (spi_internal_read (headerless_bus []) 0x3b0000 0 idle_world).2.1 = 0 % 2 ^ 32) ∧
    ((spi_read (headerless_bus []) 0x3b0000 [0, 0, 0, 0, 0, 0, 0, 0] 8 idle_world).1 = N_RESET ∧
      (spi_read (headerless_bus []) 0x3b0000 [0, 0, 0, 0, 0, 0, 0, 0] 8 idle_world).2.1
        = [0, 0, 0, 0, 0, 0, 0, 0]) ∧
    spi_init_finish (headerless_bus []) idle_world =
      (1, { g_spi := { headerless_bus [] with has_thrpt_enh := 1 }, isinit := 1 },
        (spi_read_reg (headerless_bus []) 0x3b0000 0 idle_world).2.2) ∧
    spi_clear_int 0x3b0000 (headerless_bus []) 0 idle_world =
      (1, (spi_write_reg (headerless_bus []) 0x3b0000
        ((spi_read_reg (headerless_bus []) 0x3b0000 0 idle_world).2.1 &&& 0xfffffffe)
        (spi_read_reg (headerless_bus []) 0x3b0000 0 idle_world).2.2).2) ∧
    spi_sync_ext 8 0x3b0000 0x1a00 0x1a04 (headerless_bus []) 2 0 idle_world =
      ((spi_sync_ext_mux 0x3b0000 0x1a00 0x1a04 { headerless_bus [] with nint := 2 } 2
          (spi_read_reg { headerless_bus [] with nint := 2 } 0x3b0000 0 idle_world).2.1
          (spi_read_reg { headerless_bus [] with nint := 2 } 0x3b0000 0 idle_world).2.2).1,
        { headerless_bus [] with nint := 2 },
        (spi_sync_ext_mux 0x3b0000 0x1a00 0x1a04 { headerless_bus [] with nint := 2 } 2
          (spi_read_reg { headerless_bus [] with nint := 2 } 0x3b0000 0 idle_world).2.1
          (spi_read_reg { headerless_bus [] with nint := 2 } 0x3b0000 0 idle_world).2.2).2) := by
  obtain ⟨-, -, -, -, h5, h6, h7, h8, h9, h10⟩ :=
    reset_result_passes_zero_test (headerless_bus []) 0x3b0000 0 [0, 0, 0, 0, 0, 0, 0, 0] 8
      idle_world
  exact ⟨h5 (by decide), h6 (by decide), h7 (by decide) (by decide), (h8 (by decide)).1,
    h9 (by decide), h10 8 0x1a00 0x1a04 2 (by decide) (by decide)⟩

/-! ## Lemmas: the checksum-off trial behind the probe -/

/-- A retried operation all of whose attempts return the same failure
returns that failure. -/
theorem retried_all_same {S : Type} (n : Nat) (f : S → Int × S) (attempt : S → Int × S)
    (reset : S → S) (h : retried (n + 1) f attempt reset) (c : Int) (hc : c ≠ N_OK) (s : S)
    (hall : ∀ i, i < n + 1 → (attempt (retry_state attempt reset i s)).1 = c) :
    (f s).1 = c := by
  have hf := (h s).1 (fun i hi => by rw [hall i hi]; exact hc)
  rw [hf]
  exact hall n (by omega)

/-- A retried operation whose first attempt returns `N_OK` is that
attempt. -/
theorem retried_first_ok {S : Type} (n : Nat) (f : S → Int × S) (attempt : S → Int × S)
    (reset : S → S) (h : retried (n + 1) f attempt reset) (s : S)
    (hok : (attempt s).1 = N_OK) : f s = (N_OK, (attempt s).2) :=
  (h s).2 0 (by omega) (fun i hi => absurd hi (by omega)) hok

/-- A first call of `spi_init` with a working `io_init` and an answered
probe is the protocol configuration in the world after the probe. -/
theorem spi_init_probed (P : Nat) (inp : wilc_wlan_inp σ) (d : Driver σ) (w : World σ)
    (io_init : σ → Bool × σ) (hd : d.isinit = 0) (hio : inp.io_init = some io_init)
    (hok : (io_init w.peer).1 = true)
    (hprobe : (spi_cmd_complete (init_session inp) CMD_INTERNAL_READ P (scratch 32) 4 0
      { peer := (io_init w.peer).2, log := w.log }).1 = N_OK) :
    spi_init P inp d w = spi_init_protocol P (init_session inp)
      (spi_cmd_complete (init_session inp) CMD_INTERNAL_READ P (scratch 32) 4 0
        { peer := (io_init w.peer).2, log := w.log }).2.2 := by
  unfold spi_init
  rw [if_neg (by rw [hd]; decide), hio]
  simp only [hok, Bool.not_true, Bool.false_eq_true, if_false]
  rw [hprobe, if_neg (by decide)]

/-- A first call of `spi_init` whose probe does not return `N_OK` returns 0
right after the probe and leaves `isinit` alone. -/
theorem spi_init_not_detected (P : Nat) (inp : wilc_wlan_inp σ) (d : Driver σ) (w : World σ)
    (io_init : σ → Bool × σ) (hd : d.isinit = 0) (hio : inp.io_init = some io_init)
    (hok : (io_init w.peer).1 = true)
    (hprobe : (spi_cmd_complete (init_session inp) CMD_INTERNAL_READ P (scratch 32) 4 0
      { peer := (io_init w.peer).2, log := w.log }).1 ≠ N_OK) :
    spi_init P inp d w = (0, { g_spi := init_session inp, isinit := d.isinit },
      (spi_cmd_complete (init_session inp) CMD_INTERNAL_READ P (scratch 32) 4 0
        { peer := (io_init w.peer).2, log := w.log }).2.2) := by
  have hr := (spi_cmd_complete_range (init_session inp) CMD_INTERNAL_READ P (scratch 32) 4 0
    { peer := (io_init w.peer).2, log := w.log }).1
  unfold spi_init
  rw [if_neg (by rw [hd]; decide), hio]
  simp only [hok, Bool.not_true, Bool.false_eq_true, if_false]
  rcases hr with h | h | h
  · exact absurd h hprobe
  · rw [h, if_pos (by decide)]
  · rw [h, if_pos (by decide)]

/-- The protocol configuration when the checksum-on read returns 0, the
read with `crc_off = 1` returns `N_OK` and the read of the chip id returns
`N_OK`: nothing is written, the result is 1 with `crc_off = 1`. -/
theorem spi_init_protocol_trial (P : Nat) (g : wilc_spi σ) (w : World σ)
    (h1 : (spi_internal_read g P 0 w).1 = 0)
    (h2 : (spi_internal_read { g with crc_off := 1 } P (spi_internal_read g P 0 w).2.1
      (spi_internal_read g P 0 w).2.2).1 = N_OK)
    (h3 : (spi_read_reg { g with crc_off := 1 } 0x3b0000 0
      (spi_internal_read { g with crc_off := 1 } P (spi_internal_read g P 0 w).2.1
        (spi_internal_read g P 0 w).2.2).2.2).1 = N_OK) :
    spi_init_protocol P g w =
      (1, { g_spi := { g with crc_off := 1, has_thrpt_enh := 1 }, isinit := 1 },
        (spi_read_reg { g with crc_off := 1 } 0x3b0000 0
          (spi_internal_read { g with crc_off := 1 } P (spi_internal_read g P 0 w).2.1
            (spi_internal_read g P 0 w).2.2).2.2).2.2) := by
  unfold spi_init_protocol spi_init_finish
  simp only []
  rw [if_pos h1, h2, if_neg (by decide), if_neg (by decide), h3, if_neg (by decide)]

/-- C21, amended. A first call of `spi_init` with a working `io_init` on a
peer that answers the probe, then fails each of the ten checksum-on
attempts of the read of the protocol register with `N_FAIL` (echo or status
wrong), and answers the first attempt of the read with `crc_off = 1` and of
the read of the chip id `0x3b0000`: the checksum-on read returns `N_FAIL`,
the two checksum-off reads return `N_OK` at their first attempt, nothing is
written, and `spi_init` returns 1 with `crc_off = 1`, `has_thrpt_enh = 1`
and `isinit = 1` in the world right after the exchange of the chip id. -/
theorem checksum_off_trial_after_probe (P : Nat) (inp : wilc_wlan_inp σ) (d : Driver σ)
    (w : World σ) (io_init : σ → Bool × σ) (w1 : World σ) (r1 r2 : Int × Nat × World σ)
    (hd : d.isinit = 0) (hio : inp.io_init = some io_init) (hok : (io_init w.peer).1 = true)
    (hprobe : (spi_cmd_complete (init_session inp) CMD_INTERNAL_READ P (scratch 32) 4 0
      { peer := (io_init w.peer).2, log := w.log }).1 = N_OK)
    (hw1 : w1 = (spi_cmd_complete (init_session inp) CMD_INTERNAL_READ P (scratch 32) 4 0
      { peer := (io_init w.peer).2, log := w.log }).2.2)
    (hnack : ∀ i, i < SPI_RETRY_COUNT →
      (internal_read_attempt (init_session inp) P
        (retry_state (internal_read_attempt (init_session inp) P)
          (reset_keep (init_session inp)) i (0, w1))).1 = N_FAIL)
    (hr1 : r1 = spi_internal_read (init_session inp) P 0 w1)
    (hoff : (internal_read_attempt { init_session inp with crc_off := 1 } P
      (r1.2.1, r1.2.2)).1 = N_OK)
    (hr2 : r2 = spi_internal_read { init_session inp with crc_off := 1 } P r1.2.1 r1.2.2)
    (hid : (read_reg_attempt { init_session inp with crc_off := 1 } 0x3b0000
      (0, r2.2.2)).1 = N_OK) :
    r1.1 = N_FAIL ∧
    r2 = (N_OK, (internal_read_attempt { init_session inp with crc_off := 1 } P
      (r1.2.1, r1.2.2)).2) ∧
    spi_read_reg { init_session inp with crc_off := 1 } 0x3b0000 0 r2.2.2 =
      (N_OK, (read_reg_attempt { init_session inp with crc_off := 1 } 0x3b0000
        (0, r2.2.2)).2) ∧
    (spi_init P inp d w).1 = 1 ∧
    (spi_init P inp d w).2.1.g_spi.crc_off = 1 ∧
    spi_init P inp d w =
      (1, { g_spi := { init_session inp with crc_off := 1, has_thrpt_enh := 1 }, isinit := 1 },
        (read_reg_attempt { init_session inp with crc_off := 1 } 0x3b0000
          (0, r2.2.2)).2.2) := by
  have e1 : r1.1 = N_FAIL := by
    rw [hr1]
    exact retried_all_same 9
      (fun s : Nat × World σ => spi_internal_read (init_session inp) P s.1 s.2)
      (internal_read_attempt (init_session inp) P) (reset_keep (init_session inp))
      (spi_internal_read_retried (init_session inp) P) N_FAIL (by decide) (0, w1) hnack
  have e2 : r2 = (N_OK, (internal_read_attempt { init_session inp with crc_off := 1 } P
      (r1.2.1, r1.2.2)).2) := by
    rw [hr2]
    exact retried_first_ok 9
      (fun s : Nat × World σ =>
        spi_internal_read { init_session inp with crc_off := 1 } P s.1 s.2)
      (internal_read_attempt { init_session inp with crc_off := 1 } P)
      (reset_keep { init_session inp with crc_off := 1 })
      (spi_internal_read_retried { init_session inp with crc_off := 1 } P) (r1.2.1, r1.2.2)
      hoff
  have e3 : spi_read_reg { init_session inp with crc_off := 1 } 0x3b0000 0 r2.2.2 =
      (N_OK, (read_reg_attempt { init_session inp with crc_off := 1 } 0x3b0000
        (0, r2.2.2)).2) :=
    retried_first_ok 9
      (fun s : Nat × World σ =>
        spi_read_reg { init_session inp with crc_off := 1 } 0x3b0000 s.1 s.2)
      (read_reg_attempt { init_session inp with crc_off := 1 } 0x3b0000)
      (reset_keep { init_session inp with crc_off := 1 })
      (spi_read_reg_retried { init_session inp with crc_off := 1 } 0x3b0000) (0, r2.2.2)
      hid
  have e4 : spi_init P inp d w =
      (1, { g_spi := { init_session inp with crc_off := 1, has_thrpt_enh := 1 }, isinit := 1 },
        (read_reg_attempt { init_session inp with crc_off := 1 } 0x3b0000
          (0, r2.2.2)).2.2) := by
    rw [spi_init_probed P inp d w io_init hd hio hok hprobe, ← hw1]
    have h1 : (spi_internal_read (init_session inp) P 0 w1).1 = 0 := by rw [← hr1]; exact e1
    have h2 : (spi_internal_read { init_session inp with crc_off := 1 } P
        (spi_internal_read (init_session inp) P 0 w1).2.1
        (spi_internal_read (init_session inp) P 0 w1).2.2).1 = N_OK := by
      rw [← hr1, ← hr2, e2]
    have h3 : (spi_read_reg { init_session inp with crc_off := 1 } 0x3b0000 0
        (spi_internal_read { init_session inp with crc_off := 1 } P
          (spi_internal_read (init_session inp) P 0 w1).2.1
          (spi_internal_read (init_session inp) P 0 w1).2.2).2.2).1 = N_OK := by
      rw [← hr1, ← hr2, e3]
    rw [spi_init_protocol_trial P (init_session inp) w1 h1 h2 h3, ← hr1, ← hr2, e3]
  refine ⟨e1, e2, e3, ?_, ?_, e4⟩
  · rw [e4]
  · rw [e4]

set_option maxRecDepth 100000 in
theorem checksum_off_trial_after_probe_witness :
    (spi_internal_read (init_session probed_checksum_off_inp) 0x24 0
      (spi_cmd_complete (init_session probed_checksum_off_inp) CMD_INTERNAL_READ 0x24
        (scratch 32) 4 0 unprobed_world).2.2).1 = N_FAIL ∧
    (spi_init 0x24 probed_checksum_off_inp zero_driver unprobed_world).1 = 1 ∧
    (spi_init 0x24 probed_checksum_off_inp zero_driver unprobed_world).2.1.g_spi.crc_off = 1 ∧
    (spi_init 0x24 probed_checksum_off_inp zero_driver unprobed_world).2.1.isinit = 1 ∧
    (spi_init 0x24 probed_checksum_off_inp zero_driver unprobed_world).2.2.log.length = 23 ∧
    ((spi_init 0x24 probed_checksum_off_inp zero_driver unprobed_world).2.2.log.map
        sent_frame).take 3 =
      [[0xc4, 0x00, 0x24, 0x00, 0x20, 0, 0, 0, 0, 0, 0, 0, 0, 0, 0, 0, 0],
       [0xc4, 0x00, 0x24, 0x00, 0x20, 0, 0, 0, 0, 0, 0, 0, 0, 0, 0, 0, 0],
       [0xcf, 0xff, 0xff, 0xff, 0xaa, 0, 0, 0, 0, 0, 0]] ∧
    ((spi_init 0x24 probed_checksum_off_inp zero_driver unprobed_world).2.2.log.map
        sent_frame).drop 21 =
      [[0xc4, 0x00, 0x24, 0x00, 0, 0, 0, 0, 0, 0, 0, 0, 0, 0],
       [0xca, 0x3b, 0x00, 0x00, 0, 0, 0, 0, 0, 0, 0, 0, 0, 0]] := by
  obtain ⟨h1, -, -, h4, h5, h6⟩ :=
    checksum_off_trial_after_probe 0x24 probed_checksum_off_inp zero_driver unprobed_world
      (fun p => (true, p)) _ _ _ rfl rfl rfl (by decide) rfl (by decide) rfl (by decide) rfl
      (by decide)
  exact ⟨h1, h4, h5, by rw [h6], by decide, by decide, by decide⟩

end WilcSpi
